import Mathlib

/-!
State-channel coordinator (FISCO-EduFlow, `state-channels`)

Shallow embedding of `internal/types/types.go`, `internal/security/validator.go`,
`internal/storage/memory_store.go` and `internal/channel/manager.go`.

Conventions of the embedding
* `time.Time` is an integer number of nanoseconds; `After` is `>` and `Before` is `<`.
* `uint64` is a natural number reduced modulo `2 ^ 64` where the code does arithmetic.
* Go maps are association lists searched from the front (`mapGet` / `mapSet`).
* A Go `error` is `Option String` (`none` is `nil`); a manager operation returns its
  outcome together with the manager state it leaves behind.
* Readings of the clock and of `crypto/rand` are inputs, gathered in `Env`.
* The elliptic-curve primitives of go-ethereum are inputs, gathered in `Crypto`.
-/

namespace StateChannels

set_option linter.dupNamespace false

/-! ## Generic map helpers -/

/-- Map lookup `m[k]` with the comma-ok result. -/
def mapGet {α : Type} (k : String) (l : List (String × α)) : Option α :=
  match l with
  | [] => none
  | (k', v) :: rest => if k' = k then some v else mapGet k rest

/-- Map store `m[k] = v`: replaces the entry of `k` or adds one. -/
def mapSet {α : Type} (k : String) (v : α) (l : List (String × α)) : List (String × α) :=
  match l with
  | [] => [(k, v)]
  | (k', v') :: rest => if k' = k then (k, v) :: rest else (k', v') :: mapSet k v rest

/-- Keys of a map. -/
def mapKeys {α : Type} (l : List (String × α)) : List String := l.map Prod.fst

/-! ## types.go -/

/-- Nanoseconds since the epoch. -/
abbrev Time := Int

/-- The type `ChannelState` is a Go string type. -/
abbrev ChannelState := String

def StateOpening : ChannelState := "opening"
def StateOpen : ChannelState := "open"
def StateClosing : ChannelState := "closing"
def StateClosed : ChannelState := "closed"
def StateDisputed : ChannelState := "disputed"

/-- The type `MessageType` is a Go string type. -/
abbrev MessageType := String

def MsgTypeChannelOpen : MessageType := "channel_open"
def MsgTypeChannelAccept : MessageType := "channel_accept"
def MsgTypeStateUpdate : MessageType := "state_update"
def MsgTypeChannelClose : MessageType := "channel_close"
def MsgTypeDispute : MessageType := "dispute"
def MsgTypeResumeRequest : MessageType := "resume_request"
def MsgTypeJobApplication : MessageType := "job_application"
def MsgTypeInterviewInvite : MessageType := "interview_invite"
def MsgTypeOfferLetter : MessageType := "offer_letter"
def MsgTypeContractSign : MessageType := "contract_sign"

/-- The type `ParticipantRole` is a Go string type. -/
abbrev ParticipantRole := String

def RoleStudent : ParticipantRole := "student"
def RoleEmployer : ParticipantRole := "employer"

/-- An `ecdsa.PublicKey`: the affine coordinates of the point. -/
structure PublicKey where
  X : Nat
  Y : Nat
deriving DecidableEq, Repr

/-- A value stored under `interface{}` in a channel's or a message's data. -/
inductive Value where
  | str (s : String)
  | num (n : Int)
  | bool (b : Bool)
  | time (t : Time)
  | null
deriving DecidableEq, Repr

/-- A `map[string]interface{}` that is not nil. -/
abbrev DataMap := List (String × Value)

structure Participant where
  Address : String
  PublicKey : Option PublicKey
  Role : ParticipantRole
  Name : String
  Metadata : List (String × String)
deriving DecidableEq, Repr

structure Signature where
  Address : String
  Signature : String
  R : String
  S : String
  V : String
deriving DecidableEq, Repr

/-- A channel. `Data` is `none` for a nil map. -/
structure Channel where
  ID : String
  Participants : List Participant
  State : ChannelState
  Nonce : Nat
  Balance : List (String × Int)
  Data : Option DataMap
  CreatedAt : Time
  UpdatedAt : Time
  ExpiresAt : Time
  ChainTxHash : String
deriving DecidableEq, Repr

structure StateUpdate where
  ChannelID : String
  Nonce : Nat
  Data : DataMap
  Timestamp : Time
  Signatures : List Signature
deriving DecidableEq, Repr

structure Message where
  ID : String
  ChannelID : String
  Typ : MessageType
  From : String
  To : String
  Data : DataMap
  Nonce : Nat
  Timestamp : Time
  Signature : Signature
deriving DecidableEq, Repr

structure ChannelOpenRequest where
  ParticipantA : Participant
  ParticipantB : Participant
  InitialData : Option DataMap
  ExpiryHours : Int
deriving DecidableEq, Repr

/-- The `map[string]interface{}` literal handed to `addEvent` at each call site of the
manager; `cleanedUp` is the literal of `MemoryStore.CleanupExpiredChannels`. -/
inductive EventData where
  | created (participants : List Participant) (expires_at : Time)
  | accepted (signature : Signature)
  | stateUpdated (nonce : Nat) (data : DataMap) (signature : Signature)
  | closing (force : Bool) (signature : Signature)
  | messageAdded (message_id : String) (message_type : MessageType) (sender : String)
      (recipient : String)
  | expired (expired_at : Time)
  | cleanedUp (expired_at : Time) (reason : String)
deriving DecidableEq, Repr

structure ChannelEvent where
  ID : String
  ChannelID : String
  Typ : String
  Data : EventData
  Timestamp : Time
deriving DecidableEq, Repr

structure ChannelConfig where
  MaxChannels : Int
  DefaultExpiryHours : Int
  MaxMessageSize : Int
  CleanupInterval : Int
  BackupInterval : Int
deriving DecidableEq, Repr

/-! ## Inputs from outside the program -/

/-- The go-ethereum primitives the validator calls.
`pubkeyToAddressHex k` is `crypto.PubkeyToAddress(k).Hex()`;
`sigToAddressHex data sig` is `crypto.SigToPub(crypto.Keccak256Hash(data), sig)` followed by
`PubkeyToAddress(..).Hex()`, `none` when recovery fails. -/
structure Crypto where
  pubkeyToAddressHex : PublicKey → String
  sigToAddressHex : String → List Nat → Option String

/-- What one call of a manager operation reads from its surroundings.
* `now k` is the `k`-th reading of `time.Now()` in the body of the operation;
* `eventNow id` is the reading taken inside `addEvent` for the event of channel `id`;
* `idEntropy` is the outcome of `rand.Read` in `generateChannelID` (`none`: it failed),
  byte `i` of the buffer being `idEntropy i % 256`;
* `eventEntropy id` fills the buffer of `generateEventID` for the event of channel `id`. -/
structure Env where
  now : Nat → Time
  eventNow : String → Time
  idEntropy : Option (Nat → Nat)
  eventEntropy : String → Nat → Nat

/-- Outcome of a manager call: `nil`, an error value, or a run-time panic. -/
inductive Outcome where
  | ok
  | error (msg : String)
  | panic (msg : String)
deriving DecidableEq, Repr

/-! ## encoding/hex -/

def hexDigit (n : Nat) : Char := "0123456789abcdef".toList.getD n '0'

/-- The function `hex.EncodeToString`. -/
def hexEncodeToString (bs : List Nat) : String :=
  String.mk (bs.flatMap fun b => [hexDigit (b / 16 % 16), hexDigit (b % 16)])

def fromHexChar (c : Char) : Option Nat :=
  if '0' ≤ c ∧ c ≤ '9' then some (c.toNat - '0'.toNat)
  else if 'a' ≤ c ∧ c ≤ 'f' then some (c.toNat - 'a'.toNat + 10)
  else if 'A' ≤ c ∧ c ≤ 'F' then some (c.toNat - 'A'.toNat + 10)
  else none

def hexDecodeChars : List Char → Option (List Nat)
  | [] => some []
  | [_] => none
  | a :: b :: rest =>
    match fromHexChar a, fromHexChar b, hexDecodeChars rest with
    | some x, some y, some bs => some ((x * 16 + y) :: bs)
    | _, _, _ => none

/-- The function `hex.DecodeString`; `none` stands for either of its errors. -/
def hexDecodeString (s : String) : Option (List Nat) := hexDecodeChars s.toList

/-- The first `n` bytes drawn from an entropy stream. -/
def randomBytes (n : Nat) (entropy : Nat → Nat) : List Nat :=
  (List.range n).map fun i => entropy i % 256

/-! ## validator.go -/

/-- The method `Validator.validateParticipant`. -/
def validateParticipant (c : Crypto) (participant : Participant) : Option String :=
  if participant.Address = "" then some "participant address cannot be empty"
  else match participant.PublicKey with
    | none => some "participant public key cannot be nil"
    | some pk =>
      if participant.Role = "" then some "participant role cannot be empty"
      else if participant.Role ≠ RoleStudent ∧ participant.Role ≠ RoleEmployer then
        some ("invalid participant role: " ++ participant.Role)
      else if participant.Address ≠ c.pubkeyToAddressHex pk then
        some "address does not match public key"
      else none

/-- The method `Validator.ValidateChannelCreation`. -/
def ValidateChannelCreation (c : Crypto) (req : ChannelOpenRequest) : Option String :=
  match validateParticipant c req.ParticipantA with
  | some e => some ("invalid participant A: " ++ e)
  | none =>
    match validateParticipant c req.ParticipantB with
    | some e => some ("invalid participant B: " ++ e)
    | none =>
      if req.ParticipantA.Address = req.ParticipantB.Address then
        some "participants cannot be the same"
      else if req.ParticipantA.Role = req.ParticipantB.Role then
        some "participants must have different roles"
      else if req.ExpiryHours < 1 ∨ req.ExpiryHours > 8760 then
        some "invalid expiry hours: must be between 1 and 8760"
      else none

/-- The method `Validator.ValidateSignature`. The text of a wrapped library error is left
out of the message. -/
def ValidateSignature (c : Crypto) (data : String) (signature : Signature) : Option String :=
  if signature.Address = "" then some "signature address cannot be empty"
  else if signature.Signature = "" then some "signature cannot be empty"
  else match hexDecodeString signature.Signature with
    | none => some "failed to decode signature"
    | some sigBytes =>
      match c.sigToAddressHex data sigBytes with
      | none => some "failed to recover public key"
      | some recoveredAddress =>
        if recoveredAddress ≠ signature.Address then
          some ("signature address mismatch: expected " ++ signature.Address ++ ", got "
            ++ recoveredAddress)
        else none

/-- The method `Validator.isChannelParticipant`. -/
def isChannelParticipant (address : String) (channel : Channel) : Bool :=
  channel.Participants.any fun participant => decide (participant.Address = address)

/-- The method `Validator.serializeStateUpdateForSigning`; `Timestamp.Unix()` is the
timestamp in whole seconds. -/
def serializeStateUpdateForSigning (update : StateUpdate) : String :=
  update.ChannelID ++ "_" ++ toString update.Nonce ++ "_"
    ++ toString (update.Timestamp / 1000000000)

/-- The loop over `update.Signatures` in `ValidateStateUpdate`. -/
def validateUpdateSignatures (c : Crypto) (update : StateUpdate) (channel : Channel) :
    List Signature → Option String
  | [] => none
  | signature :: rest =>
    if ¬ isChannelParticipant signature.Address channel then
      some ("signer " ++ signature.Address ++ " is not a channel participant")
    else match ValidateSignature c (serializeStateUpdateForSigning update) signature with
      | some e => some ("invalid signature from " ++ signature.Address ++ ": " ++ e)
      | none => validateUpdateSignatures c update channel rest

/-- The method `Validator.ValidateStateUpdate`. -/
def ValidateStateUpdate (c : Crypto) (update : StateUpdate) (channel : Channel) :
    Option String :=
  if update.ChannelID ≠ channel.ID then some "channel ID mismatch"
  else if update.Nonce ≠ (channel.Nonce + 1) % 2 ^ 64 then
    some ("invalid nonce: expected " ++ toString ((channel.Nonce + 1) % 2 ^ 64) ++ ", got "
      ++ toString update.Nonce)
  else if update.Timestamp < channel.UpdatedAt then
    some "update timestamp cannot be before channel last update"
  else match validateUpdateSignatures c update channel update.Signatures with
    | some e => some e
    | none =>
      if update.Signatures.length = 0 then
        some "state update must have at least one signature"
      else none

/-! ## manager.go -/

/-- Modelled from the spec: the fields `channels`, `messages` and `events` that the methods
of `Manager` read and write are declared nowhere in `manager.go` (the struct holds `store`,
`validator`, `jobProcessor`, `mu`, `config`). "The ChannelStore exclusively owns all persisted
channel objects" and the manager "calls through" it, so the three fields are taken to be the
maps of the `MemoryStore` held in `store`: what `SaveChannel` writes is what `m.channels`
reads. -/
structure Manager where
  channels : List (String × Channel)
  messages : List (String × List Message)
  events : List (String × List ChannelEvent)
  config : ChannelConfig
deriving DecidableEq, Repr

/-- The function `NewManager` on `storage.NewMemoryStore()`. -/
def NewManager (config : ChannelConfig) : Manager :=
  { channels := [], messages := [], events := [], config := config }

/-- The method `MemoryStore.SaveChannel`; the copy through JSON is the same value. -/
def SaveChannel (m : Manager) (channel : Channel) : Manager :=
  { m with channels := mapSet channel.ID channel m.channels }

/-- The method `MemoryStore.GetChannelCount`. -/
def GetChannelCount (m : Manager) : Int := (m.channels.length : Int)

/-- The method `Manager.generateChannelID`: 16 random bytes in hexadecimal. -/
def generateChannelID (entropy : Option (Nat → Nat)) : Option String :=
  match entropy with
  | none => none
  | some f => some (hexEncodeToString (randomBytes 16 f))

/-- The method `Manager.generateEventID`: 8 random bytes in hexadecimal. -/
def generateEventID (entropy : Nat → Nat) : String :=
  hexEncodeToString (randomBytes 8 entropy)

/-- The statement `m.events[channelID] = append(m.events[channelID], event)`. -/
def appendEvent (env : Env) (events : List (String × List ChannelEvent)) (channelID : String)
    (eventType : String) (data : EventData) : List (String × List ChannelEvent) :=
  let event : ChannelEvent :=
    { ID := generateEventID (env.eventEntropy channelID)
      ChannelID := channelID
      Typ := eventType
      Data := data
      Timestamp := env.eventNow channelID }
  mapSet channelID ((mapGet channelID events).getD [] ++ [event]) events

/-- The method `Manager.addEvent`. -/
def addEvent (env : Env) (m : Manager) (channelID : String) (eventType : String)
    (data : EventData) : Manager :=
  { m with events := appendEvent env m.events channelID eventType data }

/-- The method `Manager.verifySignature`. -/
def verifySignature (channel : Channel) (signature : Signature) : Option String :=
  if signature.Signature = "" then some "empty signature"
  else if channel.Participants.any (fun participant =>
      decide (participant.Address = signature.Address)) then none
  else some "signer is not a channel participant"

/-- The method `Manager.verifyMessageSignature`. -/
def verifyMessageSignature (message : Message) : Option String :=
  if message.Signature.Signature = "" then some "empty message signature"
  else if message.Signature.Address ≠ message.From then
    some "signature address does not match sender"
  else none

/-- The number of nanoseconds in `time.Hour`. -/
def hourNanos : Int := 3600000000000

/-- Conversion and multiplication in `time.Duration`, a signed 64-bit integer. -/
def wrapInt64 (x : Int) : Int := (x + 2 ^ 63) % 2 ^ 64 - 2 ^ 63

/-- The method `Manager.CreateChannel`. Clock readings 0, 1, 2 are those of `CreatedAt`,
`UpdatedAt` and `ExpiresAt`. -/
def CreateChannel (c : Crypto) (env : Env) (m : Manager) (req : ChannelOpenRequest) :
    Except String Channel × Manager :=
  match ValidateChannelCreation c req with
  | some e => (.error ("validation failed: " ++ e), m)
  | none =>
    if GetChannelCount m ≥ m.config.MaxChannels then
      (.error "maximum number of channels reached", m)
    else match generateChannelID env.idEntropy with
      | none => (.error "failed to generate channel ID", m)
      | some channelID =>
        let expiryHours := if req.ExpiryHours ≤ 0 then m.config.DefaultExpiryHours
          else req.ExpiryHours
        let channel : Channel :=
          { ID := channelID
            Participants := [req.ParticipantA, req.ParticipantB]
            State := StateOpening
            Nonce := 0
            Balance := []
            Data := req.InitialData
            CreatedAt := env.now 0
            UpdatedAt := env.now 1
            ExpiresAt := env.now 2 + wrapInt64 (wrapInt64 expiryHours * hourNanos)
            ChainTxHash := "" }
        let m1 := SaveChannel m channel
        let m2 := addEvent env m1 channelID "channel_created"
          (.created channel.Participants channel.ExpiresAt)
        (.ok channel, m2)

/-- The method `Manager.AcceptChannel`. -/
def AcceptChannel (env : Env) (m : Manager) (channelID : String) (signature : Signature) :
    Outcome × Manager :=
  match mapGet channelID m.channels with
  | none => (.error "channel not found", m)
  | some channel =>
    if channel.State ≠ StateOpening then (.error "channel is not in opening state", m)
    else match verifySignature channel signature with
      | some e => (.error ("invalid signature: " ++ e), m)
      | none =>
        let channel1 := { channel with State := StateOpen, UpdatedAt := env.now 0 }
        let m1 := { m with channels := mapSet channelID channel1 m.channels }
        (.ok, addEvent env m1 channelID "channel_accepted" (.accepted signature))

/-- The loop `for key, value := range data { channel.Data[key] = value }`: `none` is the
panic of an assignment to an entry of a nil map. -/
def mergeData (current : Option DataMap) (data : DataMap) : Option (Option DataMap) :=
  match current, data with
  | none, [] => some none
  | none, _ :: _ => none
  | some d, _ => some (some (data.foldl (fun acc kv => mapSet kv.1 kv.2 acc) d))

/-- The method `Manager.UpdateState`. Clock reading 0 is that of the expiry check, reading 1
that of `UpdatedAt`; the local `stateUpdate` is built and never read. -/
def UpdateState (env : Env) (m : Manager) (channelID : String) (data : DataMap)
    (signature : Signature) : Outcome × Manager :=
  match mapGet channelID m.channels with
  | none => (.error "channel not found", m)
  | some channel =>
    if channel.State ≠ StateOpen then (.error "channel is not open", m)
    else if env.now 0 > channel.ExpiresAt then (.error "channel has expired", m)
    else match verifySignature channel signature with
      | some e => (.error ("invalid signature: " ++ e), m)
      | none =>
        let channel1 := { channel with Nonce := (channel.Nonce + 1) % 2 ^ 64 }
        match mergeData channel1.Data data with
        | none =>
          (.panic "assignment to entry in nil map",
            { m with channels := mapSet channelID channel1 m.channels })
        | some merged =>
          let channel2 := { channel1 with Data := merged, UpdatedAt := env.now 1 }
          let m1 := { m with channels := mapSet channelID channel2 m.channels }
          (.ok, addEvent env m1 channelID "state_updated"
            (.stateUpdated channel2.Nonce data signature))

/-- The method `Manager.CloseChannel`. -/
def CloseChannel (env : Env) (m : Manager) (channelID : String) (signature : Signature)
    (force : Bool) : Outcome × Manager :=
  match mapGet channelID m.channels with
  | none => (.error "channel not found", m)
  | some channel =>
    if channel.State = StateClosed then (.error "channel is already closed", m)
    else match (if force then none else verifySignature channel signature) with
      | some e => (.error ("invalid signature: " ++ e), m)
      | none =>
        let channel1 :=
          { channel with
            State := if force then StateClosed else StateClosing
            UpdatedAt := env.now 0 }
        let m1 := { m with channels := mapSet channelID channel1 m.channels }
        (.ok, addEvent env m1 channelID "channel_closing" (.closing force signature))

/-- The method `Manager.AddMessage`. -/
def AddMessage (env : Env) (m : Manager) (message : Message) : Outcome × Manager :=
  match mapGet message.ChannelID m.channels with
  | none => (.error "channel not found", m)
  | some channel =>
    if channel.State ≠ StateOpen then (.error "channel is not open", m)
    else match verifyMessageSignature message with
      | some e => (.error ("invalid message signature: " ++ e), m)
      | none =>
        let m1 :=
          { m with
            messages := mapSet message.ChannelID
              ((mapGet message.ChannelID m.messages).getD [] ++ [message]) m.messages }
        (.ok, addEvent env m1 message.ChannelID "message_added"
          (.messageAdded message.ID message.Typ message.From message.To))

/-- The loop of `Manager.cleanupExpiredChannels` over the entries of the channel map: an
entry past its expiry and not closed is closed in place and gets one event. -/
def cleanupLoop (env : Env) (now : Time) :
    List (String × Channel) → List (String × List ChannelEvent) →
      List (String × Channel) × List (String × List ChannelEvent)
  | [], events => ([], events)
  | (channelID, channel) :: rest, events =>
    if now > channel.ExpiresAt ∧ channel.State ≠ StateClosed then
      let channel1 := { channel with State := StateClosed, UpdatedAt := now }
      let r := cleanupLoop env now rest
        (appendEvent env events channelID "channel_expired" (.expired now))
      ((channelID, channel1) :: r.1, r.2)
    else
      let r := cleanupLoop env now rest events
      ((channelID, channel) :: r.1, r.2)

/-- The method `Manager.cleanupExpiredChannels`. -/
def cleanupExpiredChannels (env : Env) (m : Manager) : Manager :=
  let r := cleanupLoop env (env.now 0) m.channels m.events
  { m with channels := r.1, events := r.2 }

/-- The method `Manager.GetChannel`. -/
def GetChannel (m : Manager) (channelID : String) : Except String Channel :=
  match mapGet channelID m.channels with
  | none => .error "channel not found"
  | some channel => .ok channel

/-! ## Runs of the manager -/

/-- One call on the manager, with everything the call reads from outside. -/
inductive Op where
  | create (c : Crypto) (env : Env) (req : ChannelOpenRequest)
  | accept (env : Env) (channelID : String) (signature : Signature)
  | update (env : Env) (channelID : String) (data : DataMap) (signature : Signature)
  | close (env : Env) (channelID : String) (signature : Signature) (force : Bool)
  | addMessage (env : Env) (message : Message)
  | cleanup (env : Env)

/-- The manager state a call leaves behind. -/
def applyOp (m : Manager) : Op → Manager
  | .create c env req => (CreateChannel c env m req).2
  | .accept env channelID signature => (AcceptChannel env m channelID signature).2
  | .update env channelID data signature => (UpdateState env m channelID data signature).2
  | .close env channelID signature force => (CloseChannel env m channelID signature force).2
  | .addMessage env message => (AddMessage env m message).2
  | .cleanup env => cleanupExpiredChannels env m

/-- The manager state after a sequence of calls. -/
def run (m : Manager) (ops : List Op) : Manager := ops.foldl applyOp m

/-- The id drawn by a `CreateChannel` call is not the id of a stored channel. -/
def drawsFreshId (m : Manager) : Op → Bool
  | .create _ env _ =>
    match generateChannelID env.idEntropy with
    | none => true
    | some channelID => (mapGet channelID m.channels).isNone
  | _ => true

/-- Every `CreateChannel` of the sequence draws an id that is not stored at that point. -/
def FreshIds : Manager → List Op → Bool
  | _, [] => true
  | m, op :: ops => drawsFreshId m op && FreshIds (applyOp m op) ops

/-- The state of the channel stored under an id, if any. -/
def stateOf (m : Manager) (channelID : String) : Option ChannelState :=
  (mapGet channelID m.channels).map Channel.State

/-- The nonce of the channel stored under an id, if any. -/
def nonceOf (m : Manager) (channelID : String) : Option Nat :=
  (mapGet channelID m.channels).map Channel.Nonce

/-- The event log of a channel id (`m.events[channelID]`). -/
def eventsOf (events : List (String × List ChannelEvent)) (channelID : String) :
    List ChannelEvent :=
  (mapGet channelID events).getD []

/-- How many `channel_expired` events the log of a channel id holds. -/
def expiredCount (events : List (String × List ChannelEvent)) (channelID : String) : Nat :=
  ((eventsOf events channelID).filter fun e => decide (e.Typ = "channel_expired")).length

/-- The condition under which the cleanup loop closes a channel. -/
def isExpiring (now : Time) (channel : Channel) : Bool :=
  decide (now > channel.ExpiresAt ∧ channel.State ≠ StateClosed)

/-- How many entries of the channel map under an id the cleanup loop closes. -/
def expiringAt (now : Time) (l : List (String × Channel)) (channelID : String) : Nat :=
  (l.filter fun kv => decide (kv.1 = channelID) && isExpiring now kv.2).length

/-- The keys of the channel map are distinct, and the log of an id holds no `channel_expired`
event, or holds one and the channel of that id is Closed. -/
def ExpiredOnce (m : Manager) : Prop :=
  (mapKeys m.channels).Nodup ∧
    ∀ k, expiredCount m.events k = 0 ∨
      (expiredCount m.events k = 1 ∧ stateOf m k = some StateClosed)

/-- What one pass of the cleanup loop does to a channel. -/
def closeIfExpired (now : Time) (channel : Channel) : Channel :=
  if isExpiring now channel then { channel with State := StateClosed, UpdatedAt := now }
  else channel

/-- The channel as a successful `UpdateState` rewrites it. -/
def updatedChannel (env : Env) (channel : Channel) (merged : Option DataMap) : Channel :=
  { channel with Nonce := (channel.Nonce + 1) % 2 ^ 64, Data := merged, UpdatedAt := env.now 1 }

/-- The state `UpdateState` leaves behind when it succeeds. -/
def updatedManager (env : Env) (m : Manager) (channelID : String) (data : DataMap)
    (signature : Signature) (channel : Channel) (merged : Option DataMap) : Manager :=
  addEvent env
    { m with channels := mapSet channelID (updatedChannel env channel merged) m.channels }
    channelID "state_updated" (.stateUpdated ((channel.Nonce + 1) % 2 ^ 64) data signature)

/-- The channel literal `CreateChannel` builds once it has drawn an id. -/
def newChannel (env : Env) (m : Manager) (req : ChannelOpenRequest) (channelID : String) :
    Channel :=
  { ID := channelID
    Participants := [req.ParticipantA, req.ParticipantB]
    State := StateOpening
    Nonce := 0
    Balance := []
    Data := req.InitialData
    CreatedAt := env.now 0
    UpdatedAt := env.now 1
    ExpiresAt := env.now 2 + wrapInt64 (wrapInt64
      (if req.ExpiryHours ≤ 0 then m.config.DefaultExpiryHours else req.ExpiryHours) * hourNanos)
    ChainTxHash := "" }

/-! ## Sample data (the participants and requests of `integration_test.go`) -/

def demoStudent : Participant :=
  { Address := "0xStudent", PublicKey := some ⟨1, 2⟩, Role := RoleStudent,
    Name := "Test Student", Metadata := [] }

def demoEmployer : Participant :=
  { Address := "0xEmployer", PublicKey := some ⟨3, 4⟩, Role := RoleEmployer,
    Name := "Test Employer", Metadata := [] }

def demoCrypto : Crypto :=
  { pubkeyToAddressHex := fun k => if k.X = 1 then "0xStudent" else "0xEmployer"
    sigToAddressHex := fun _ _ => none }

def demoConfig : ChannelConfig :=
  { MaxChannels := 100, DefaultExpiryHours := 24, MaxMessageSize := 1024,
    CleanupInterval := hourNanos, BackupInterval := hourNanos }

def demoRequest : ChannelOpenRequest :=
  { ParticipantA := demoStudent, ParticipantB := demoEmployer,
    InitialData := some [("job_type", .str "internship")], ExpiryHours := 48 }

/-- Surroundings in which every clock reading is `now` and `rand.Read` yields 0, 1, 2, ... -/
def demoEnv (now : Time) : Env :=
  { now := fun _ => now, eventNow := fun _ => now, idEntropy := some fun i => i,
    eventEntropy := fun _ i => i }

/-- The id `generateChannelID` returns under `demoEnv`. -/
def demoID : String := "000102030405060708090a0b0c0d0e0f"

/-- A signature value as the integration test builds them. -/
def demoSignature (address : String) (signature : String) : Signature :=
  { Address := address, Signature := signature, R := "", S := "", V := "" }

/-- The manager after `CreateChannel(demoRequest)` at time 100. -/
def demoOpening : Manager := (CreateChannel demoCrypto (demoEnv 100) (NewManager demoConfig)
  demoRequest).2

/-- The manager after the employer has accepted that channel at time 200. -/
def demoOpen : Manager :=
  (AcceptChannel (demoEnv 200) demoOpening demoID (demoSignature "0xEmployer"
    "test_signature")).2

/-- The open channel with its nonce at the largest `uint64`, the value that `2 ^ 64 - 1`
successful updates lead to. -/
def demoOpenMaxNonce : Manager :=
  { demoOpen with
    channels := demoOpen.channels.map fun kv => (kv.1, { kv.2 with Nonce := 2 ^ 64 - 1 }) }

/-- The patch of the integration test. -/
def demoPatch : DataMap := [("application_status", .str "under_review")]

/-- The calls of a lifecycle that ends with the cleanup closing the expired channel. -/
def demoOps : List Op :=
  [.create demoCrypto (demoEnv 100) demoRequest,
   .accept (demoEnv 200) demoID (demoSignature "0xEmployer" "test_signature"),
   .cleanup (demoEnv 172800000000101)]

/-- Calls made after the channel has been closed. -/
def demoLaterOps : List Op :=
  [.cleanup (demoEnv 172800000000201),
   .close (demoEnv 172800000000301) demoID (demoSignature "0xStudent" "sig") true,
   .update (demoEnv 172800000000401) demoID demoPatch (demoSignature "0xStudent" "sig")]

/-! ## validator.go: messages and access rights -/

/-- The method `Validator.ValidateChannelAccess`. -/
def ValidateChannelAccess (userAddress : String) (channel : Channel) (operation : String) :
    Option String :=
  if ¬ isChannelParticipant userAddress channel then
    some ("user " ++ userAddress ++ " is not a channel participant")
  else if operation = "read" then none
  else if operation = "write" then
    if channel.State ≠ StateOpen then some "channel is not open for writing" else none
  else if operation = "close" then none
  else some ("unknown operation: " ++ operation)

/-- The method `Validator.isValidMessageType`. -/
def isValidMessageType (msgType : MessageType) : Bool :=
  [MsgTypeChannelOpen, MsgTypeChannelAccept, MsgTypeStateUpdate, MsgTypeChannelClose,
    MsgTypeDispute, MsgTypeResumeRequest, MsgTypeJobApplication, MsgTypeInterviewInvite,
    MsgTypeOfferLetter, MsgTypeContractSign].any fun validType => decide (msgType = validType)

/-- The comma-ok test `_, exists := data[key]`. -/
def hasKey (data : DataMap) (key : String) : Bool := (mapGet key data).isSome

/-- The method `Validator.validateJobApplicationMessage`. -/
def validateJobApplicationMessage (message : Message) : Option String :=
  if ¬ hasKey message.Data "position" then some "job application must include position"
  else if ¬ hasKey message.Data "resume" then some "job application must include resume"
  else none

/-- The method `Validator.validateInterviewInviteMessage`. -/
def validateInterviewInviteMessage (message : Message) : Option String :=
  if ¬ hasKey message.Data "datetime" then some "interview invite must include datetime"
  else if ¬ hasKey message.Data "type" then some "interview invite must include type"
  else none

/-- The method `Validator.validateOfferLetterMessage`. -/
def validateOfferLetterMessage (message : Message) : Option String :=
  if ¬ hasKey message.Data "position" then some "offer letter must include position"
  else if ¬ hasKey message.Data "salary" then some "offer letter must include salary"
  else none

/-- The method `Validator.validateContractSignMessage`. -/
def validateContractSignMessage (message : Message) : Option String :=
  if ¬ hasKey message.Data "contract_hash" then some "contract sign must include contract hash"
  else none

/-- The method `Validator.validateMessageContent`. -/
def validateMessageContent (message : Message) : Option String :=
  if message.Typ = MsgTypeJobApplication then validateJobApplicationMessage message
  else if message.Typ = MsgTypeInterviewInvite then validateInterviewInviteMessage message
  else if message.Typ = MsgTypeOfferLetter then validateOfferLetterMessage message
  else if message.Typ = MsgTypeContractSign then validateContractSignMessage message
  else if message.Data.length = 0 then some "message data cannot be empty"
  else none

/-- The method `Validator.serializeMessageForSigning`. -/
def serializeMessageForSigning (message : Message) : String :=
  message.ID ++ "_" ++ message.ChannelID ++ "_" ++ message.From ++ "_" ++ message.To ++ "_"
    ++ toString message.Nonce ++ "_" ++ message.Typ

/-- The method `Validator.ValidateMessage`; `now0` and `now1` are its two readings of the
clock, five minutes are `300000000000` and a day is `24 * hourNanos` nanoseconds. -/
def ValidateMessage (c : Crypto) (now0 now1 : Time) (message : Message) : Option String :=
  if message.ID = "" then some "message ID cannot be empty"
  else if message.ChannelID = "" then some "channel ID cannot be empty"
  else if message.From = "" then some "message sender cannot be empty"
  else if message.To = "" then some "message recipient cannot be empty"
  else if message.From = message.To then some "sender and recipient cannot be the same"
  else if ¬ isValidMessageType message.Typ then some ("invalid message type: " ++ message.Typ)
  else if message.Timestamp > now0 + 300000000000 then
    some "message timestamp is too far in the future"
  else if message.Timestamp < now1 - 24 * hourNanos then some "message timestamp is too old"
  else match ValidateSignature c (serializeMessageForSigning message) message.Signature with
    | some e => some ("invalid message signature: " ++ e)
    | none =>
      match validateMessageContent message with
      | some e => some ("invalid message content: " ++ e)
      | none => none

/-! ## manager.go: reading the message log -/

/-- The message log of a channel id (`m.messages[channelID]`, nil when there is none). -/
def messagesOf (m : Manager) (channelID : String) : List Message :=
  (mapGet channelID m.messages).getD []

/-- The method `Manager.GetChannelMessages`. -/
def GetChannelMessages (m : Manager) (channelID : String) : Except String (List Message) :=
  match mapGet channelID m.messages with
  | none => .error "channel not found"
  | some messages => .ok messages

/-! ## Predicates used in the statements -/

/-- A character of the alphabet of `hex.EncodeToString`. -/
def isLowerHexChar (ch : Char) : Bool := "0123456789abcdef".toList.contains ch

/-- Participant validation as the spec words it: non-empty address, a public key, role
student or employer, and the address is the one derived from the public key. -/
def ParticipantValid (c : Crypto) (p : Participant) : Prop :=
  p.Address ≠ "" ∧ (p.Role = RoleStudent ∨ p.Role = RoleEmployer) ∧
    ∃ pk, p.PublicKey = some pk ∧ p.Address = c.pubkeyToAddressHex pk

/-- Every signature of the list is under a participant's address and passes
`ValidateSignature` over the bytes `serializeStateUpdateForSigning` builds. -/
def SignaturesAuthentic (c : Crypto) (update : StateUpdate) (channel : Channel)
    (signatures : List Signature) : Prop :=
  ∀ signature ∈ signatures, isChannelParticipant signature.Address channel = true ∧
    ValidateSignature c (serializeStateUpdateForSigning update) signature = none

/-! ## More sample data -/

/-- The request of the integration test's later cases: no initial data. -/
def demoRequestNoData : ChannelOpenRequest := { demoRequest with InitialData := none }

/-- The manager after `CreateChannel(demoRequestNoData)` and the employer's acceptance. -/
def demoOpenNoData : Manager :=
  (AcceptChannel (demoEnv 200)
    (CreateChannel demoCrypto (demoEnv 100) (NewManager demoConfig) demoRequestNoData).2
    demoID (demoSignature "0xEmployer" "test_signature")).2

/-- A manager whose configuration allows one channel, after that channel was created. -/
def demoFull : Manager :=
  (CreateChannel demoCrypto (demoEnv 100) (NewManager { demoConfig with MaxChannels := 1 })
    demoRequest).2

/-- The job application of the integration test: its data holds the key `application`. -/
def demoJobApplication : Message :=
  { ID := "msg_001", ChannelID := demoID, Typ := MsgTypeJobApplication,
    From := "0xStudent", To := "0xEmployer",
    Data := [("application", .str "Software Developer")], Nonce := 1, Timestamp := 300,
    Signature := demoSignature "0xStudent" "test_message_signature" }

/-- A message that a stranger sends to themselves on the channel of the test. -/
def demoStrangerMessage : Message :=
  { ID := "msg_002", ChannelID := demoID, Typ := MsgTypeDispute,
    From := "0xStranger", To := "0xStranger", Data := [("reason", .str "none")], Nonce := 1,
    Timestamp := 300, Signature := demoSignature "0xStranger" "sig" }

/-- The channel of `demoOpen` in a given state and with a given nonce. -/
def demoChannel (state : ChannelState) (nonce : Nat) : Channel :=
  { newChannel (demoEnv 100) (NewManager demoConfig) demoRequest demoID with
    State := state, Nonce := nonce, UpdatedAt := 200 }

/-- Primitives under which every signature recovers to the employer's address. -/
def demoRecover : Crypto :=
  { pubkeyToAddressHex := demoCrypto.pubkeyToAddressHex
    sigToAddressHex := fun _ _ => some "0xEmployer" }

/-- An update for the channel of the test, signed under the employer's address. -/
def demoUpdate (nonce : Nat) : StateUpdate :=
  { ChannelID := demoID, Nonce := nonce, Data := demoPatch, Timestamp := 300,
    Signatures := [demoSignature "0xEmployer" "abcd"] }

/-! ## memory_store.go -/

/-- The struct `types.ChannelBackup`. -/
structure ChannelBackup where
  Channel : Channel
  Messages : List Message
  Events : List ChannelEvent
  BackupAt : Time
deriving DecidableEq, Repr

/-- The struct `MemoryStore`. The channel map holds pointers: `restored` lists the ids whose
entry in `channels` is the address of the `Channel` field of their entry in `backups`, as
`RestoreBackup` stores it (`s.channels[channelID] = &backup.Channel`); for these ids a write
through the channel pointer is a write to the backup. -/
structure MemoryStore where
  channels : List (String × Channel)
  messages : List (String × List Message)
  events : List (String × List ChannelEvent)
  backups : List (String × ChannelBackup)
  restored : List String
deriving DecidableEq, Repr

/-- Map removal `delete(m, k)`. -/
def mapDelete {α : Type} (k : String) (l : List (String × α)) : List (String × α) :=
  l.filter fun kv => decide (kv.1 ≠ k)

/-- The statement `log[id] = append(log[id], x)` on a map of slices. -/
def appendToLog {α : Type} (log : List (String × List α)) (id : String) (x : α) :
    List (String × List α) :=
  mapSet id ((mapGet id log).getD [] ++ [x]) log

namespace MemoryStore

/-- The function `NewMemoryStore`. -/
def NewMemoryStore : MemoryStore :=
  { channels := [], messages := [], events := [], backups := [], restored := [] }

/-- The method `MemoryStore.SaveChannel`; `none` is the nil pointer. The stored value is a
copy of its own, made through JSON. -/
def SaveChannel (s : MemoryStore) (channel : Option Channel) : Option String × MemoryStore :=
  match channel with
  | none => (some "channel cannot be nil", s)
  | some ch =>
    (none, { s with channels := mapSet ch.ID ch s.channels
                    restored := s.restored.filter fun k => decide (k ≠ ch.ID) })

/-- The method `MemoryStore.GetChannel`: a deep copy of the stored channel. -/
def GetChannel (s : MemoryStore) (channelID : String) : Except String Channel :=
  match mapGet channelID s.channels with
  | none => .error ("channel not found: " ++ channelID)
  | some channel => .ok channel

/-- The method `MemoryStore.DeleteChannel`. -/
def DeleteChannel (s : MemoryStore) (channelID : String) : Option String × MemoryStore :=
  match mapGet channelID s.channels with
  | none => (some ("channel not found: " ++ channelID), s)
  | some _ =>
    (none, { channels := mapDelete channelID s.channels
             messages := mapDelete channelID s.messages
             events := mapDelete channelID s.events
             backups := mapDelete channelID s.backups
             restored := s.restored.filter fun k => decide (k ≠ channelID) })

/-- The method `MemoryStore.SaveMessage`. -/
def SaveMessage (s : MemoryStore) (message : Option Message) : Option String × MemoryStore :=
  match message with
  | none => (some "message cannot be nil", s)
  | some msg =>
    match mapGet msg.ChannelID s.channels with
    | none => (some ("channel not found: " ++ msg.ChannelID), s)
    | some _ => (none, { s with messages := appendToLog s.messages msg.ChannelID msg })

/-- The method `MemoryStore.GetMessages`. -/
def GetMessages (s : MemoryStore) (channelID : String) : List Message :=
  (mapGet channelID s.messages).getD []

/-- The method `MemoryStore.SaveEvent`. -/
def SaveEvent (s : MemoryStore) (event : Option ChannelEvent) : Option String × MemoryStore :=
  match event with
  | none => (some "event cannot be nil", s)
  | some ev => (none, { s with events := appendToLog s.events ev.ChannelID ev })

/-- The method `MemoryStore.GetEvents`. -/
def GetEvents (s : MemoryStore) (channelID : String) : List ChannelEvent :=
  (mapGet channelID s.events).getD []

/-- The method `MemoryStore.CreateBackup`; `now` is its reading of the clock. The backup
that is stored (and returned) is a copy of its own, made through JSON, so the channel
pointer of the id no longer points into the backup stored under the id. -/
def CreateBackup (now : Time) (s : MemoryStore) (channelID : String) :
    Except String ChannelBackup × MemoryStore :=
  match mapGet channelID s.channels with
  | none => (.error ("channel not found: " ++ channelID), s)
  | some channel =>
    let backup : ChannelBackup :=
      { Channel := channel
        Messages := (mapGet channelID s.messages).getD []
        Events := (mapGet channelID s.events).getD []
        BackupAt := now }
    (.ok backup, { s with backups := mapSet channelID backup s.backups
                          restored := s.restored.filter fun k => decide (k ≠ channelID) })

/-- The method `MemoryStore.RestoreBackup`: the three maps receive the address of the
backup's channel and the backup's two slices, not copies. -/
def RestoreBackup (s : MemoryStore) (channelID : String) : Option String × MemoryStore :=
  match mapGet channelID s.backups with
  | none => (some ("backup not found: " ++ channelID), s)
  | some backup =>
    (none, { s with channels := mapSet channelID backup.Channel s.channels
                    messages := mapSet channelID backup.Messages s.messages
                    events := mapSet channelID backup.Events s.events
                    restored := channelID :: s.restored.filter fun k => decide (k ≠ channelID) })

/-- The event `CleanupExpiredChannels` records for a channel; `stamp` is the reading of the
clock that names the event. -/
def cleanupEvent (now : Time) (stamp : String → Time) (channelID : String) : ChannelEvent :=
  { ID := "cleanup_" ++ toString (stamp channelID)
    ChannelID := channelID
    Typ := "channel_expired"
    Data := .cleanedUp now "automatic_cleanup"
    Timestamp := now }

end MemoryStore

/-- A pass over the entries of a channel map that closes in place every entry past its
expiry and not closed, appends the event `mkEvent id` to the log of its id and counts it:
the loop shared by `Manager.cleanupExpiredChannels` and
`MemoryStore.CleanupExpiredChannels`. -/
def expireLoop (mkEvent : String → ChannelEvent) (now : Time) :
    List (String × Channel) → List (String × List ChannelEvent) → Nat →
      List (String × Channel) × List (String × List ChannelEvent) × Nat
  | [], events, count => ([], events, count)
  | (channelID, channel) :: rest, events, count =>
    if now > channel.ExpiresAt ∧ channel.State ≠ StateClosed then
      let channel1 := { channel with State := StateClosed, UpdatedAt := now }
      let r := expireLoop mkEvent now rest (appendToLog events channelID (mkEvent channelID))
        (count + 1)
      ((channelID, channel1) :: r.1, r.2)
    else
      let r := expireLoop mkEvent now rest events count
      ((channelID, channel) :: r.1, r.2)

/-- The writes of a cleanup pass that land in a backup: an id that `RestoreBackup` left
pointing into its backup and whose channel the pass closes has the channel of its backup
closed by the same write. -/
def closeRestored (now : Time) (restored : List String) (channels : List (String × Channel))
    (backups : List (String × ChannelBackup)) : List (String × ChannelBackup) :=
  backups.map fun kb =>
    match mapGet kb.1 channels with
    | some channel =>
      if restored.contains kb.1 ∧ isExpiring now channel then
        (kb.1, { kb.2 with Channel := closeIfExpired now channel })
      else kb
    | none => kb

/-- The method `MemoryStore.CleanupExpiredChannels`; `now` is its first reading of the
clock. -/
def MemoryStore.CleanupExpiredChannels (now : Time) (stamp : String → Time) (s : MemoryStore) :
    Nat × MemoryStore :=
  let r := expireLoop (MemoryStore.cleanupEvent now stamp) now s.channels s.events 0
  (r.2.2, { s with channels := r.1, events := r.2.1
                   backups := closeRestored now s.restored s.channels s.backups })

/-- The event `Manager.cleanupExpiredChannels` records for a channel. -/
def expiredEvent (env : Env) (now : Time) (channelID : String) : ChannelEvent :=
  { ID := generateEventID (env.eventEntropy channelID)
    ChannelID := channelID
    Typ := "channel_expired"
    Data := .expired now
    Timestamp := env.eventNow channelID }

/-- The struct `types.ChannelFilter`; `none` is the nil pointer, the empty string the
omitted state, participant or role. -/
structure ChannelFilter where
  State : ChannelState
  Participant : String
  Role : ParticipantRole
  CreatedAfter : Option Time
  CreatedBefore : Option Time
  Limit : Int
  Offset : Int
deriving DecidableEq, Repr

/-- The methods `MemoryStore.matchesFilter` and `Manager.matchesFilter` (the same body). -/
def matchesFilter (channel : Channel) (filter : ChannelFilter) : Bool :=
  if filter.State ≠ "" ∧ channel.State ≠ filter.State then false
  else if filter.Participant ≠ "" ∧
      ¬ (channel.Participants.any fun participant =>
          decide (participant.Address = filter.Participant)) then false
  else if filter.Role ≠ "" ∧
      ¬ (channel.Participants.any fun participant =>
          decide (participant.Role = filter.Role)) then false
  else if (match filter.CreatedAfter with
      | some t => decide (channel.CreatedAt < t)
      | none => false) then false
  else if (match filter.CreatedBefore with
      | some t => decide (channel.CreatedAt > t)
      | none => false) then false
  else true

/-- The body shared by `MemoryStore.ListChannels` and `Manager.ListChannels`: `visited` is
the entries of the channel map in the order in which `range` yields them. The copies that
are appended have the value of the stored channels. -/
def listPage (visited : List (String × Channel)) (filter : ChannelFilter) :
    List Channel × Int :=
  let filteredChannels := (visited.filter fun kv => matchesFilter kv.2 filter).map Prod.snd
  let total : Int := filteredChannels.length
  let filteredChannels1 :=
    if filter.Offset > 0 then
      if filter.Offset ≥ (filteredChannels.length : Int) then []
      else filteredChannels.drop filter.Offset.toNat
    else filteredChannels
  let filteredChannels2 :=
    if filter.Limit > 0 ∧ (filteredChannels1.length : Int) > filter.Limit then
      filteredChannels1.take filter.Limit.toNat
    else filteredChannels1
  (filteredChannels2, total)

/-- The method `MemoryStore.ListChannels`; `order` is the order in which `range` visits the
entries of a map. -/
def MemoryStore.ListChannels (order : List (String × Channel) → List (String × Channel))
    (s : MemoryStore) (filter : ChannelFilter) : List Channel × Int :=
  listPage (order s.channels) filter

/-- The method `Manager.ListChannels`. -/
def ListChannels (order : List (String × Channel) → List (String × Channel))
    (m : Manager) (filter : ChannelFilter) : List Channel × Int :=
  listPage (order m.channels) filter

/-- A filter on the state with a page size and an offset. -/
def demoFilter (state : ChannelState) (limit offset : Int) : ChannelFilter :=
  { State := state, Participant := "", Role := "", CreatedAfter := none
    CreatedBefore := none, Limit := limit, Offset := offset }

/-- A store with three channels: two open ones and a closed one. -/
def demoStore3 : MemoryStore :=
  { MemoryStore.NewMemoryStore with
    channels := [("a", { demoChannel StateOpen 0 with ID := "a" }),
                 ("b", { demoChannel StateClosed 0 with ID := "b" }),
                 ("c", { demoChannel StateOpen 1 with ID := "c" })] }

/-! ## Pointers to channels in the hands of a caller -/

/-- Which of the three reference-typed fields of a `Channel` value (the map `Data`, the map
`Balance`, the backing array of the slice `Participants`) are the very objects of the
channel stored in the map, so that a write into them is a write into the stored channel. -/
structure Sharing where
  data : Bool
  balance : Bool
  participants : Bool
deriving DecidableEq, Repr

/-- The pointer `GetChannel` hands to its caller: the id it was asked for, the value behind
the pointer, and what that value shares with the channel stored under the id. -/
structure HeldChannel where
  channelID : String
  value : Channel
  sharing : Sharing
deriving DecidableEq, Repr

/-- The last two lines of `Manager.GetChannel`, `channelCopy := *channel` and
`return &channelCopy, nil`: the struct is copied field by field, so the copy holds the
stored channel's two maps and its slice header. -/
def managerCopy (channelID : String) (channel : Channel) : HeldChannel :=
  { channelID := channelID, value := channel
    sharing := { data := true, balance := true, participants := true } }

/-- The end of `MemoryStore.GetChannel`: the channel is decoded from the JSON text of the
stored one, so every map and slice in it is newly allocated. -/
def storeCopy (channelID : String) (channel : Channel) : HeldChannel :=
  { channelID := channelID, value := channel
    sharing := { data := false, balance := false, participants := false } }

/-- A write a caller makes through the pointer `c` it holds. -/
inductive CopyWrite where
  /-- The assignment `c.ID = id`. -/
  | setID (id : String)
  /-- The assignment `c.State = state`. -/
  | setState (state : ChannelState)
  /-- The assignment `c.Nonce = nonce`. -/
  | setNonce (nonce : Nat)
  /-- The assignments to `c.CreatedAt`, `c.UpdatedAt` and `c.ExpiresAt`. -/
  | setTimes (createdAt updatedAt expiresAt : Time)
  /-- The assignment `c.ChainTxHash = hash`. -/
  | setChainTxHash (hash : String)
  /-- The assignment `c.Data = data` of another map (or nil). -/
  | setData (data : Option DataMap)
  /-- The assignment `c.Balance = balance` of another map. -/
  | setBalance (balance : List (String × Int))
  /-- The assignment `c.Participants = participants` of another slice. -/
  | setParticipants (participants : List Participant)
  /-- The assignment `c.Data[key] = value`. -/
  | putData (key : String) (value : Value)
  /-- The call `delete(c.Data, key)`. -/
  | deleteData (key : String)
  /-- The assignment `c.Balance[key] = big.NewInt(amount)`. -/
  | putBalance (key : String) (amount : Int)
  /-- The call `delete(c.Balance, key)`. -/
  | deleteBalance (key : String)
  /-- The assignment `c.Participants[i] = participant`. -/
  | putParticipant (i : Nat) (participant : Participant)
deriving DecidableEq, Repr

/-- A write into the channel stored under `channelID` (none if the id is not stored). -/
def writeStored (channelID : String) (f : Channel → Channel)
    (channels : List (String × Channel)) : List (String × Channel) :=
  match mapGet channelID channels with
  | some channel => mapSet channelID (f channel) channels
  | none => channels

/-- The effect of one write through a held pointer on the value behind the pointer and on
the channel map. Assigning a field changes the value behind the pointer only, and a field
that received another map or slice is no longer shared; writing an entry of a map or an
element of the slice changes the object written to, which the stored channel sees when the
object is shared. A write to an entry of a nil map, and a write past the end of the slice,
panic and change nothing. -/
def writeHeld (w : CopyWrite) (c : HeldChannel) (channels : List (String × Channel)) :
    HeldChannel × List (String × Channel) :=
  match w with
  | .setID id => ({ c with value := { c.value with ID := id } }, channels)
  | .setState state => ({ c with value := { c.value with State := state } }, channels)
  | .setNonce nonce => ({ c with value := { c.value with Nonce := nonce } }, channels)
  | .setTimes createdAt updatedAt expiresAt =>
    ({ c with value := { c.value with CreatedAt := createdAt, UpdatedAt := updatedAt,
                                      ExpiresAt := expiresAt } }, channels)
  | .setChainTxHash hash =>
    ({ c with value := { c.value with ChainTxHash := hash } }, channels)
  | .setData data =>
    ({ c with value := { c.value with Data := data }
              sharing := { c.sharing with data := false } }, channels)
  | .setBalance balance =>
    ({ c with value := { c.value with Balance := balance }
              sharing := { c.sharing with balance := false } }, channels)
  | .setParticipants participants =>
    ({ c with value := { c.value with Participants := participants }
              sharing := { c.sharing with participants := false } }, channels)
  | .putData key value =>
    match c.value.Data with
    | none => (c, channels)
    | some data =>
      ({ c with value := { c.value with Data := some (mapSet key value data) } },
        if c.sharing.data then
          writeStored c.channelID
            (fun channel => { channel with Data := some (mapSet key value data) }) channels
        else channels)
  | .deleteData key =>
    match c.value.Data with
    | none => (c, channels)
    | some data =>
      ({ c with value := { c.value with Data := some (mapDelete key data) } },
        if c.sharing.data then
          writeStored c.channelID
            (fun channel => { channel with Data := some (mapDelete key data) }) channels
        else channels)
  | .putBalance key amount =>
    ({ c with value := { c.value with Balance := mapSet key amount c.value.Balance } },
      if c.sharing.balance then
        writeStored c.channelID
          (fun channel => { channel with Balance := mapSet key amount c.value.Balance })
          channels
      else channels)
  | .deleteBalance key =>
    ({ c with value := { c.value with Balance := mapDelete key c.value.Balance } },
      if c.sharing.balance then
        writeStored c.channelID
          (fun channel => { channel with Balance := mapDelete key c.value.Balance }) channels
      else channels)
  | .putParticipant i participant =>
    ({ c with value := { c.value with
                         Participants := c.value.Participants.set i participant } },
      if c.sharing.participants then
        writeStored c.channelID
          (fun channel =>
            { channel with Participants := c.value.Participants.set i participant })
          channels
      else channels)

/-- The effect of a sequence of writes through a held pointer. -/
def writesHeld : List CopyWrite → HeldChannel → List (String × Channel) →
    HeldChannel × List (String × Channel)
  | [], c, channels => (c, channels)
  | w :: ws, c, channels => writesHeld ws (writeHeld w c channels).1 (writeHeld w c channels).2

/-! ## hub.go -/

/-- A `[]byte`. -/
abbrev Bytes := List Nat

/-- The capacity of the channel `send` that `HandleWebSocket` makes:
`make(chan []byte, 256)`. -/
def sendCap : Nat := 256

/-- The struct `Client`, as far as the hub reads and writes it. `send` is the messages
buffered in the channel `send`, oldest first, `closed` whether `close(client.send)` has
run, `conn` the messages `writePump` has received from `send` and written to the
connection. -/
structure Client where
  userID : String
  send : List Bytes
  closed : Bool
  channels : List String
  conn : List Bytes
deriving DecidableEq, Repr

/-- The struct `Hub`. The keys of the two index maps are `*Client` pointers: a pointer is a
name, and `heap` holds the `Client` each pointer points to. -/
structure Hub where
  heap : List (String × Client)
  clients : List String
  channels : List (String × List String)
deriving DecidableEq, Repr

/-- Adding an element to a set (`set[x] = true`). -/
def setInsert (x : String) (set : List String) : List String :=
  if x ∈ set then set else set ++ [x]

/-- Removing an element from a set (`delete(set, x)`). -/
def setDelete (x : String) (set : List String) : List String :=
  set.filter fun y => decide (y ≠ x)

/-- The function `NewHub`. -/
def NewHub : Hub := { heap := [], clients := [], channels := [] }

/-- The method `Hub.HandleWebSocket` up to the start of the two pumps, with the `register`
case of `Hub.Run` that its send on `h.register` triggers: `ptr` is the address of the new
`Client`. -/
def HandleWebSocket (h : Hub) (ptr : String) (userID : String) : Hub :=
  { h with
    heap := mapSet ptr
      { userID := userID, send := [], closed := false, channels := [], conn := [] } h.heap
    clients := setInsert ptr h.clients }

/-- The method `Hub.SubscribeToChannel`. -/
def SubscribeToChannel (h : Hub) (client : String) (channelID : String) : Hub :=
  { h with
    channels := mapSet channelID (setInsert client ((mapGet channelID h.channels).getD []))
      h.channels
    heap := match mapGet client h.heap with
      | some c => mapSet client { c with channels := setInsert channelID c.channels } h.heap
      | none => h.heap }

/-- The `select` statement in the body of the three publishing loops,
`case client.send <- message:` with a `default:` branch that runs `close(client.send)`,
`delete(h.clients, client)` and, in `BroadcastToChannel` only, `delete(clients, client)` on
the subscriber set of the channel published to (`scope`; `none` in the other two loops).
A send on a closed channel panics. -/
def trySend (scope : Option String) (message : Bytes) (h : Hub) (client : String) :
    Outcome × Hub :=
  match mapGet client h.heap with
  | none => (.panic "invalid memory address or nil pointer dereference", h)
  | some c =>
    if c.closed then (.panic "send on closed channel", h)
    else if c.send.length < sendCap then
      (.ok, { h with heap := mapSet client { c with send := c.send ++ [message] } h.heap })
    else
      (.ok, { heap := mapSet client { c with closed := true } h.heap
              clients := setDelete client h.clients
              channels := match scope with
                | none => h.channels
                | some channelID =>
                  match mapGet channelID h.channels with
                  | some clients => mapSet channelID (setDelete client clients) h.channels
                  | none => h.channels })

/-- A publishing loop over the clients in the order in which `range` yields them. -/
def sendLoop (scope : Option String) (message : Bytes) : List String → Hub → Outcome × Hub
  | [], h => (.ok, h)
  | client :: rest, h =>
    match trySend scope message h client with
    | (.ok, h1) => sendLoop scope message rest h1
    | r => r

/-- The method `Hub.BroadcastToChannel`; `order` is the order in which `range` visits the
elements of a set. -/
def BroadcastToChannel (order : List String → List String) (h : Hub) (channelID : String)
    (message : Bytes) : Outcome × Hub :=
  match mapGet channelID h.channels with
  | some clients => sendLoop (some channelID) message (order clients) h
  | none => (.ok, h)

/-- The `broadcast` case of `Hub.Run`. -/
def broadcast (order : List String → List String) (h : Hub) (message : Bytes) :
    Outcome × Hub :=
  sendLoop none message (order h.clients) h

/-- The method `Hub.SendNotification`; `message` is the JSON text of the notification. -/
def SendNotification (order : List String → List String) (h : Hub) (userID : String)
    (message : Bytes) : Outcome × Hub :=
  sendLoop none message
    ((order h.clients).filter fun client =>
      match mapGet client h.heap with
      | some c => decide (c.userID = userID)
      | none => false) h

/-- One receive `<-c.send` of the `writePump` of a client, whose message goes to the
connection. -/
def receive (h : Hub) (client : String) : Hub :=
  match mapGet client h.heap with
  | some c =>
    match c.send with
    | message :: rest =>
      { h with heap := mapSet client { c with send := rest, conn := c.conn ++ [message] }
                 h.heap }
    | [] => h
  | none => h

/-- A step of a run of the hub on one channel: an event is published to the channel, or
the `writePump` of a client receives one message. -/
inductive HubStep where
  | publish (message : Bytes)
  | receive (client : String)
deriving DecidableEq, Repr

/-- A run of the hub: the steps one after the other, stopping at a panic. -/
def runHub (order : List String → List String) (channelID : String) :
    Hub → List HubStep → Outcome × Hub
  | h, [] => (.ok, h)
  | h, .publish message :: rest =>
    match BroadcastToChannel order h channelID message with
    | (.ok, h1) => runHub order channelID h1 rest
    | r => r
  | h, .receive client :: rest => runHub order channelID (receive h client) rest

/-- The messages published in a run, in order. -/
def published : List HubStep → List Bytes
  | [] => []
  | .publish message :: rest => message :: published rest
  | .receive _ :: rest => published rest

/-- The subscriber set of a channel (empty if the hub has none). -/
def subscribers (h : Hub) (channelID : String) : List String :=
  (mapGet channelID h.channels).getD []

/-- The messages a client has been sent: those written to its connection followed by those
still in its buffer. -/
def delivered (h : Hub) (client : String) : List Bytes :=
  match mapGet client h.heap with
  | some c => c.conn ++ c.send
  | none => []

/-- Whether the buffer of a client has free space. -/
def roomFor (h : Hub) (client : String) : Bool :=
  match mapGet client h.heap with
  | some c => decide (c.send.length < sendCap)
  | none => false

/-- Whether the buffer of a client has free space at every publish of a run. -/
def hasRoomAlong (order : List String → List String) (channelID : String) (client : String) :
    Hub → List HubStep → Bool
  | _, [] => true
  | h, .publish message :: rest =>
    roomFor h client &&
      hasRoomAlong order channelID client (BroadcastToChannel order h channelID message).2 rest
  | h, .receive other :: rest => hasRoomAlong order channelID client (receive h other) rest

/-- What the `select` statement of a publishing loop does to the client it is run on. -/
def afterSend (message : Bytes) (c : Client) : Client :=
  if c.send.length < sendCap then { c with send := c.send ++ [message] }
  else { c with closed := true }

/-- The subscriber set of the channel lists no client twice, and each subscriber is a
client whose channel `send` is open. -/
def HubReady (h : Hub) (channelID : String) : Prop :=
  (subscribers h channelID).Nodup ∧
    ∀ q ∈ subscribers h channelID, ∃ c, mapGet q h.heap = some c ∧ c.closed = false

/-- A hub with a session `slow` subscribed to the channels `a` and `b` and a session `fast`
subscribed to `a`. -/
def demoHub : Hub :=
  SubscribeToChannel (SubscribeToChannel (SubscribeToChannel
    (HandleWebSocket (HandleWebSocket NewHub "slow" "u1") "fast" "u2") "slow" "a")
    "slow" "b") "fast" "a"

/-- The hub `demoHub` when the buffer of `slow` holds 256 messages. -/
def demoHubFull : Hub :=
  { demoHub with
    heap := mapSet "slow"
      { userID := "u1", send := List.replicate 256 [1], closed := false
        channels := ["a", "b"], conn := [] } demoHub.heap }

/-! ## services/crypto: ecdsa.go -/

/-- The struct `ecdsa.PrivateKey`. -/
structure PrivateKey where
  PublicKey : PublicKey
  D : Nat
deriving DecidableEq, Repr

/-- The functions of `crypto/sha256`, `crypto/ecdsa` and go-ethereum's `crypto` that
`ecdsa.go` calls; their code is not part of the repository. `GenerateKey` is
`ecdsa.GenerateKey(secp256k1.S256(), rand.Reader)` as a function of what the reader
yields. -/
structure EthCrypto where
  Sum256 : Bytes → Bytes
  GenerateKey : (Nat → Nat) → Except String PrivateKey
  Sign : Bytes → PrivateKey → Except String Bytes
  VerifySignature : Bytes → Bytes → Bytes → Bool
  FromECDSAPub : PublicKey → Bytes

/-- What the documentation of the library promises and `ecdsa.go` relies on: a SHA-256
digest has 32 bytes, and for a key made by `GenerateKey` on the curve secp256k1 and a
32-byte digest, `crypto.Sign` returns a 65-byte signature `r || s || v` whose first 64 bytes
`crypto.VerifySignature` accepts for the key's public key and the digest. -/
def EthCrypto.Sound (lib : EthCrypto) : Prop :=
  (∀ data, (lib.Sum256 data).length = 32) ∧
  ∀ entropy priv digest, lib.GenerateKey entropy = .ok priv → digest.length = 32 →
    ∃ sig, lib.Sign digest priv = .ok sig ∧ sig.length = 65 ∧
      lib.VerifySignature (lib.FromECDSAPub priv.PublicKey) digest (sig.take 64) = true

namespace ECDSAService

/-- The method `ECDSAService.GenerateKeyPair`. -/
def GenerateKeyPair (lib : EthCrypto) (entropy : Nat → Nat) : Except String PrivateKey :=
  match lib.GenerateKey entropy with
  | .error err => .error ("failed to generate key pair: " ++ err)
  | .ok privateKey => .ok privateKey

/-- The method `ECDSAService.Sign`. -/
def Sign (lib : EthCrypto) (privateKey : PrivateKey) (data : Bytes) : Except String Bytes :=
  let hash := lib.Sum256 data
  match lib.Sign hash privateKey with
  | .error err => .error ("failed to sign data: " ++ err)
  | .ok signature => .ok signature

/-- The method `ECDSAService.Verify`; `none` is the panic of `signature[:len(signature)-1]`
on an empty signature. -/
def Verify (lib : EthCrypto) (publicKey : PublicKey) (data : Bytes) (signature : Bytes) :
    Option Bool :=
  let hash := lib.Sum256 data
  if signature.length = 0 then none
  else some (lib.VerifySignature (lib.FromECDSAPub publicKey) hash
    (signature.take (signature.length - 1)))

/-- The method `(*big.Int).SetBytes`: the bytes read as a big-endian unsigned number. -/
def SetBytes (buf : Bytes) : Int :=
  (buf.foldl (fun acc b => acc * 256 + b) 0 : Nat)

/-- The big-endian bytes of a natural number without leading zero bytes, most significant
first, prepended to `acc`; `fuel` bounds the number of bytes. -/
def natBytes : Nat → Nat → Bytes → Bytes
  | 0, _, acc => acc
  | fuel + 1, n, acc =>
    if n = 0 then acc else natBytes fuel (n / 256) (n % 256 :: acc)

/-- The method `(*big.Int).Bytes`: the absolute value as a big-endian byte slice, empty
for 0. -/
def BigBytes (x : Int) : Bytes := natBytes x.natAbs x.natAbs []

/-- The builtin `copy(dst, src)`, as the contents of `dst` afterwards. -/
def copyInto (dst src : Bytes) : Bytes :=
  src.take dst.length ++ dst.drop src.length

/-- The method `ECDSAService.SignatureToRSV`. -/
def SignatureToRSV (signature : Bytes) : Except String (Int × Int × Nat) :=
  if signature.length ≠ 65 then
    .error ("invalid signature length: expected 65, got " ++ toString signature.length)
  else
    let r := SetBytes (signature.take 32)
    let s := SetBytes ((signature.drop 32).take 32)
    let v := signature.getD 64 0
    .ok (r, s, v)

/-- The method `ECDSAService.RSVToSignature`. -/
def RSVToSignature (r s : Int) (v : Nat) : Bytes :=
  let signature := List.replicate 65 0
  let signature1 := copyInto (signature.take 32) (BigBytes r) ++ signature.drop 32
  let signature2 := signature1.take 32 ++ copyInto ((signature1.drop 32).take 32) (BigBytes s)
    ++ signature1.drop 64
  signature2.set 64 v

end ECDSAService

/-- A field of a signature moved to the front of its 32 bytes: without its leading zero
bytes, and as many zero bytes appended. -/
def leftAligned (field : Bytes) : Bytes :=
  field.dropWhile (fun b => decide (b = 0)) ++
    List.replicate (field.takeWhile fun b => decide (b = 0)).length 0

/-- A 65-byte signature whose `r` field starts with a zero byte: `r = 1`, `s = 2`,
`v = 27`. -/
def demoRSV : Bytes :=
  List.replicate 31 0 ++ [1] ++ List.replicate 31 0 ++ [2] ++ [27]

/-- A stand-in library: the digest is 32 zero bytes, a signature is the digest twice and a
zero byte, and verification compares with that. -/
def demoLib : EthCrypto :=
  { Sum256 := fun _ => List.replicate 32 0
    GenerateKey := fun entropy => .ok { PublicKey := { X := entropy 0, Y := entropy 1 },
                                        D := entropy 2 }
    Sign := fun digest _ => .ok (digest ++ digest ++ [0])
    VerifySignature := fun _ digest sig => decide (sig = digest ++ digest)
    FromECDSAPub := fun publicKey => [4, publicKey.X, publicKey.Y] }

/-- What the library documents for `crypto.VerifySignature`: "the signature should have the
64 byte [R || S] format"; both of its implementations return false for any other
length. -/
def EthCrypto.ChecksLength (lib : EthCrypto) : Prop :=
  ∀ pubkey digest sig, sig.length ≠ 64 → lib.VerifySignature pubkey digest sig = false

/-- A stand-in library that checks lengths: the digest is 31 zero bytes and the sum of the
data bytes modulo 256, a signature is the digest twice and a zero byte, and verification
accepts exactly the 64 bytes that signing the digest yields. -/
def demoExact : EthCrypto :=
  { Sum256 := fun data => List.replicate 31 0 ++ [data.foldl (fun a b => a + b) 0 % 256]
    GenerateKey := fun entropy => .ok { PublicKey := { X := entropy 0, Y := entropy 1 },
                                        D := entropy 2 }
    Sign := fun digest _ => .ok (digest ++ digest ++ [0])
    VerifySignature := fun _ digest sig =>
      decide (sig.length = 64) && decide (sig = digest ++ digest)
    FromECDSAPub := fun publicKey => [4, publicKey.X, publicKey.Y] }

/-! ## services/crypto: hash.go -/

namespace HashService

/-- The method `HashService.SHA256`. -/
def SHA256 (lib : EthCrypto) (data : Bytes) : Bytes := lib.Sum256 data

/-- The method `HashService.MultiSHA256`: the blocks are written to one hasher in turn, and
`Sum` returns the digest of all that was written. -/
def MultiSHA256 (lib : EthCrypto) (data : List Bytes) : Bytes :=
  lib.Sum256 (data.foldl (fun written d => written ++ d) [])

/-- The method `HashService.HMACSHA256`. -/
def HMACSHA256 (lib : EthCrypto) (key data : Bytes) : Bytes :=
  let key1 := if key.length > 64 then SHA256 lib key else key
  let key2 := if key1.length < 64 then ECDSAService.copyInto (List.replicate 64 0) key1
    else key1
  let ipad := (List.range 64).map fun i => key2.getD i 0 ^^^ 0x36
  let opad := (List.range 64).map fun i => key2.getD i 0 ^^^ 0x5c
  let innerHash := MultiSHA256 lib [ipad, data]
  MultiSHA256 lib [opad, innerHash]

/-- The method `HashService.CompareHash`. -/
def CompareHash (hash1 hash2 : String) : Bool := decide (hash1 = hash2)

end HashService

/-- The HMAC construction as the specification words it, over a hash function `H` with a
64-byte block: K' is `H(key)` if the key is longer than 64 bytes and the key otherwise,
padded with zero bytes to 64 bytes; the result is
`H((K' xor 0x5c...) || H((K' xor 0x36...) || data))`. -/
def specHMAC (H : Bytes → Bytes) (key data : Bytes) : Bytes :=
  let k := if key.length > 64 then H key else key
  let padded := k ++ List.replicate (64 - k.length) 0
  H (padded.map (fun b => b ^^^ 0x5c) ++ H (padded.map (fun b => b ^^^ 0x36) ++ data))

/-! ## consensus/vrf-consensus: vrf.go -/

/-- The struct `types.Node` of the consensus engine, as far as `SelectProposer` reads it;
`Stake` is a `*big.Int` that is not nil. -/
structure Node where
  ID : String
  Address : String
  Stake : Int
  Status : String
  Role : String
  VRFKey : Bytes
deriving DecidableEq, Repr

def NodeStatusActive : String := "active"
def NodeStatusInactive : String := "inactive"

/-- The local struct `validatorScore` of `SelectProposer`. -/
structure validatorScore where
  nodeID : String
  score : Int
  stake : Int
deriving DecidableEq, Repr

namespace ConsensusVRF

/-- The method `VRFService.computeNodeVRFHash`; `sum256` is the digest that `sha256.New()`
computes of what is written to it. -/
def computeNodeVRFHash (sum256 : Bytes → Bytes) (vrfKey seed : Bytes) : Int :=
  ECDSAService.SetBytes (sum256 (vrfKey ++ seed))

/-- The first loop of `SelectProposer`: the scores of the active validators, in the order
of the validator list. `Div` of `big.Int` is Euclidean division. -/
def validatorScores (sum256 : Bytes → Bytes) (validators : List Node) (seed : Bytes)
    (totalStake : Int) : List validatorScore :=
  (validators.filter fun validator => decide (validator.Status = NodeStatusActive)).map
    fun validator =>
      let vrfHash := computeNodeVRFHash sum256 validator.VRFKey seed
      let stakeRatio := validator.Stake * 1000000 / totalStake
      { nodeID := validator.ID, score := vrfHash * stakeRatio, stake := validator.Stake }

/-- The second loop of `SelectProposer`, over `scores[1:]`, on the pair
`(maxScore, selectedNodeID)`. -/
def selectLoop (rest : List validatorScore) (start : Int × String) : Int × String :=
  rest.foldl (fun acc s => if s.score > acc.1 then (s.score, s.nodeID) else acc) start

/-- The method `VRFService.SelectProposer`; `none` is the nil `totalStake`. -/
def SelectProposer (sum256 : Bytes → Bytes) (validators : List Node) (seed : Bytes)
    (totalStake : Option Int) : Except String String :=
  if validators.length = 0 then .error "no validators available"
  else
    match totalStake with
    | none => .error "invalid total stake"
    | some total =>
      if total ≤ 0 then .error "invalid total stake"
      else
        match validatorScores sum256 validators seed total with
        | [] => .error "no active validators"
        | first :: rest => .ok (selectLoop rest (first.score, first.nodeID)).2

/-- The method `VRFService.CalculateProposerThreshold`; the first `none` is the nil
`totalStake`, the result `none` the panic of `Div` by a zero `targetProposers`. -/
def CalculateProposerThreshold (nodeStake : Int) (totalStake : Option Int)
    (targetProposers : Int) : Option Int :=
  match totalStake with
  | none => some 0
  | some total =>
    if total ≤ 0 then some 0
    else
      let stakeRatio := nodeStake * 1000000 / total
      let maxHash : Int := 1 * 2 ^ 256
      if targetProposers = 0 then none
      else
        let baseThreshold := maxHash / targetProposers
        let threshold := baseThreshold * stakeRatio
        some (threshold / 1000000)

end ConsensusVRF

/-- The threshold as the specification gives it:
`(2^256 * stake) / (total_stake * target_count)` in exact integer arithmetic. -/
def specProposerThreshold (stake totalStake targetCount : Int) : Int :=
  2 ^ 256 * stake / (totalStake * targetCount)

/-- A stand-in digest for `sha256`: 31 zero bytes and the sum of the bytes modulo 256. -/
def demoSum256 (data : Bytes) : Bytes :=
  List.replicate 31 0 ++ [data.foldl (fun a b => a + b) 0 % 256]

/-- An active validator with stake 10 and the VRF key 1, under a given id. -/
def demoValidator (id : String) : Node :=
  { ID := id, Address := id, Stake := 10, Status := NodeStatusActive, Role := "validator"
    VRFKey := [1] }

/-! ## Statistics of the manager and of the store -/

/-- The struct `types.ChannelStatistics` without its `float64` field `AverageLifetime`;
the counters are `int64` values that count objects held in memory. -/
structure ChannelStatistics where
  TotalChannels : Int
  ActiveChannels : Int
  ClosedChannels : Int
  ChannelsByState : List (String × Int)
  MessagesByType : List (String × Int)
  ParticipantStats : List (String × Int)
deriving DecidableEq, Repr

/-- The statement `m[k]++` on a map of counters; a key that is absent reads as 0. -/
def bump (k : String) (m : List (String × Int)) : List (String × Int) :=
  mapSet k ((mapGet k m).getD 0 + 1) m

/-- The read `m[k]` of a map of counters. -/
def counter (m : List (String × Int)) (k : String) : Int := (mapGet k m).getD 0

/-- The body of the loop over the channels in `GetStatistics`, without the lifetime sum. -/
def statsChannel (stats : ChannelStatistics) (channel : Channel) : ChannelStatistics :=
  let stats1 := { stats with ChannelsByState := bump channel.State stats.ChannelsByState }
  let stats2 :=
    if channel.State = StateOpen then
      { stats1 with ActiveChannels := stats1.ActiveChannels + 1 }
    else if channel.State = StateClosed then
      { stats1 with ClosedChannels := stats1.ClosedChannels + 1 }
    else stats1
  { stats2 with
    ParticipantStats :=
      channel.Participants.foldl (fun ps participant => bump participant.Role ps)
        stats2.ParticipantStats }

/-- The body shared by `Manager.GetStatistics` and `MemoryStore.GetStatistics`:
`visitedChannels` and `visitedMessages` are the entries of the two maps in the order in
which `range` yields them. -/
def statisticsOf (channels : List (String × Channel))
    (visitedChannels : List (String × Channel))
    (visitedMessages : List (String × List Message)) : ChannelStatistics :=
  let stats : ChannelStatistics :=
    { TotalChannels := channels.length, ActiveChannels := 0, ClosedChannels := 0
      ChannelsByState := [], MessagesByType := [], ParticipantStats := [] }
  let stats1 := visitedChannels.foldl (fun st kv => statsChannel st kv.2) stats
  { stats1 with
    MessagesByType :=
      visitedMessages.foldl
        (fun mt kv => kv.2.foldl (fun mt1 message => bump message.Typ mt1) mt)
        stats1.MessagesByType }

/-- The method `Manager.GetStatistics`; `order` and `orderMessages` are the orders in which
`range` visits the two maps. -/
def GetStatistics (order : List (String × Channel) → List (String × Channel))
    (orderMessages : List (String × List Message) → List (String × List Message))
    (m : Manager) : ChannelStatistics :=
  statisticsOf m.channels (order m.channels) (orderMessages m.messages)

/-- The method `MemoryStore.GetStatistics`. -/
def MemoryStore.GetStatistics (order : List (String × Channel) → List (String × Channel))
    (orderMessages : List (String × List Message) → List (String × List Message))
    (s : MemoryStore) : ChannelStatistics :=
  statisticsOf s.channels (order s.channels) (orderMessages s.messages)

/-- The number of (channel, participant) pairs of a role. -/
def roleCount (channels : List (String × Channel)) (role : String) : Nat :=
  (channels.map fun kv => kv.2.Participants.countP fun p => decide (p.Role = role)).sum

/-- The number of channels in a state. -/
def stateCount (channels : List (String × Channel)) (state : String) : Nat :=
  channels.countP fun kv => decide (kv.2.State = state)

/-- The consistency of a statistics value with a channel map: the total is the number of
channels and the sum of the per-state counters (a map with one entry per state), the
counter of a state is the number of channels in it, the active and closed counts are the
counters of Open and Closed, and the counter of a role is the number of
(channel, participant) pairs of that role. -/
def StatsConsistent (stats : ChannelStatistics) (channels : List (String × Channel)) : Prop :=
  stats.TotalChannels = channels.length ∧
  (stats.ChannelsByState.map Prod.snd).sum = stats.TotalChannels ∧
  (mapKeys stats.ChannelsByState).Nodup ∧
  (∀ state, counter stats.ChannelsByState state = stateCount channels state) ∧
  stats.ActiveChannels = counter stats.ChannelsByState StateOpen ∧
  stats.ClosedChannels = counter stats.ChannelsByState StateClosed ∧
  ∀ role, counter stats.ParticipantStats role = roleCount channels role

/-- Whether a call is a `CreateChannel`. -/
def isCreate : Op → Bool
  | .create _ _ _ => true
  | _ => false

/-- A request like `demoRequest` between two other participants. -/
def demoRequest2 : ChannelOpenRequest :=
  { ParticipantA := { demoStudent with Address := "0xStudent2", PublicKey := some ⟨5, 6⟩ }
    ParticipantB := { demoEmployer with Address := "0xEmployer2", PublicKey := some ⟨7, 8⟩ }
    InitialData := none, ExpiryHours := 24 }

/-- Primitives under which the participants of `demoRequest` and `demoRequest2` own their
addresses. -/
def demoCrypto2 : Crypto :=
  { pubkeyToAddressHex := fun k =>
      if k.X = 1 then "0xStudent" else if k.X = 3 then "0xEmployer"
      else if k.X = 5 then "0xStudent2" else "0xEmployer2"
    sigToAddressHex := fun _ _ => none }

/-- Surroundings like `demoEnv` in which `rand.Read` yields 16, 17, 18, ... -/
def demoEnv2 (now : Time) : Env :=
  { demoEnv now with idEntropy := some fun i => i + 16 }

/-- Two `CreateChannel` calls that draw different ids. -/
def demoCreates : List Op :=
  [.create demoCrypto2 (demoEnv 100) demoRequest, .create demoCrypto2 (demoEnv2 150) demoRequest2]

/-! ## consensus/vrf-consensus: engine.go -/

/-- A finite `float64`: the number `mantissa * 2 ^ exponent`. -/
structure Float64 where
  mantissa : Int
  exponent : Int
deriving DecidableEq, Repr

/-- The number of binary digits of a natural number; `fuel` bounds it. -/
def natBits : Nat → Nat → Nat
  | 0, _ => 0
  | fuel + 1, n => if n = 0 then 0 else natBits fuel (n / 2) + 1

/-- Rounding of `mantissa * 2 ^ exponent` to the nearest number with a 53-bit mantissa,
ties to the even mantissa, as every `float64` operation rounds its exact result. -/
def roundFloat64 (mantissa exponent : Int) : Float64 :=
  let a := mantissa.natAbs
  let bits := natBits a a
  if bits ≤ 53 then { mantissa := mantissa, exponent := exponent }
  else
    let shift := bits - 53
    let q := a / 2 ^ shift
    let r := a % 2 ^ shift
    let half := 2 ^ (shift - 1)
    let q1 := if r > half ∨ (r = half ∧ q % 2 = 1) then q + 1 else q
    { mantissa := if mantissa < 0 then -(q1 : Int) else (q1 : Int)
      exponent := exponent + (shift : Int) }

/-- The conversion `float64(n)` of an `int`. -/
def floatOfInt (n : Int) : Float64 := roundFloat64 n 0

/-- The product `x * y` of two `float64` values. -/
def floatMul (x y : Float64) : Float64 :=
  roundFloat64 (x.mantissa * y.mantissa) (x.exponent + y.exponent)

/-- The conversion `int(x)` of a `float64` whose value is in the range of `int`: the
fraction is cut off. -/
def floatToInt (x : Float64) : Int :=
  if x.exponent ≥ 0 then x.mantissa * 2 ^ x.exponent.toNat
  else Int.tdiv x.mantissa (2 ^ (-x.exponent).toNat)

/-- The struct `types.Vote`. -/
structure Vote where
  NodeID : String
  ProposalID : String
  VoteType : String
  Signature : Bytes
  Timestamp : Time
  Reason : String
deriving DecidableEq, Repr

def VoteTypeAccept : String := "accept"
def VoteTypeReject : String := "reject"
def VoteTypeAbstain : String := "abstain"

def ProposalStatusPending : String := "pending"
def ProposalStatusAccepted : String := "accepted"
def ProposalStatusRejected : String := "rejected"
def ProposalStatusTimeout : String := "timeout"

/-- The struct `types.Block`, as far as the engine reads it when it finalizes a block. -/
structure Block where
  Height : Nat
  Hash : String
  PrevHash : String
  Proposer : String
deriving DecidableEq, Repr

/-- The struct `types.Proposal` without its VRF proof. -/
structure Proposal where
  ID : String
  Height : Nat
  Block : Block
  Proposer : String
  Timestamp : Time
  Votes : List Vote
  Status : String
deriving DecidableEq, Repr

/-- The struct `Engine`, as far as `Vote` reads and writes it: of `config` the voting
threshold, of `state` the height, the hash and the number of active nodes, of `currentNode`
the id. The event channel is left out. -/
structure Engine where
  VotingThreshold : Float64
  CurrentHeight : Nat
  CurrentHash : String
  ActiveNodes : Int
  currentNodeID : String
  proposals : List (String × Proposal)
  blocks : List Block
deriving DecidableEq, Repr

namespace Engine

/-- The local `threshold` of `checkVotingThreshold`:
`int(float64(e.state.ActiveNodes) * e.config.VotingThreshold)`. -/
def votingThreshold (e : Engine) : Int :=
  floatToInt (floatMul (floatOfInt e.ActiveNodes) e.VotingThreshold)

/-- The method `Engine.finalizeBlock`. -/
def finalizeBlock (e : Engine) (block : Block) : Engine :=
  { e with blocks := e.blocks ++ [block], CurrentHeight := block.Height
           CurrentHash := block.Hash }

/-- The method `Engine.checkVotingThreshold` on the proposal stored under an id. -/
def checkVotingThreshold (e : Engine) (proposalID : String) (proposal : Proposal) : Engine :=
  let acceptVotes : Int :=
    (proposal.Votes.countP fun vote => decide (vote.VoteType = VoteTypeAccept) : Nat)
  let rejectVotes : Int :=
    (proposal.Votes.countP fun vote => decide (vote.VoteType = VoteTypeReject) : Nat)
  let threshold := votingThreshold e
  if acceptVotes ≥ threshold then
    finalizeBlock
      { e with proposals :=
          mapSet proposalID { proposal with Status := ProposalStatusAccepted } e.proposals }
      proposal.Block
  else if rejectVotes ≥ threshold then
    { e with proposals :=
        mapSet proposalID { proposal with Status := ProposalStatusRejected } e.proposals }
  else { e with proposals := mapSet proposalID proposal e.proposals }

/-- The method `Engine.Vote`; `now` is its reading of the clock and `sign` the signing of
the vote hash with the key of the current node. -/
def Vote (sign : StateChannels.Vote → Except String Bytes) (now : Time) (e : Engine)
    (proposalID : String)
    (voteType : String) (reason : String) : Option String × Engine :=
  match mapGet proposalID e.proposals with
  | none => (some ("proposal not found: " ++ proposalID), e)
  | some proposal =>
    if proposal.Status ≠ ProposalStatusPending then
      (some ("proposal is not pending: " ++ proposal.Status), e)
    else if proposal.Votes.any fun vote => decide (vote.NodeID = e.currentNodeID) then
      (some "already voted for this proposal", e)
    else
      let vote : StateChannels.Vote :=
        { NodeID := e.currentNodeID, ProposalID := proposalID, VoteType := voteType
          Signature := [], Timestamp := now, Reason := reason }
      match sign vote with
      | .error err => (some ("failed to sign vote: " ++ err), e)
      | .ok signature =>
        let vote1 := { vote with Signature := signature }
        (none, checkVotingThreshold e proposalID
          { proposal with Votes := proposal.Votes ++ [vote1] })

end Engine

/-- The `float64` nearest to 0.67. -/
def float067 : Float64 := { mantissa := 6034823500676465, exponent := -53 }

/-- A pending proposal for the block of height 1, without votes. -/
def demoProposal : Proposal :=
  { ID := "proposal_1_0xabcdef", Height := 1
    Block := { Height := 1, Hash := "0xabcdef12", PrevHash := "", Proposer := "node1" }
    Proposer := "node1", Timestamp := 50, Votes := [], Status := ProposalStatusPending }

/-- An engine as `NewEngine` makes it (one active node, height 0) with the voting threshold
0.67 and the pending proposal `demoProposal`. -/
def demoEngine : Engine :=
  { VotingThreshold := float067, CurrentHeight := 0, CurrentHash := "", ActiveNodes := 1
    currentNodeID := "node1", proposals := [("proposal_1_0xabcdef", demoProposal)]
    blocks := [] }

/-! ## services/crypto: vrf.go -/

/-- What `ecdsa.go` reads of the curve `secp256k1.S256()`: the order `N` of its group and
the test `IsOnCurve`. -/
structure S256 where
  N : Nat
  IsOnCurve : Nat → Nat → Bool

/-- The method `ECDSAService.ValidatePrivateKey` on a key that is not nil. -/
def ECDSAService.ValidatePrivateKey (curve : S256) (privateKey : PrivateKey) : Option String :=
  if privateKey.D ≤ 0 then some "invalid private key: D component is nil or non-positive"
  else if privateKey.D ≥ curve.N then
    some "invalid private key: D component exceeds curve order"
  else none

/-- The method `ECDSAService.ValidatePublicKey` on a key that is not nil. -/
def ECDSAService.ValidatePublicKey (curve : S256) (publicKey : PublicKey) : Option String :=
  if !curve.IsOnCurve publicKey.X publicKey.Y then
    some "invalid public key: point is not on curve"
  else none

/-- The statement `copy(buf[lo:hi], src)`, as the contents of `buf` afterwards. -/
def copyAt (buf : Bytes) (lo hi : Nat) (src : Bytes) : Bytes :=
  buf.take lo ++ ECDSAService.copyInto ((buf.drop lo).take (hi - lo)) src ++ buf.drop hi

/-- The struct `VRFProof` of `services/crypto`. -/
structure VRFProof where
  Value : Bytes
  Proof : Bytes
deriving DecidableEq, Repr

namespace VRFService

/-- The method `VRFService.constructProof`; `none` is the panic of a slice expression
`proof[32-len(rBytes):32]` or `proof[64-len(sBytes):64]` with a negative bound. -/
def constructProof (r s : Int) (v : Nat) (seedHash : Bytes) : Option Bytes :=
  let proof := List.replicate 97 0
  let rBytes := ECDSAService.BigBytes r
  if rBytes.length > 32 then none
  else
    let proof1 := copyAt proof (32 - rBytes.length) 32 rBytes
    let sBytes := ECDSAService.BigBytes s
    if sBytes.length > 64 then none
    else
      let proof2 := copyAt proof1 (64 - sBytes.length) 64 sBytes
      let proof3 := proof2.set 64 v
      some (copyAt proof3 65 97 seedHash)

/-- The method `VRFService.parseProof`. -/
def parseProof (proof : Bytes) : Except String (Int × Int × Nat × Bytes) :=
  if proof.length ≠ 97 then
    .error ("invalid proof length: expected 97, got " ++ toString proof.length)
  else
    let r := ECDSAService.SetBytes (proof.take 32)
    let s := ECDSAService.SetBytes ((proof.drop 32).take 32)
    let v := proof.getD 64 0
    let seedHash := ECDSAService.copyInto (List.replicate 32 0) ((proof.drop 65).take 32)
    .ok (r, s, v, seedHash)

/-- The method `VRFService.Generate`; `none` is a panic. -/
def Generate (lib : EthCrypto) (curve : S256) (privateKey : PrivateKey) (seed : Bytes) :
    Option (Except String VRFProof) :=
  match ECDSAService.ValidatePrivateKey curve privateKey with
  | some err => some (.error ("invalid private key: " ++ err))
  | none =>
    let seedHash := HashService.SHA256 lib seed
    match ECDSAService.Sign lib privateKey seedHash with
    | .error err => some (.error ("failed to sign seed hash: " ++ err))
    | .ok signature =>
      match ECDSAService.SignatureToRSV signature with
      | .error err => some (.error ("failed to extract RSV from signature: " ++ err))
      | .ok (r, s_val, v) =>
        let rBytes := ECDSAService.BigBytes r
        let vrfValue := HashService.MultiSHA256 lib [rBytes, seed]
        match constructProof r s_val v seedHash with
        | none => none
        | some proof => some (.ok { Value := vrfValue, Proof := proof })

/-- The method `VRFService.Verify`: the pair of its results; `none` is a panic. -/
def Verify (lib : EthCrypto) (curve : S256) (publicKey : PublicKey) (seed value proof : Bytes) :
    Option (Bool × Option String) :=
  match ECDSAService.ValidatePublicKey curve publicKey with
  | some err => some (false, some ("invalid public key: " ++ err))
  | none =>
    match parseProof proof with
    | .error err => some (false, some ("failed to parse proof: " ++ err))
    | .ok (r, s_val, v, seedHash) =>
      let expectedSeedHash := HashService.SHA256 lib seed
      if !HashService.CompareHash (hexEncodeToString seedHash)
          (hexEncodeToString expectedSeedHash) then
        some (false, some "seed hash mismatch")
      else
        let signature := ECDSAService.RSVToSignature r s_val v
        match ECDSAService.Verify lib publicKey seedHash signature with
        | none => none
        | some false => some (false, some "signature verification failed")
        | some true =>
          let rBytes := ECDSAService.BigBytes r
          let expectedValue := HashService.MultiSHA256 lib [rBytes, seed]
          if !HashService.CompareHash (hexEncodeToString value)
              (hexEncodeToString expectedValue) then
            some (false, some "VRF value mismatch")
          else some (true, none)

end VRFService

/-- A stand-in curve: group order 1000, every point counts as on the curve. -/
def demoCurve : S256 := { N := 1000, IsOnCurve := fun _ _ => true }

/-- A stand-in private key. -/
def demoKey : PrivateKey := { PublicKey := { X := 1, Y := 2 }, D := 5 }

/-- One step of reading a decimal numeral from the left, the inverse of the `%d` verb. -/
def readStep (acc : Nat) (c : Char) : Nat := 10 * acc + (c.toNat - 48)

/-- Two messages with ids and channel ids that contain the separator. -/
def demoMessageA : Message :=
  { ID := "a_b", ChannelID := "c", Typ := MsgTypeDispute, From := "0x01", To := "0x02",
    Data := [], Nonce := 7, Timestamp := 0, Signature := ⟨"", "", "", "", ""⟩ }

def demoMessageB : Message :=
  { ID := "a", ChannelID := "b_c", Typ := MsgTypeDispute, From := "0x01", To := "0x02",
    Data := [], Nonce := 7, Timestamp := 0, Signature := ⟨"", "", "", "", ""⟩ }

/-- Two state updates whose timestamps lie half a second apart within one second. -/
def demoUpdateA : StateUpdate :=
  { ChannelID := "c", Nonce := 1, Data := [], Timestamp := 5000000000, Signatures := [] }

def demoUpdateB : StateUpdate :=
  { ChannelID := "c", Nonce := 1, Data := [], Timestamp := 5500000000, Signatures := [] }

/-! ## services/merkle: tree.go -/

/-- A `*types.MerkleNode`; `nil` is the nil pointer. -/
inductive MerkleNode where
  | nil : MerkleNode
  | node (Hash : String) (Left Right : MerkleNode) (IsLeaf : Bool) (Data : String) : MerkleNode
deriving DecidableEq, Repr

structure MerkleTree where
  Root : MerkleNode
  Leaves : List String
  Height : Int
deriving DecidableEq, Repr

structure MerkleProof where
  LeafHash : String
  LeafIndex : Int
  Proof : List String
  Directions : List Bool
  Root : String
deriving DecidableEq, Repr

/-- The field read `node.Hash`; `none` is the dereference of the nil pointer. -/
def MerkleNode.Hash : MerkleNode → Option String
  | .nil => none
  | .node h _ _ _ _ => some h

namespace MerkleService

/-- The method `calculateHeight`; `math.Max` on the two heights is their maximum. -/
def calculateHeight : MerkleNode → Int
  | .nil => 0
  | .node _ left right isLeaf _ =>
    if isLeaf then 1 else max (calculateHeight left) (calculateHeight right) + 1

/-- The pairing loop of `buildTreeRecursive` over `nodes[i:]` for an even `i`: the last
node of an odd level is paired with a fresh copy of its hash, leaf flag and data. `none`
is the dereference of a nil node. -/
def buildLevel (hash : String → String) : List MerkleNode → Option (List MerkleNode)
  | [] => some []
  | [left] =>
    match left with
    | .nil => none
    | .node h _ _ isLeaf d =>
      some [.node (hash (h ++ h)) left (.node h .nil .nil isLeaf d) false ""]
  | left :: right :: rest =>
    match left.Hash, right.Hash, buildLevel hash rest with
    | some lh, some rh, some nextLevel =>
      some (.node (hash (lh ++ rh)) left right false "" :: nextLevel)
    | _, _, _ => none

/-- The method `buildTreeRecursive`; the fuel bounds the depth of the recursion, and `none`
is a run-time panic or the end of the fuel. -/
def buildTreeRecursive (hash : String → String) : Nat → List MerkleNode → Option MerkleNode
  | 0, _ => none
  | fuel + 1, nodes =>
    if nodes.length = 1 then nodes.head?
    else (buildLevel hash nodes).bind (buildTreeRecursive hash fuel)

/-- The method `BuildTree`; `hash` is `MerkleService.hash`, the hex string of the SHA-256
digest. -/
def BuildTree (hash : String → String) (fuel : Nat) (data : List String) :
    Option (Except String MerkleTree) :=
  if data.length = 0 then some (.error "data cannot be empty")
  else
    let leaves := data.map fun item => MerkleNode.node (hash item) .nil .nil true item
    match buildTreeRecursive hash fuel leaves with
    | none => none
    | some root => some (.ok { Root := root, Leaves := data, Height := calculateHeight root })

/-- The method `collectLeaves`, with the slice behind the pointer passed through. -/
def collectLeaves : MerkleNode → List MerkleNode → List MerkleNode
  | .nil, leaves => leaves
  | .node h left right isLeaf d, leaves =>
    if isLeaf then leaves ++ [.node h left right isLeaf d]
    else collectLeaves right (collectLeaves left leaves)

/-- The method `getLeafNodes`. -/
def getLeafNodes (tree : MerkleTree) : List MerkleNode := collectLeaves tree.Root []

/-- The loop of `getParentLevel` over `currentLevel[i:]` for an even `i`: the last node of
an odd level is paired with itself. -/
def parentLoop (hash : String → String) : List MerkleNode → Option (List MerkleNode)
  | [] => some []
  | [left] =>
    match left.Hash with
    | some lh => some [.node (hash (lh ++ lh)) left left false ""]
    | none => none
  | left :: right :: rest =>
    match left.Hash, right.Hash, parentLoop hash rest with
    | some lh, some rh, some parentLevel =>
      some (.node (hash (lh ++ rh)) left right false "" :: parentLevel)
    | _, _, _ => none

/-- The method `getParentLevel`. -/
def getParentLevel (hash : String → String) (currentLevel : List MerkleNode) :
    Option (List MerkleNode) :=
  if currentLevel.length ≤ 1 then some currentLevel else parentLoop hash currentLevel

/-- The sibling hash and direction that one round of the loop of `GenerateProofByIndex`
appends; `none` is an index out of range or the dereference of nil. An odd index is at
least 1, so `currentIndex - 1` is the subtraction of the code. -/
def sibling (currentIndex : Nat) (currentLevel : List MerkleNode) : Option (String × Bool) :=
  if currentIndex % 2 = 0 then
    if currentIndex + 1 < currentLevel.length then
      ((currentLevel.get? (currentIndex + 1)).bind MerkleNode.Hash).map fun h => (h, true)
    else ((currentLevel.get? currentIndex).bind MerkleNode.Hash).map fun h => (h, true)
  else ((currentLevel.get? (currentIndex - 1)).bind MerkleNode.Hash).map fun h => (h, false)

/-- The loop `for len(currentLevel) > 1` of `GenerateProofByIndex`; the fuel bounds the
number of rounds. -/
def proofLoop (hash : String → String) :
    Nat → Nat → List MerkleNode → List String → List Bool → Option (List String × List Bool)
  | 0, _, _, _, _ => none
  | fuel + 1, currentIndex, currentLevel, proof, directions =>
    if currentLevel.length > 1 then
      match sibling currentIndex currentLevel, getParentLevel hash currentLevel with
      | some (siblingHash, isRight), some parentLevel =>
        proofLoop hash fuel (currentIndex / 2) parentLevel (proof ++ [siblingHash])
          (directions ++ [isRight])
      | _, _ => none
    else some (proof, directions)

/-- The method `GenerateProofByIndex`. -/
def GenerateProofByIndex (hash : String → String) (fuel : Nat) (tree : MerkleTree)
    (leafIndex : Int) : Option (Except String MerkleProof) :=
  if leafIndex < 0 ∨ leafIndex ≥ tree.Leaves.length then
    some (.error ("invalid leaf index: " ++ toString leafIndex))
  else
    match tree.Leaves.get? leafIndex.toNat,
      proofLoop hash fuel leafIndex.toNat (getLeafNodes tree) [] [], tree.Root.Hash with
    | some leaf, some (proof, directions), some root =>
      some (.ok { LeafHash := hash leaf, LeafIndex := leafIndex, Proof := proof,
                  Directions := directions, Root := root })
    | _, _, _ => none

/-- The loop of `VerifyProof` over `proof.Proof` and `proof.Directions`, which have the
same length when it runs. -/
def verifyLoop (hash : String → String) : String → List String → List Bool → String
  | currentHash, siblingHash :: proof, direction :: directions =>
    verifyLoop hash
      (if direction then hash (currentHash ++ siblingHash) else hash (siblingHash ++ currentHash))
      proof directions
  | currentHash, _, _ => currentHash

/-- The method `VerifyProof`. -/
def VerifyProof (hash : String → String) (proof : MerkleProof) : Bool :=
  if proof.Proof.length ≠ proof.Directions.length then false
  else verifyLoop hash proof.LeafHash proof.Proof proof.Directions == proof.Root

end MerkleService

/-- The hash stored in a node, the empty string for nil. -/
def nodeHash : MerkleNode → String
  | .nil => ""
  | .node h _ _ _ _ => h

/-- The hashes of the level above a level of hashes. -/
def levelUp (hash : String → String) : List String → List String
  | [] => []
  | [a] => [hash (a ++ a)]
  | a :: b :: rest => hash (a ++ b) :: levelUp hash rest

/-- A level with the last element repeated when its length is odd. -/
def padOdd {α : Type} : List α → List α
  | [] => []
  | [a] => [a, a]
  | a :: b :: rest => a :: b :: padOdd rest

/-- The hash `t` is what pairing up the level `hs` again and again ends in. -/
inductive IsTop (hash : String → String) : List String → String → Prop where
  | single (h : String) : IsTop hash [h] h
  | step (hs : List String) (t : String) : hs.length ≠ 1 → IsTop hash (levelUp hash hs) t →
      IsTop hash hs t

/-- The leaf nodes below the nodes of a level, from left to right. -/
def leavesOfLevel : List MerkleNode → List MerkleNode
  | [] => []
  | x :: xs => MerkleService.collectLeaves x [] ++ leavesOfLevel xs

/-- A stand-in for the hash of the Merkle service. -/
def demoHash (s : String) : String := "h(" ++ s ++ ")"

/-- A store that holds the open channel of the test, saved through `SaveChannel`. -/
def demoStore : MemoryStore :=
  (MemoryStore.SaveChannel MemoryStore.NewMemoryStore (some (demoChannel StateOpen 0))).2

/-- The instant one nanosecond after the expires-at of the channel of the test. -/
def demoLate : Time := 172800000000101

/-! ## Byte strings handed to the signature check -/

/-- The bytes `[]byte(s)` of a Go string: its UTF-8 encoding. -/
def stringBytes (s : String) : List Nat :=
  (s.toList.flatMap String.utf8EncodeChar).map UInt8.toNat

/-- The 8 big-endian bytes of a 64-bit value. -/
def be64 (n : Nat) : List Nat := (List.range 8).map fun i => n / 256 ^ (7 - i) % 256

/-- A signed 64-bit value as the unsigned value with the same bits. -/
def toUint64 (x : Int) : Nat := (x % 2 ^ 64).toNat

/-- The layout of the spec for a state update:
`channel_id ‖ 0x1f ‖ nonce_u64_be ‖ 0x1f ‖ timestamp_unix_s_i64_be`. -/
def specStateUpdateBytes (update : StateUpdate) : List Nat :=
  stringBytes update.ChannelID ++ 0x1f :: (be64 update.Nonce ++
    0x1f :: be64 (toUint64 (update.Timestamp / 1000000000)))

/-- The layout of the spec for a message:
`id ‖ 0x1f ‖ channel_id ‖ 0x1f ‖ from ‖ 0x1f ‖ to ‖ 0x1f ‖ nonce_u64_be ‖ 0x1f ‖ type`. -/
def specMessageBytes (message : Message) : List Nat :=
  stringBytes message.ID ++ 0x1f :: (stringBytes message.ChannelID ++
    0x1f :: (stringBytes message.From ++ 0x1f :: (stringBytes message.To ++
      0x1f :: (be64 message.Nonce ++ 0x1f :: stringBytes message.Typ))))

/-! ## Lemmas on maps -/

theorem mapGet_mapSet_self {α : Type} (k : String) (v : α) (l : List (String × α)) :
    mapGet k (mapSet k v l) = some v := by
  induction l with
  | nil => simp [mapSet, mapGet]
  | cons hd tl ih =>
    obtain ⟨k', v'⟩ := hd
    by_cases h : k' = k
    · simp [mapSet, mapGet, h]
    · simp [mapSet, mapGet, h, ih]

theorem mapGet_mapSet_ne {α : Type} (k k' : String) (v : α) (l : List (String × α))
    (hne : k' ≠ k) : mapGet k' (mapSet k v l) = mapGet k' l := by
  induction l with
  | nil => simp [mapSet, mapGet, Ne.symm hne]
  | cons hd tl ih =>
    obtain ⟨k'', v''⟩ := hd
    by_cases h : k'' = k
    · subst h
      simp [mapSet, mapGet, Ne.symm hne]
    · by_cases h2 : k'' = k'
      · subst h2
        simp [mapSet, mapGet, hne]
      · simp [mapSet, mapGet, h, h2, ih]

/-! ## Case analyses of the manager operations -/

theorem verifySignature_eq_none_iff (channel : Channel) (signature : Signature) :
    verifySignature channel signature = none ↔
      signature.Signature ≠ "" ∧
        ∃ p ∈ channel.Participants, p.Address = signature.Address := by
  unfold verifySignature
  by_cases hempty : signature.Signature = ""
  · simp [hempty]
  · by_cases hany : channel.Participants.any
        (fun participant => decide (participant.Address = signature.Address)) = true
    · simp only [hempty, hany, if_true, if_false, true_iff]
      refine ⟨hempty, ?_⟩
      simpa using hany
    · simp only [hempty, hany, if_false]
      constructor
      · intro h; cases h
      · intro h
        exact absurd (by simpa using h.2) hany

theorem UpdateState_cases (env : Env) (m : Manager) (channelID : String) (data : DataMap)
    (signature : Signature) :
    (mapGet channelID m.channels = none ∧
      UpdateState env m channelID data signature = (.error "channel not found", m)) ∨
    (∃ channel, mapGet channelID m.channels = some channel ∧
      ((channel.State ≠ StateOpen ∧
          UpdateState env m channelID data signature = (.error "channel is not open", m)) ∨
       (channel.State = StateOpen ∧ env.now 0 > channel.ExpiresAt ∧
          UpdateState env m channelID data signature = (.error "channel has expired", m)) ∨
       (channel.State = StateOpen ∧ ¬ env.now 0 > channel.ExpiresAt ∧
          ∃ e, verifySignature channel signature = some e ∧
          UpdateState env m channelID data signature =
            (.error ("invalid signature: " ++ e), m)) ∨
       (channel.State = StateOpen ∧ ¬ env.now 0 > channel.ExpiresAt ∧
          verifySignature channel signature = none ∧ mergeData channel.Data data = none ∧
          UpdateState env m channelID data signature =
            (.panic "assignment to entry in nil map",
              { m with channels := (mapSet channelID
                  { channel with Nonce := (channel.Nonce + 1) % 2 ^ 64 } m.channels) })) ∨
       (channel.State = StateOpen ∧ ¬ env.now 0 > channel.ExpiresAt ∧
          verifySignature channel signature = none ∧
          ∃ merged, mergeData channel.Data data = some merged ∧
          UpdateState env m channelID data signature =
            (.ok, updatedManager env m channelID data signature channel merged)))) := by
  cases hget : mapGet channelID m.channels with
  | none => left; simp [UpdateState, hget]
  | some channel =>
    right
    refine ⟨channel, rfl, ?_⟩
    by_cases hopen : channel.State = StateOpen
    · by_cases hexp : env.now 0 > channel.ExpiresAt
      · right; left
        exact ⟨hopen, hexp, by simp [UpdateState, hget, hopen, hexp]⟩
      · cases hsig : verifySignature channel signature with
        | some e =>
          right; right; left
          exact ⟨hopen, hexp, e, rfl, by simp [UpdateState, hget, hopen, hexp, hsig]⟩
        | none =>
          cases hmerge : mergeData channel.Data data with
          | none =>
            right; right; right; left
            exact ⟨hopen, hexp, rfl, rfl, by simp [UpdateState, hget, hopen, hexp, hsig, hmerge]⟩
          | some merged =>
            right; right; right; right
            exact ⟨hopen, hexp, rfl, merged, rfl,
              by simp [UpdateState, hget, hopen, hexp, hsig, hmerge, updatedManager, updatedChannel]⟩
    · left
      exact ⟨hopen, by simp [UpdateState, hget, hopen]⟩

/-- A successful `UpdateState` found an open, unexpired channel and a signature that
`verifySignature` lets through, and leaves `updatedManager` behind. -/
theorem UpdateState_ok_inv (env : Env) (m : Manager) (channelID : String) (data : DataMap)
    (signature : Signature)
    (hok : (UpdateState env m channelID data signature).1 = Outcome.ok) :
    ∃ channel merged, mapGet channelID m.channels = some channel ∧
      channel.State = StateOpen ∧ ¬ env.now 0 > channel.ExpiresAt ∧
      verifySignature channel signature = none ∧
      mergeData channel.Data data = some merged ∧
      UpdateState env m channelID data signature =
        (.ok, updatedManager env m channelID data signature channel merged) := by
  rcases UpdateState_cases env m channelID data signature with
    ⟨_, h⟩ | ⟨channel, hget, ⟨_, h⟩ | ⟨_, _, h⟩ | ⟨_, _, _, _, h⟩ | ⟨_, _, _, _, h⟩ |
      ⟨hopen, hexp, hsig, merged, hmerge, h⟩⟩
  · rw [h] at hok; cases hok
  · rw [h] at hok; cases hok
  · rw [h] at hok; cases hok
  · rw [h] at hok; cases hok
  · rw [h] at hok; cases hok
  · exact ⟨channel, merged, hget, hopen, hexp, hsig, hmerge, h⟩

theorem updatedManager_get (env : Env) (m : Manager) (channelID : String) (data : DataMap)
    (signature : Signature) (channel : Channel) (merged : Option DataMap) :
    mapGet channelID (updatedManager env m channelID data signature channel merged).channels =
      some (updatedChannel env channel merged) := by
  simp [updatedManager, addEvent, mapGet_mapSet_self]

theorem AcceptChannel_cases (env : Env) (m : Manager) (channelID : String)
    (signature : Signature) :
    (mapGet channelID m.channels = none ∧
      AcceptChannel env m channelID signature = (.error "channel not found", m)) ∨
    (∃ channel, mapGet channelID m.channels = some channel ∧
      ((channel.State ≠ StateOpening ∧
          AcceptChannel env m channelID signature =
            (.error "channel is not in opening state", m)) ∨
       (channel.State = StateOpening ∧ ∃ e, verifySignature channel signature = some e ∧
          AcceptChannel env m channelID signature =
            (.error ("invalid signature: " ++ e), m)) ∨
       (channel.State = StateOpening ∧ verifySignature channel signature = none ∧
          AcceptChannel env m channelID signature =
            (.ok, addEvent env
              { m with channels := (mapSet channelID
                  { channel with State := StateOpen, UpdatedAt := env.now 0 } m.channels) }
              channelID "channel_accepted" (.accepted signature))))) := by
  cases hget : mapGet channelID m.channels with
  | none => left; simp [AcceptChannel, hget]
  | some channel =>
    right
    refine ⟨channel, rfl, ?_⟩
    by_cases hopening : channel.State = StateOpening
    · cases hsig : verifySignature channel signature with
      | some e =>
        right; left
        exact ⟨hopening, e, rfl, by simp [AcceptChannel, hget, hopening, hsig]⟩
      | none =>
        right; right
        exact ⟨hopening, rfl, by simp [AcceptChannel, hget, hopening, hsig]⟩
    · left
      exact ⟨hopening, by simp [AcceptChannel, hget, hopening]⟩

theorem CloseChannel_cases (env : Env) (m : Manager) (channelID : String)
    (signature : Signature) (force : Bool) :
    (mapGet channelID m.channels = none ∧
      CloseChannel env m channelID signature force = (.error "channel not found", m)) ∨
    (∃ channel, mapGet channelID m.channels = some channel ∧
      ((channel.State = StateClosed ∧
          CloseChannel env m channelID signature force =
            (.error "channel is already closed", m)) ∨
       (channel.State ≠ StateClosed ∧ force = false ∧
          ∃ e, verifySignature channel signature = some e ∧
          CloseChannel env m channelID signature force =
            (.error ("invalid signature: " ++ e), m)) ∨
       (channel.State ≠ StateClosed ∧
          (force = true ∨ verifySignature channel signature = none) ∧
          CloseChannel env m channelID signature force =
            (.ok, addEvent env
              { m with channels := (mapSet channelID
                  { channel with State := if force then StateClosed else StateClosing,
                                 UpdatedAt := env.now 0 } m.channels) }
              channelID "channel_closing" (.closing force signature))))) := by
  cases hget : mapGet channelID m.channels with
  | none => left; simp [CloseChannel, hget]
  | some channel =>
    right
    refine ⟨channel, rfl, ?_⟩
    by_cases hclosed : channel.State = StateClosed
    · left
      exact ⟨hclosed, by simp [CloseChannel, hget, hclosed]⟩
    · cases force with
      | true =>
        right; right
        exact ⟨hclosed, Or.inl rfl, by simp [CloseChannel, hget, hclosed]⟩
      | false =>
        cases hsig : verifySignature channel signature with
        | some e =>
          right; left
          exact ⟨hclosed, rfl, e, rfl, by simp [CloseChannel, hget, hclosed, hsig]⟩
        | none =>
          right; right
          exact ⟨hclosed, Or.inr rfl, by simp [CloseChannel, hget, hclosed, hsig]⟩

theorem AddMessage_cases (env : Env) (m : Manager) (message : Message) :
    (mapGet message.ChannelID m.channels = none ∧
      AddMessage env m message = (.error "channel not found", m)) ∨
    (∃ channel, mapGet message.ChannelID m.channels = some channel ∧
      ((channel.State ≠ StateOpen ∧
          AddMessage env m message = (.error "channel is not open", m)) ∨
       (channel.State = StateOpen ∧ ∃ e, verifyMessageSignature message = some e ∧
          AddMessage env m message = (.error ("invalid message signature: " ++ e), m)) ∨
       (channel.State = StateOpen ∧ verifyMessageSignature message = none ∧
          AddMessage env m message =
            (.ok, addEvent env
              { m with messages := (mapSet message.ChannelID
                  ((mapGet message.ChannelID m.messages).getD [] ++ [message]) m.messages) }
              message.ChannelID "message_added"
              (.messageAdded message.ID message.Typ message.From message.To))))) := by
  cases hget : mapGet message.ChannelID m.channels with
  | none => left; simp [AddMessage, hget]
  | some channel =>
    right
    refine ⟨channel, rfl, ?_⟩
    by_cases hopen : channel.State = StateOpen
    · cases hsig : verifyMessageSignature message with
      | some e =>
        right; left
        exact ⟨hopen, e, rfl, by simp [AddMessage, hget, hopen, hsig]⟩
      | none =>
        right; right
        exact ⟨hopen, rfl, by simp [AddMessage, hget, hopen, hsig]⟩
    · left
      exact ⟨hopen, by simp [AddMessage, hget, hopen]⟩

theorem CreateChannel_cases (c : Crypto) (env : Env) (m : Manager) (req : ChannelOpenRequest) :
    (∃ e, CreateChannel c env m req = (.error e, m)) ∨
    (∃ channelID, generateChannelID env.idEntropy = some channelID ∧
      ValidateChannelCreation c req = none ∧ GetChannelCount m < m.config.MaxChannels ∧
      CreateChannel c env m req =
        (.ok (newChannel env m req channelID),
          addEvent env (SaveChannel m (newChannel env m req channelID)) channelID
            "channel_created"
            (.created [req.ParticipantA, req.ParticipantB]
              (newChannel env m req channelID).ExpiresAt))) := by
  cases hval : ValidateChannelCreation c req with
  | some e => left; exact ⟨"validation failed: " ++ e, by simp [CreateChannel, hval]⟩
  | none =>
    by_cases hcount : GetChannelCount m ≥ m.config.MaxChannels
    · left
      exact ⟨"maximum number of channels reached", by simp [CreateChannel, hval, hcount]⟩
    · cases hid : generateChannelID env.idEntropy with
      | none =>
        left
        exact ⟨"failed to generate channel ID", by simp [CreateChannel, hval, hcount, hid]⟩
      | some channelID =>
        right
        refine ⟨channelID, rfl, rfl, by simpa using hcount, ?_⟩
        simp [CreateChannel, hval, hcount, hid, newChannel]

/-! ## Nonce progression (C1, C2) -/

/-- C1 (as stated, refuted): on the open channel whose nonce is the largest `uint64`,
`UpdateState` succeeds and the nonce afterwards is 0, not the nonce before plus 1. -/
theorem UpdateState_nonce_wraps_at_max :
    (UpdateState (demoEnv 300) demoOpenMaxNonce demoID demoPatch
        (demoSignature "0xEmployer" "test_update_signature")).1 = Outcome.ok ∧
    nonceOf demoOpenMaxNonce demoID = some 18446744073709551615 ∧
    nonceOf (UpdateState (demoEnv 300) demoOpenMaxNonce demoID demoPatch
        (demoSignature "0xEmployer" "test_update_signature")).2 demoID = some 0 := by
  decide

/-- C1 (amended): after a successful `UpdateState` the channel's nonce is the nonce before
plus 1 reduced modulo `2 ^ 64`; it is the nonce before plus 1 whenever that fits in 64 bits,
and it is 1 when the nonce before was 0, as on a freshly accepted channel. -/
theorem UpdateState_nonce_succ_mod (env : Env) (m : Manager) (channelID : String)
    (data : DataMap) (signature : Signature) (channel : Channel)
    (hget : mapGet channelID m.channels = some channel)
    (hok : (UpdateState env m channelID data signature).1 = Outcome.ok) :
    ∃ channel', mapGet channelID (UpdateState env m channelID data signature).2.channels
        = some channel' ∧
      channel'.Nonce = (channel.Nonce + 1) % 2 ^ 64 ∧
      (channel.Nonce + 1 < 2 ^ 64 → channel'.Nonce = channel.Nonce + 1) ∧
      (channel.Nonce = 0 → channel'.Nonce = 1) := by
  obtain ⟨ch, merged, hget', _, _, _, _, heq⟩ := UpdateState_ok_inv env m channelID data
    signature hok
  rw [hget] at hget'
  cases hget'
  rw [heq]
  refine ⟨_, updatedManager_get env m channelID data signature channel merged, rfl, ?_, ?_⟩
  · intro hlt
    exact Nat.mod_eq_of_lt hlt
  · intro hzero
    simp [updatedChannel, hzero]

/-- C1 (amended), at the channel of the integration test: created, accepted, then updated
once, its nonce is 1. -/
theorem UpdateState_nonce_succ_mod_witness :
    ∃ channel', mapGet demoID (UpdateState (demoEnv 300) demoOpen demoID demoPatch
        (demoSignature "0xEmployer" "test_update_signature")).2.channels = some channel' ∧
      channel'.Nonce = 1 := by
  obtain ⟨channel', hget, _, _, hone⟩ := UpdateState_nonce_succ_mod (demoEnv 300) demoOpen
    demoID demoPatch (demoSignature "0xEmployer" "test_update_signature")
    { newChannel (demoEnv 100) (NewManager demoConfig) demoRequest demoID with
      State := StateOpen, UpdatedAt := 200 }
    (by decide) (by decide)
  exact ⟨channel', hget, hone rfl⟩

/-- C2 (as stated, refuted): the identical update request submitted twice to the open
channel succeeds both times; the second call moves the nonce from 1 to 2. -/
theorem UpdateState_replay_accepted :
    (UpdateState (demoEnv 300) demoOpen demoID demoPatch
        (demoSignature "0xEmployer" "test_update_signature")).1 = Outcome.ok ∧
    nonceOf (UpdateState (demoEnv 300) demoOpen demoID demoPatch
        (demoSignature "0xEmployer" "test_update_signature")).2 demoID = some 1 ∧
    (UpdateState (demoEnv 300)
        (UpdateState (demoEnv 300) demoOpen demoID demoPatch
          (demoSignature "0xEmployer" "test_update_signature")).2
        demoID demoPatch (demoSignature "0xEmployer" "test_update_signature")).1
      = Outcome.ok ∧
    nonceOf (UpdateState (demoEnv 300)
        (UpdateState (demoEnv 300) demoOpen demoID demoPatch
          (demoSignature "0xEmployer" "test_update_signature")).2
        demoID demoPatch (demoSignature "0xEmployer" "test_update_signature")).2 demoID
      = some 2 := by
  decide

theorem mergeData_some_of_some (d : DataMap) (data : DataMap) :
    ∃ d', mergeData (some d) data = some (some d') := by
  cases data <;> exact ⟨_, rfl⟩

theorem mergeData_again (current : Option DataMap) (data : DataMap) (merged : Option DataMap)
    (h : mergeData current data = some merged) : ∃ merged', mergeData merged data = some merged' := by
  cases current with
  | none =>
    cases data with
    | nil =>
      simp only [mergeData] at h
      cases h
      exact ⟨none, rfl⟩
    | cons kv rest => simp [mergeData] at h
  | some d =>
    obtain ⟨d', hd'⟩ := mergeData_some_of_some d data
    rw [hd'] at h
    cases h
    obtain ⟨d'', hd''⟩ := mergeData_some_of_some d' data
    exact ⟨some d'', hd''⟩

/-- C2 (amended): `UpdateState` takes no nonce and does not consult
`ValidateStateUpdate`. Once an update has succeeded, the identical request submitted again
while the clock is not past the channel's expires-at succeeds again and advances the nonce
once more (modulo `2 ^ 64`). It is `ValidateStateUpdate`, a function of the update and the
channel only, that refuses an update carrying the channel's current nonce. -/
theorem UpdateState_replay_succeeds (env env' : Env) (m : Manager) (channelID : String)
    (data : DataMap) (signature : Signature) (channel : Channel)
    (hget : mapGet channelID m.channels = some channel)
    (hok : (UpdateState env m channelID data signature).1 = Outcome.ok)
    (hnow : env'.now 0 ≤ channel.ExpiresAt) :
    (UpdateState env' (UpdateState env m channelID data signature).2 channelID data
        signature).1 = Outcome.ok ∧
    nonceOf (UpdateState env' (UpdateState env m channelID data signature).2 channelID data
        signature).2 channelID = some (((channel.Nonce + 1) % 2 ^ 64 + 1) % 2 ^ 64) ∧
    (∀ (c : Crypto) (update : StateUpdate) (current : Channel),
        current.Nonce < 2 ^ 64 → update.Nonce = current.Nonce →
        ValidateStateUpdate c update current ≠ none) := by
  obtain ⟨ch, merged, hget', hopen, _, hsig, hmerge, heq⟩ := UpdateState_ok_inv env m
    channelID data signature hok
  rw [hget] at hget'
  cases hget'
  obtain ⟨merged', hmerge'⟩ := mergeData_again _ _ _ hmerge
  have hget1 := updatedManager_get env m channelID data signature channel merged
  have hstep : UpdateState env' (updatedManager env m channelID data signature channel merged)
      channelID data signature = (.ok, updatedManager env'
        (updatedManager env m channelID data signature channel merged) channelID data
        signature (updatedChannel env channel merged) merged') := by
    have hexp : ¬ env'.now 0 > (updatedChannel env channel merged).ExpiresAt :=
      not_lt.mpr hnow
    have hsig' : verifySignature (updatedChannel env channel merged) signature = none := hsig
    have hopen' : (updatedChannel env channel merged).State = StateOpen := hopen
    have hmerge'' : mergeData (updatedChannel env channel merged).Data data = some merged' :=
      hmerge'
    rcases UpdateState_cases env' (updatedManager env m channelID data signature channel
      merged) channelID data signature with
      ⟨h, _⟩ | ⟨ch, hg, ⟨h, _⟩ | ⟨_, h, _⟩ | ⟨_, _, e, h, _⟩ | ⟨_, _, _, h, _⟩ |
        ⟨_, _, _, mg, h, heq'⟩⟩
    · rw [hget1] at h; cases h
    · rw [hget1] at hg; cases hg; exact absurd hopen' h
    · rw [hget1] at hg; cases hg; exact absurd h hexp
    · rw [hget1] at hg; cases hg; rw [hsig'] at h; cases h
    · rw [hget1] at hg; cases hg; rw [hmerge''] at h; cases h
    · rw [hget1] at hg; cases hg; rw [hmerge''] at h; cases h; exact heq'
  rw [heq]
  refine ⟨by rw [hstep], ?_, ?_⟩
  · rw [hstep]
    simp only [nonceOf, updatedManager_get, Option.map_some', updatedChannel]
  · intro c update current hlt hsame
    unfold ValidateStateUpdate
    by_cases hid : update.ChannelID = current.ID
    · have hne : update.Nonce ≠ (current.Nonce + 1) % 2 ^ 64 := by
        rw [hsame]
        intro h
        by_cases hmax : current.Nonce + 1 < 2 ^ 64
        · rw [Nat.mod_eq_of_lt hmax] at h
          omega
        · have : current.Nonce + 1 = 2 ^ 64 := by omega
          rw [this, Nat.mod_self] at h
          omega
      rw [if_neg (not_not.mpr hid), if_pos hne]
      simp
    · rw [if_pos hid]
      simp

/-- C2 (amended), at the open channel of the integration test. -/
theorem UpdateState_replay_succeeds_witness :
    (UpdateState (demoEnv 400) (UpdateState (demoEnv 300) demoOpen demoID demoPatch
        (demoSignature "0xEmployer" "test_update_signature")).2 demoID demoPatch
        (demoSignature "0xEmployer" "test_update_signature")).1 = Outcome.ok :=
  (UpdateState_replay_succeeds (demoEnv 300) (demoEnv 400) demoOpen demoID demoPatch
    (demoSignature "0xEmployer" "test_update_signature")
    { newChannel (demoEnv 100) (NewManager demoConfig) demoRequest demoID with
      State := StateOpen, UpdatedAt := 200 }
    (by decide) (by decide) (by decide)).1

/-! ## Signature checks of the manager (C3, C4, C5) -/

theorem stateOf_addEvent (env : Env) (m : Manager) (channelID : String) (eventType : String)
    (data : EventData) (k : String) :
    stateOf (addEvent env m channelID eventType data) k = stateOf m k := rfl

/-- C3 (as stated, refuted): the string `test_signature` is not even hexadecimal, so
`ValidateSignature` refuses it over any bytes and with any recovery function; all the same
`AcceptChannel` takes it from the employer and opens the channel that was in Opening. -/
theorem AcceptChannel_accepts_unauthentic_signature :
    stateOf demoOpening demoID = some StateOpening ∧
    (∀ (c : Crypto) (bytes : String),
      ValidateSignature c bytes (demoSignature "0xEmployer" "test_signature") ≠ none) ∧
    (AcceptChannel (demoEnv 200) demoOpening demoID
      (demoSignature "0xEmployer" "test_signature")).1 = Outcome.ok ∧
    stateOf (AcceptChannel (demoEnv 200) demoOpening demoID
      (demoSignature "0xEmployer" "test_signature")).2 demoID = some StateOpen := by
  refine ⟨by decide, ?_, by decide, by decide⟩
  intro c bytes
  have hdec : hexDecodeString (demoSignature "0xEmployer" "test_signature").Signature = none := by
    decide
  have h1 : ¬ (demoSignature "0xEmployer" "test_signature").Address = "" := by decide
  have h2 : ¬ (demoSignature "0xEmployer" "test_signature").Signature = "" := by decide
  unfold ValidateSignature
  rw [if_neg h1, if_neg h2, hdec]
  simp

/-- C3 (amended): on a channel in state Opening, `AcceptChannel` rejects exactly the
signatures whose signature string is empty or whose address is not the address of a
participant of the channel; a rejection leaves the manager as it was, so the channel is
still in Opening. Every other signature is accepted and the channel becomes Open; whether
the signature is authentic is not examined. -/
theorem AcceptChannel_rejects_iff (env : Env) (m : Manager) (channelID : String)
    (signature : Signature) (channel : Channel)
    (hget : mapGet channelID m.channels = some channel)
    (hopening : channel.State = StateOpening) :
    ((signature.Signature = "" ∨ ∀ p ∈ channel.Participants, p.Address ≠ signature.Address) →
      (∃ e, (AcceptChannel env m channelID signature).1 = Outcome.error e) ∧
      (AcceptChannel env m channelID signature).2 = m ∧
      stateOf (AcceptChannel env m channelID signature).2 channelID = some StateOpening) ∧
    (¬ (signature.Signature = "" ∨
        ∀ p ∈ channel.Participants, p.Address ≠ signature.Address) →
      (AcceptChannel env m channelID signature).1 = Outcome.ok ∧
      stateOf (AcceptChannel env m channelID signature).2 channelID = some StateOpen) := by
  have hstate : stateOf m channelID = some StateOpening := by
    simp [stateOf, hget, hopening]
  rcases AcceptChannel_cases env m channelID signature with
    ⟨h, _⟩ | ⟨ch, hg, ⟨h, _⟩ | ⟨_, e, hsig, heq⟩ | ⟨_, hsig, heq⟩⟩
  · rw [hget] at h; cases h
  · rw [hget] at hg; cases hg; exact absurd hopening h
  · rw [hget] at hg; cases hg
    have hno : ¬ verifySignature channel signature = none := by rw [hsig]; simp
    rw [verifySignature_eq_none_iff] at hno
    constructor
    · intro _
      rw [heq]
      exact ⟨⟨_, rfl⟩, rfl, hstate⟩
    · intro hn
      exfalso
      apply hno
      push_neg at hn
      exact ⟨hn.1, hn.2⟩
  · rw [hget] at hg; cases hg
    rw [verifySignature_eq_none_iff] at hsig
    constructor
    · intro hbad
      exfalso
      rcases hbad with hempty | hnone
      · exact hsig.1 hempty
      · obtain ⟨p, hp, hpa⟩ := hsig.2
        exact hnone p hp hpa
    · intro _
      rw [heq]
      refine ⟨rfl, ?_⟩
      rw [stateOf_addEvent]
      simp [stateOf, mapGet_mapSet_self]

/-- C3 (amended), at the channel of the integration test with an empty signature string. -/
theorem AcceptChannel_rejects_iff_witness :
    (∃ e, (AcceptChannel (demoEnv 200) demoOpening demoID
      (demoSignature "0xEmployer" "")).1 = Outcome.error e) ∧
    (AcceptChannel (demoEnv 200) demoOpening demoID (demoSignature "0xEmployer" "")).2
      = demoOpening ∧
    stateOf (AcceptChannel (demoEnv 200) demoOpening demoID
      (demoSignature "0xEmployer" "")).2 demoID = some StateOpening :=
  (AcceptChannel_rejects_iff (demoEnv 200) demoOpening demoID (demoSignature "0xEmployer" "")
    (newChannel (demoEnv 100) (NewManager demoConfig) demoRequest demoID)
    (by decide) (by decide)).1 (Or.inl (by decide))

/-- C4 (as stated, refuted): the proposer of the channel, its first participant, signs the
acceptance of their own channel; `AcceptChannel` succeeds and the channel is Open. -/
theorem AcceptChannel_accepts_proposer :
    (mapGet demoID demoOpening.channels).map Channel.Participants
      = some [demoStudent, demoEmployer] ∧
    (demoSignature "0xStudent" "test_signature").Address = demoStudent.Address ∧
    (AcceptChannel (demoEnv 200) demoOpening demoID
      (demoSignature "0xStudent" "test_signature")).1 = Outcome.ok ∧
    stateOf (AcceptChannel (demoEnv 200) demoOpening demoID
      (demoSignature "0xStudent" "test_signature")).2 demoID = some StateOpen := by
  decide

/-- C4 (amended): `AcceptChannel` succeeds only if the signature's address is the address of
a participant of the channel, the proposer included: a signature whose address is no
participant's address is rejected and the manager is left as it was. -/
theorem AcceptChannel_ok_only_participant (env : Env) (m : Manager) (channelID : String)
    (signature : Signature) (channel : Channel)
    (hget : mapGet channelID m.channels = some channel) :
    ((AcceptChannel env m channelID signature).1 = Outcome.ok →
      ∃ p ∈ channel.Participants, p.Address = signature.Address) ∧
    ((∀ p ∈ channel.Participants, p.Address ≠ signature.Address) →
      (∃ e, (AcceptChannel env m channelID signature).1 = Outcome.error e) ∧
      (AcceptChannel env m channelID signature).2 = m) := by
  rcases AcceptChannel_cases env m channelID signature with
    ⟨h, _⟩ | ⟨ch, hg, ⟨_, heq⟩ | ⟨_, e, _, heq⟩ | ⟨_, hsig, heq⟩⟩
  · rw [hget] at h; cases h
  · rw [heq]
    exact ⟨fun h => (by cases h), fun _ => ⟨⟨_, rfl⟩, rfl⟩⟩
  · rw [heq]
    exact ⟨fun h => (by cases h), fun _ => ⟨⟨_, rfl⟩, rfl⟩⟩
  · rw [hget] at hg; cases hg
    rw [verifySignature_eq_none_iff] at hsig
    obtain ⟨p, hp, hpa⟩ := hsig.2
    exact ⟨fun _ => ⟨p, hp, hpa⟩, fun hall => absurd hpa (hall p hp)⟩

/-- C4 (amended), at the channel of the integration test and a signer who is a stranger. -/
theorem AcceptChannel_ok_only_participant_witness :
    (∃ e, (AcceptChannel (demoEnv 200) demoOpening demoID
      (demoSignature "0xStranger" "test_signature")).1 = Outcome.error e) ∧
    (AcceptChannel (demoEnv 200) demoOpening demoID
      (demoSignature "0xStranger" "test_signature")).2 = demoOpening :=
  (AcceptChannel_ok_only_participant (demoEnv 200) demoOpening demoID
    (demoSignature "0xStranger" "test_signature")
    (newChannel (demoEnv 100) (NewManager demoConfig) demoRequest demoID)
    (by decide)).2 (by decide)

/-- C5 (as stated, refuted): a forced close that carries an empty signature string under an
address that is no participant's is not rejected; the open channel becomes Closed. -/
theorem CloseChannel_force_skips_signature :
    stateOf demoOpen demoID = some StateOpen ∧
    (demoSignature "0xStranger" "").Signature = "" ∧
    (mapGet demoID demoOpen.channels).map
      (fun channel => isChannelParticipant "0xStranger" channel) = some false ∧
    (CloseChannel (demoEnv 300) demoOpen demoID (demoSignature "0xStranger" "") true).1
      = Outcome.ok ∧
    stateOf (CloseChannel (demoEnv 300) demoOpen demoID
      (demoSignature "0xStranger" "") true).2 demoID = some StateClosed := by
  decide

/-- C5 (amended): `CloseChannel` with force = true does not look at the signature. On a
stored channel that is not Closed it succeeds for every signature and the channel becomes
Closed; it is rejected, the manager left as it was, only when the channel is already
Closed (or, see `CloseChannel_cases`, when no channel has that id). -/
theorem CloseChannel_force_any_signature (env : Env) (m : Manager) (channelID : String)
    (signature : Signature) (channel : Channel)
    (hget : mapGet channelID m.channels = some channel) :
    (channel.State ≠ StateClosed →
      (CloseChannel env m channelID signature true).1 = Outcome.ok ∧
      stateOf (CloseChannel env m channelID signature true).2 channelID = some StateClosed) ∧
    (channel.State = StateClosed →
      CloseChannel env m channelID signature true = (.error "channel is already closed", m)) := by
  rcases CloseChannel_cases env m channelID signature true with
    ⟨h, _⟩ | ⟨ch, hg, ⟨hclosed, heq⟩ | ⟨_, hforce, _⟩ | ⟨hnot, _, heq⟩⟩
  · rw [hget] at h; cases h
  · rw [hget] at hg; cases hg
    exact ⟨fun h => absurd hclosed h, fun _ => heq⟩
  · cases hforce
  · rw [hget] at hg; cases hg
    refine ⟨fun _ => ?_, fun h => absurd h hnot⟩
    rw [heq]
    refine ⟨rfl, ?_⟩
    rw [stateOf_addEvent]
    simp [stateOf, mapGet_mapSet_self]

/-- C5 (amended), at the open channel of the integration test. -/
theorem CloseChannel_force_any_signature_witness :
    (CloseChannel (demoEnv 300) demoOpen demoID (demoSignature "0xStranger" "") true).1
      = Outcome.ok ∧
    stateOf (CloseChannel (demoEnv 300) demoOpen demoID
      (demoSignature "0xStranger" "") true).2 demoID = some StateClosed :=
  (CloseChannel_force_any_signature (demoEnv 300) demoOpen demoID
    (demoSignature "0xStranger" "")
    { newChannel (demoEnv 100) (NewManager demoConfig) demoRequest demoID with
      State := StateOpen, UpdatedAt := 200 }
    (by decide)).1 (by decide)

/-! ## Expiry check of `UpdateState` (C10) -/

/-- C10 (as stated, refuted): with the clock exactly at the channel's expires-at,
`UpdateState` on the open channel succeeds and the nonce moves from 0 to 1. -/
theorem UpdateState_at_expiry_instant_succeeds :
    (mapGet demoID demoOpen.channels).map Channel.ExpiresAt = some 172800000000100 ∧
    (demoEnv 172800000000100).now 0 = 172800000000100 ∧
    nonceOf demoOpen demoID = some 0 ∧
    (UpdateState (demoEnv 172800000000100) demoOpen demoID demoPatch
      (demoSignature "0xEmployer" "test_update_signature")).1 = Outcome.ok ∧
    nonceOf (UpdateState (demoEnv 172800000000100) demoOpen demoID demoPatch
      (demoSignature "0xEmployer" "test_update_signature")).2 demoID = some 1 := by
  decide

/-- C10 (amended): `UpdateState` on an Open channel succeeds only when the current time is
not after the channel's expires-at. For every now > expires_at it returns the error
`channel has expired` and leaves the manager, so the nonce and the data, as they were. At
now = expires_at, as at every earlier instant, the call is not refused for expiry: it
succeeds whenever `verifySignature` lets the signature through and the data can be merged. -/
theorem UpdateState_expired_iff_after (env : Env) (m : Manager) (channelID : String)
    (data : DataMap) (signature : Signature) (channel : Channel)
    (hget : mapGet channelID m.channels = some channel)
    (hopen : channel.State = StateOpen) :
    ((UpdateState env m channelID data signature).1 = Outcome.ok ↔
      env.now 0 ≤ channel.ExpiresAt ∧ verifySignature channel signature = none ∧
        mergeData channel.Data data ≠ none) ∧
    (env.now 0 > channel.ExpiresAt →
      UpdateState env m channelID data signature = (.error "channel has expired", m)) := by
  rcases UpdateState_cases env m channelID data signature with
    ⟨h, _⟩ | ⟨ch, hg, ⟨h, _⟩ | ⟨_, hexp, heq⟩ | ⟨_, hexp, e, hsig, heq⟩ |
      ⟨_, hexp, hsig, hmerge, heq⟩ | ⟨_, hexp, hsig, merged, hmerge, heq⟩⟩
  · rw [hget] at h; cases h
  · rw [hget] at hg; cases hg; exact absurd hopen h
  · rw [hget] at hg; cases hg
    rw [heq]
    refine ⟨⟨fun h => (by cases h), fun h => absurd hexp (not_lt.mpr h.1)⟩, fun _ => rfl⟩
  · rw [hget] at hg; cases hg
    rw [heq]
    refine ⟨⟨fun h => (by cases h), fun h => ?_⟩, fun h => absurd h hexp⟩
    rw [hsig] at h
    exact absurd h.2.1 (by simp)
  · rw [hget] at hg; cases hg
    rw [heq]
    exact ⟨⟨fun h => (by cases h), fun h => absurd hmerge h.2.2⟩, fun h => absurd h hexp⟩
  · rw [hget] at hg; cases hg
    rw [heq]
    refine ⟨⟨fun _ => ⟨not_lt.mp hexp, hsig, ?_⟩, fun _ => rfl⟩, fun h => absurd h hexp⟩
    rw [hmerge]
    simp

/-- C10 (amended), at the open channel of the integration test one nanosecond late. -/
theorem UpdateState_expired_iff_after_witness :
    UpdateState (demoEnv 172800000000101) demoOpen demoID demoPatch
      (demoSignature "0xEmployer" "test_update_signature")
      = (.error "channel has expired", demoOpen) :=
  (UpdateState_expired_iff_after (demoEnv 172800000000101) demoOpen demoID demoPatch
    (demoSignature "0xEmployer" "test_update_signature")
    { newChannel (demoEnv 100) (NewManager demoConfig) demoRequest demoID with
      State := StateOpen, UpdatedAt := 200 }
    (by decide) (by decide)).2 (by decide)

/-! ## Failed calls change nothing (C9) -/

/-- C9: a call of `CreateChannel`, `AcceptChannel`, `UpdateState`, `CloseChannel` or
`AddMessage` that returns an error leaves the manager (all channels, all message logs, all
event logs) exactly as it was before the call. -/
theorem failed_call_leaves_manager (c : Crypto) (env : Env) (m : Manager) :
    (∀ req e, (CreateChannel c env m req).1 = Except.error e →
      (CreateChannel c env m req).2 = m) ∧
    (∀ channelID signature e, (AcceptChannel env m channelID signature).1 = Outcome.error e →
      (AcceptChannel env m channelID signature).2 = m) ∧
    (∀ channelID data signature e,
      (UpdateState env m channelID data signature).1 = Outcome.error e →
      (UpdateState env m channelID data signature).2 = m) ∧
    (∀ channelID signature force e,
      (CloseChannel env m channelID signature force).1 = Outcome.error e →
      (CloseChannel env m channelID signature force).2 = m) ∧
    (∀ message e, (AddMessage env m message).1 = Outcome.error e →
      (AddMessage env m message).2 = m) := by
  refine ⟨?_, ?_, ?_, ?_, ?_⟩
  · intro req e herr
    rcases CreateChannel_cases c env m req with ⟨e', heq⟩ | ⟨channelID, _, _, _, heq⟩
    · rw [heq]
    · rw [heq] at herr; cases herr
  · intro channelID signature e herr
    rcases AcceptChannel_cases env m channelID signature with
      ⟨_, heq⟩ | ⟨ch, _, ⟨_, heq⟩ | ⟨_, _, _, heq⟩ | ⟨_, _, heq⟩⟩
    · rw [heq]
    · rw [heq]
    · rw [heq]
    · rw [heq] at herr; cases herr
  · intro channelID data signature e herr
    rcases UpdateState_cases env m channelID data signature with
      ⟨_, heq⟩ | ⟨ch, _, ⟨_, heq⟩ | ⟨_, _, heq⟩ | ⟨_, _, _, _, heq⟩ | ⟨_, _, _, _, heq⟩ |
        ⟨_, _, _, _, _, heq⟩⟩
    · rw [heq]
    · rw [heq]
    · rw [heq]
    · rw [heq]
    · rw [heq] at herr; cases herr
    · rw [heq] at herr; cases herr
  · intro channelID signature force e herr
    rcases CloseChannel_cases env m channelID signature force with
      ⟨_, heq⟩ | ⟨ch, _, ⟨_, heq⟩ | ⟨_, _, _, _, heq⟩ | ⟨_, _, heq⟩⟩
    · rw [heq]
    · rw [heq]
    · rw [heq]
    · rw [heq] at herr; cases herr
  · intro message e herr
    rcases AddMessage_cases env m message with
      ⟨_, heq⟩ | ⟨ch, _, ⟨_, heq⟩ | ⟨_, _, _, heq⟩ | ⟨_, _, heq⟩⟩
    · rw [heq]
    · rw [heq]
    · rw [heq]
    · rw [heq] at herr; cases herr

/-- C9 at five failing calls: a request whose two participants are the same person, an
acceptance and a close signed by a stranger, an update one nanosecond after expires-at, and
a message for an unknown channel. -/
theorem failed_call_leaves_manager_witness :
    (CreateChannel demoCrypto (demoEnv 100) demoOpen
      { demoRequest with ParticipantB := demoStudent }).2 = demoOpen ∧
    (AcceptChannel (demoEnv 200) demoOpening demoID
      (demoSignature "0xStranger" "test_signature")).2 = demoOpening ∧
    (UpdateState (demoEnv 172800000000101) demoOpen demoID demoPatch
      (demoSignature "0xEmployer" "test_update_signature")).2 = demoOpen ∧
    (CloseChannel (demoEnv 300) demoOpen demoID
      (demoSignature "0xStranger" "test_close_signature") false).2 = demoOpen ∧
    (AddMessage (demoEnv 300) demoOpen
      { ID := "msg_001", ChannelID := "unknown", Typ := MsgTypeJobApplication,
        From := "0xStudent", To := "0xEmployer", Data := [], Nonce := 1, Timestamp := 300,
        Signature := demoSignature "0xStudent" "test_message_signature" }).2 = demoOpen :=
  ⟨(failed_call_leaves_manager demoCrypto (demoEnv 100) demoOpen).1 _
      "validation failed: participants cannot be the same" (by rfl),
    (failed_call_leaves_manager demoCrypto (demoEnv 200) demoOpening).2.1 _ _
      "invalid signature: signer is not a channel participant" (by decide),
    (failed_call_leaves_manager demoCrypto (demoEnv 172800000000101) demoOpen).2.2.1 _ _ _
      "channel has expired" (by decide),
    (failed_call_leaves_manager demoCrypto (demoEnv 300) demoOpen).2.2.2.1 _ _ _
      "invalid signature: signer is not a channel participant" (by decide),
    (failed_call_leaves_manager demoCrypto (demoEnv 300) demoOpen).2.2.2.2 _
      "channel not found" (by decide)⟩

/-! ## How one call moves the state of a channel -/

theorem stateOf_setChannel (m : Manager) (channelID : String) (channel : Channel)
    (k : String) :
    stateOf { m with channels := mapSet channelID channel m.channels } k =
      if k = channelID then some channel.State else stateOf m k := by
  by_cases h : k = channelID
  · subst h
    simp [stateOf, mapGet_mapSet_self]
  · simp [stateOf, mapGet_mapSet_ne _ _ _ _ h, h]

theorem stateOf_of_get {m : Manager} {channelID : String} {channel : Channel}
    (hget : mapGet channelID m.channels = some channel) :
    stateOf m channelID = some channel.State := by
  simp [stateOf, hget]

theorem cleanupLoop_get (env : Env) (now : Time) (k : String) (l : List (String × Channel))
    (events : List (String × List ChannelEvent)) :
    mapGet k (cleanupLoop env now l events).1 = (mapGet k l).map (closeIfExpired now) := by
  induction l generalizing events with
  | nil => simp [cleanupLoop, mapGet]
  | cons hd tl ih =>
    obtain ⟨k', ch⟩ := hd
    by_cases hexp : now > ch.ExpiresAt ∧ ch.State ≠ StateClosed
    · have hb : isExpiring now ch = true := by simp [isExpiring, hexp]
      simp only [cleanupLoop]
      rw [if_pos hexp]
      by_cases hk : k' = k
      · simp [mapGet, hk, closeIfExpired, hb]
      · simp only [mapGet, hk, if_false]
        exact ih _
    · have hb : isExpiring now ch = false := by simp [isExpiring, hexp]
      simp only [cleanupLoop]
      rw [if_neg hexp]
      by_cases hk : k' = k
      · simp [mapGet, hk, closeIfExpired, hb]
      · simp only [mapGet, hk, if_false]
        exact ih _

theorem stateOf_cleanup (env : Env) (m : Manager) (k : String) :
    stateOf (cleanupExpiredChannels env m) k =
      (mapGet k m.channels).map fun ch => (closeIfExpired (env.now 0) ch).State := by
  simp only [stateOf, cleanupExpiredChannels, cleanupLoop_get]
  cases mapGet k m.channels <;> rfl

theorem closeIfExpired_state (now : Time) (channel : Channel) :
    (closeIfExpired now channel).State = channel.State ∨
      (channel.State ≠ StateClosed ∧ now > channel.ExpiresAt ∧
        (closeIfExpired now channel).State = StateClosed) := by
  unfold closeIfExpired
  by_cases h : isExpiring now channel = true
  · right
    have h' : now > channel.ExpiresAt ∧ channel.State ≠ StateClosed := by
      simpa [isExpiring] using h
    simp [h, h'.1, h'.2]
  · left
    simp [h]

/-- One call either leaves the state of a stored channel alone or makes one of the moves
Opening → Open (a successful `AcceptChannel`), not Closed → Closing (a successful
`CloseChannel` without force), not Closed → Closed (a successful forced `CloseChannel`, or
the cleanup past the channel's expires-at). -/
theorem stateOf_step (m : Manager) (op : Op) (k : String) (s : ChannelState)
    (hfresh : drawsFreshId m op = true) (hs : stateOf m k = some s) :
    stateOf (applyOp m op) k = some s ∨
    (s = StateOpening ∧ stateOf (applyOp m op) k = some StateOpen ∧
      ∃ env signature, op = .accept env k signature ∧
        (AcceptChannel env m k signature).1 = Outcome.ok) ∨
    (s ≠ StateClosed ∧ stateOf (applyOp m op) k = some StateClosing ∧
      ∃ env signature, op = .close env k signature false ∧
        (CloseChannel env m k signature false).1 = Outcome.ok) ∨
    (s ≠ StateClosed ∧ stateOf (applyOp m op) k = some StateClosed ∧
      ((∃ env signature, op = .close env k signature true ∧
          (CloseChannel env m k signature true).1 = Outcome.ok) ∨
        ∃ env, op = .cleanup env)) := by
  cases op with
  | create c env req =>
    left
    rcases CreateChannel_cases c env m req with ⟨e, heq⟩ | ⟨channelID, hid, _, _, heq⟩
    · simp only [applyOp, heq, hs]
    · simp only [applyOp, heq, stateOf_addEvent, SaveChannel]
      have hnone : mapGet channelID m.channels = none := by
        simpa [drawsFreshId, hid] using hfresh
      have hne : k ≠ channelID := by
        intro h
        subst h
        simp [stateOf, hnone] at hs
      have hkey : (newChannel env m req channelID).ID = channelID := rfl
      rw [hkey, stateOf_setChannel, if_neg hne, hs]
  | accept env channelID signature =>
    rcases AcceptChannel_cases env m channelID signature with
      ⟨_, heq⟩ | ⟨ch, hg, ⟨_, heq⟩ | ⟨_, _, _, heq⟩ | ⟨hopening, _, heq⟩⟩
    · left; simp only [applyOp, heq, hs]
    · left; simp only [applyOp, heq, hs]
    · left; simp only [applyOp, heq, hs]
    · by_cases hk : k = channelID
      · subst hk
        right; left
        have hs' : s = StateOpening := by
          rw [stateOf_of_get hg] at hs
          cases hs
          exact hopening
        refine ⟨hs', ?_, env, signature, rfl, by rw [heq]⟩
        simp only [applyOp, heq, stateOf_addEvent, stateOf_setChannel, if_true]
      · left
        simp only [applyOp, heq, stateOf_addEvent, stateOf_setChannel, if_neg hk, hs]
  | update env channelID data signature =>
    left
    rcases UpdateState_cases env m channelID data signature with
      ⟨_, heq⟩ | ⟨ch, hg, ⟨_, heq⟩ | ⟨_, _, heq⟩ | ⟨_, _, _, _, heq⟩ | ⟨_, _, _, _, heq⟩ |
        ⟨_, _, _, merged, _, heq⟩⟩
    · simp only [applyOp, heq, hs]
    · simp only [applyOp, heq, hs]
    · simp only [applyOp, heq, hs]
    · simp only [applyOp, heq, hs]
    · simp only [applyOp, heq, stateOf_setChannel]
      by_cases hk : k = channelID
      · subst hk
        rw [stateOf_of_get hg] at hs
        simp only [if_true, hs]
      · simp only [if_neg hk, hs]
    · simp only [applyOp, heq, updatedManager, stateOf_addEvent, stateOf_setChannel]
      by_cases hk : k = channelID
      · subst hk
        rw [stateOf_of_get hg] at hs
        simp only [if_true, updatedChannel, hs]
      · simp only [if_neg hk, hs]
  | close env channelID signature force =>
    rcases CloseChannel_cases env m channelID signature force with
      ⟨_, heq⟩ | ⟨ch, hg, ⟨_, heq⟩ | ⟨_, _, _, _, heq⟩ | ⟨hnot, _, heq⟩⟩
    · left; simp only [applyOp, heq, hs]
    · left; simp only [applyOp, heq, hs]
    · left; simp only [applyOp, heq, hs]
    · by_cases hk : k = channelID
      · subst hk
        have hs' : s ≠ StateClosed := by
          rw [stateOf_of_get hg] at hs
          cases hs
          exact hnot
        cases force with
        | true =>
          right; right; right
          refine ⟨hs', ?_, Or.inl ⟨env, signature, rfl, by rw [heq]⟩⟩
          simp only [applyOp, heq, stateOf_addEvent, stateOf_setChannel, if_true]
        | false =>
          right; right; left
          refine ⟨hs', ?_, env, signature, rfl, by rw [heq]⟩
          simp only [applyOp, heq, stateOf_addEvent, stateOf_setChannel, if_true]
          rfl
      · left
        simp only [applyOp, heq, stateOf_addEvent, stateOf_setChannel, if_neg hk, hs]
  | addMessage env message =>
    left
    rcases AddMessage_cases env m message with
      ⟨_, heq⟩ | ⟨ch, _, ⟨_, heq⟩ | ⟨_, _, _, heq⟩ | ⟨_, _, heq⟩⟩
    · simp only [applyOp, heq, hs]
    · simp only [applyOp, heq, hs]
    · simp only [applyOp, heq, hs]
    · simp only [applyOp, heq, stateOf_addEvent]
      exact hs
  | cleanup env =>
    simp only [applyOp, stateOf_cleanup]
    cases hg : mapGet k m.channels with
    | none => simp [stateOf, hg] at hs
    | some ch =>
      rw [stateOf_of_get hg] at hs
      cases hs
      rcases closeIfExpired_state (env.now 0) ch with h | ⟨hnot, _, h⟩
      · left; simp [h]
      · right; right; right
        exact ⟨hnot, by simp [h], Or.inr ⟨env, rfl⟩⟩

theorem closed_step (m : Manager) (op : Op) (k : String) (hfresh : drawsFreshId m op = true)
    (hs : stateOf m k = some StateClosed) : stateOf (applyOp m op) k = some StateClosed := by
  rcases stateOf_step m op k StateClosed hfresh hs with h | ⟨h, _⟩ | ⟨h, _⟩ | ⟨h, _⟩
  · exact h
  · exact absurd h (by decide)
  · exact absurd rfl h
  · exact absurd rfl h

theorem closed_run (ops : List Op) (m : Manager) (k : String) (hfresh : FreshIds m ops = true)
    (hs : stateOf m k = some StateClosed) : stateOf (run m ops) k = some StateClosed := by
  induction ops generalizing m with
  | nil => exact hs
  | cons op rest ih =>
    simp only [FreshIds, Bool.and_eq_true] at hfresh
    exact ih (applyOp m op) hfresh.2 (closed_step m op k hfresh.1 hs)

theorem run_append (m : Manager) (ops1 ops2 : List Op) :
    run m (ops1 ++ ops2) = run (run m ops1) ops2 := by
  simp [run, List.foldl_append]

theorem FreshIds_append (ops1 ops2 : List Op) (m : Manager) :
    FreshIds m (ops1 ++ ops2) = (FreshIds m ops1 && FreshIds (run m ops1) ops2) := by
  induction ops1 generalizing m with
  | nil => simp [FreshIds, run]
  | cons op rest ih =>
    have hcons : FreshIds m ((op :: rest) ++ ops2) =
        (drawsFreshId m op && FreshIds (applyOp m op) (rest ++ ops2)) := rfl
    have hrun : run m (op :: rest) = run (applyOp m op) rest := rfl
    rw [hcons, ih, hrun]
    simp only [FreshIds, Bool.and_assoc]

theorem UpdateState_not_open (env : Env) (m : Manager) (k : String) (data : DataMap)
    (signature : Signature) (s : ChannelState) (hs : stateOf m k = some s)
    (hnot : s ≠ StateOpen) :
    UpdateState env m k data signature = (.error "channel is not open", m) := by
  rcases UpdateState_cases env m k data signature with
    ⟨h, _⟩ | ⟨ch, hg, ⟨_, heq⟩ | ⟨h, _⟩ | ⟨h, _⟩ | ⟨h, _⟩ | ⟨h, _⟩⟩
  · simp [stateOf, h] at hs
  · exact heq
  all_goals
    rw [stateOf_of_get hg] at hs
    cases hs
    exact absurd h hnot

theorem AddMessage_not_open (env : Env) (m : Manager) (message : Message) (s : ChannelState)
    (hs : stateOf m message.ChannelID = some s) (hnot : s ≠ StateOpen) :
    AddMessage env m message = (.error "channel is not open", m) := by
  rcases AddMessage_cases env m message with
    ⟨h, _⟩ | ⟨ch, hg, ⟨_, heq⟩ | ⟨h, _⟩ | ⟨h, _⟩⟩
  · simp [stateOf, h] at hs
  · exact heq
  all_goals
    rw [stateOf_of_get hg] at hs
    cases hs
    exact absurd h hnot

/-! ## Moves out of Opening (C7) -/

/-- C7 (as stated, refuted): on the channel in Opening, `CloseChannel` with force succeeds
(under an empty signature of a stranger) and the channel is Closed; `CloseChannel` without
force, signed by a participant, succeeds and the channel is Closing. -/
theorem CloseChannel_moves_opening_channel :
    stateOf demoOpening demoID = some StateOpening ∧
    (CloseChannel (demoEnv 150) demoOpening demoID (demoSignature "0xStranger" "") true).1
      = Outcome.ok ∧
    stateOf (CloseChannel (demoEnv 150) demoOpening demoID
      (demoSignature "0xStranger" "") true).2 demoID = some StateClosed ∧
    (CloseChannel (demoEnv 150) demoOpening demoID
      (demoSignature "0xStudent" "test_close_signature") false).1 = Outcome.ok ∧
    stateOf (CloseChannel (demoEnv 150) demoOpening demoID
      (demoSignature "0xStudent" "test_close_signature") false).2 demoID
      = some StateClosing := by
  decide

/-- C7 (amended): a channel in state Opening can change state only to Open (through a
successful `AcceptChannel`), to Closing (through a successful `CloseChannel` without force),
or to Closed (through a successful `CloseChannel` with force, or through expiry cleanup).
`UpdateState`, `AddMessage` and a `CreateChannel` that draws an unused id leave it in
Opening. -/
theorem opening_channel_moves (m : Manager) (op : Op) (k : String)
    (hfresh : drawsFreshId m op = true) (hs : stateOf m k = some StateOpening) :
    (stateOf (applyOp m op) k = some StateOpening ∨
      (stateOf (applyOp m op) k = some StateOpen ∧
        ∃ env signature, op = .accept env k signature ∧
          (AcceptChannel env m k signature).1 = Outcome.ok) ∨
      (stateOf (applyOp m op) k = some StateClosing ∧
        ∃ env signature, op = .close env k signature false ∧
          (CloseChannel env m k signature false).1 = Outcome.ok) ∨
      (stateOf (applyOp m op) k = some StateClosed ∧
        ((∃ env signature, op = .close env k signature true ∧
            (CloseChannel env m k signature true).1 = Outcome.ok) ∨
          ∃ env, op = .cleanup env))) ∧
    (∀ env channelID data signature,
      stateOf (UpdateState env m channelID data signature).2 k = some StateOpening) ∧
    (∀ env message, stateOf (AddMessage env m message).2 k = some StateOpening) ∧
    (∀ c env req, op = .create c env req →
      stateOf (CreateChannel c env m req).2 k = some StateOpening) := by
  refine ⟨?_, ?_, ?_, ?_⟩
  · rcases stateOf_step m op k StateOpening hfresh hs with
      h | ⟨_, h, hop⟩ | ⟨_, h, hop⟩ | ⟨_, h, hop⟩
    · exact Or.inl h
    · exact Or.inr (Or.inl ⟨h, hop⟩)
    · exact Or.inr (Or.inr (Or.inl ⟨h, hop⟩))
    · exact Or.inr (Or.inr (Or.inr ⟨h, hop⟩))
  · intro env channelID data signature
    rcases stateOf_step m (.update env channelID data signature) k StateOpening rfl hs with
      h | ⟨_, _, _, _, hop, _⟩ | ⟨_, _, _, _, hop, _⟩ |
        ⟨_, _, ⟨_, _, hop, _⟩ | ⟨_, hop⟩⟩
    · exact h
    all_goals cases hop
  · intro env message
    rcases stateOf_step m (.addMessage env message) k StateOpening rfl hs with
      h | ⟨_, _, _, _, hop, _⟩ | ⟨_, _, _, _, hop, _⟩ |
        ⟨_, _, ⟨_, _, hop, _⟩ | ⟨_, hop⟩⟩
    · exact h
    all_goals cases hop
  · intro c env req hop
    subst hop
    rcases stateOf_step m (.create c env req) k StateOpening hfresh hs with
      h | ⟨_, _, _, _, hop, _⟩ | ⟨_, _, _, _, hop, _⟩ |
        ⟨_, _, ⟨_, _, hop, _⟩ | ⟨_, hop⟩⟩
    · exact h
    all_goals cases hop

/-- C7 (amended), at the channel of the integration test while it is in Opening: an update
signed by the employer leaves it in Opening. -/
theorem opening_channel_moves_witness :
    stateOf (UpdateState (demoEnv 150) demoOpening demoID demoPatch
      (demoSignature "0xEmployer" "test_update_signature")).2 demoID = some StateOpening :=
  (opening_channel_moves demoOpening
    (.update (demoEnv 150) demoID demoPatch
      (demoSignature "0xEmployer" "test_update_signature"))
    demoID rfl (by decide)).2.1 _ _ _ _

/-! ## Only Open channels take updates and messages (C8) -/

/-- C8: `UpdateState` and `AddMessage` return the error `channel is not open`, and change
nothing, whenever the state of the target channel is not Open. In particular, once the
cleanup has run past a channel's expires-at the channel is Closed, and after any further
calls on the manager every `UpdateState` on it fails. -/
theorem not_open_rejects_update_and_message (m : Manager) (k : String) (channel : Channel)
    (hget : mapGet k m.channels = some channel) :
    (channel.State ≠ StateOpen →
      (∀ env data signature,
        UpdateState env m k data signature = (.error "channel is not open", m)) ∧
      (∀ env message, message.ChannelID = k →
        AddMessage env m message = (.error "channel is not open", m))) ∧
    (∀ envC, envC.now 0 > channel.ExpiresAt →
      stateOf (cleanupExpiredChannels envC m) k = some StateClosed ∧
      ∀ ops, FreshIds (cleanupExpiredChannels envC m) ops = true →
        ∀ env data signature,
          UpdateState env (run (cleanupExpiredChannels envC m) ops) k data signature =
            (.error "channel is not open", run (cleanupExpiredChannels envC m) ops)) := by
  constructor
  · intro hnot
    refine ⟨fun env data signature =>
      UpdateState_not_open env m k data signature channel.State (stateOf_of_get hget) hnot, ?_⟩
    intro env message hid
    subst hid
    exact AddMessage_not_open env m message channel.State (stateOf_of_get hget) hnot
  · intro envC hlate
    have hclosed : stateOf (cleanupExpiredChannels envC m) k = some StateClosed := by
      rw [stateOf_cleanup, hget]
      simp only [Option.map_some', closeIfExpired, isExpiring]
      by_cases hc : channel.State = StateClosed
      · simp [hc]
      · simp [hc, hlate]
    refine ⟨hclosed, ?_⟩
    intro ops hfresh env data signature
    exact UpdateState_not_open env _ k data signature StateClosed
      (closed_run ops _ k hfresh hclosed) (by decide)

/-- C8 at the channel of the integration test: while it is in Opening an update is refused,
and after a cleanup past its expires-at an update is refused as well. -/
theorem not_open_rejects_update_and_message_witness :
    UpdateState (demoEnv 150) demoOpening demoID demoPatch
      (demoSignature "0xEmployer" "test_update_signature")
      = (.error "channel is not open", demoOpening) ∧
    stateOf (cleanupExpiredChannels (demoEnv 172800000000101) demoOpen) demoID
      = some StateClosed :=
  ⟨((not_open_rejects_update_and_message demoOpening demoID
      (newChannel (demoEnv 100) (NewManager demoConfig) demoRequest demoID)
      (by decide)).1 (by decide)).1 _ _ _,
    ((not_open_rejects_update_and_message demoOpen demoID
      { newChannel (demoEnv 100) (NewManager demoConfig) demoRequest demoID with
        State := StateOpen, UpdatedAt := 200 }
      (by decide)).2 (demoEnv 172800000000101) (by decide)).1⟩

/-! ## Event logs -/

theorem eventsOf_appendEvent (env : Env) (events : List (String × List ChannelEvent))
    (channelID : String) (eventType : String) (data : EventData) (k : String) :
    eventsOf (appendEvent env events channelID eventType data) k =
      if k = channelID then
        eventsOf events k ++ [{ ID := generateEventID (env.eventEntropy channelID),
                                ChannelID := channelID, Typ := eventType, Data := data,
                                Timestamp := env.eventNow channelID }]
      else eventsOf events k := by
  by_cases h : k = channelID
  · subst h
    simp [eventsOf, appendEvent, mapGet_mapSet_self]
  · simp [eventsOf, appendEvent, mapGet_mapSet_ne _ _ _ _ h, h]

theorem expiredCount_appendEvent (env : Env) (events : List (String × List ChannelEvent))
    (channelID : String) (eventType : String) (data : EventData) (k : String) :
    expiredCount (appendEvent env events channelID eventType data) k =
      expiredCount events k +
        if k = channelID ∧ eventType = "channel_expired" then 1 else 0 := by
  unfold expiredCount
  rw [eventsOf_appendEvent]
  by_cases h : k = channelID
  · by_cases ht : eventType = "channel_expired"
    · simp [h, ht, List.filter_append]
    · simp [h, ht, List.filter_append]
  · simp [h]

/-- The shape of what a call other than the cleanup does to the maps: the channel map is
kept or gets one entry stored, and the event map is kept or gets one event, not of type
`channel_expired`, appended. -/
theorem applyOp_shape (m : Manager) (op : Op) (hop : ∀ env, op ≠ .cleanup env) :
    ((applyOp m op).channels = m.channels ∨
      ∃ channelID channel, (applyOp m op).channels = mapSet channelID channel m.channels) ∧
    ((applyOp m op).events = m.events ∨
      ∃ env channelID eventType data, eventType ≠ "channel_expired" ∧
        (applyOp m op).events = appendEvent env m.events channelID eventType data) := by
  cases op with
  | create c env req =>
    rcases CreateChannel_cases c env m req with ⟨e, heq⟩ | ⟨channelID, _, _, _, heq⟩
    · simp only [applyOp]
      rw [heq]
      exact ⟨Or.inl rfl, Or.inl rfl⟩
    · simp only [applyOp]
      rw [heq]
      exact ⟨Or.inr ⟨_, _, rfl⟩, Or.inr ⟨env, channelID, _, _, by decide, rfl⟩⟩
  | accept env channelID signature =>
    rcases AcceptChannel_cases env m channelID signature with
      ⟨_, heq⟩ | ⟨ch, hg, ⟨_, heq⟩ | ⟨_, _, _, heq⟩ | ⟨_, _, heq⟩⟩
    · simp only [applyOp]; rw [heq]; exact ⟨Or.inl rfl, Or.inl rfl⟩
    · simp only [applyOp]; rw [heq]; exact ⟨Or.inl rfl, Or.inl rfl⟩
    · simp only [applyOp]; rw [heq]; exact ⟨Or.inl rfl, Or.inl rfl⟩
    · simp only [applyOp]
      rw [heq]
      exact ⟨Or.inr ⟨_, _, rfl⟩, Or.inr ⟨env, channelID, _, _, by decide, rfl⟩⟩
  | update env channelID data signature =>
    rcases UpdateState_cases env m channelID data signature with
      ⟨_, heq⟩ | ⟨ch, hg, ⟨_, heq⟩ | ⟨_, _, heq⟩ | ⟨_, _, _, _, heq⟩ | ⟨_, _, _, _, heq⟩ |
        ⟨_, _, _, merged, _, heq⟩⟩
    · simp only [applyOp]; rw [heq]; exact ⟨Or.inl rfl, Or.inl rfl⟩
    · simp only [applyOp]; rw [heq]; exact ⟨Or.inl rfl, Or.inl rfl⟩
    · simp only [applyOp]; rw [heq]; exact ⟨Or.inl rfl, Or.inl rfl⟩
    · simp only [applyOp]; rw [heq]; exact ⟨Or.inl rfl, Or.inl rfl⟩
    · simp only [applyOp]; rw [heq]; exact ⟨Or.inr ⟨_, _, rfl⟩, Or.inl rfl⟩
    · simp only [applyOp]
      rw [heq]
      exact ⟨Or.inr ⟨_, _, rfl⟩, Or.inr ⟨env, channelID, _, _, by decide, rfl⟩⟩
  | close env channelID signature force =>
    rcases CloseChannel_cases env m channelID signature force with
      ⟨_, heq⟩ | ⟨ch, hg, ⟨_, heq⟩ | ⟨_, _, _, _, heq⟩ | ⟨_, _, heq⟩⟩
    · simp only [applyOp]; rw [heq]; exact ⟨Or.inl rfl, Or.inl rfl⟩
    · simp only [applyOp]; rw [heq]; exact ⟨Or.inl rfl, Or.inl rfl⟩
    · simp only [applyOp]; rw [heq]; exact ⟨Or.inl rfl, Or.inl rfl⟩
    · simp only [applyOp]
      rw [heq]
      exact ⟨Or.inr ⟨_, _, rfl⟩, Or.inr ⟨env, channelID, _, _, by decide, rfl⟩⟩
  | addMessage env message =>
    rcases AddMessage_cases env m message with
      ⟨_, heq⟩ | ⟨ch, _, ⟨_, heq⟩ | ⟨_, _, _, heq⟩ | ⟨_, _, heq⟩⟩
    · simp only [applyOp]; rw [heq]; exact ⟨Or.inl rfl, Or.inl rfl⟩
    · simp only [applyOp]; rw [heq]; exact ⟨Or.inl rfl, Or.inl rfl⟩
    · simp only [applyOp]; rw [heq]; exact ⟨Or.inl rfl, Or.inl rfl⟩
    · simp only [applyOp]
      rw [heq]
      exact ⟨Or.inl rfl, Or.inr ⟨env, message.ChannelID, _, _, by decide, rfl⟩⟩
  | cleanup env => exact absurd rfl (hop env)

theorem mem_mapKeys_mapSet {α : Type} (k : String) (v : α) (l : List (String × α))
    (x : String) : x ∈ mapKeys (mapSet k v l) ↔ x = k ∨ x ∈ mapKeys l := by
  induction l with
  | nil => simp [mapSet, mapKeys]
  | cons hd tl ih =>
    obtain ⟨k', v'⟩ := hd
    by_cases h : k' = k
    · subst h
      simp [mapSet, mapKeys]
    · simp only [mapSet, h, if_false, mapKeys, List.map_cons, List.mem_cons] at ih ⊢
      rw [ih]
      tauto

theorem nodup_mapKeys_mapSet {α : Type} (k : String) (v : α) (l : List (String × α))
    (hnd : (mapKeys l).Nodup) : (mapKeys (mapSet k v l)).Nodup := by
  induction l with
  | nil => simp [mapSet, mapKeys]
  | cons hd tl ih =>
    obtain ⟨k', v'⟩ := hd
    have hnd' : k' ∉ mapKeys tl ∧ (mapKeys tl).Nodup := by
      simpa [mapKeys] using hnd
    by_cases h : k' = k
    · subst h
      simpa [mapSet, mapKeys] using hnd
    · have hcons : mapKeys (mapSet k v ((k', v') :: tl)) = k' :: mapKeys (mapSet k v tl) := by
        simp [mapSet, h, mapKeys]
      rw [hcons, List.nodup_cons]
      refine ⟨?_, ih hnd'.2⟩
      rw [mem_mapKeys_mapSet]
      rintro (hk | hk)
      · exact h hk
      · exact hnd'.1 hk

theorem mapKeys_cleanupLoop (env : Env) (now : Time) (l : List (String × Channel))
    (events : List (String × List ChannelEvent)) :
    mapKeys (cleanupLoop env now l events).1 = mapKeys l := by
  induction l generalizing events with
  | nil => simp [cleanupLoop, mapKeys]
  | cons hd tl ih =>
    obtain ⟨k', ch⟩ := hd
    simp only [cleanupLoop]
    split
    · simp only [mapKeys, List.map_cons] at ih ⊢
      rw [ih]
    · simp only [mapKeys, List.map_cons] at ih ⊢
      rw [ih]

theorem expiredCount_cleanupLoop (env : Env) (now : Time) (l : List (String × Channel))
    (events : List (String × List ChannelEvent)) (k : String) :
    expiredCount (cleanupLoop env now l events).2 k =
      expiredCount events k + expiringAt now l k := by
  induction l generalizing events with
  | nil => simp [cleanupLoop, expiringAt]
  | cons hd tl ih =>
    obtain ⟨k', ch⟩ := hd
    by_cases hexp : now > ch.ExpiresAt ∧ ch.State ≠ StateClosed
    · have hb : isExpiring now ch = true := by simp [isExpiring, hexp]
      simp only [cleanupLoop]
      rw [if_pos hexp]
      simp only []
      rw [ih, expiredCount_appendEvent]
      by_cases hk : k' = k
      · subst hk
        simp [expiringAt, List.filter_cons, hb]
        omega
      · have hk' : ¬ k = k' := fun h => hk h.symm
        simp [expiringAt, List.filter_cons, hk, hk']
    · have hb : isExpiring now ch = false := by simp [isExpiring, hexp]
      simp only [cleanupLoop]
      rw [if_neg hexp]
      simp only []
      rw [ih]
      simp [expiringAt, List.filter_cons, hb]

theorem expiringAt_eq_zero_of_not_mem (now : Time) (l : List (String × Channel)) (k : String)
    (hk : k ∉ mapKeys l) : expiringAt now l k = 0 := by
  induction l with
  | nil => simp [expiringAt]
  | cons hd tl ih =>
    obtain ⟨k', ch⟩ := hd
    have hk' : ¬ k = k' ∧ k ∉ mapKeys tl := by simpa [mapKeys] using hk
    have hne : ¬ k' = k := fun h => hk'.1 h.symm
    have := ih hk'.2
    simp only [expiringAt] at this ⊢
    simp [List.filter_cons, hne, this]

theorem mapGet_eq_none_of_not_mem {α : Type} (l : List (String × α)) (k : String)
    (hk : k ∉ mapKeys l) : mapGet k l = none := by
  induction l with
  | nil => simp [mapGet]
  | cons hd tl ih =>
    obtain ⟨k', v⟩ := hd
    have hk' : ¬ k = k' ∧ k ∉ mapKeys tl := by simpa [mapKeys] using hk
    have hne : ¬ k' = k := fun h => hk'.1 h.symm
    simp [mapGet, hne, ih hk'.2]

theorem expiringAt_of_nodup (now : Time) (l : List (String × Channel)) (k : String)
    (hnd : (mapKeys l).Nodup) :
    expiringAt now l k =
      match mapGet k l with
      | none => 0
      | some ch => if isExpiring now ch then 1 else 0 := by
  induction l with
  | nil => simp [expiringAt, mapGet]
  | cons hd tl ih =>
    obtain ⟨k', ch⟩ := hd
    have hnd' : k' ∉ mapKeys tl ∧ (mapKeys tl).Nodup := by
      simpa [mapKeys] using hnd
    by_cases hk : k' = k
    · subst hk
      have hz := expiringAt_eq_zero_of_not_mem now tl k' hnd'.1
      simp only [expiringAt] at hz ⊢
      by_cases hb : isExpiring now ch = true
      · simp [List.filter_cons, mapGet, hb, hz]
      · simp [List.filter_cons, mapGet, hb, hz]
    · have := ih hnd'.2
      simp only [expiringAt] at this ⊢
      simp [List.filter_cons, mapGet, hk, this]

theorem eventsOf_cleanupLoop (env : Env) (now : Time) (l : List (String × Channel))
    (events : List (String × List ChannelEvent)) (k : String) :
    ∃ later, eventsOf (cleanupLoop env now l events).2 k = eventsOf events k ++ later := by
  induction l generalizing events with
  | nil => exact ⟨[], by simp [cleanupLoop]⟩
  | cons hd tl ih =>
    obtain ⟨k', ch⟩ := hd
    simp only [cleanupLoop]
    split
    · obtain ⟨later, hlater⟩ :=
        ih (appendEvent env events k' "channel_expired" (.expired now))
      simp only []
      rw [hlater, eventsOf_appendEvent]
      by_cases hk : k = k'
      · rw [if_pos hk, List.append_assoc]
        exact ⟨_, rfl⟩
      · rw [if_neg hk]
        exact ⟨_, rfl⟩
    · exact ih events

/-- Every call only appends to the event log of a channel id. -/
theorem eventsOf_step (m : Manager) (op : Op) (k : String) :
    ∃ later, eventsOf (applyOp m op).events k = eventsOf m.events k ++ later := by
  by_cases hop : ∀ env, op ≠ .cleanup env
  · rcases (applyOp_shape m op hop).2 with h | ⟨env, channelID, eventType, data, _, h⟩
    · rw [h]
      exact ⟨[], by simp⟩
    · rw [h, eventsOf_appendEvent]
      by_cases hk : k = channelID
      · rw [if_pos hk]
        exact ⟨_, rfl⟩
      · rw [if_neg hk]
        exact ⟨[], by simp⟩
  · push_neg at hop
    obtain ⟨env, rfl⟩ := hop
    exact eventsOf_cleanupLoop env (env.now 0) m.channels m.events k

theorem eventsOf_run (ops : List Op) (m : Manager) (k : String) :
    ∃ later, eventsOf (run m ops).events k = eventsOf m.events k ++ later := by
  induction ops generalizing m with
  | nil => exact ⟨[], by simp [run]⟩
  | cons op rest ih =>
    obtain ⟨l1, h1⟩ := eventsOf_step m op k
    obtain ⟨l2, h2⟩ := ih (applyOp m op)
    have hrun : run m (op :: rest) = run (applyOp m op) rest := rfl
    rw [hrun, h2, h1, List.append_assoc]
    exact ⟨_, rfl⟩

theorem ExpiredOnce_step (m : Manager) (op : Op) (hfresh : drawsFreshId m op = true)
    (hinv : ExpiredOnce m) : ExpiredOnce (applyOp m op) := by
  obtain ⟨hnd, hcount⟩ := hinv
  by_cases hop : ∀ env, op ≠ .cleanup env
  · obtain ⟨hch, hev⟩ := applyOp_shape m op hop
    constructor
    · rcases hch with h | ⟨channelID, channel, h⟩
      · rw [h]; exact hnd
      · rw [h]; exact nodup_mapKeys_mapSet _ _ _ hnd
    · intro k
      have hsame : expiredCount (applyOp m op).events k = expiredCount m.events k := by
        rcases hev with h | ⟨env, channelID, eventType, data, hty, h⟩
        · rw [h]
        · rw [h, expiredCount_appendEvent]
          simp [hty]
      rw [hsame]
      rcases hcount k with h0 | ⟨h1, hclosed⟩
      · exact Or.inl h0
      · exact Or.inr ⟨h1, closed_step m op k hfresh hclosed⟩
  · push_neg at hop
    obtain ⟨env, rfl⟩ := hop
    constructor
    · simp only [applyOp, cleanupExpiredChannels, mapKeys_cleanupLoop]
      exact hnd
    · intro k
      have hc : expiredCount (applyOp m (.cleanup env)).events k =
          expiredCount m.events k + expiringAt (env.now 0) m.channels k :=
        expiredCount_cleanupLoop env (env.now 0) m.channels m.events k
      have hst : stateOf (applyOp m (.cleanup env)) k =
          (mapGet k m.channels).map fun ch => (closeIfExpired (env.now 0) ch).State :=
        stateOf_cleanup env m k
      have hex := expiringAt_of_nodup (env.now 0) m.channels k hnd
      rw [hc, hst]
      cases hg : mapGet k m.channels with
      | none =>
        rw [hg] at hex
        simp only [] at hex
        rcases hcount k with h0 | ⟨_, hclosed⟩
        · left; omega
        · simp [stateOf, hg] at hclosed
      | some ch =>
        rw [hg] at hex
        simp only [] at hex
        by_cases hb : isExpiring (env.now 0) ch = true
        · rw [if_pos hb] at hex
          have hnot : ch.State ≠ StateClosed := by
            have : env.now 0 > ch.ExpiresAt ∧ ch.State ≠ StateClosed := by
              simpa [isExpiring] using hb
            exact this.2
          rcases hcount k with h0 | ⟨_, hclosed⟩
          · right
            refine ⟨by omega, ?_⟩
            simp [closeIfExpired, hb]
          · rw [stateOf_of_get hg] at hclosed
            exact absurd (Option.some.inj hclosed) hnot
        · rw [if_neg hb] at hex
          rcases hcount k with h0 | ⟨h1, hclosed⟩
          · left; omega
          · right
            refine ⟨by omega, ?_⟩
            rw [stateOf_of_get hg] at hclosed
            simpa [closeIfExpired, hb] using hclosed

theorem ExpiredOnce_run (ops : List Op) (m : Manager) (hfresh : FreshIds m ops = true)
    (hinv : ExpiredOnce m) : ExpiredOnce (run m ops) := by
  induction ops generalizing m with
  | nil => exact hinv
  | cons op rest ih =>
    simp only [FreshIds, Bool.and_eq_true] at hfresh
    exact ih (applyOp m op) hfresh.2 (ExpiredOnce_step m op hfresh.1 hinv)

theorem ExpiredOnce_new (config : ChannelConfig) : ExpiredOnce (NewManager config) := by
  constructor
  · simp [NewManager, mapKeys]
  · intro k
    left
    simp [NewManager, expiredCount, eventsOf, mapGet]

/-! ## Closed is final and expiry happens once (C6) -/

/-- C6: start from the manager `NewManager` returns and make any sequence of calls
(`CreateChannel`, `AcceptChannel`, `UpdateState`, `AddMessage`, `CloseChannel`, expiry
cleanup) in which each `CreateChannel` draws an id not in use. A channel that is Closed at
some point of the sequence is Closed at every later point; the event log of a channel id
only grows; and it never holds more than one `channel_expired` event. -/
theorem closed_is_final_and_expiry_once (config : ChannelConfig) (ops1 ops2 : List Op)
    (k : String) (hfresh : FreshIds (NewManager config) (ops1 ++ ops2) = true) :
    (stateOf (run (NewManager config) ops1) k = some StateClosed →
      stateOf (run (NewManager config) (ops1 ++ ops2)) k = some StateClosed) ∧
    (∃ later, eventsOf (run (NewManager config) (ops1 ++ ops2)).events k =
      eventsOf (run (NewManager config) ops1).events k ++ later) ∧
    expiredCount (run (NewManager config) ops1).events k ≤ 1 ∧
    expiredCount (run (NewManager config) (ops1 ++ ops2)).events k ≤ 1 := by
  have hsplit := FreshIds_append ops1 ops2 (NewManager config)
  rw [hfresh] at hsplit
  have hboth : FreshIds (NewManager config) ops1 = true ∧
      FreshIds (run (NewManager config) ops1) ops2 = true := by
    simpa using hsplit.symm
  have hle : ∀ ops, FreshIds (NewManager config) ops = true →
      expiredCount (run (NewManager config) ops).events k ≤ 1 := by
    intro ops hf
    rcases (ExpiredOnce_run ops _ hf (ExpiredOnce_new config)).2 k with h | ⟨h, _⟩ <;> omega
  refine ⟨?_, ?_, hle ops1 hboth.1, hle _ hfresh⟩
  · intro hclosed
    rw [run_append]
    exact closed_run ops2 _ k hboth.2 hclosed
  · rw [run_append]
    exact eventsOf_run ops2 _ k

/-- C6 on a lifecycle: the channel is created, accepted and closed by the cleanup after its
expires-at; a second cleanup, a forced close and an update follow. It stays Closed and its
log holds exactly one `channel_expired` event. -/
theorem closed_is_final_and_expiry_once_witness :
    stateOf (run (NewManager demoConfig) (demoOps ++ demoLaterOps)) demoID
      = some StateClosed ∧
    expiredCount (run (NewManager demoConfig) (demoOps ++ demoLaterOps)).events demoID ≤ 1 ∧
    expiredCount (run (NewManager demoConfig) demoOps).events demoID = 1 :=
  ⟨(closed_is_final_and_expiry_once demoConfig demoOps demoLaterOps demoID (by decide)).1
      (by decide),
    (closed_is_final_and_expiry_once demoConfig demoOps demoLaterOps demoID
      (by decide)).2.2.2,
    by decide⟩

/-! ## Merging a patch into the channel data (C11) -/

theorem mapGet_foldl_mapSet (data : DataMap) (d : DataMap) (k : String)
    (hnd : (mapKeys data).Nodup) :
    mapGet k (data.foldl (fun acc kv => mapSet kv.1 kv.2 acc) d) =
      match mapGet k data with
      | some v => some v
      | none => mapGet k d := by
  induction data generalizing d with
  | nil => simp [mapGet]
  | cons hd tl ih =>
    obtain ⟨k0, v0⟩ := hd
    have hnd' : k0 ∉ mapKeys tl ∧ (mapKeys tl).Nodup := by
      simpa [mapKeys] using hnd
    rw [List.foldl_cons, ih _ hnd'.2]
    by_cases hk : k0 = k
    · subst hk
      rw [mapGet_eq_none_of_not_mem tl k0 hnd'.1]
      simp [mapGet, mapGet_mapSet_self]
    · have hk' : k ≠ k0 := fun h => hk h.symm
      simp only [mapGet, hk, if_false]
      cases mapGet k tl with
      | some v => rfl
      | none => simp [mapGet_mapSet_ne _ _ _ _ hk']

/-- On a channel whose data is not nil, a successful `UpdateState` with a patch that holds
each key once leaves data that map every key of the patch to the patch's value and every
other key to what it had, and keeps id, participants, state, created-at and expires-at. -/
theorem UpdateState_merges_patch (env : Env) (m : Manager) (channelID : String)
    (data : DataMap) (signature : Signature) (channel : Channel) (d : DataMap)
    (hget : mapGet channelID m.channels = some channel) (hdata : channel.Data = some d)
    (hnd : (mapKeys data).Nodup)
    (hok : (UpdateState env m channelID data signature).1 = Outcome.ok) :
    ∃ channel' d', mapGet channelID (UpdateState env m channelID data signature).2.channels
        = some channel' ∧ channel'.Data = some d' ∧
      (∀ k, mapGet k d' = match mapGet k data with
        | some v => some v
        | none => mapGet k d) ∧
      channel'.ID = channel.ID ∧ channel'.Participants = channel.Participants ∧
      channel'.State = channel.State ∧ channel'.CreatedAt = channel.CreatedAt ∧
      channel'.ExpiresAt = channel.ExpiresAt := by
  obtain ⟨ch, merged, hget', _, _, _, hmerge, heq⟩ := UpdateState_ok_inv env m channelID data
    signature hok
  rw [hget] at hget'
  cases hget'
  rw [heq]
  rw [hdata] at hmerge
  have hm : merged = some (data.foldl (fun acc kv => mapSet kv.1 kv.2 acc) d) := by
    cases data <;> simpa [mergeData] using hmerge.symm
  refine ⟨_, _, updatedManager_get env m channelID data signature channel merged, ?_,
    fun k => mapGet_foldl_mapSet data d k hnd, rfl, rfl, rfl, rfl, rfl⟩
  simp [updatedChannel, hm]

/-- C11 (the code at the failing inputs): on an open, unexpired channel whose data is the
nil map, as left by a creation request without initial data, `UpdateState` with a patch
that is not empty and a signature that `verifySignature` lets through does not succeed. It
panics on the first assignment, after the nonce has been incremented; the data are still
nil and no event is recorded. -/
theorem UpdateState_nil_data_panics (env : Env) (m : Manager) (channelID : String)
    (data : DataMap) (signature : Signature) (channel : Channel)
    (hget : mapGet channelID m.channels = some channel) (hopen : channel.State = StateOpen)
    (hnow : env.now 0 ≤ channel.ExpiresAt)
    (hsig : verifySignature channel signature = none)
    (hnil : channel.Data = none) (hpatch : data ≠ []) :
    UpdateState env m channelID data signature =
      (.panic "assignment to entry in nil map",
        { m with channels := (mapSet channelID
            { channel with Nonce := (channel.Nonce + 1) % 2 ^ 64 } m.channels) }) := by
  have hmerge : mergeData channel.Data data = none := by
    rw [hnil]
    cases data with
    | nil => exact absurd rfl hpatch
    | cons kv rest => rfl
  rcases UpdateState_cases env m channelID data signature with
    ⟨h, _⟩ | ⟨ch, hg, ⟨h, _⟩ | ⟨_, h, _⟩ | ⟨_, _, e, h, _⟩ | ⟨_, _, _, _, heq⟩ |
      ⟨_, _, _, merged, h, _⟩⟩
  · rw [hget] at h; cases h
  · rw [hget] at hg; cases hg; exact absurd hopen h
  · rw [hget] at hg; cases hg; exact absurd h (not_lt.mpr hnow)
  · rw [hget] at hg; cases hg; rw [hsig] at h; cases h
  · rw [hget] at hg; cases hg; exact heq
  · rw [hget] at hg; cases hg; rw [hmerge] at h; cases h

/-- C11 at the update of the integration test: the channel is created without initial
data and accepted; the update with `application_status` panics and leaves nonce 1 with
nil data. -/
theorem UpdateState_nil_data_panics_witness :
    (UpdateState (demoEnv 300) demoOpenNoData demoID demoPatch
      (demoSignature "0xEmployer" "test_update_signature")).1
      = Outcome.panic "assignment to entry in nil map" ∧
    (mapGet demoID (UpdateState (demoEnv 300) demoOpenNoData demoID demoPatch
      (demoSignature "0xEmployer" "test_update_signature")).2.channels).map
        (fun ch => (ch.Nonce, ch.Data)) = some (1, none) := by
  have h := UpdateState_nil_data_panics (demoEnv 300) demoOpenNoData demoID demoPatch
    (demoSignature "0xEmployer" "test_update_signature")
    { demoChannel StateOpen 0 with Data := none }
    (by decide) (by decide) (by decide) (by decide) (by decide) (by decide)
  rw [h]
  exact ⟨rfl, by decide⟩

/-! ## What `CreateChannel` returns (C12, C13, C14) -/

theorem hexDigit_isLowerHexChar : ∀ n, n < 16 → isLowerHexChar (hexDigit n) = true := by
  decide

theorem hexEncodeToString_length (bs : List Nat) :
    (hexEncodeToString bs).length = 2 * bs.length := by
  simp only [hexEncodeToString, String.length_mk]
  induction bs with
  | nil => rfl
  | cons b tl ih =>
    simp only [List.flatMap_cons, List.length_append, List.length_cons, ih]
    simp
    omega

theorem hexEncodeToString_chars (bs : List Nat) :
    ∀ ch ∈ (hexEncodeToString bs).toList, isLowerHexChar ch = true := by
  intro ch hch
  have hch' : ch ∈ bs.flatMap fun b => [hexDigit (b / 16 % 16), hexDigit (b % 16)] := hch
  rw [List.mem_flatMap] at hch'
  obtain ⟨b, _, hb⟩ := hch'
  simp only [List.mem_cons, List.mem_singleton, List.not_mem_nil, or_false] at hb
  rcases hb with rfl | rfl
  · exact hexDigit_isLowerHexChar _ (Nat.mod_lt _ (by decide))
  · exact hexDigit_isLowerHexChar _ (Nat.mod_lt _ (by decide))

theorem randomBytes_length (n : Nat) (entropy : Nat → Nat) :
    (randomBytes n entropy).length = n := by
  simp [randomBytes]

theorem randomBytes_lt (n : Nat) (entropy : Nat → Nat) :
    ∀ b ∈ randomBytes n entropy, b < 256 := by
  intro b hb
  simp only [randomBytes, List.mem_map] at hb
  obtain ⟨i, _, rfl⟩ := hb
  exact Nat.mod_lt _ (by decide)

theorem generateChannelID_spec (entropy : Option (Nat → Nat)) (channelID : String)
    (h : generateChannelID entropy = some channelID) :
    ∃ bytes, bytes.length = 16 ∧ (∀ b ∈ bytes, b < 256) ∧
      channelID = hexEncodeToString bytes := by
  cases entropy with
  | none => simp [generateChannelID] at h
  | some f =>
    simp only [generateChannelID, Option.some.injEq] at h
    exact ⟨randomBytes 16 f, randomBytes_length 16 f, randomBytes_lt 16 f, h.symm⟩

/-- C12: the channel that an accepted `CreateChannel` returns has as id the 32 lower-case
hexadecimal characters of 16 random bytes (so it is not empty), is in state Opening with
nonce 0, has exactly the participants `[ParticipantA, ParticipantB]` in that order and the
request's initial data as data; it is the channel stored under that id. -/
theorem CreateChannel_returned_channel (c : Crypto) (env : Env) (m : Manager)
    (req : ChannelOpenRequest) (channel : Channel)
    (hok : (CreateChannel c env m req).1 = Except.ok channel) :
    (∃ bytes, bytes.length = 16 ∧ (∀ b ∈ bytes, b < 256) ∧
      channel.ID = hexEncodeToString bytes) ∧
    channel.ID ≠ "" ∧ channel.ID.length = 32 ∧
    (∀ ch ∈ channel.ID.toList, isLowerHexChar ch = true) ∧
    channel.State = StateOpening ∧ channel.Nonce = 0 ∧
    channel.Participants = [req.ParticipantA, req.ParticipantB] ∧
    channel.Data = req.InitialData ∧
    mapGet channel.ID (CreateChannel c env m req).2.channels = some channel := by
  rcases CreateChannel_cases c env m req with ⟨e, heq⟩ | ⟨channelID, hid, _, _, heq⟩
  · rw [heq] at hok; cases hok
  · rw [heq] at hok ⊢
    cases hok
    obtain ⟨bytes, hlen, hlt, hbytes⟩ := generateChannelID_spec _ _ hid
    have hID : (newChannel env m req channelID).ID = channelID := rfl
    have hlen32 : channelID.length = 32 := by
      rw [hbytes, hexEncodeToString_length, hlen]
    refine ⟨⟨bytes, hlen, hlt, hbytes⟩, ?_, hlen32, ?_, rfl, rfl, rfl, rfl, ?_⟩
    · rw [hID]
      intro hempty
      rw [hempty] at hlen32
      exact absurd hlen32 (by decide)
    · rw [hID, hbytes]
      exact hexEncodeToString_chars bytes
    · simp [addEvent, SaveChannel, mapGet_mapSet_self]

/-- C12 at the first request of the integration test. -/
theorem CreateChannel_returned_channel_witness :
    (CreateChannel demoCrypto (demoEnv 100) (NewManager demoConfig) demoRequest).1
      = Except.ok (newChannel (demoEnv 100) (NewManager demoConfig) demoRequest demoID) ∧
    (newChannel (demoEnv 100) (NewManager demoConfig) demoRequest demoID).ID.length = 32 ∧
    (newChannel (demoEnv 100) (NewManager demoConfig) demoRequest demoID).Participants
      = [demoStudent, demoEmployer] :=
  have h := CreateChannel_returned_channel demoCrypto (demoEnv 100) (NewManager demoConfig)
    demoRequest (newChannel (demoEnv 100) (NewManager demoConfig) demoRequest demoID)
    (by rfl)
  ⟨by rfl, h.2.2.1, h.2.2.2.2.2.2.1⟩

theorem validateParticipant_none_iff (c : Crypto) (p : Participant) :
    validateParticipant c p = none ↔ ParticipantValid c p := by
  unfold validateParticipant ParticipantValid
  by_cases haddr : p.Address = ""
  · simp [haddr]
  · cases hpk : p.PublicKey with
    | none => simp [haddr]
    | some pk =>
      by_cases hrole : p.Role = RoleStudent ∨ p.Role = RoleEmployer
      · have hne : ¬ p.Role = "" := by
          rcases hrole with h | h <;> rw [h] <;> decide
        have hnot : ¬ (p.Role ≠ RoleStudent ∧ p.Role ≠ RoleEmployer) := by
          rintro ⟨h1, h2⟩
          rcases hrole with h | h
          · exact h1 h
          · exact h2 h
        by_cases hderived : p.Address = c.pubkeyToAddressHex pk
        · simp only [haddr, hne, hnot, if_false, ne_eq, hderived, not_true_eq_false]
          simp only [hderived] at haddr
          simp [haddr, hrole]
        · simp only [haddr, hne, hnot, if_false, ne_eq, hderived, not_false_eq_true, if_true]
          simp [hderived]
      · have hboth : p.Role ≠ RoleStudent ∧ p.Role ≠ RoleEmployer := by
          push_neg at hrole
          exact hrole
        constructor
        · intro h
          exfalso
          by_cases hne : p.Role = ""
          · simp [haddr, hne] at h
          · simp [haddr, hne, hboth.1, hboth.2] at h
        · rintro ⟨_, hr, _⟩
          exact absurd hr hrole

theorem ValidateChannelCreation_expiry (c : Crypto) (req : ChannelOpenRequest)
    (hA : validateParticipant c req.ParticipantA = none)
    (hB : validateParticipant c req.ParticipantB = none)
    (haddr : req.ParticipantA.Address ≠ req.ParticipantB.Address)
    (hrole : req.ParticipantA.Role ≠ req.ParticipantB.Role) :
    ValidateChannelCreation c req =
      if req.ExpiryHours < 1 ∨ req.ExpiryHours > 8760 then
        some "invalid expiry hours: must be between 1 and 8760"
      else none := by
  simp [ValidateChannelCreation, hA, hB, haddr, hrole]

/-- C13 (the code at the failing inputs): a creation request with two valid participants of
different addresses and different roles whose `ExpiryHours` is 0 (omitted) is refused by
`ValidateChannelCreation`; `CreateChannel` returns the validation error and stores nothing,
so the fallback to `DefaultExpiryHours` in `CreateChannel` is never reached. -/
theorem CreateChannel_rejects_omitted_expiry (c : Crypto) (env : Env) (m : Manager)
    (req : ChannelOpenRequest)
    (hA : validateParticipant c req.ParticipantA = none)
    (hB : validateParticipant c req.ParticipantB = none)
    (haddr : req.ParticipantA.Address ≠ req.ParticipantB.Address)
    (hrole : req.ParticipantA.Role ≠ req.ParticipantB.Role)
    (hzero : req.ExpiryHours = 0) :
    CreateChannel c env m req =
      (.error "validation failed: invalid expiry hours: must be between 1 and 8760", m) := by
  have hval := ValidateChannelCreation_expiry c req hA hB haddr hrole
  rw [hzero] at hval
  simp only [show ((0 : Int) < 1 ∨ (0 : Int) > 8760) from Or.inl (by decide), if_true] at hval
  simp only [CreateChannel, hval]
  rfl

/-- C13 at the request the integration test's later cases send: student and employer, no
expiry hours, on a new manager whose `DefaultExpiryHours` is 24. -/
theorem CreateChannel_rejects_omitted_expiry_witness :
    CreateChannel demoCrypto (demoEnv 100) (NewManager demoConfig)
      { demoRequest with ExpiryHours := 0 } =
      (.error "validation failed: invalid expiry hours: must be between 1 and 8760",
        NewManager demoConfig) :=
  CreateChannel_rejects_omitted_expiry demoCrypto (demoEnv 100) (NewManager demoConfig)
    { demoRequest with ExpiryHours := 0 } (by decide) (by decide) (by decide) (by decide)
    (by decide)

/-- C14: `ValidateChannelCreation` returns nil exactly when both participants are valid
(non-empty address, a public key, role student or employer, address derived from the public
key), their addresses differ, their roles differ and 1 ≤ expiry hours ≤ 8760. Hence the
channel every successful `CreateChannel` returns and stores has two participants with
different addresses and different roles. -/
theorem ValidateChannelCreation_none_iff (c : Crypto) (req : ChannelOpenRequest) :
    (ValidateChannelCreation c req = none ↔
      ParticipantValid c req.ParticipantA ∧ ParticipantValid c req.ParticipantB ∧
      req.ParticipantA.Address ≠ req.ParticipantB.Address ∧
      req.ParticipantA.Role ≠ req.ParticipantB.Role ∧
      1 ≤ req.ExpiryHours ∧ req.ExpiryHours ≤ 8760) ∧
    (∀ env m channel, (CreateChannel c env m req).1 = Except.ok channel →
      mapGet channel.ID (CreateChannel c env m req).2.channels = some channel ∧
      ∃ a b, channel.Participants = [a, b] ∧ a.Address ≠ b.Address ∧ a.Role ≠ b.Role) := by
  have hiff : ValidateChannelCreation c req = none ↔
      ParticipantValid c req.ParticipantA ∧ ParticipantValid c req.ParticipantB ∧
      req.ParticipantA.Address ≠ req.ParticipantB.Address ∧
      req.ParticipantA.Role ≠ req.ParticipantB.Role ∧
      1 ≤ req.ExpiryHours ∧ req.ExpiryHours ≤ 8760 := by
    rw [← validateParticipant_none_iff, ← validateParticipant_none_iff]
    cases hA : validateParticipant c req.ParticipantA with
    | some e => simp [ValidateChannelCreation, hA]
    | none =>
      cases hB : validateParticipant c req.ParticipantB with
      | some e => simp [ValidateChannelCreation, hA, hB]
      | none =>
        by_cases haddr : req.ParticipantA.Address = req.ParticipantB.Address
        · simp [ValidateChannelCreation, hA, hB, haddr]
        · by_cases hrole : req.ParticipantA.Role = req.ParticipantB.Role
          · simp [ValidateChannelCreation, hA, hB, haddr, hrole]
          · rw [ValidateChannelCreation_expiry c req hA hB haddr hrole]
            by_cases hexp : req.ExpiryHours < 1 ∨ req.ExpiryHours > 8760
            · rw [if_pos hexp]
              constructor
              · intro h; cases h
              · rintro ⟨_, _, _, _, h1, h2⟩
                omega
            · rw [if_neg hexp]
              exact ⟨fun _ => ⟨rfl, rfl, haddr, hrole, by omega, by omega⟩, fun _ => rfl⟩
  refine ⟨hiff, ?_⟩
  intro env m channel hok
  rcases CreateChannel_cases c env m req with ⟨e, heq⟩ | ⟨channelID, _, hval, _, heq⟩
  · rw [heq] at hok; cases hok
  · rw [heq] at hok ⊢
    cases hok
    obtain ⟨_, _, haddr, hrole, _⟩ := hiff.mp hval
    refine ⟨?_, req.ParticipantA, req.ParticipantB, rfl, haddr, hrole⟩
    simp [addEvent, SaveChannel, mapGet_mapSet_self]

/-- C14 at the first request of the integration test, and at the same request with the
student on both sides. -/
theorem ValidateChannelCreation_none_iff_witness :
    ValidateChannelCreation demoCrypto demoRequest = none ∧
    ValidateChannelCreation demoCrypto { demoRequest with ParticipantB := demoStudent }
      ≠ none :=
  ⟨(ValidateChannelCreation_none_iff demoCrypto demoRequest).1.mpr
      ⟨⟨by decide, Or.inl rfl, ⟨1, 2⟩, rfl, rfl⟩, ⟨by decide, Or.inr rfl, ⟨3, 4⟩, rfl, rfl⟩,
        by decide, by decide, by decide, by decide⟩,
    fun h => absurd rfl
      ((ValidateChannelCreation_none_iff demoCrypto
        { demoRequest with ParticipantB := demoStudent }).1.mp h).2.2.1⟩

/-! ## The cap on the number of channels (C15) -/

theorem length_mapSet_le {α : Type} (k : String) (v : α) (l : List (String × α)) :
    (mapSet k v l).length ≤ l.length + 1 := by
  induction l with
  | nil => simp [mapSet]
  | cons hd tl ih =>
    obtain ⟨k', v'⟩ := hd
    by_cases h : k' = k
    · simp [mapSet, h]
    · simp only [mapSet, h, if_false, List.length_cons]
      omega

theorem length_mapSet_of_get {α : Type} (k : String) (v w : α) (l : List (String × α))
    (hget : mapGet k l = some w) : (mapSet k v l).length = l.length := by
  induction l with
  | nil => simp [mapGet] at hget
  | cons hd tl ih =>
    obtain ⟨k', v'⟩ := hd
    by_cases h : k' = k
    · simp [mapSet, h]
    · simp only [mapGet, h, if_false] at hget
      simp only [mapSet, h, if_false, List.length_cons, ih hget]

theorem length_cleanupLoop (env : Env) (now : Time) (l : List (String × Channel))
    (events : List (String × List ChannelEvent)) :
    (cleanupLoop env now l events).1.length = l.length := by
  have h := congrArg List.length (mapKeys_cleanupLoop env now l events)
  simpa [mapKeys] using h

/-- A call keeps the configuration; it keeps the number of stored channels too, unless it
is a `CreateChannel` that found fewer than `MaxChannels` channels, which adds at most one. -/
theorem count_step (m : Manager) (op : Op) :
    (applyOp m op).config = m.config ∧
    ((applyOp m op).channels.length = m.channels.length ∨
      (GetChannelCount m < m.config.MaxChannels ∧
        (applyOp m op).channels.length ≤ m.channels.length + 1)) := by
  cases op with
  | create c env req =>
    rcases CreateChannel_cases c env m req with ⟨e, heq⟩ | ⟨channelID, _, _, hlt, heq⟩
    · simp only [applyOp]; rw [heq]; exact ⟨rfl, Or.inl rfl⟩
    · simp only [applyOp]; rw [heq]
      exact ⟨rfl, Or.inr ⟨hlt, length_mapSet_le _ _ _⟩⟩
  | accept env channelID signature =>
    rcases AcceptChannel_cases env m channelID signature with
      ⟨_, heq⟩ | ⟨ch, hg, ⟨_, heq⟩ | ⟨_, _, _, heq⟩ | ⟨_, _, heq⟩⟩
    · simp only [applyOp]; rw [heq]; exact ⟨rfl, Or.inl rfl⟩
    · simp only [applyOp]; rw [heq]; exact ⟨rfl, Or.inl rfl⟩
    · simp only [applyOp]; rw [heq]; exact ⟨rfl, Or.inl rfl⟩
    · simp only [applyOp]; rw [heq]
      exact ⟨rfl, Or.inl (length_mapSet_of_get _ _ _ _ hg)⟩
  | update env channelID data signature =>
    rcases UpdateState_cases env m channelID data signature with
      ⟨_, heq⟩ | ⟨ch, hg, ⟨_, heq⟩ | ⟨_, _, heq⟩ | ⟨_, _, _, _, heq⟩ | ⟨_, _, _, _, heq⟩ |
        ⟨_, _, _, merged, _, heq⟩⟩
    · simp only [applyOp]; rw [heq]; exact ⟨rfl, Or.inl rfl⟩
    · simp only [applyOp]; rw [heq]; exact ⟨rfl, Or.inl rfl⟩
    · simp only [applyOp]; rw [heq]; exact ⟨rfl, Or.inl rfl⟩
    · simp only [applyOp]; rw [heq]; exact ⟨rfl, Or.inl rfl⟩
    · simp only [applyOp]; rw [heq]
      exact ⟨rfl, Or.inl (length_mapSet_of_get _ _ _ _ hg)⟩
    · simp only [applyOp]; rw [heq]
      exact ⟨rfl, Or.inl (length_mapSet_of_get _ _ _ _ hg)⟩
  | close env channelID signature force =>
    rcases CloseChannel_cases env m channelID signature force with
      ⟨_, heq⟩ | ⟨ch, hg, ⟨_, heq⟩ | ⟨_, _, _, _, heq⟩ | ⟨_, _, heq⟩⟩
    · simp only [applyOp]; rw [heq]; exact ⟨rfl, Or.inl rfl⟩
    · simp only [applyOp]; rw [heq]; exact ⟨rfl, Or.inl rfl⟩
    · simp only [applyOp]; rw [heq]; exact ⟨rfl, Or.inl rfl⟩
    · simp only [applyOp]; rw [heq]
      exact ⟨rfl, Or.inl (length_mapSet_of_get _ _ _ _ hg)⟩
  | addMessage env message =>
    rcases AddMessage_cases env m message with
      ⟨_, heq⟩ | ⟨ch, _, ⟨_, heq⟩ | ⟨_, _, _, heq⟩ | ⟨_, _, heq⟩⟩
    · simp only [applyOp]; rw [heq]; exact ⟨rfl, Or.inl rfl⟩
    · simp only [applyOp]; rw [heq]; exact ⟨rfl, Or.inl rfl⟩
    · simp only [applyOp]; rw [heq]; exact ⟨rfl, Or.inl rfl⟩
    · simp only [applyOp]; rw [heq]; exact ⟨rfl, Or.inl rfl⟩
  | cleanup env =>
    exact ⟨rfl, Or.inl (length_cleanupLoop env (env.now 0) m.channels m.events)⟩

theorem count_run (ops : List Op) (m : Manager)
    (hle : GetChannelCount m ≤ m.config.MaxChannels) :
    (run m ops).config = m.config ∧
      GetChannelCount (run m ops) ≤ (run m ops).config.MaxChannels := by
  induction ops generalizing m with
  | nil => exact ⟨rfl, hle⟩
  | cons op rest ih =>
    obtain ⟨hcfg, hlen⟩ := count_step m op
    have hstep : GetChannelCount (applyOp m op) ≤ (applyOp m op).config.MaxChannels := by
      rw [hcfg]
      simp only [GetChannelCount] at hle ⊢
      rcases hlen with h | ⟨hlt, h⟩
      · rw [h]; exact hle
      · simp only [GetChannelCount] at hlt
        omega
    obtain ⟨h1, h2⟩ := ih (applyOp m op) hstep
    have hrun : run m (op :: rest) = run (applyOp m op) rest := rfl
    rw [hrun]
    exact ⟨h1.trans hcfg, h2⟩

/-- C15 (as stated, refuted): the manager holds as many channels as `MaxChannels` allows and
the request names the student on both sides; `CreateChannel` fails with the validation
error, not with `maximum number of channels reached`. -/
theorem CreateChannel_full_reports_validation_first :
    GetChannelCount demoFull ≥ demoFull.config.MaxChannels ∧
    CreateChannel demoCrypto (demoEnv 150) demoFull
      { demoRequest with ParticipantB := demoStudent } =
      (.error "validation failed: participants cannot be the same", demoFull) := by
  constructor
  · decide
  · rfl

/-- C15 (amended): whenever the number of stored channels is ≥ `MaxChannels`,
`CreateChannel` fails and stores nothing, with `maximum number of channels reached` for
every request that passes validation (the validation error comes first otherwise). So a
manager that holds at most `MaxChannels` channels holds at most `MaxChannels` channels
after any sequence of calls. -/
theorem CreateChannel_respects_cap (c : Crypto) (env : Env) (m : Manager)
    (req : ChannelOpenRequest) :
    (GetChannelCount m ≥ m.config.MaxChannels →
      (∃ e, CreateChannel c env m req = (.error e, m)) ∧
      (ValidateChannelCreation c req = none →
        CreateChannel c env m req = (.error "maximum number of channels reached", m))) ∧
    (GetChannelCount m ≤ m.config.MaxChannels →
      ∀ ops, (run m ops).config.MaxChannels = m.config.MaxChannels ∧
        GetChannelCount (run m ops) ≤ m.config.MaxChannels) := by
  constructor
  · intro hfull
    constructor
    · rcases CreateChannel_cases c env m req with ⟨e, heq⟩ | ⟨_, _, _, hlt, _⟩
      · exact ⟨e, heq⟩
      · exact absurd hfull (not_le.mpr hlt)
    · intro hval
      simp [CreateChannel, hval, hfull]
  · intro hle ops
    obtain ⟨hcfg, hcount⟩ := count_run ops m hle
    rw [hcfg] at hcount
    exact ⟨by rw [hcfg], hcount⟩

/-- C15 (amended) at a manager that allows one channel and holds one. -/
theorem CreateChannel_respects_cap_witness :
    CreateChannel demoCrypto (demoEnv 150) demoFull demoRequest =
      (.error "maximum number of channels reached", demoFull) ∧
    GetChannelCount (run demoFull demoOps) ≤ 1 :=
  ⟨((CreateChannel_respects_cap demoCrypto (demoEnv 150) demoFull demoRequest).1
      (by decide)).2 (by decide),
    ((CreateChannel_respects_cap demoCrypto (demoEnv 150) demoFull demoRequest).2
      (by decide) demoOps).2⟩

/-! ## What `AddMessage` checks (C16, C17) and the message log (C18) -/

theorem verifyMessageSignature_eq_none_iff (message : Message) :
    verifyMessageSignature message = none ↔
      message.Signature.Signature ≠ "" ∧ message.Signature.Address = message.From := by
  unfold verifyMessageSignature
  by_cases hempty : message.Signature.Signature = ""
  · simp [hempty]
  · by_cases haddr : message.Signature.Address = message.From
    · simp [hempty, haddr]
    · simp [hempty, haddr]

theorem messagesOf_addEvent (env : Env) (m : Manager) (channelID : String)
    (eventType : String) (data : EventData) (k : String) :
    messagesOf (addEvent env m channelID eventType data) k = messagesOf m k := rfl

/-- The manager state a successful `AddMessage` leaves behind. -/
theorem AddMessage_ok_inv (env : Env) (m : Manager) (message : Message)
    (hok : (AddMessage env m message).1 = Outcome.ok) :
    ∃ channel, mapGet message.ChannelID m.channels = some channel ∧
      channel.State = StateOpen ∧ verifyMessageSignature message = none ∧
      (AddMessage env m message).2 =
        addEvent env
          { m with messages := (mapSet message.ChannelID
              ((mapGet message.ChannelID m.messages).getD [] ++ [message]) m.messages) }
          message.ChannelID "message_added"
          (.messageAdded message.ID message.Typ message.From message.To) := by
  rcases AddMessage_cases env m message with
    ⟨_, heq⟩ | ⟨ch, hg, ⟨_, heq⟩ | ⟨_, _, _, heq⟩ | ⟨hopen, hsig, heq⟩⟩
  · rw [heq] at hok; cases hok
  · rw [heq] at hok; cases hok
  · rw [heq] at hok; cases hok
  · exact ⟨ch, hg, hopen, hsig, by rw [heq]⟩

/-- C16 (as stated, refuted): on the open channel between the student and the employer, a
message that a stranger addresses to themselves, signed under the stranger's address, is
accepted and stored. -/
theorem AddMessage_accepts_stranger :
    (mapGet demoID demoOpen.channels).map
      (fun ch => (isChannelParticipant demoStrangerMessage.From ch,
        isChannelParticipant demoStrangerMessage.To ch)) = some (false, false) ∧
    demoStrangerMessage.From = demoStrangerMessage.To ∧
    (AddMessage (demoEnv 300) demoOpen demoStrangerMessage).1 = Outcome.ok ∧
    messagesOf (AddMessage (demoEnv 300) demoOpen demoStrangerMessage).2 demoID
      = [demoStrangerMessage] := by
  decide

/-- The checks `AddMessage` makes: the channel is stored and Open, the signature string is
not empty, the address of the signature is the sender. -/
theorem AddMessage_ok_iff (env : Env) (m : Manager) (message : Message) :
    (AddMessage env m message).1 = Outcome.ok ↔
      ∃ channel, mapGet message.ChannelID m.channels = some channel ∧
        channel.State = StateOpen ∧ message.Signature.Signature ≠ "" ∧
        message.Signature.Address = message.From := by
  constructor
  · intro hok
    obtain ⟨ch, hg, hopen, hsig, _⟩ := AddMessage_ok_inv env m message hok
    rw [verifyMessageSignature_eq_none_iff] at hsig
    exact ⟨ch, hg, hopen, hsig.1, hsig.2⟩
  · rintro ⟨ch, hg, hopen, hne, haddr⟩
    have hsig : verifyMessageSignature message = none :=
      (verifyMessageSignature_eq_none_iff message).mpr ⟨hne, haddr⟩
    rcases AddMessage_cases env m message with
      ⟨h, _⟩ | ⟨ch', hg', ⟨h, _⟩ | ⟨_, e, h, _⟩ | ⟨_, _, heq⟩⟩
    · rw [hg] at h; cases h
    · rw [hg] at hg'; cases hg'; exact absurd hopen h
    · rw [hsig] at h; cases h
    · rw [heq]

/-- C16 (amended): `AddMessage` accepts a message exactly when the channel it names is
stored and Open, the signature string of the message is not empty and the address of the
signature equals the sender of the message; a message whose signature is under another
address than its sender is rejected and nothing changes. It compares neither the sender
nor the recipient with the participants of the channel, nor the sender with the recipient:
whether a message is accepted does not depend on its recipient. -/
theorem AddMessage_checks_signer_only (env : Env) (m : Manager) (message : Message) :
    ((AddMessage env m message).1 = Outcome.ok ↔
      ∃ channel, mapGet message.ChannelID m.channels = some channel ∧
        channel.State = StateOpen ∧ message.Signature.Signature ≠ "" ∧
        message.Signature.Address = message.From) ∧
    (message.Signature.Address ≠ message.From →
      ∃ e, AddMessage env m message = (.error e, m)) ∧
    (∀ recipient, (AddMessage env m { message with To := recipient }).1 = Outcome.ok ↔
      (AddMessage env m message).1 = Outcome.ok) := by
  refine ⟨AddMessage_ok_iff env m message, ?_, ?_⟩
  · intro hne
    rcases AddMessage_cases env m message with
      ⟨_, heq⟩ | ⟨ch, _, ⟨_, heq⟩ | ⟨_, e, _, heq⟩ | ⟨_, hsig, _⟩⟩
    · exact ⟨_, heq⟩
    · exact ⟨_, heq⟩
    · exact ⟨_, heq⟩
    · rw [verifyMessageSignature_eq_none_iff] at hsig
      exact absurd hsig.2 hne
  · intro recipient
    rw [AddMessage_ok_iff, AddMessage_ok_iff]

/-- C16 (amended) at a message that the stranger sends under the student's name. -/
theorem AddMessage_checks_signer_only_witness :
    ∃ e, AddMessage (demoEnv 300) demoOpen
      { demoStrangerMessage with From := "0xStudent" } = (.error e, demoOpen) :=
  (AddMessage_checks_signer_only (demoEnv 300) demoOpen
    { demoStrangerMessage with From := "0xStudent" }).2.1 (by decide)

/-- C17 (as stated, refuted): the job application of the integration test carries the key
`application` and neither `position` nor `resume`; `validateJobApplicationMessage` refuses
it, yet `AddMessage` accepts it and the log of the channel holds it. -/
theorem AddMessage_accepts_job_application_without_keys :
    demoJobApplication.Typ = MsgTypeJobApplication ∧
    hasKey demoJobApplication.Data "position" = false ∧
    hasKey demoJobApplication.Data "resume" = false ∧
    validateJobApplicationMessage demoJobApplication
      = some "job application must include position" ∧
    (AddMessage (demoEnv 300) demoOpen demoJobApplication).1 = Outcome.ok ∧
    messagesOf (AddMessage (demoEnv 300) demoOpen demoJobApplication).2 demoID
      = [demoJobApplication] := by
  decide

/-- C17 (amended): `AddMessage` does not validate the content of a message before it
appends it: whether it accepts a message depends neither on the type nor on the data of
the message. The rule that a job application carries both `position` and `resume` is that
of `validateJobApplicationMessage`, part of `ValidateMessage`, which `AddMessage` does not
call. -/
theorem AddMessage_ignores_content (env : Env) (m : Manager) (message : Message)
    (typ : MessageType) (data : DataMap) :
    ((AddMessage env m { message with Typ := typ, Data := data }).1 = Outcome.ok ↔
      (AddMessage env m message).1 = Outcome.ok) ∧
    (validateJobApplicationMessage message = none ↔
      hasKey message.Data "position" = true ∧ hasKey message.Data "resume" = true) ∧
    (message.Typ = MsgTypeJobApplication →
      (hasKey message.Data "position" = false ∨ hasKey message.Data "resume" = false) →
      ∀ c now0 now1, ValidateMessage c now0 now1 message ≠ none) := by
  have hjob : validateJobApplicationMessage message = none ↔
      hasKey message.Data "position" = true ∧ hasKey message.Data "resume" = true := by
    unfold validateJobApplicationMessage
    by_cases hp : hasKey message.Data "position" = true
    · by_cases hr : hasKey message.Data "resume" = true
      · simp [hp, hr]
      · simp [hp, hr]
    · simp [hp]
  refine ⟨?_, hjob, ?_⟩
  · rw [AddMessage_ok_iff, AddMessage_ok_iff]
  · intro htyp hmissing c now0 now1 hnone
    have hcontent : validateMessageContent message ≠ none := by
      intro h
      simp only [validateMessageContent, htyp, if_true] at h
      rw [hjob] at h
      rcases hmissing with hm | hm
      · rw [h.1] at hm; cases hm
      · rw [h.2] at hm; cases hm
    unfold ValidateMessage at hnone
    split_ifs at hnone
    cases hsig : ValidateSignature c (serializeMessageForSigning message) message.Signature with
    | some e => simp [hsig] at hnone
    | none =>
      cases hc : validateMessageContent message with
      | none => exact hcontent hc
      | some e => simp [hsig, hc] at hnone

/-- C17 (amended) at the job application of the integration test. -/
theorem AddMessage_ignores_content_witness :
    ValidateMessage demoCrypto 300 300 demoJobApplication ≠ none :=
  (AddMessage_ignores_content (demoEnv 300) demoOpen demoJobApplication MsgTypeDispute []).2.2
    rfl (Or.inl (by decide)) demoCrypto 300 300

theorem messagesOf_setMessages (m : Manager) (channelID : String) (log : List Message)
    (k : String) :
    messagesOf { m with messages := mapSet channelID log m.messages } k =
      if k = channelID then log else messagesOf m k := by
  by_cases h : k = channelID
  · subst h
    simp [messagesOf, mapGet_mapSet_self]
  · simp [messagesOf, mapGet_mapSet_ne _ _ _ _ h, h]

/-- A call leaves the message log of a channel id alone, unless it is a successful
`AddMessage` for that id, which appends its message. -/
theorem messagesOf_step (m : Manager) (op : Op) (k : String) :
    messagesOf (applyOp m op) k = messagesOf m k ∨
    ∃ env message, op = .addMessage env message ∧ message.ChannelID = k ∧
      (AddMessage env m message).1 = Outcome.ok ∧
      messagesOf (applyOp m op) k = messagesOf m k ++ [message] := by
  cases op with
  | create c env req =>
    left
    rcases CreateChannel_cases c env m req with ⟨e, heq⟩ | ⟨channelID, _, _, _, heq⟩
    · simp only [applyOp]; rw [heq]
    · simp only [applyOp]; rw [heq]; rfl
  | accept env channelID signature =>
    left
    rcases AcceptChannel_cases env m channelID signature with
      ⟨_, heq⟩ | ⟨ch, hg, ⟨_, heq⟩ | ⟨_, _, _, heq⟩ | ⟨_, _, heq⟩⟩
    · simp only [applyOp]; rw [heq]
    · simp only [applyOp]; rw [heq]
    · simp only [applyOp]; rw [heq]
    · simp only [applyOp]; rw [heq]; rfl
  | update env channelID data signature =>
    left
    rcases UpdateState_cases env m channelID data signature with
      ⟨_, heq⟩ | ⟨ch, hg, ⟨_, heq⟩ | ⟨_, _, heq⟩ | ⟨_, _, _, _, heq⟩ | ⟨_, _, _, _, heq⟩ |
        ⟨_, _, _, merged, _, heq⟩⟩
    · simp only [applyOp]; rw [heq]
    · simp only [applyOp]; rw [heq]
    · simp only [applyOp]; rw [heq]
    · simp only [applyOp]; rw [heq]
    · simp only [applyOp]; rw [heq]; rfl
    · simp only [applyOp]; rw [heq]; rfl
  | close env channelID signature force =>
    left
    rcases CloseChannel_cases env m channelID signature force with
      ⟨_, heq⟩ | ⟨ch, hg, ⟨_, heq⟩ | ⟨_, _, _, _, heq⟩ | ⟨_, _, heq⟩⟩
    · simp only [applyOp]; rw [heq]
    · simp only [applyOp]; rw [heq]
    · simp only [applyOp]; rw [heq]
    · simp only [applyOp]; rw [heq]; rfl
  | addMessage env message =>
    rcases AddMessage_cases env m message with
      ⟨_, heq⟩ | ⟨ch, _, ⟨_, heq⟩ | ⟨_, _, _, heq⟩ | ⟨_, _, heq⟩⟩
    · left; simp only [applyOp]; rw [heq]
    · left; simp only [applyOp]; rw [heq]
    · left; simp only [applyOp]; rw [heq]
    · by_cases hk : k = message.ChannelID
      · right
        refine ⟨env, message, rfl, hk.symm, by rw [heq], ?_⟩
        simp only [applyOp]
        rw [heq, messagesOf_addEvent, messagesOf_setMessages, if_pos hk, hk]
        rfl
      · left
        simp only [applyOp]
        rw [heq, messagesOf_addEvent, messagesOf_setMessages, if_neg hk]
  | cleanup env => left; rfl

theorem messagesOf_run (ops : List Op) (m : Manager) (k : String) :
    ∃ later, messagesOf (run m ops) k = messagesOf m k ++ later := by
  induction ops generalizing m with
  | nil => exact ⟨[], by simp [run]⟩
  | cons op rest ih =>
    obtain ⟨l2, h2⟩ := ih (applyOp m op)
    have hrun : run m (op :: rest) = run (applyOp m op) rest := rfl
    rw [hrun, h2]
    rcases messagesOf_step m op k with h | ⟨_, message, _, _, _, h⟩
    · rw [h]; exact ⟨_, rfl⟩
    · rw [h, List.append_assoc]; exact ⟨_, rfl⟩

/-- C18: after a successful `AddMessage(m)` on channel c, `GetChannelMessages(c)` returns
the log held before followed by m as last element, one element longer, and the logs of the
other channels are as before. Over any sequence of calls the log of a channel only grows
at its end, so messages come back in the order in which they were accepted. -/
theorem AddMessage_appends_to_log (env : Env) (m : Manager) (message : Message)
    (hok : (AddMessage env m message).1 = Outcome.ok) :
    GetChannelMessages (AddMessage env m message).2 message.ChannelID
      = .ok (messagesOf m message.ChannelID ++ [message]) ∧
    (∀ previous, GetChannelMessages m message.ChannelID = .ok previous →
      GetChannelMessages (AddMessage env m message).2 message.ChannelID
        = .ok (previous ++ [message])) ∧
    (messagesOf (AddMessage env m message).2 message.ChannelID).length
      = (messagesOf m message.ChannelID).length + 1 ∧
    (∀ k, k ≠ message.ChannelID →
      messagesOf (AddMessage env m message).2 k = messagesOf m k) ∧
    (∀ ops k, ∃ later, messagesOf (run (AddMessage env m message).2 ops) k
      = messagesOf (AddMessage env m message).2 k ++ later) := by
  obtain ⟨ch, _, _, _, heq⟩ := AddMessage_ok_inv env m message hok
  have hlog : messagesOf (AddMessage env m message).2 message.ChannelID
      = messagesOf m message.ChannelID ++ [message] := by
    rw [heq, messagesOf_addEvent, messagesOf_setMessages, if_pos rfl]
    rfl
  have hget : GetChannelMessages (AddMessage env m message).2 message.ChannelID
      = .ok (messagesOf m message.ChannelID ++ [message]) := by
    rw [heq]
    simp [GetChannelMessages, addEvent, mapGet_mapSet_self, messagesOf]
  refine ⟨hget, ?_, ?_, ?_, fun ops k => messagesOf_run ops _ k⟩
  · intro previous hprev
    rw [hget]
    have : messagesOf m message.ChannelID = previous := by
      unfold GetChannelMessages at hprev
      cases hg : mapGet message.ChannelID m.messages with
      | none => rw [hg] at hprev; cases hprev
      | some log =>
        rw [hg] at hprev
        simp only [Except.ok.injEq] at hprev
        simp [messagesOf, hg, hprev]
    rw [this]
  · rw [hlog]
    simp
  · intro k hk
    rw [heq, messagesOf_addEvent, messagesOf_setMessages, if_neg hk]

/-- C18 on the workflow of the integration test: the job application, then a second
message; the log returns them in that order. -/
theorem AddMessage_appends_to_log_witness :
    GetChannelMessages (AddMessage (demoEnv 400)
        (AddMessage (demoEnv 300) demoOpen demoJobApplication).2
        { demoJobApplication with ID := "msg_002" }).2 demoID
      = .ok ([demoJobApplication] ++ [{ demoJobApplication with ID := "msg_002" }]) :=
  (AddMessage_appends_to_log (demoEnv 400)
    (AddMessage (demoEnv 300) demoOpen demoJobApplication).2
    { demoJobApplication with ID := "msg_002" } (by decide)).2.1 [demoJobApplication]
    (by rfl)

/-! ## `ValidateStateUpdate` (C19) and `ValidateChannelAccess` (C20) -/

theorem validateUpdateSignatures_none_iff (c : Crypto) (update : StateUpdate)
    (channel : Channel) (signatures : List Signature) :
    validateUpdateSignatures c update channel signatures = none ↔
      SignaturesAuthentic c update channel signatures := by
  induction signatures with
  | nil => simp [validateUpdateSignatures, SignaturesAuthentic]
  | cons signature rest ih =>
    unfold SignaturesAuthentic at ih ⊢
    by_cases hpart : isChannelParticipant signature.Address channel = true
    · cases hsig : ValidateSignature c (serializeStateUpdateForSigning update) signature with
      | some e => simp [validateUpdateSignatures, hpart, hsig]
      | none => simp [validateUpdateSignatures, hpart, hsig, ih]
    · simp [validateUpdateSignatures, hpart]

/-- C19 (as stated, refuted): the channel's nonce is the largest `uint64` and the update
carries nonce 0, which is not that nonce plus 1; with the employer's signature recovering
to the employer's address, `ValidateStateUpdate` returns nil. -/
theorem ValidateStateUpdate_accepts_wrapped_nonce :
    (demoChannel StateOpen (2 ^ 64 - 1)).Nonce = 18446744073709551615 ∧
    (demoUpdate 0).Nonce = 0 ∧
    ValidateStateUpdate demoRecover (demoUpdate 0) (demoChannel StateOpen (2 ^ 64 - 1))
      = none := by
  decide

/-- C19 (amended): `ValidateStateUpdate(update, channel)` returns nil if and only if
update.channel_id = channel.id, update.nonce = channel.nonce + 1 reduced modulo `2 ^ 64`,
update.timestamp is not before channel.updated_at, the update carries at least one
signature, and every signature is under a participant's address and passes
`ValidateSignature` over the update bytes. For every channel nonce below `2 ^ 64 - 1` the
nonce condition is update.nonce = channel.nonce + 1. -/
theorem ValidateStateUpdate_none_iff (c : Crypto) (update : StateUpdate) (channel : Channel) :
    (ValidateStateUpdate c update channel = none ↔
      update.ChannelID = channel.ID ∧ update.Nonce = (channel.Nonce + 1) % 2 ^ 64 ∧
      ¬ update.Timestamp < channel.UpdatedAt ∧ update.Signatures ≠ [] ∧
      SignaturesAuthentic c update channel update.Signatures) ∧
    (channel.Nonce + 1 < 2 ^ 64 →
      (ValidateStateUpdate c update channel = none ↔
        update.ChannelID = channel.ID ∧ update.Nonce = channel.Nonce + 1 ∧
        ¬ update.Timestamp < channel.UpdatedAt ∧ update.Signatures ≠ [] ∧
        SignaturesAuthentic c update channel update.Signatures)) := by
  have hiff : ValidateStateUpdate c update channel = none ↔
      update.ChannelID = channel.ID ∧ update.Nonce = (channel.Nonce + 1) % 2 ^ 64 ∧
      ¬ update.Timestamp < channel.UpdatedAt ∧ update.Signatures ≠ [] ∧
      SignaturesAuthentic c update channel update.Signatures := by
    rw [← validateUpdateSignatures_none_iff]
    unfold ValidateStateUpdate
    by_cases hid : update.ChannelID = channel.ID
    · by_cases hnonce : update.Nonce = (channel.Nonce + 1) % 2 ^ 64
      · by_cases htime : update.Timestamp < channel.UpdatedAt
        · rw [if_neg (not_not.mpr hid), if_neg (not_not.mpr hnonce), if_pos htime]
          simp [htime]
        · rw [if_neg (not_not.mpr hid), if_neg (not_not.mpr hnonce), if_neg htime]
          cases hsigs : validateUpdateSignatures c update channel update.Signatures with
          | some e => simp
          | none =>
            by_cases hlen : update.Signatures.length = 0
            · have hnil : update.Signatures = [] := List.length_eq_zero.mp hlen
              simp [hlen, hnil]
            · have hne : update.Signatures ≠ [] := fun h => hlen (by rw [h]; rfl)
              simp only [hlen, if_false, true_iff]
              exact ⟨hid, hnonce, htime, hne, trivial⟩
      · rw [if_neg (not_not.mpr hid), if_pos hnonce]
        constructor
        · intro h; cases h
        · intro h; exact absurd h.2.1 hnonce
    · rw [if_pos hid]
      constructor
      · intro h; cases h
      · intro h; exact absurd h.1 hid
  refine ⟨hiff, ?_⟩
  intro hlt
  rw [hiff, Nat.mod_eq_of_lt hlt]

/-- C19 (amended) at the first update of the channel of the test, nonce 0 to nonce 1. -/
theorem ValidateStateUpdate_none_iff_witness :
    ValidateStateUpdate demoRecover (demoUpdate 1) (demoChannel StateOpen 0) = none ∧
    ValidateStateUpdate demoRecover (demoUpdate 1) (demoChannel StateOpen 1) ≠ none :=
  ⟨((ValidateStateUpdate_none_iff demoRecover (demoUpdate 1) (demoChannel StateOpen 0)).2
      (by decide)).mpr
      ⟨rfl, rfl, by decide, by decide, by
        intro signature hmem
        simp only [demoUpdate, List.mem_singleton] at hmem
        subst hmem
        exact ⟨by decide, by decide⟩⟩,
    fun h => absurd
      (((ValidateStateUpdate_none_iff demoRecover (demoUpdate 1) (demoChannel StateOpen 1)).2
        (by decide)).mp h).2.1 (by decide)⟩

/-- C20 (as stated, refuted): for the student, a participant, and the channel in state
Closed, `ValidateChannelAccess` with operation `close` returns nil. -/
theorem ValidateChannelAccess_close_on_closed :
    (demoChannel StateClosed 0).State = StateClosed ∧
    isChannelParticipant "0xStudent" (demoChannel StateClosed 0) = true ∧
    ValidateChannelAccess "0xStudent" (demoChannel StateClosed 0) "close" = none := by
  decide

/-- C20 (amended): for a user who is a channel participant, `ValidateChannelAccess` succeeds
for `read` in every state, for `write` if and only if the state is Open, and for `close` in
every state, Closed included; every other operation fails. For a user who is not a
participant it fails for every operation. -/
theorem ValidateChannelAccess_rights (userAddress : String) (channel : Channel) :
    (isChannelParticipant userAddress channel = true →
      ValidateChannelAccess userAddress channel "read" = none ∧
      (ValidateChannelAccess userAddress channel "write" = none ↔
        channel.State = StateOpen) ∧
      ValidateChannelAccess userAddress channel "close" = none ∧
      (∀ operation, operation ≠ "read" → operation ≠ "write" → operation ≠ "close" →
        ValidateChannelAccess userAddress channel operation
          = some ("unknown operation: " ++ operation))) ∧
    (isChannelParticipant userAddress channel = false →
      ∀ operation, ValidateChannelAccess userAddress channel operation
        = some ("user " ++ userAddress ++ " is not a channel participant")) := by
  constructor
  · intro hpart
    refine ⟨?_, ?_, ?_, ?_⟩
    · simp [ValidateChannelAccess, hpart]
    · by_cases hopen : channel.State = StateOpen
      · simp [ValidateChannelAccess, hpart, hopen]
      · simp [ValidateChannelAccess, hpart, hopen]
    · simp [ValidateChannelAccess, hpart]
    · intro operation h1 h2 h3
      simp [ValidateChannelAccess, hpart, h1, h2, h3]
  · intro hpart operation
    simp [ValidateChannelAccess, hpart]

/-- C20 (amended) for the student on the channel of the test: writing is refused once the
channel is Closing, and a stranger may not even read. -/
theorem ValidateChannelAccess_rights_witness :
    ValidateChannelAccess "0xStudent" (demoChannel StateClosing 0) "write" ≠ none ∧
    ValidateChannelAccess "0xStranger" (demoChannel StateOpen 0) "read"
      = some "user 0xStranger is not a channel participant" :=
  ⟨fun h => absurd
      (((ValidateChannelAccess_rights "0xStudent" (demoChannel StateClosing 0)).1
        (by decide)).2.1.mp h) (by decide),
    (ValidateChannelAccess_rights "0xStranger" (demoChannel StateOpen 0)).2 (by decide)
      "read"⟩

/-! ## The bytes that are signed (C21) -/

theorem stringBytes_append (a b : String) :
    stringBytes (a ++ b) = stringBytes a ++ stringBytes b := by
  simp [stringBytes, String.toList, String.data_append]

theorem stringBytes_underscore : stringBytes "_" = [0x5f] := by decide

/-- C21 (as stated, refuted): for the update of the test with nonce 1 the validator signs
over the text `000102030405060708090a0b0c0d0e0f_1_0`, and for the job application over
`msg_001_000102030405060708090a0b0c0d0e0f_0xStudent_0xEmployer_1_job_application`; neither
is the layout of the spec. -/
theorem serialized_bytes_differ_from_spec_layout :
    serializeStateUpdateForSigning (demoUpdate 1) = "000102030405060708090a0b0c0d0e0f_1_0" ∧
    stringBytes (serializeStateUpdateForSigning (demoUpdate 1))
      ≠ specStateUpdateBytes (demoUpdate 1) ∧
    serializeMessageForSigning demoJobApplication
      = "msg_001_000102030405060708090a0b0c0d0e0f_0xStudent_0xEmployer_1_job_application" ∧
    stringBytes (serializeMessageForSigning demoJobApplication)
      ≠ specMessageBytes demoJobApplication := by
  decide

/-- C21 (amended): the byte strings the validator signs over are texts. For a state update:
channel_id, the nonce in decimal and the Unix-seconds timestamp in decimal, separated by
single `_` bytes (0x5f); for a message: id, channel_id, sender, recipient, the nonce in
decimal and the type, separated by single `_` bytes. For no update and no message are
these the bytes of the spec's layout. -/
theorem serialized_bytes_layout (update : StateUpdate) (message : Message) :
    stringBytes (serializeStateUpdateForSigning update) =
      stringBytes update.ChannelID ++ 0x5f :: (stringBytes (Nat.toDigits 10 update.Nonce).asString
        ++ 0x5f :: stringBytes (toString (update.Timestamp / 1000000000))) ∧
    stringBytes (serializeMessageForSigning message) =
      stringBytes message.ID ++ 0x5f :: (stringBytes message.ChannelID ++
        0x5f :: (stringBytes message.From ++ 0x5f :: (stringBytes message.To ++
          0x5f :: (stringBytes (Nat.toDigits 10 message.Nonce).asString ++
            0x5f :: stringBytes message.Typ)))) ∧
    stringBytes (serializeStateUpdateForSigning update) ≠ specStateUpdateBytes update ∧
    stringBytes (serializeMessageForSigning message) ≠ specMessageBytes message := by
  have hupd : stringBytes (serializeStateUpdateForSigning update) =
      stringBytes update.ChannelID ++ 0x5f :: (stringBytes (Nat.toDigits 10 update.Nonce).asString
        ++ 0x5f :: stringBytes (toString (update.Timestamp / 1000000000))) := by
    simp only [serializeStateUpdateForSigning, stringBytes_append, stringBytes_underscore,
      List.append_assoc, List.singleton_append]
    rfl
  have hmsg : stringBytes (serializeMessageForSigning message) =
      stringBytes message.ID ++ 0x5f :: (stringBytes message.ChannelID ++
        0x5f :: (stringBytes message.From ++ 0x5f :: (stringBytes message.To ++
          0x5f :: (stringBytes (Nat.toDigits 10 message.Nonce).asString ++
            0x5f :: stringBytes message.Typ)))) := by
    simp only [serializeMessageForSigning, stringBytes_append, stringBytes_underscore,
      List.append_assoc, List.singleton_append]
    rfl
  refine ⟨hupd, hmsg, ?_, ?_⟩
  · rw [hupd, specStateUpdateBytes]
    intro h
    have h' := List.append_cancel_left h
    simp at h'
  · rw [hmsg, specMessageBytes]
    intro h
    have h' := List.append_cancel_left h
    simp at h'

/-! ## The cleanup pass (C22, C23) -/

theorem eventsOf_appendToLog (events : List (String × List ChannelEvent)) (id : String)
    (x : ChannelEvent) (k : String) :
    eventsOf (appendToLog events id x) k =
      if k = id then eventsOf events k ++ [x] else eventsOf events k := by
  by_cases h : k = id
  · subst h
    simp [eventsOf, appendToLog, mapGet_mapSet_self]
  · simp [eventsOf, appendToLog, mapGet_mapSet_ne _ _ _ _ h, h]

theorem cleanupLoop_eq_expireLoop (env : Env) (now : Time) (l : List (String × Channel))
    (events : List (String × List ChannelEvent)) (count : Nat) :
    cleanupLoop env now l events =
      ((expireLoop (expiredEvent env now) now l events count).1,
        (expireLoop (expiredEvent env now) now l events count).2.1) := by
  induction l generalizing events count with
  | nil => rfl
  | cons hd tl ih =>
    obtain ⟨k, ch⟩ := hd
    by_cases hexp : now > ch.ExpiresAt ∧ ch.State ≠ StateClosed
    · simp only [cleanupLoop, expireLoop]
      rw [if_pos hexp, if_pos hexp]
      simp only []
      rw [ih _ (count + 1)]
      rfl
    · simp only [cleanupLoop, expireLoop]
      rw [if_neg hexp, if_neg hexp]
      simp only []
      rw [ih _ count]

theorem expireLoop_get (mkEvent : String → ChannelEvent) (now : Time) (k : String)
    (l : List (String × Channel)) (events : List (String × List ChannelEvent))
    (count : Nat) :
    mapGet k (expireLoop mkEvent now l events count).1 =
      (mapGet k l).map (closeIfExpired now) := by
  induction l generalizing events count with
  | nil => simp [expireLoop, mapGet]
  | cons hd tl ih =>
    obtain ⟨k', ch⟩ := hd
    by_cases hexp : now > ch.ExpiresAt ∧ ch.State ≠ StateClosed
    · have hb : isExpiring now ch = true := by simp [isExpiring, hexp]
      simp only [expireLoop]
      rw [if_pos hexp]
      by_cases hk : k' = k
      · simp [mapGet, hk, closeIfExpired, hb]
      · simp only [mapGet, hk, if_false]
        exact ih _ _
    · have hb : isExpiring now ch = false := by simp [isExpiring, hexp]
      simp only [expireLoop]
      rw [if_neg hexp]
      by_cases hk : k' = k
      · simp [mapGet, hk, closeIfExpired, hb]
      · simp only [mapGet, hk, if_false]
        exact ih _ _

theorem expireLoop_events (mkEvent : String → ChannelEvent) (now : Time) (k : String)
    (l : List (String × Channel)) (events : List (String × List ChannelEvent))
    (count : Nat) :
    eventsOf (expireLoop mkEvent now l events count).2.1 k =
      eventsOf events k ++ List.replicate (expiringAt now l k) (mkEvent k) := by
  induction l generalizing events count with
  | nil => simp [expireLoop, expiringAt]
  | cons hd tl ih =>
    obtain ⟨k', ch⟩ := hd
    by_cases hexp : now > ch.ExpiresAt ∧ ch.State ≠ StateClosed
    · have hb : isExpiring now ch = true := by simp [isExpiring, hexp]
      simp only [expireLoop]
      rw [if_pos hexp]
      simp only []
      rw [ih, eventsOf_appendToLog]
      by_cases hk : k' = k
      · subst hk
        have hcount : expiringAt now ((k', ch) :: tl) k' = expiringAt now tl k' + 1 := by
          simp [expiringAt, List.filter_cons, hb]
        rw [hcount, if_pos rfl, List.append_assoc, List.replicate_succ]
        rfl
      · have hk' : ¬ k = k' := fun h => hk h.symm
        have hcount : expiringAt now ((k', ch) :: tl) k = expiringAt now tl k := by
          simp [expiringAt, List.filter_cons, hk]
        rw [hcount, if_neg hk']
    · have hb : isExpiring now ch = false := by simp [isExpiring, hexp]
      simp only [expireLoop]
      rw [if_neg hexp]
      simp only []
      rw [ih]
      have hcount : expiringAt now ((k', ch) :: tl) k = expiringAt now tl k := by
        simp [expiringAt, List.filter_cons, hb]
      rw [hcount]

theorem expireLoop_count (mkEvent : String → ChannelEvent) (now : Time)
    (l : List (String × Channel)) (events : List (String × List ChannelEvent))
    (count : Nat) :
    (expireLoop mkEvent now l events count).2.2 =
      count + (l.filter fun kv => isExpiring now kv.2).length := by
  induction l generalizing events count with
  | nil => simp [expireLoop]
  | cons hd tl ih =>
    obtain ⟨k', ch⟩ := hd
    by_cases hexp : now > ch.ExpiresAt ∧ ch.State ≠ StateClosed
    · have hb : isExpiring now ch = true := by simp [isExpiring, hexp]
      simp only [expireLoop]
      rw [if_pos hexp]
      simp only []
      rw [ih]
      simp [List.filter_cons, hb]
      omega
    · have hb : isExpiring now ch = false := by simp [isExpiring, hexp]
      simp only [expireLoop]
      rw [if_neg hexp]
      simp only []
      rw [ih]
      simp [List.filter_cons, hb]

theorem expireLoop_fixed (mkEvent : String → ChannelEvent) (now : Time)
    (l : List (String × Channel)) (events : List (String × List ChannelEvent)) (count : Nat)
    (hnone : ∀ kv ∈ l, isExpiring now kv.2 = false) :
    expireLoop mkEvent now l events count = (l, events, count) := by
  induction l generalizing events count with
  | nil => rfl
  | cons hd tl ih =>
    obtain ⟨k', ch⟩ := hd
    have hb : isExpiring now ch = false := hnone (k', ch) (List.mem_cons_self _ _)
    have hexp : ¬ (now > ch.ExpiresAt ∧ ch.State ≠ StateClosed) := by
      simpa [isExpiring] using hb
    simp only [expireLoop]
    rw [if_neg hexp, ih _ _ fun kv hkv => hnone kv (List.mem_cons_of_mem _ hkv)]

theorem isExpiring_closeIfExpired (now : Time) (channel : Channel) :
    isExpiring now (closeIfExpired now channel) = false := by
  unfold closeIfExpired
  by_cases hb : isExpiring now channel = true
  · rw [if_pos hb]
    simp [isExpiring]
  · rw [if_neg hb]
    simpa using hb

theorem expireLoop_settled (mkEvent : String → ChannelEvent) (now : Time)
    (l : List (String × Channel)) (events : List (String × List ChannelEvent))
    (count : Nat) :
    ∀ kv ∈ (expireLoop mkEvent now l events count).1, isExpiring now kv.2 = false := by
  induction l generalizing events count with
  | nil => simp [expireLoop]
  | cons hd tl ih =>
    obtain ⟨k', ch⟩ := hd
    by_cases hexp : now > ch.ExpiresAt ∧ ch.State ≠ StateClosed
    · simp only [expireLoop]
      rw [if_pos hexp]
      intro kv hkv
      simp only [List.mem_cons] at hkv
      rcases hkv with rfl | hkv
      · simp [isExpiring]
      · exact ih _ _ kv hkv
    · have hb : isExpiring now ch = false := by simp [isExpiring, hexp]
      simp only [expireLoop]
      rw [if_neg hexp]
      intro kv hkv
      simp only [List.mem_cons] at hkv
      rcases hkv with rfl | hkv
      · exact hb
      · exact ih _ _ kv hkv

theorem mem_of_mapGet {α : Type} (k : String) (v : α) (l : List (String × α))
    (h : mapGet k l = some v) : (k, v) ∈ l := by
  induction l with
  | nil => simp [mapGet] at h
  | cons hd tl ih =>
    obtain ⟨k', v'⟩ := hd
    by_cases hk : k' = k
    · simp only [mapGet, hk, if_true, Option.some.injEq] at h
      subst hk; subst h
      exact List.mem_cons_self _ _
    · simp only [mapGet, hk, if_false] at h
      exact List.mem_cons_of_mem _ (ih h)

/-- What one pass does to the channel and to the event log of an id, when the keys of the
channel map are distinct. -/
theorem expireLoop_spec (mkEvent : String → ChannelEvent) (now : Time)
    (l : List (String × Channel)) (events : List (String × List ChannelEvent)) (count : Nat)
    (hnd : (mapKeys l).Nodup) (k : String) :
    (∀ ch, mapGet k l = some ch → ch.ExpiresAt < now → ch.State ≠ StateClosed →
      mapGet k (expireLoop mkEvent now l events count).1
        = some { ch with State := StateClosed, UpdatedAt := now } ∧
      eventsOf (expireLoop mkEvent now l events count).2.1 k
        = eventsOf events k ++ [mkEvent k]) ∧
    (∀ ch, mapGet k l = some ch → ¬ (ch.ExpiresAt < now ∧ ch.State ≠ StateClosed) →
      mapGet k (expireLoop mkEvent now l events count).1 = some ch ∧
      eventsOf (expireLoop mkEvent now l events count).2.1 k = eventsOf events k) ∧
    (mapGet k l = none →
      mapGet k (expireLoop mkEvent now l events count).1 = none ∧
      eventsOf (expireLoop mkEvent now l events count).2.1 k = eventsOf events k) := by
  have hex := expiringAt_of_nodup now l k hnd
  refine ⟨?_, ?_, ?_⟩
  · intro ch hget hlate hnot
    have hb : isExpiring now ch = true := by simp [isExpiring, hlate, hnot]
    rw [hget] at hex
    simp only [hb, if_true] at hex
    rw [expireLoop_get, expireLoop_events, hex, hget]
    simp [closeIfExpired, hb]
  · intro ch hget hnot
    have hb : isExpiring now ch = false := by
      simp only [isExpiring, decide_eq_false_iff_not]
      exact hnot
    rw [hget] at hex
    simp only [hb] at hex
    rw [expireLoop_get, expireLoop_events, hex, hget]
    simp [closeIfExpired, hb]
  · intro hget
    rw [hget] at hex
    rw [expireLoop_get, expireLoop_events, hex, hget]
    simp

/-- C22: a cleanup pass at time now, of the manager and of the store, closes exactly the
channels whose expires-at is before now and whose state is not Closed, leaves every other
channel as it is, appends exactly one event, of type `channel_expired`, to the log of each
channel it closes and nothing to any other log; the store's pass returns the number of
channels it closed. (The keys of a channel map are distinct.) -/
theorem cleanup_closes_exactly_expired (env : Env) (m : Manager) (now : Time)
    (stamp : String → Time) (s : MemoryStore)
    (hm : (mapKeys m.channels).Nodup) (hs : (mapKeys s.channels).Nodup) :
    (∀ k ch, mapGet k m.channels = some ch →
      (ch.ExpiresAt < env.now 0 → ch.State ≠ StateClosed →
        mapGet k (cleanupExpiredChannels env m).channels
          = some { ch with State := StateClosed, UpdatedAt := env.now 0 } ∧
        eventsOf (cleanupExpiredChannels env m).events k
          = eventsOf m.events k ++ [expiredEvent env (env.now 0) k] ∧
        (expiredEvent env (env.now 0) k).Typ = "channel_expired") ∧
      (¬ (ch.ExpiresAt < env.now 0 ∧ ch.State ≠ StateClosed) →
        mapGet k (cleanupExpiredChannels env m).channels = some ch ∧
        eventsOf (cleanupExpiredChannels env m).events k = eventsOf m.events k)) ∧
    (∀ k, mapGet k m.channels = none →
      mapGet k (cleanupExpiredChannels env m).channels = none ∧
      eventsOf (cleanupExpiredChannels env m).events k = eventsOf m.events k) ∧
    (∀ k ch, mapGet k s.channels = some ch →
      (ch.ExpiresAt < now → ch.State ≠ StateClosed →
        mapGet k (MemoryStore.CleanupExpiredChannels now stamp s).2.channels
          = some { ch with State := StateClosed, UpdatedAt := now } ∧
        eventsOf (MemoryStore.CleanupExpiredChannels now stamp s).2.events k
          = eventsOf s.events k ++ [MemoryStore.cleanupEvent now stamp k] ∧
        (MemoryStore.cleanupEvent now stamp k).Typ = "channel_expired") ∧
      (¬ (ch.ExpiresAt < now ∧ ch.State ≠ StateClosed) →
        mapGet k (MemoryStore.CleanupExpiredChannels now stamp s).2.channels = some ch ∧
        eventsOf (MemoryStore.CleanupExpiredChannels now stamp s).2.events k
          = eventsOf s.events k)) ∧
    (∀ k, mapGet k s.channels = none →
      mapGet k (MemoryStore.CleanupExpiredChannels now stamp s).2.channels = none ∧
      eventsOf (MemoryStore.CleanupExpiredChannels now stamp s).2.events k
        = eventsOf s.events k) ∧
    (MemoryStore.CleanupExpiredChannels now stamp s).1 =
      (s.channels.filter fun kv =>
        decide (kv.2.ExpiresAt < now ∧ kv.2.State ≠ StateClosed)).length := by
  have hmgr : ∀ k, mapGet k (cleanupExpiredChannels env m).channels
        = mapGet k (expireLoop (expiredEvent env (env.now 0)) (env.now 0) m.channels
            m.events 0).1 ∧
      eventsOf (cleanupExpiredChannels env m).events k
        = eventsOf (expireLoop (expiredEvent env (env.now 0)) (env.now 0) m.channels
            m.events 0).2.1 k := by
    intro k
    simp only [cleanupExpiredChannels]
    rw [cleanupLoop_eq_expireLoop env (env.now 0) m.channels m.events 0]
    exact ⟨rfl, rfl⟩
  refine ⟨?_, ?_, ?_, ?_, ?_⟩
  · intro k ch hget
    obtain ⟨h1, h2, _⟩ := expireLoop_spec (expiredEvent env (env.now 0)) (env.now 0)
      m.channels m.events 0 hm k
    rw [(hmgr k).1, (hmgr k).2]
    constructor
    · intro hlate hnot
      obtain ⟨hc, he⟩ := h1 ch hget hlate hnot
      exact ⟨hc, he, rfl⟩
    · intro hnot
      exact h2 ch hget hnot
  · intro k hget
    rw [(hmgr k).1, (hmgr k).2]
    exact (expireLoop_spec (expiredEvent env (env.now 0)) (env.now 0)
      m.channels m.events 0 hm k).2.2 hget
  · intro k ch hget
    obtain ⟨h1, h2, _⟩ := expireLoop_spec (MemoryStore.cleanupEvent now stamp) now
      s.channels s.events 0 hs k
    constructor
    · intro hlate hnot
      obtain ⟨hc, he⟩ := h1 ch hget hlate hnot
      exact ⟨hc, he, rfl⟩
    · intro hnot
      exact h2 ch hget hnot
  · intro k hget
    exact (expireLoop_spec (MemoryStore.cleanupEvent now stamp) now
      s.channels s.events 0 hs k).2.2 hget
  · simp only [MemoryStore.CleanupExpiredChannels]
    rw [expireLoop_count, Nat.zero_add]
    rfl

/-- C22 on the open channel of the test, one nanosecond after its expires-at: the manager's
pass closes it and its log gains one event; the store's pass closes it and returns 1. -/
theorem cleanup_closes_exactly_expired_witness :
    stateOf (cleanupExpiredChannels (demoEnv demoLate) demoOpen) demoID = some StateClosed ∧
    (eventsOf (cleanupExpiredChannels (demoEnv demoLate) demoOpen).events demoID).length
      = (eventsOf demoOpen.events demoID).length + 1 ∧
    (MemoryStore.CleanupExpiredChannels demoLate (fun _ => demoLate) demoStore).1 = 1 := by
  have h := cleanup_closes_exactly_expired (demoEnv demoLate) demoOpen demoLate
    (fun _ => demoLate) demoStore (by decide) (by decide)
  obtain ⟨hc, he, _⟩ := (h.1 demoID (demoChannel StateOpen 0) (by decide)).1
    (by decide) (by decide)
  refine ⟨?_, ?_, ?_⟩
  · rw [stateOf, hc]
    rfl
  · rw [he]
    simp
  · rw [h.2.2.2.2]
    decide

/-- C23: with the clock held fixed, a second cleanup pass changes nothing: the manager after
the second pass is the manager after the first, and the store's second pass returns 0 and
leaves the store, all channels and all event logs included, as the first pass left it. -/
theorem cleanup_twice_is_cleanup_once (env env' : Env) (m : Manager) (now : Time)
    (stamp stamp' : String → Time) (s : MemoryStore) (hclock : env'.now 0 = env.now 0) :
    cleanupExpiredChannels env' (cleanupExpiredChannels env m) = cleanupExpiredChannels env m ∧
    MemoryStore.CleanupExpiredChannels now stamp'
        (MemoryStore.CleanupExpiredChannels now stamp s).2
      = (0, (MemoryStore.CleanupExpiredChannels now stamp s).2) := by
  constructor
  · have hfirst := cleanupLoop_eq_expireLoop env (env.now 0) m.channels m.events 0
    have hsettled := expireLoop_settled (expiredEvent env (env.now 0)) (env.now 0)
      m.channels m.events 0
    have hsecond := cleanupLoop_eq_expireLoop env' (env.now 0)
      (expireLoop (expiredEvent env (env.now 0)) (env.now 0) m.channels m.events 0).1
      (expireLoop (expiredEvent env (env.now 0)) (env.now 0) m.channels m.events 0).2.1 0
    rw [expireLoop_fixed _ _ _ _ _ hsettled] at hsecond
    simp only [cleanupExpiredChannels, hclock, hfirst, hsecond]
  · have hsettled := expireLoop_settled (MemoryStore.cleanupEvent now stamp) now
      s.channels s.events 0
    have hbackups : closeRestored now s.restored
        (expireLoop (MemoryStore.cleanupEvent now stamp) now s.channels s.events 0).1
        (closeRestored now s.restored s.channels s.backups)
        = closeRestored now s.restored s.channels s.backups := by
      have hid : ∀ bs : List (String × ChannelBackup), closeRestored now s.restored
          (expireLoop (MemoryStore.cleanupEvent now stamp) now s.channels s.events 0).1 bs
          = bs := by
        intro bs
        unfold closeRestored
        conv_rhs => rw [← List.map_id bs]
        apply List.map_congr_left
        intro kb _
        cases hg : mapGet kb.1
            (expireLoop (MemoryStore.cleanupEvent now stamp) now s.channels s.events 0).1 with
        | none => rfl
        | some ch =>
          have := hsettled (kb.1, ch) (mem_of_mapGet _ _ _ hg)
          simp only [] at this
          simp [this]
      exact hid _
    simp only [MemoryStore.CleanupExpiredChannels]
    rw [expireLoop_fixed _ _ _ _ _ hsettled, hbackups]

/-- C23 on the open channel of the test, past its expires-at. -/
theorem cleanup_twice_is_cleanup_once_witness :
    cleanupExpiredChannels (demoEnv demoLate) (cleanupExpiredChannels (demoEnv demoLate) demoOpen)
      = cleanupExpiredChannels (demoEnv demoLate) demoOpen ∧
    (MemoryStore.CleanupExpiredChannels demoLate (fun _ => demoLate + 5)
        (MemoryStore.CleanupExpiredChannels demoLate (fun _ => demoLate) demoStore).2).1 = 0 :=
  have h := cleanup_twice_is_cleanup_once (demoEnv demoLate) (demoEnv demoLate) demoOpen
    demoLate (fun _ => demoLate) (fun _ => demoLate + 5) demoStore rfl
  ⟨h.1, by rw [h.2]⟩

/-! ## Listing channels (C24) -/

theorem matchesFilter_page_free (channel : Channel) (filter : ChannelFilter)
    (limit offset : Int) :
    matchesFilter channel { filter with Limit := limit, Offset := offset }
      = matchesFilter channel filter := rfl

theorem listPage_total (visited : List (String × Channel)) (filter : ChannelFilter) :
    (listPage visited filter).2
      = ((visited.filter fun kv => matchesFilter kv.2 filter).length : Int) := by
  simp [listPage]

theorem listPage_sublist (visited : List (String × Channel)) (filter : ChannelFilter) :
    ((listPage visited filter).1).Sublist
      ((visited.filter fun kv => matchesFilter kv.2 filter).map Prod.snd) := by
  simp only [listPage]
  split_ifs
  · exact (List.take_sublist _ _).trans (List.nil_sublist _)
  · exact List.nil_sublist _
  · exact (List.take_sublist _ _).trans (List.drop_sublist _ _)
  · exact List.drop_sublist _ _
  · exact List.take_sublist _ _
  · exact List.Sublist.refl _

theorem listPage_length (visited : List (String × Channel)) (filter : ChannelFilter)
    (hoff : 0 ≤ filter.Offset) :
    (0 < filter.Limit → (((listPage visited filter).1).length : Int)
      = min filter.Limit (max 0 ((listPage visited filter).2 - filter.Offset))) ∧
    (filter.Limit = 0 → (((listPage visited filter).1).length : Int)
      = max 0 ((listPage visited filter).2 - filter.Offset)) := by
  simp only [listPage]
  generalize ((visited.filter fun kv => matchesFilter kv.2 filter).map Prod.snd) = l
  constructor
  · intro hlim
    split_ifs <;> simp only [List.length_take, List.length_drop, List.length_nil] at * <;> omega
  · intro hlim
    split_ifs <;> simp only [List.length_take, List.length_drop, List.length_nil] at * <;> omega

theorem listPage_spec (visited channels : List (String × Channel)) (filter : ChannelFilter)
    (hperm : visited.Perm channels) (hkeys : (mapKeys channels).Nodup)
    (hid : ∀ kv ∈ channels, kv.2.ID = kv.1) :
    (listPage visited filter).2
      = ((channels.filter fun kv => matchesFilter kv.2 filter).length : Int) ∧
    (∀ c ∈ (listPage visited filter).1,
      matchesFilter c filter = true ∧ mapGet c.ID channels = some c) ∧
    (((listPage visited filter).1).map fun c => c.ID).Nodup := by
  have hsub := listPage_sublist visited filter
  have hvis : ∀ kv ∈ visited, kv.2.ID = kv.1 := fun kv h => hid kv (hperm.subset h)
  have hget : ∀ (l : List (String × Channel)), (mapKeys l).Nodup → ∀ kv ∈ l,
      mapGet kv.1 l = some kv.2 := by
    intro l
    induction l with
    | nil => intro _ kv h; cases h
    | cons hd tl ih =>
      intro hnd kv hmem
      simp only [mapKeys, List.map_cons, List.nodup_cons] at hnd
      rcases List.mem_cons.mp hmem with h | h
      · subst h
        simp [mapGet]
      · have hne : hd.1 ≠ kv.1 := by
          intro heq
          exact hnd.1 (heq ▸ List.mem_map_of_mem Prod.fst h)
        have := ih hnd.2 kv h
        simp only [mapGet, List.find?_cons] at this ⊢
        simp [hne, this]
  refine ⟨?_, ?_, ?_⟩
  · rw [listPage_total]
    exact congrArg _ (hperm.filter _).length_eq
  · intro c hc
    have hc1 := hsub.subset hc
    obtain ⟨kv, hkv, rfl⟩ := List.mem_map.mp hc1
    obtain ⟨hmem, hmatch⟩ := List.mem_filter.mp hkv
    refine ⟨hmatch, ?_⟩
    have hin := hperm.subset hmem
    rw [hid kv hin]
    exact hget channels hkeys kv hin
  · have h1 : (((listPage visited filter).1).map fun c => c.ID).Sublist
        (((visited.filter fun kv => matchesFilter kv.2 filter).map Prod.snd).map
          fun c => c.ID) := hsub.map _
    have h2 : (((visited.filter fun kv => matchesFilter kv.2 filter).map Prod.snd).map
          fun c => c.ID).Sublist (visited.map fun kv => kv.2.ID) := by
      rw [List.map_map]
      exact (List.filter_sublist _).map _
    have h3 : (visited.map fun kv => kv.2.ID) = mapKeys visited := by
      unfold mapKeys
      exact List.map_congr_left hvis
    have h4 : (mapKeys visited).Nodup := by
      unfold mapKeys
      exact (hperm.map Prod.fst).nodup_iff.mpr hkeys
    exact (h1.trans h2).nodup (h3 ▸ h4)

/-- C24: `ListChannels`, of the store and of the manager, returns as total the number of
stored channels that match the filter, whatever the offset and the limit are, and a page
that holds only stored channels that match, no channel id twice, of length
min(limit, max(0, total - offset)) when limit > 0 and max(0, total - offset) when
limit = 0, for every offset ≥ 0. (The entries of the channel map are visited once each in
some order, the keys of the map are distinct, and a channel is stored under its id.) -/
theorem ListChannels_total_and_page
    (order : List (String × Channel) → List (String × Channel))
    (s : MemoryStore) (m : Manager) (filter : ChannelFilter)
    (hs : (order s.channels).Perm s.channels) (hm : (order m.channels).Perm m.channels)
    (hskeys : (mapKeys s.channels).Nodup) (hmkeys : (mapKeys m.channels).Nodup)
    (hsid : ∀ kv ∈ s.channels, kv.2.ID = kv.1) (hmid : ∀ kv ∈ m.channels, kv.2.ID = kv.1)
    (hoff : 0 ≤ filter.Offset) :
    ((∀ limit offset : Int,
        (MemoryStore.ListChannels order s { filter with Limit := limit, Offset := offset }).2
          = ((s.channels.filter fun kv => matchesFilter kv.2 filter).length : Int)) ∧
      (∀ c ∈ (MemoryStore.ListChannels order s filter).1,
        matchesFilter c filter = true ∧ mapGet c.ID s.channels = some c) ∧
      (((MemoryStore.ListChannels order s filter).1).map fun c => c.ID).Nodup ∧
      (0 < filter.Limit → (((MemoryStore.ListChannels order s filter).1).length : Int)
        = min filter.Limit
            (max 0 ((MemoryStore.ListChannels order s filter).2 - filter.Offset))) ∧
      (filter.Limit = 0 → (((MemoryStore.ListChannels order s filter).1).length : Int)
        = max 0 ((MemoryStore.ListChannels order s filter).2 - filter.Offset))) ∧
    ((∀ limit offset : Int,
        (ListChannels order m { filter with Limit := limit, Offset := offset }).2
          = ((m.channels.filter fun kv => matchesFilter kv.2 filter).length : Int)) ∧
      (∀ c ∈ (ListChannels order m filter).1,
        matchesFilter c filter = true ∧ mapGet c.ID m.channels = some c) ∧
      (((ListChannels order m filter).1).map fun c => c.ID).Nodup ∧
      (0 < filter.Limit → (((ListChannels order m filter).1).length : Int)
        = min filter.Limit (max 0 ((ListChannels order m filter).2 - filter.Offset))) ∧
      (filter.Limit = 0 → (((ListChannels order m filter).1).length : Int)
        = max 0 ((ListChannels order m filter).2 - filter.Offset))) := by
  have key : ∀ (visited channels : List (String × Channel)), visited.Perm channels →
      (mapKeys channels).Nodup → (∀ kv ∈ channels, kv.2.ID = kv.1) →
      ((∀ limit offset : Int,
        (listPage visited { filter with Limit := limit, Offset := offset }).2
          = ((channels.filter fun kv => matchesFilter kv.2 filter).length : Int)) ∧
      (∀ c ∈ (listPage visited filter).1,
        matchesFilter c filter = true ∧ mapGet c.ID channels = some c) ∧
      (((listPage visited filter).1).map fun c => c.ID).Nodup ∧
      (0 < filter.Limit → (((listPage visited filter).1).length : Int)
        = min filter.Limit (max 0 ((listPage visited filter).2 - filter.Offset))) ∧
      (filter.Limit = 0 → (((listPage visited filter).1).length : Int)
        = max 0 ((listPage visited filter).2 - filter.Offset))) := by
    intro visited channels hperm hkeys hid
    obtain ⟨_, h2, h3⟩ := listPage_spec visited channels filter hperm hkeys hid
    obtain ⟨h4, h5⟩ := listPage_length visited filter hoff
    refine ⟨?_, h2, h3, h4, h5⟩
    intro limit offset
    exact (listPage_spec visited channels { filter with Limit := limit, Offset := offset }
      hperm hkeys hid).1
  exact ⟨key _ _ hs hskeys hsid, key _ _ hm hmkeys hmid⟩

/-- C24 on a store with two open channels and a closed one, visited in reverse order,
asked for the open channels from offset 1 with page size 5: total 2, a page of one. -/
theorem ListChannels_total_and_page_witness :
    (MemoryStore.ListChannels List.reverse demoStore3 (demoFilter StateOpen 5 1)).2 = 2 ∧
    ((MemoryStore.ListChannels List.reverse demoStore3 (demoFilter StateOpen 5 1)).1).length
      = 1 ∧
    (ListChannels List.reverse demoOpen (demoFilter StateOpen 5 1)).2 = 1 := by
  have h := ListChannels_total_and_page List.reverse demoStore3 demoOpen
    (demoFilter StateOpen 5 1) (List.reverse_perm _) (List.reverse_perm _)
    (by decide) (by decide) (by decide) (by decide) (by decide)
  exact ⟨(h.1.1 5 1).trans (by decide), by decide, (h.2.1 5 1).trans (by decide)⟩

/-! ## Backup and restore (C25) -/

theorem mapGet_map_keep {α : Type} (f : String × α → String × α)
    (hf : ∀ kv, (f kv).1 = kv.1) (k : String) (l : List (String × α)) :
    mapGet k (l.map f) = (mapGet k l).map fun v => (f (k, v)).2 := by
  induction l with
  | nil => simp [mapGet]
  | cons hd tl ih =>
    obtain ⟨k', v'⟩ := hd
    have h1 : f (k', v') = ((f (k', v')).1, (f (k', v')).2) := rfl
    rw [List.map_cons, h1, hf]
    by_cases h : k' = k
    · subst h
      simp [mapGet]
    · simp [mapGet, h, ih]

theorem closeRestored_get (now : Time) (restored : List String)
    (channels : List (String × Channel)) (backups : List (String × ChannelBackup))
    (k : String) (channel : Channel) (backup : ChannelBackup)
    (hch : mapGet k channels = some channel) (hb : mapGet k backups = some backup)
    (hres : k ∈ restored) (hexp : isExpiring now channel = true) :
    mapGet k (closeRestored now restored channels backups)
      = some { backup with Channel := closeIfExpired now channel } := by
  unfold closeRestored
  rw [mapGet_map_keep _ _ k backups, hb]
  · simp [hch, hres, hexp]
  · intro kb
    cases hg : mapGet kb.1 channels with
    | none => rfl
    | some ch =>
      simp only []
      split_ifs <;> rfl

/-- C25: `RestoreBackup` stores the address of the backup's channel, so a cleanup pass that
runs after a restore closes the channel inside the backup. For every stored channel that is
past its expires-at at time now and not Closed: `CreateBackup`, `RestoreBackup` (which gives
back the channel, the message log and the event log of the backup), `CleanupExpiredChannels`
at time now, `RestoreBackup` leaves under the id the channel in state Closed with updated-at
now, which is not the channel the backup was taken of. `RestoreBackup` fails, and changes
nothing, when no backup exists for the id. -/
theorem RestoreBackup_after_cleanup_restores_closed (s : MemoryStore) (channelID : String)
    (channel : Channel) (backupAt now : Time) (stamp : String → Time)
    (hget : mapGet channelID s.channels = some channel)
    (hlate : channel.ExpiresAt < now) (hopen : channel.State ≠ StateClosed) :
    (MemoryStore.GetChannel (MemoryStore.RestoreBackup
        (MemoryStore.CreateBackup backupAt s channelID).2 channelID).2 channelID = .ok channel ∧
      MemoryStore.GetMessages (MemoryStore.RestoreBackup
        (MemoryStore.CreateBackup backupAt s channelID).2 channelID).2 channelID
        = MemoryStore.GetMessages s channelID ∧
      MemoryStore.GetEvents (MemoryStore.RestoreBackup
        (MemoryStore.CreateBackup backupAt s channelID).2 channelID).2 channelID
        = MemoryStore.GetEvents s channelID) ∧
    (MemoryStore.RestoreBackup (MemoryStore.CleanupExpiredChannels now stamp
        (MemoryStore.RestoreBackup (MemoryStore.CreateBackup backupAt s channelID).2
          channelID).2).2 channelID).1 = none ∧
    MemoryStore.GetChannel (MemoryStore.RestoreBackup (MemoryStore.CleanupExpiredChannels now
        stamp (MemoryStore.RestoreBackup (MemoryStore.CreateBackup backupAt s channelID).2
          channelID).2).2 channelID).2 channelID
      = .ok { channel with State := StateClosed, UpdatedAt := now } ∧
    ({ channel with State := StateClosed, UpdatedAt := now } : Channel) ≠ channel ∧
    (∀ (t : MemoryStore) (k : String), mapGet k t.backups = none →
      MemoryStore.RestoreBackup t k = (some ("backup not found: " ++ k), t)) := by
  have hexp : isExpiring now channel = true := by
    simp only [isExpiring, decide_eq_true_eq]
    exact ⟨hlate, hopen⟩
  have hclose : closeIfExpired now channel
      = { channel with State := StateClosed, UpdatedAt := now } := by
    simp [closeIfExpired, hexp]
  have hs1 : (MemoryStore.CreateBackup backupAt s channelID).2 =
      { s with
        backups := mapSet channelID
          { Channel := channel, Messages := (mapGet channelID s.messages).getD [],
            Events := (mapGet channelID s.events).getD [], BackupAt := backupAt } s.backups
        restored := s.restored.filter fun k => decide (k ≠ channelID) } := by
    simp [MemoryStore.CreateBackup, hget]
  have hs2 : (MemoryStore.RestoreBackup (MemoryStore.CreateBackup backupAt s channelID).2
      channelID).2 =
      { channels := mapSet channelID channel s.channels
        messages := mapSet channelID ((mapGet channelID s.messages).getD []) s.messages
        events := mapSet channelID ((mapGet channelID s.events).getD []) s.events
        backups := mapSet channelID
          { Channel := channel, Messages := (mapGet channelID s.messages).getD [],
            Events := (mapGet channelID s.events).getD [], BackupAt := backupAt } s.backups
        restored := channelID ::
          (s.restored.filter fun k => decide (k ≠ channelID)).filter
            fun k => decide (k ≠ channelID) } := by
    rw [hs1]
    simp [MemoryStore.RestoreBackup, mapGet_mapSet_self]
  refine ⟨⟨?_, ?_, ?_⟩, ?_, ?_, ?_, ?_⟩
  · rw [hs2]
    simp [MemoryStore.GetChannel, mapGet_mapSet_self]
  · rw [hs2]
    simp [MemoryStore.GetMessages, mapGet_mapSet_self]
  · rw [hs2]
    simp [MemoryStore.GetEvents, mapGet_mapSet_self]
  · rw [hs2]
    simp only [MemoryStore.CleanupExpiredChannels, MemoryStore.RestoreBackup]
    rw [closeRestored_get now _ _ _ channelID channel _ (mapGet_mapSet_self _ _ _)
      (mapGet_mapSet_self _ _ _) (List.mem_cons_self _ _) hexp]
  · rw [hs2]
    simp only [MemoryStore.CleanupExpiredChannels, MemoryStore.RestoreBackup]
    rw [closeRestored_get now _ _ _ channelID channel _ (mapGet_mapSet_self _ _ _)
      (mapGet_mapSet_self _ _ _) (List.mem_cons_self _ _) hexp]
    simp only [MemoryStore.GetChannel, mapGet_mapSet_self, hclose]
  · intro heq
    exact hopen (congrArg Channel.State heq).symm
  · intro t k hnone
    simp [MemoryStore.RestoreBackup, hnone]

/-- C25 on the store of the test: the open channel is backed up at time 300, restored,
swept one nanosecond after its expires-at and restored again; what is then stored under its
id is Closed, not the open channel of the backup. -/
theorem RestoreBackup_after_cleanup_restores_closed_witness :
    MemoryStore.GetChannel (MemoryStore.RestoreBackup (MemoryStore.CleanupExpiredChannels
        demoLate (fun _ => demoLate) (MemoryStore.RestoreBackup
          (MemoryStore.CreateBackup 300 demoStore demoID).2 demoID).2).2 demoID).2 demoID
      = .ok { demoChannel StateClosed 0 with UpdatedAt := demoLate } ∧
    demoChannel StateOpen 0 ≠ { demoChannel StateClosed 0 with UpdatedAt := demoLate } :=
  ⟨(RestoreBackup_after_cleanup_restores_closed demoStore demoID (demoChannel StateOpen 0) 300
      demoLate (fun _ => demoLate) (by decide) (by decide) (by decide)).2.2.1.trans
      (by rfl), by decide⟩

/-! ## Isolation of the channel `GetChannel` returns (C26) -/

theorem writeHeld_unshared (w : CopyWrite) (c : HeldChannel)
    (channels : List (String × Channel))
    (hc : c.sharing = { data := false, balance := false, participants := false }) :
    (writeHeld w c channels).2 = channels ∧
    (writeHeld w c channels).1.sharing
      = { data := false, balance := false, participants := false } := by
  cases w <;> simp only [writeHeld, hc] <;> try exact ⟨rfl, rfl⟩
  all_goals
    cases hd : c.value.Data <;> simp [hc]

theorem writesHeld_unshared (ws : List CopyWrite) (c : HeldChannel)
    (channels : List (String × Channel))
    (hc : c.sharing = { data := false, balance := false, participants := false }) :
    (writesHeld ws c channels).2 = channels := by
  induction ws generalizing c channels with
  | nil => rfl
  | cons w ws ih =>
    simp only [writesHeld]
    rw [ih _ _ (writeHeld_unshared w c channels hc).2, (writeHeld_unshared w c channels hc).1]

/-- C26: the channel `MemoryStore.GetChannel` returns is isolated: whatever sequence of
writes the caller makes through it (fields, entries of the data and balance maps, elements
of the participant list), the channel map is what it was and `GetChannel` returns the same
channel again. The channel `Manager.GetChannel` returns is not: it shares its data map with
the stored channel, so after the caller has written `c.Data[key] = value` the next
`GetChannel` returns the channel with that entry, which differs from the channel returned
before whenever the data did not already map the key to the value. -/
theorem GetChannel_isolated_in_store_only (s : MemoryStore) (m : Manager) (channelID : String)
    (c cm : Channel) (data : DataMap) (key : String) (value : Value) (ws : List CopyWrite)
    (hs : MemoryStore.GetChannel s channelID = .ok c)
    (hm : GetChannel m channelID = .ok cm)
    (hdata : cm.Data = some data) (hnew : mapGet key data ≠ some value) :
    (writesHeld ws (storeCopy channelID c) s.channels).2 = s.channels ∧
    MemoryStore.GetChannel
        { s with channels := (writesHeld ws (storeCopy channelID c) s.channels).2 } channelID
      = .ok c ∧
    GetChannel
        { m with channels :=
            (writeHeld (.putData key value) (managerCopy channelID cm) m.channels).2 }
        channelID
      = .ok { cm with Data := some (mapSet key value data) } ∧
    ({ cm with Data := some (mapSet key value data) } : Channel) ≠ cm := by
  have h1 := writesHeld_unshared ws (storeCopy channelID c) s.channels rfl
  have hget : mapGet channelID m.channels = some cm := by
    unfold GetChannel at hm
    cases hg : mapGet channelID m.channels with
    | none => rw [hg] at hm; cases hm
    | some ch =>
      rw [hg] at hm
      injection hm with hm
      rw [hm]
  refine ⟨h1, ?_, ?_, ?_⟩
  · rw [h1]
    exact hs
  · simp [writeHeld, managerCopy, hdata, writeStored, hget, GetChannel, mapGet_mapSet_self]
  · intro heq
    have h2 := congrArg Channel.Data heq
    simp only [hdata, Option.some.injEq] at h2
    apply hnew
    rw [← h2]
    exact mapGet_mapSet_self key value data

/-- C26 on the open channel of the test: the caller of `Manager.GetChannel` overwrites
`job_type` in the data of the channel it got, and the manager's next answer carries the
overwritten value. -/
theorem GetChannel_isolated_in_store_only_witness :
    GetChannel demoOpen demoID = .ok (demoChannel StateOpen 0) ∧
    GetChannel
        { demoOpen with channels :=
            (writeHeld (.putData "job_type" (.str "full_time"))
              (managerCopy demoID (demoChannel StateOpen 0)) demoOpen.channels).2 } demoID
      = .ok { demoChannel StateOpen 0 with Data := some [("job_type", .str "full_time")] } :=
  ⟨by rfl,
    (GetChannel_isolated_in_store_only demoStore demoOpen demoID (demoChannel StateOpen 0)
      (demoChannel StateOpen 0) [("job_type", .str "internship")] "job_type"
      (.str "full_time") [.putData "job_type" (.str "full_time"), .setState StateClosed]
      (by rfl) (by rfl) (by rfl) (by decide)).2.2.1⟩

/-! ## The publishing loops of the hub -/

theorem trySend_room (scope : Option String) (message : Bytes) (h : Hub) (q : String)
    (c : Client) (hc : mapGet q h.heap = some c) (hopen : c.closed = false)
    (hroom : c.send.length < sendCap) :
    ∃ h1, trySend scope message h q = (.ok, h1) ∧
      h1.heap = mapSet q (afterSend message c) h.heap ∧
      h1.clients = h.clients ∧ h1.channels = h.channels := by
  refine ⟨(trySend scope message h q).2, ?_, ?_, ?_, ?_⟩ <;>
    simp [trySend, hc, hopen, hroom, afterSend]

theorem trySend_full (a : String) (message : Bytes) (h : Hub) (q : String)
    (c : Client) (subs : List String) (hc : mapGet q h.heap = some c)
    (hopen : c.closed = false) (hfull : ¬ c.send.length < sendCap)
    (hsubs : mapGet a h.channels = some subs) :
    ∃ h1, trySend (some a) message h q = (.ok, h1) ∧
      h1.heap = mapSet q (afterSend message c) h.heap ∧
      h1.clients = setDelete q h.clients ∧
      h1.channels = mapSet a (setDelete q subs) h.channels := by
  refine ⟨(trySend (some a) message h q).2, ?_, ?_, ?_, ?_⟩ <;>
    simp [trySend, hc, hopen, hfull, hsubs, afterSend]

theorem roomFor_of_get (h : Hub) (q : String) (c : Client) (hc : mapGet q h.heap = some c) :
    roomFor h q = decide (c.send.length < sendCap) := by
  simp [roomFor, hc]

theorem sendLoop_spec (a : String) (message : Bytes) (visited : List String) (h : Hub)
    (subs : List String) (hsubs : mapGet a h.channels = some subs)
    (hnodup : visited.Nodup)
    (hopen : ∀ q ∈ visited, ∃ c, mapGet q h.heap = some c ∧ c.closed = false) :
    (sendLoop (some a) message visited h).1 = .ok ∧
    (∀ q, mapGet q (sendLoop (some a) message visited h).2.heap =
      if q ∈ visited then (mapGet q h.heap).map (afterSend message) else mapGet q h.heap) ∧
    mapGet a (sendLoop (some a) message visited h).2.channels =
      some (subs.filter fun q => !(decide (q ∈ visited) && !roomFor h q)) ∧
    (∀ b, b ≠ a → mapGet b (sendLoop (some a) message visited h).2.channels
      = mapGet b h.channels) ∧
    (sendLoop (some a) message visited h).2.clients =
      h.clients.filter fun q => !(decide (q ∈ visited) && !roomFor h q) := by
  induction visited generalizing h subs with
  | nil =>
    simp [sendLoop, hsubs]
  | cons q0 rest ih =>
    obtain ⟨c, hc, hcopen⟩ := hopen q0 (List.mem_cons_self _ _)
    have hq0 : q0 ∉ rest := (List.nodup_cons.mp hnodup).1
    have hrest : rest.Nodup := (List.nodup_cons.mp hnodup).2
    have key : ∀ (h1 : Hub) (subs1 : List String),
        trySend (some a) message h q0 = (.ok, h1) →
        h1.heap = mapSet q0 (afterSend message c) h.heap →
        mapGet a h1.channels = some subs1 →
        (∀ b, b ≠ a → mapGet b h1.channels = mapGet b h.channels) →
        (subs1.filter fun q => !(decide (q ∈ rest) && !roomFor h1 q))
          = (subs.filter fun q => !(decide (q ∈ q0 :: rest) && !roomFor h q)) →
        (h1.clients.filter fun q => !(decide (q ∈ rest) && !roomFor h1 q))
          = (h.clients.filter fun q => !(decide (q ∈ q0 :: rest) && !roomFor h q)) →
        (sendLoop (some a) message (q0 :: rest) h).1 = .ok ∧
        (∀ q, mapGet q (sendLoop (some a) message (q0 :: rest) h).2.heap =
          if q ∈ q0 :: rest then (mapGet q h.heap).map (afterSend message)
          else mapGet q h.heap) ∧
        mapGet a (sendLoop (some a) message (q0 :: rest) h).2.channels =
          some (subs.filter fun q => !(decide (q ∈ q0 :: rest) && !roomFor h q)) ∧
        (∀ b, b ≠ a → mapGet b (sendLoop (some a) message (q0 :: rest) h).2.channels
          = mapGet b h.channels) ∧
        (sendLoop (some a) message (q0 :: rest) h).2.clients =
          h.clients.filter fun q => !(decide (q ∈ q0 :: rest) && !roomFor h q) := by
      intro h1 subs1 hstep hheap1 hsubs1 hother hfs hfc
      have hheap : ∀ q, q ≠ q0 → mapGet q h1.heap = mapGet q h.heap := by
        intro q hne
        rw [hheap1]
        exact mapGet_mapSet_ne q0 q _ h.heap hne
      have hopen1 : ∀ q ∈ rest, ∃ c1, mapGet q h1.heap = some c1 ∧ c1.closed = false := by
        intro q hq
        have hne : q ≠ q0 := fun e => hq0 (e ▸ hq)
        obtain ⟨c1, h1', h2⟩ := hopen q (List.mem_cons_of_mem _ hq)
        exact ⟨c1, by rw [hheap q hne]; exact h1', h2⟩
      obtain ⟨i1, i2, i3, i4, i5⟩ := ih h1 subs1 hsubs1 hrest hopen1
      have hloop : sendLoop (some a) message (q0 :: rest) h
          = sendLoop (some a) message rest h1 := by
        simp only [sendLoop, hstep]
      rw [hloop]
      refine ⟨i1, ?_, ?_, ?_, ?_⟩
      · intro q
        rw [i2 q]
        by_cases hq : q = q0
        · subst hq
          simp [hq0, hheap1, mapGet_mapSet_self, hc]
        · simp [hq, hheap q hq]
      · rw [i3, hfs]
      · intro b hb
        rw [i4 b hb, hother b hb]
      · rw [i5, hfc]
    by_cases hroom : c.send.length < sendCap
    · obtain ⟨h1, hstep, hheap1, hcl, hch⟩ :=
        trySend_room (some a) message h q0 c hc hcopen hroom
      have hpred : ∀ q, (!(decide (q ∈ rest) && !roomFor h1 q))
          = (!(decide (q ∈ q0 :: rest) && !roomFor h q)) := by
        intro q
        by_cases hq : q = q0
        · subst hq
          simp [hq0, roomFor_of_get h q c hc, hroom]
        · have : roomFor h1 q = roomFor h q := by
            simp [roomFor, hheap1, mapGet_mapSet_ne q0 q _ h.heap hq]
          simp [hq, this]
      refine key h1 subs hstep hheap1 (by rw [hch]; exact hsubs) (fun b _ => by rw [hch])
        (List.filter_congr fun q _ => hpred q) ?_
      rw [hcl]
      exact List.filter_congr fun q _ => hpred q
    · obtain ⟨h1, hstep, hheap1, hcl, hch⟩ :=
        trySend_full a message h q0 c subs hc hcopen hroom hsubs
      have hpred : ∀ q, (decide (q ≠ q0) && !(decide (q ∈ rest) && !roomFor h1 q))
          = (!(decide (q ∈ q0 :: rest) && !roomFor h q)) := by
        intro q
        by_cases hq : q = q0
        · subst hq
          simp [roomFor_of_get h q c hc, hroom]
        · have : roomFor h1 q = roomFor h q := by
            simp [roomFor, hheap1, mapGet_mapSet_ne q0 q _ h.heap hq]
          simp [hq, this]
      refine key h1 (setDelete q0 subs) hstep hheap1
        (by rw [hch]; exact mapGet_mapSet_self a _ h.channels)
        (fun b hb => by rw [hch]; exact mapGet_mapSet_ne a b _ h.channels hb) ?_ ?_
      · simp only [setDelete, List.filter_filter]
        exact List.filter_congr fun q _ => by
          rw [Bool.and_comm]; exact hpred q
      · rw [hcl]
        simp only [setDelete, List.filter_filter]
        exact List.filter_congr fun q _ => by
          rw [Bool.and_comm]; exact hpred q

theorem BroadcastToChannel_spec (order : List String → List String)
    (horder : ∀ l, (order l).Perm l) (h : Hub) (a : String) (message : Bytes)
    (hready : HubReady h a) :
    (BroadcastToChannel order h a message).1 = .ok ∧
    (∀ q, mapGet q (BroadcastToChannel order h a message).2.heap =
      if q ∈ subscribers h a then (mapGet q h.heap).map (afterSend message)
      else mapGet q h.heap) ∧
    subscribers (BroadcastToChannel order h a message).2 a
      = (subscribers h a).filter (roomFor h) ∧
    (∀ b, b ≠ a → mapGet b (BroadcastToChannel order h a message).2.channels
      = mapGet b h.channels) ∧
    (BroadcastToChannel order h a message).2.clients =
      (h.clients.filter fun q => !(decide (q ∈ subscribers h a) && !roomFor h q)) ∧
    HubReady (BroadcastToChannel order h a message).2 a := by
  have main : (BroadcastToChannel order h a message).1 = .ok ∧
      (∀ q, mapGet q (BroadcastToChannel order h a message).2.heap =
        if q ∈ subscribers h a then (mapGet q h.heap).map (afterSend message)
        else mapGet q h.heap) ∧
      subscribers (BroadcastToChannel order h a message).2 a
        = (subscribers h a).filter (roomFor h) ∧
      (∀ b, b ≠ a → mapGet b (BroadcastToChannel order h a message).2.channels
        = mapGet b h.channels) ∧
      (BroadcastToChannel order h a message).2.clients =
        (h.clients.filter fun q => !(decide (q ∈ subscribers h a) && !roomFor h q)) := by
    cases hsubs : mapGet a h.channels with
    | none =>
      simp [BroadcastToChannel, hsubs, subscribers]
    | some subs =>
      have hs : subscribers h a = subs := by simp [subscribers, hsubs]
      have hready : subs.Nodup ∧
          ∀ q ∈ subs, ∃ c, mapGet q h.heap = some c ∧ c.closed = false := hs ▸ hready
      have hmem : ∀ q, q ∈ order subs ↔ q ∈ subs := fun q => (horder subs).mem_iff
      obtain ⟨i1, i2, i3, i4, i5⟩ := sendLoop_spec a message (order subs) h subs hsubs
        ((horder subs).nodup_iff.mpr hready.1)
        (fun q hq => hready.2 q ((hmem q).mp hq))
      have hB : BroadcastToChannel order h a message
          = sendLoop (some a) message (order subs) h := by
        simp [BroadcastToChannel, hsubs]
      rw [hB, hs]
      refine ⟨i1, ?_, ?_, i4, ?_⟩
      · intro q
        rw [i2 q]
        simp only [hmem q]
      · simp only [subscribers, i3, Option.getD_some]
        apply List.filter_congr
        intro q hq
        simp [(hmem q).mpr hq]
      · rw [i5]
        apply List.filter_congr
        intro q _
        simp only [hmem q]
  obtain ⟨m1, m2, m3, m4, m5⟩ := main
  refine ⟨m1, m2, m3, m4, m5, ?_, ?_⟩
  · rw [m3]
    exact hready.1.filter _
  · intro q hq
    rw [m3] at hq
    obtain ⟨hq1, hq2⟩ := List.mem_filter.mp hq
    obtain ⟨c, hc, hopen⟩ := hready.2 q hq1
    rw [roomFor_of_get h q c hc, decide_eq_true_eq] at hq2
    refine ⟨afterSend message c, ?_, ?_⟩
    · rw [m2 q, if_pos hq1, hc]
      rfl
    · simp [afterSend, hq2, hopen]

theorem receive_cases (h : Hub) (x : String) :
    receive h x = h ∨
    ∃ c m rest, mapGet x h.heap = some c ∧ c.send = m :: rest ∧
      (receive h x).heap = mapSet x { c with send := rest, conn := c.conn ++ [m] } h.heap ∧
      (receive h x).channels = h.channels ∧ (receive h x).clients = h.clients := by
  cases hx : mapGet x h.heap with
  | none => left; simp [receive, hx]
  | some c =>
    cases hs : c.send with
    | nil => left; simp [receive, hx, hs]
    | cons m rest =>
      right
      exact ⟨c, m, rest, rfl, hs, by simp [receive, hx, hs], by simp [receive, hx, hs],
        by simp [receive, hx, hs]⟩

theorem receive_heap_ne (h : Hub) (x q : String) (hne : q ≠ x) :
    mapGet q (receive h x).heap = mapGet q h.heap := by
  rcases receive_cases h x with heq | ⟨c, m, rest, _, _, hheap, _, _⟩
  · rw [heq]
  · rw [hheap]
    exact mapGet_mapSet_ne x q _ h.heap hne

theorem receive_channels (h : Hub) (x : String) : (receive h x).channels = h.channels := by
  rcases receive_cases h x with heq | ⟨c, m, rest, _, _, _, hch, _⟩
  · rw [heq]
  · exact hch

theorem receive_self (h : Hub) (x : String) (c : Client) (hc : mapGet x h.heap = some c) :
    ∃ c1, mapGet x (receive h x).heap = some c1 ∧ c1.closed = c.closed ∧
      c1.conn ++ c1.send = c.conn ++ c.send ∧
      (c.send = [] → c1.send = []) := by
  rcases receive_cases h x with heq | ⟨c0, m, rest, hc0, hs, hheap, _, _⟩
  · rw [heq]
    exact ⟨c, hc, rfl, rfl, id⟩
  · rw [hc] at hc0
    cases hc0
    refine ⟨{ c with send := rest, conn := c.conn ++ [m] },
      by rw [hheap]; exact mapGet_mapSet_self x _ h.heap, rfl, ?_, ?_⟩
    · simp [hs]
    · intro hnil
      rw [hnil] at hs
      cases hs

theorem receive_ready (h : Hub) (x a : String) (hready : HubReady h a) :
    HubReady (receive h x) a := by
  unfold HubReady subscribers at *
  rw [receive_channels]
  refine ⟨hready.1, ?_⟩
  intro q hq
  obtain ⟨c, hc, hopen⟩ := hready.2 q hq
  by_cases hqx : q = x
  · subst hqx
    obtain ⟨c1, h1, h2, _, _⟩ := receive_self h q c hc
    exact ⟨c1, h1, by rw [h2, hopen]⟩
  · exact ⟨c, by rw [receive_heap_ne h x q hqx]; exact hc, hopen⟩

theorem receive_delivered (h : Hub) (x q : String) :
    delivered (receive h x) q = delivered h q := by
  unfold delivered
  by_cases hqx : q = x
  · subst hqx
    cases hc : mapGet q h.heap with
    | none => simp [receive, hc]
    | some c =>
      obtain ⟨c1, h1, _, h3, _⟩ := receive_self h q c hc
      rw [h1]
      exact h3
  · rw [receive_heap_ne h x q hqx]

theorem runHub_publish (order : List String → List String) (a : String) (h : Hub)
    (message : Bytes) (rest : List HubStep)
    (hok : (BroadcastToChannel order h a message).1 = .ok) :
    runHub order a h (.publish message :: rest)
      = runHub order a (BroadcastToChannel order h a message).2 rest := by
  have : BroadcastToChannel order h a message
      = (.ok, (BroadcastToChannel order h a message).2) := by
    rw [← hok]
  simp only [runHub]
  rw [this]

/-- A subscriber whose buffer has free space at every publish stays subscribed and is sent
every published message, in order. -/
theorem runHub_room (order : List String → List String) (horder : ∀ l, (order l).Perm l)
    (a q : String) (steps : List HubStep) (h : Hub) (hready : HubReady h a)
    (hq : q ∈ subscribers h a) (hroom : hasRoomAlong order a q h steps = true) :
    (runHub order a h steps).1 = .ok ∧
    HubReady (runHub order a h steps).2 a ∧
    q ∈ subscribers (runHub order a h steps).2 a ∧
    delivered (runHub order a h steps).2 q = delivered h q ++ published steps := by
  induction steps generalizing h with
  | nil => simp [runHub, published, hready, hq]
  | cons step rest ih =>
    cases step with
    | publish message =>
      obtain ⟨b1, b2, b3, _, _, b6⟩ := BroadcastToChannel_spec order horder h a message hready
      simp only [hasRoomAlong, Bool.and_eq_true] at hroom
      have hq1 : q ∈ subscribers (BroadcastToChannel order h a message).2 a := by
        rw [b3]
        exact List.mem_filter.mpr ⟨hq, hroom.1⟩
      obtain ⟨i1, i2, i3, i4⟩ := ih _ b6 hq1 hroom.2
      rw [runHub_publish order a h message rest b1]
      refine ⟨i1, i2, i3, ?_⟩
      rw [i4]
      obtain ⟨c, hc, _⟩ := hready.2 q hq
      have hlt : c.send.length < sendCap := by
        have := hroom.1
        rw [roomFor_of_get h q c hc, decide_eq_true_eq] at this
        exact this
      simp [delivered, b2 q, hq, hc, afterSend, hlt, published]
    | receive x =>
      simp only [hasRoomAlong] at hroom
      have hq1 : q ∈ subscribers (receive h x) a := by
        unfold subscribers
        rw [receive_channels]
        exact hq
      obtain ⟨i1, i2, i3, i4⟩ := ih _ (receive_ready h x a hready) hq1 hroom
      simp only [runHub, published]
      refine ⟨i1, i2, i3, ?_⟩
      rw [i4, receive_delivered]

theorem receive_subscribers (h : Hub) (x a : String) :
    subscribers (receive h x) a = subscribers h a := by
  unfold subscribers
  rw [receive_channels]

/-- A subscriber that receives nothing buffers every published message while they fit. -/
theorem runHub_slow_buffers (order : List String → List String)
    (horder : ∀ l, (order l).Perm l) (a p : String) (steps : List HubStep) (h : Hub)
    (c : Client) (hready : HubReady h a) (hp : p ∈ subscribers h a)
    (hc : mapGet p h.heap = some c) (hslow : HubStep.receive p ∉ steps)
    (hfit : c.send.length + (published steps).length ≤ sendCap) :
    (runHub order a h steps).1 = .ok ∧
    HubReady (runHub order a h steps).2 a ∧
    p ∈ subscribers (runHub order a h steps).2 a ∧
    mapGet p (runHub order a h steps).2.heap
      = some { c with send := c.send ++ published steps } := by
  induction steps generalizing h c with
  | nil => simp [runHub, published, hready, hp, hc]
  | cons step rest ih =>
    have hslow1 : HubStep.receive p ∉ rest := fun hmem => hslow (List.mem_cons_of_mem _ hmem)
    cases step with
    | publish message =>
      obtain ⟨b1, b2, b3, _, _, b6⟩ := BroadcastToChannel_spec order horder h a message hready
      simp only [published, List.length_cons] at hfit
      have hlt : c.send.length < sendCap := by omega
      have hp1 : p ∈ subscribers (BroadcastToChannel order h a message).2 a := by
        rw [b3]
        exact List.mem_filter.mpr ⟨hp, by rw [roomFor_of_get h p c hc]; simpa using hlt⟩
      have hc1 : mapGet p (BroadcastToChannel order h a message).2.heap
          = some { c with send := c.send ++ [message] } := by
        simp [b2 p, hp, hc, afterSend, hlt]
      obtain ⟨i1, i2, i3, i4⟩ := ih _ _ b6 hp1 hc1 hslow1
        (by simp only [List.length_append, List.length_singleton]; omega)
      rw [runHub_publish order a h message rest b1]
      refine ⟨i1, i2, i3, ?_⟩
      rw [i4]
      simp [published]
    | receive x =>
      have hx : p ≠ x := by
        intro e
        exact hslow (e ▸ List.mem_cons_self _ _)
      simp only [published] at hfit
      obtain ⟨i1, i2, i3, i4⟩ := ih (receive h x) c (receive_ready h x a hready)
        (by rw [receive_subscribers]; exact hp)
        (by rw [receive_heap_ne h x p hx]; exact hc) hslow1 hfit
      simp only [runHub, published]
      exact ⟨i1, i2, i3, i4⟩

/-- A client that is not subscribed and receives nothing is left alone by a run. -/
theorem runHub_gone (order : List String → List String)
    (horder : ∀ l, (order l).Perm l) (a p : String) (steps : List HubStep) (h : Hub)
    (hready : HubReady h a) (hp : p ∉ subscribers h a) (hslow : HubStep.receive p ∉ steps) :
    (runHub order a h steps).1 = .ok ∧
    HubReady (runHub order a h steps).2 a ∧
    p ∉ subscribers (runHub order a h steps).2 a ∧
    mapGet p (runHub order a h steps).2.heap = mapGet p h.heap := by
  induction steps generalizing h with
  | nil => simp [runHub, hready, hp]
  | cons step rest ih =>
    have hslow1 : HubStep.receive p ∉ rest := fun hmem => hslow (List.mem_cons_of_mem _ hmem)
    cases step with
    | publish message =>
      obtain ⟨b1, b2, b3, _, _, b6⟩ := BroadcastToChannel_spec order horder h a message hready
      have hp1 : p ∉ subscribers (BroadcastToChannel order h a message).2 a := by
        rw [b3]
        exact fun hmem => hp (List.mem_filter.mp hmem).1
      obtain ⟨i1, i2, i3, i4⟩ := ih _ b6 hp1 hslow1
      rw [runHub_publish order a h message rest b1]
      refine ⟨i1, i2, i3, ?_⟩
      rw [i4, b2 p, if_neg hp]
    | receive x =>
      have hx : p ≠ x := by
        intro e
        exact hslow (e ▸ List.mem_cons_self _ _)
      obtain ⟨i1, i2, i3, i4⟩ := ih (receive h x) (receive_ready h x a hready)
        (by rw [receive_subscribers]; exact hp) hslow1
      simp only [runHub]
      refine ⟨i1, i2, i3, ?_⟩
      rw [i4, receive_heap_ne h x p hx]

/-- A subscriber that receives nothing is closed and unsubscribed by the first publish that
finds its buffer full. -/
theorem runHub_overflow (order : List String → List String)
    (horder : ∀ l, (order l).Perm l) (a p : String) (steps : List HubStep) (h : Hub)
    (c : Client) (hready : HubReady h a) (hp : p ∈ subscribers h a)
    (hc : mapGet p h.heap = some c) (hslow : HubStep.receive p ∉ steps)
    (hle : c.send.length ≤ sendCap)
    (hover : sendCap < c.send.length + (published steps).length) :
    (runHub order a h steps).1 = .ok ∧
    HubReady (runHub order a h steps).2 a ∧
    p ∉ subscribers (runHub order a h steps).2 a ∧
    mapGet p (runHub order a h steps).2.heap
      = some { c with
               send := c.send ++ (published steps).take (sendCap - c.send.length)
               closed := true } := by
  induction steps generalizing h c with
  | nil =>
    simp only [published, List.length_nil] at hover
    omega
  | cons step rest ih =>
    have hslow1 : HubStep.receive p ∉ rest := fun hmem => hslow (List.mem_cons_of_mem _ hmem)
    cases step with
    | publish message =>
      obtain ⟨b1, b2, b3, _, _, b6⟩ := BroadcastToChannel_spec order horder h a message hready
      simp only [published, List.length_cons] at hover
      rw [runHub_publish order a h message rest b1]
      by_cases hlt : c.send.length < sendCap
      · have hp1 : p ∈ subscribers (BroadcastToChannel order h a message).2 a := by
          rw [b3]
          exact List.mem_filter.mpr ⟨hp, by rw [roomFor_of_get h p c hc]; simpa using hlt⟩
        have hc1 : mapGet p (BroadcastToChannel order h a message).2.heap
            = some { c with send := c.send ++ [message] } := by
          simp [b2 p, hp, hc, afterSend, hlt]
        obtain ⟨i1, i2, i3, i4⟩ := ih _ _ b6 hp1 hc1 hslow1
          (by simp only [List.length_append, List.length_singleton]; omega)
          (by simp only [List.length_append, List.length_singleton]; omega)
        refine ⟨i1, i2, i3, ?_⟩
        rw [i4]
        have hk : sendCap - c.send.length = (sendCap - (c.send.length + 1)) + 1 := by omega
        simp only [published, List.length_append, List.length_singleton]
        rw [hk, List.take_succ_cons]
        simp
      · have hp1 : p ∉ subscribers (BroadcastToChannel order h a message).2 a := by
          rw [b3]
          intro hmem
          have := (List.mem_filter.mp hmem).2
          rw [roomFor_of_get h p c hc, decide_eq_true_eq] at this
          exact hlt this
        have hc1 : mapGet p (BroadcastToChannel order h a message).2.heap
            = some { c with closed := true } := by
          simp [b2 p, hp, hc, afterSend, hlt]
        obtain ⟨i1, i2, i3, i4⟩ := runHub_gone order horder a p rest _ b6 hp1 hslow1
        refine ⟨i1, i2, i3, ?_⟩
        rw [i4, hc1]
        have hk : sendCap - c.send.length = 0 := by omega
        rw [hk]
        simp
    | receive x =>
      have hx : p ≠ x := by
        intro e
        exact hslow (e ▸ List.mem_cons_self _ _)
      simp only [published] at hover
      obtain ⟨i1, i2, i3, i4⟩ := ih (receive h x) c (receive_ready h x a hready)
        (by rw [receive_subscribers]; exact hp)
        (by rw [receive_heap_ne h x p hx]; exact hc) hslow1 hle hover
      simp only [runHub, published]
      exact ⟨i1, i2, i3, i4⟩

theorem HubReady_of_all (h : Hub) (a : String)
    (hcheck : (subscribers h a).Nodup ∧
      (subscribers h a).all (fun q =>
        match mapGet q h.heap with
        | some c => !c.closed
        | none => false) = true) :
    HubReady h a := by
  refine ⟨hcheck.1, ?_⟩
  intro q hq
  have := List.all_eq_true.mp hcheck.2 q hq
  cases hc : mapGet q h.heap with
  | none => simp [hc] at this
  | some c =>
    refine ⟨c, rfl, ?_⟩
    simpa [hc] using this

theorem published_replicate (n : Nat) (message : Bytes) :
    published (List.replicate n (.publish message)) = List.replicate n message := by
  induction n with
  | zero => rfl
  | succ n ih => simp [List.replicate_succ, published, ih]

theorem sendLoop_none_channels (message : Bytes) (visited : List String) (h : Hub) :
    (sendLoop none message visited h).2.channels = h.channels := by
  induction visited generalizing h with
  | nil => rfl
  | cons q rest ih =>
    have hstep : (trySend none message h q).2.channels = h.channels := by
      unfold trySend
      cases hc : mapGet q h.heap with
      | none => rfl
      | some c =>
        by_cases hcl : c.closed = true
        · simp [hcl]
        · by_cases hroom : c.send.length < sendCap
          · simp [hcl, hroom]
          · simp [hcl, hroom]
    simp only [sendLoop]
    cases hr : trySend none message h q with
    | mk o h1 =>
      rw [hr] at hstep
      cases o with
      | ok => simp only []; rw [ih h1]; exact hstep
      | error msg => exact hstep
      | panic msg => exact hstep

/-! ## The drop policy of the hub (C27) -/

/-- C27: a publish that finds the buffer of a session full closes its channel `send` and
removes it from the client set, and `BroadcastToChannel` also removes it from the subscriber
set of the channel published to, but no publish removes it from the subscriber set of any
other channel: a session subscribed to the channels a and b whose buffer is full when an
event is published to a is afterwards closed and no client, and still a subscriber of b.
The global broadcast and `SendNotification` change no subscriber set at all. -/
theorem dropped_session_stays_subscribed (order : List String → List String)
    (horder : ∀ l, (order l).Perm l) (h : Hub) (a b p userID : String) (message : Bytes)
    (c : Client) (hready : HubReady h a) (hp : p ∈ subscribers h a)
    (hc : mapGet p h.heap = some c) (hfull : ¬ c.send.length < sendCap)
    (hab : b ≠ a) (hpb : p ∈ subscribers h b) :
    (BroadcastToChannel order h a message).1 = .ok ∧
    mapGet p (BroadcastToChannel order h a message).2.heap = some { c with closed := true } ∧
    p ∉ (BroadcastToChannel order h a message).2.clients ∧
    p ∉ subscribers (BroadcastToChannel order h a message).2 a ∧
    p ∈ subscribers (BroadcastToChannel order h a message).2 b ∧
    (broadcast order h message).2.channels = h.channels ∧
    (SendNotification order h userID message).2.channels = h.channels := by
  obtain ⟨b1, b2, b3, b4, b5, _⟩ := BroadcastToChannel_spec order horder h a message hready
  have hroom : roomFor h p = false := by
    rw [roomFor_of_get h p c hc]
    simpa using hfull
  refine ⟨b1, ?_, ?_, ?_, ?_, ?_, ?_⟩
  · simp [b2 p, hp, hc, afterSend, hfull]
  · rw [b5]
    intro hmem
    have := (List.mem_filter.mp hmem).2
    simp [hp, hroom] at this
  · rw [b3]
    intro hmem
    have := (List.mem_filter.mp hmem).2
    rw [hroom] at this
    cases this
  · unfold subscribers
    rw [b4 b hab]
    exact hpb
  · exact sendLoop_none_channels _ _ _
  · exact sendLoop_none_channels _ _ _

set_option maxRecDepth 100000 in
/-- C27 on the hub of the test: `slow`, subscribed to `a` and `b` with 256 messages
buffered, is dropped by a publish to `a` and stays in the subscriber set of `b`, where the
next publish panics on its closed channel. -/
theorem dropped_session_stays_subscribed_witness :
    "slow" ∉ (BroadcastToChannel id demoHubFull "a" [2]).2.clients ∧
    "slow" ∈ subscribers (BroadcastToChannel id demoHubFull "a" [2]).2 "b" ∧
    (BroadcastToChannel id (BroadcastToChannel id demoHubFull "a" [2]).2 "b" [3]).1
      = .panic "send on closed channel" :=
  have h := dropped_session_stays_subscribed id (fun l => List.Perm.refl l) demoHubFull
    "a" "b" "slow" "u1" [2]
    { userID := "u1", send := List.replicate 256 [1], closed := false
      channels := ["a", "b"], conn := [] }
    (HubReady_of_all _ _ (by decide)) (by decide) (by rfl)
    (by rw [List.length_replicate]; decide) (by decide) (by decide)
  ⟨h.2.2.1, h.2.2.2.2.1, by rfl⟩

/-! ## Backpressure on a session that never consumes (C28) -/

/-- C28: a session subscribed to a channel with an empty buffer of capacity 256 that never
receives from it: after n ≤ 256 events are published to the channel exactly these n are in
its buffer and it is still subscribed, with its channel `send` open; when 257 are published
the 257th closes it (the first 256 stay buffered) and removes it from the subscribers of the
channel. Every other subscriber whose buffer has free space at each publish stays
subscribed and open and is sent all published events in publish order. (The subscriber set
is visited once each in some order, lists no session twice, and its sessions are open.) -/
theorem slow_session_closed_by_257th (order : List String → List String)
    (horder : ∀ l, (order l).Perm l) (h : Hub) (a p : String) (c : Client)
    (steps : List HubStep) (hready : HubReady h a) (hp : p ∈ subscribers h a)
    (hc : mapGet p h.heap = some c) (hempty : c.send = [])
    (hslow : HubStep.receive p ∉ steps) :
    ((published steps).length ≤ 256 →
      (runHub order a h steps).1 = .ok ∧
      p ∈ subscribers (runHub order a h steps).2 a ∧
      mapGet p (runHub order a h steps).2.heap = some { c with send := published steps } ∧
      c.closed = false) ∧
    ((published steps).length = 257 →
      (runHub order a h steps).1 = .ok ∧
      p ∉ subscribers (runHub order a h steps).2 a ∧
      mapGet p (runHub order a h steps).2.heap
        = some { c with send := (published steps).take 256, closed := true }) ∧
    (∀ q ∈ subscribers h a, q ≠ p → hasRoomAlong order a q h steps = true →
      (runHub order a h steps).1 = .ok ∧
      q ∈ subscribers (runHub order a h steps).2 a ∧
      (∃ cq, mapGet q (runHub order a h steps).2.heap = some cq ∧ cq.closed = false) ∧
      delivered (runHub order a h steps).2 q = delivered h q ++ published steps) := by
  have hopen : c.closed = false := by
    obtain ⟨c1, h1, h2⟩ := hready.2 p hp
    rw [hc] at h1
    cases h1
    exact h2
  refine ⟨?_, ?_, ?_⟩
  · intro hn
    obtain ⟨i1, _, i3, i4⟩ := runHub_slow_buffers order horder a p steps h c hready hp hc
      hslow (by rw [hempty]; simpa [sendCap] using hn)
    refine ⟨i1, i3, ?_, hopen⟩
    rw [i4, hempty]
    rfl
  · intro hn
    obtain ⟨i1, _, i3, i4⟩ := runHub_overflow order horder a p steps h c hready hp hc hslow
      (by rw [hempty]; simp) (by rw [hempty, hn]; simp [sendCap])
    refine ⟨i1, i3, ?_⟩
    rw [i4, hempty]
    rfl
  · intro q hq _ hroom
    obtain ⟨i1, i2, i3, i4⟩ := runHub_room order horder a q steps h hready hq hroom
    exact ⟨i1, i3, i2.2 q i3, i4⟩

/-- C28 on the hub of the test: 257 events are published to `a` and nobody receives; `slow`
is then closed and no longer a subscriber of `a`. -/
theorem slow_session_closed_by_257th_witness :
    (runHub id "a" demoHub (List.replicate 257 (.publish [1]))).1 = .ok ∧
    "slow" ∉ subscribers (runHub id "a" demoHub (List.replicate 257 (.publish [1]))).2 "a" :=
  have h := (slow_session_closed_by_257th id (fun l => List.Perm.refl l) demoHub "a" "slow"
    { userID := "u1", send := [], closed := false, channels := ["a", "b"], conn := [] }
    (List.replicate 257 (.publish [1])) (HubReady_of_all _ _ (by decide)) (by decide)
    (by rfl) rfl
    (fun hmem => HubStep.noConfusion (List.eq_of_mem_replicate hmem))).2.1
    (by rw [published_replicate, List.length_replicate])
  ⟨h.1, h.2.1⟩

/-! ## Splitting a signature and putting it together again (C30) -/

theorem natBytes_eq_digits (fuel n : Nat) (acc : Bytes) (h : n ≤ fuel) :
    ECDSAService.natBytes fuel n acc = (Nat.digits 256 n).reverse ++ acc := by
  induction fuel generalizing n acc with
  | zero =>
    have : n = 0 := by omega
    subst this
    simp [ECDSAService.natBytes]
  | succ fuel ih =>
    by_cases hn : n = 0
    · subst hn
      simp [ECDSAService.natBytes]
    · have hpos : 0 < n := Nat.pos_of_ne_zero hn
      have hdiv : n / 256 ≤ fuel := by
        have : n / 256 < n := Nat.div_lt_self hpos (by norm_num)
        omega
      simp only [ECDSAService.natBytes, hn, if_false]
      rw [ih (n / 256) _ hdiv, Nat.digits_def' (by norm_num : 1 < 256) hpos]
      simp

theorem foldl_bytes_eq_ofDigits (bs : Bytes) (a : Nat) :
    bs.foldl (fun acc b => acc * 256 + b) a
      = a * 256 ^ bs.length + Nat.ofDigits 256 bs.reverse := by
  induction bs generalizing a with
  | nil => simp
  | cons b bs ih =>
    rw [List.foldl_cons, ih, List.reverse_cons, Nat.ofDigits_append, Nat.ofDigits_singleton,
      List.length_reverse, List.length_cons]
    ring

theorem digits_ofDigits_reverse (bs : Bytes) (hb : ∀ b ∈ bs, b < 256) :
    Nat.digits 256 (Nat.ofDigits 256 bs.reverse)
      = (bs.dropWhile fun b => decide (b = 0)).reverse := by
  induction bs with
  | nil => simp
  | cons b bs ih =>
    have hb1 : ∀ x ∈ bs, x < 256 := fun x hx => hb x (List.mem_cons_of_mem _ hx)
    by_cases hz : b = 0
    · subst hz
      rw [List.reverse_cons, Nat.ofDigits_append, Nat.ofDigits_singleton, Nat.mul_zero,
        Nat.add_zero, ih hb1]
      simp [List.dropWhile]
    · have hdrop : (b :: bs).dropWhile (fun b => decide (b = 0)) = b :: bs := by
        simp [List.dropWhile, hz]
      rw [hdrop]
      apply Nat.digits_ofDigits 256 (by norm_num)
      · intro l hl
        exact hb l (List.mem_reverse.mp hl)
      · intro _
        simpa using hz

theorem BigBytes_SetBytes (bs : Bytes) (hb : ∀ b ∈ bs, b < 256) :
    ECDSAService.BigBytes (ECDSAService.SetBytes bs)
      = bs.dropWhile fun b => decide (b = 0) := by
  simp only [ECDSAService.BigBytes, ECDSAService.SetBytes, Int.natAbs_ofNat]
  rw [natBytes_eq_digits _ _ _ (Nat.le_refl _), foldl_bytes_eq_ofDigits]
  simp [digits_ofDigits_reverse bs hb]

theorem copyInto_length (dst src : Bytes) :
    (ECDSAService.copyInto dst src).length = dst.length := by
  simp only [ECDSAService.copyInto, List.length_append, List.length_take, List.length_drop]
  omega

theorem copyInto_leftAligned (field : Bytes) :
    ECDSAService.copyInto (List.replicate field.length 0)
        (field.dropWhile fun b => decide (b = 0))
      = leftAligned field := by
  have hlen : (field.takeWhile fun b => decide (b = 0)).length
      + (field.dropWhile fun b => decide (b = 0)).length = field.length := by
    rw [← List.length_append, List.takeWhile_append_dropWhile]
  simp only [ECDSAService.copyInto, leftAligned, List.length_replicate, List.drop_replicate]
  congr 1
  · apply List.take_of_length_le
    omega
  · congr 1
    omega

theorem RSVToSignature_eq (r s : Int) (v : Nat) :
    ECDSAService.RSVToSignature r s v
      = ECDSAService.copyInto (List.replicate 32 0) (ECDSAService.BigBytes r)
        ++ ECDSAService.copyInto (List.replicate 32 0) (ECDSAService.BigBytes s) ++ [v] := by
  have h1 : (List.replicate 65 0 : Bytes).take 32 = List.replicate 32 0 := by decide
  have h2 : (List.replicate 65 0 : Bytes).drop 32
      = List.replicate 32 0 ++ [0] := by decide
  have hA := copyInto_length (List.replicate 32 0) (ECDSAService.BigBytes r)
  have hB := copyInto_length (List.replicate 32 0) (ECDSAService.BigBytes s)
  simp only [List.length_replicate] at hA hB
  simp only [ECDSAService.RSVToSignature, h1, h2]
  generalize ECDSAService.copyInto (List.replicate 32 0) (ECDSAService.BigBytes r) = A at hA
  rw [List.take_left' hA, List.drop_left' hA]
  have h3 : (List.replicate 32 0 ++ [0] : Bytes).take 32 = List.replicate 32 0 := by decide
  rw [h3]
  generalize ECDSAService.copyInto (List.replicate 32 0) (ECDSAService.BigBytes s) = B at hB
  have h4 : (A ++ (List.replicate 32 0 ++ [0] : Bytes)).drop 64 = [0] := by
    rw [List.drop_append_eq_append_drop, List.drop_of_length_le (by omega), hA]
    decide
  rw [h4]
  have h5 : (A ++ B ++ [0]).set 64 v = A ++ B ++ [v] := by
    rw [List.set_append_right _ _ (by simp [hA, hB])]
    simp [hA, hB]
  exact h5

theorem leftAligned_ne (rest : Bytes) (hnz : ∃ b ∈ rest, b ≠ 0) :
    leftAligned (0 :: rest) ≠ 0 :: rest := by
  intro heq
  have hdrop : (0 :: rest).dropWhile (fun b => decide (b = 0))
      = rest.dropWhile fun b => decide (b = 0) := by
    simp [List.dropWhile]
  cases hd : rest.dropWhile (fun b => decide (b = 0)) with
  | nil =>
    obtain ⟨b, hb, hb0⟩ := hnz
    have := List.dropWhile_eq_nil_iff.mp hd b hb
    simp at this
    exact hb0 this
  | cons d ds =>
    have hhead := List.head?_dropWhile_not (fun b => decide (b = 0)) rest
    rw [hd] at hhead
    simp only [List.head?_cons, decide_eq_false_iff_not] at hhead
    unfold leftAligned at heq
    rw [hdrop, hd] at heq
    simp only [List.cons_append, List.cons.injEq] at heq
    exact hhead heq.1

/-- C30: for every 65-byte signature, `SignatureToRSV` succeeds, and `RSVToSignature` of its
result is the signature with each of the fields r (bytes 0..31) and s (bytes 32..63) moved to
the front of its 32 bytes: the leading zero bytes of the field are dropped and as many zero
bytes are appended. The result is the signature again exactly when both fields are unchanged
by that move; it differs from the signature whenever the first byte is zero and some other
byte of r is not. -/
theorem RSVToSignature_left_aligns (sig : Bytes) (hlen : sig.length = 65)
    (hbytes : ∀ b ∈ sig, b < 256) :
    ECDSAService.SignatureToRSV sig
      = .ok (ECDSAService.SetBytes (sig.take 32),
          ECDSAService.SetBytes ((sig.drop 32).take 32), sig.getD 64 0) ∧
    ECDSAService.RSVToSignature (ECDSAService.SetBytes (sig.take 32))
        (ECDSAService.SetBytes ((sig.drop 32).take 32)) (sig.getD 64 0)
      = leftAligned (sig.take 32) ++ leftAligned ((sig.drop 32).take 32)
        ++ [sig.getD 64 0] ∧
    (ECDSAService.RSVToSignature (ECDSAService.SetBytes (sig.take 32))
        (ECDSAService.SetBytes ((sig.drop 32).take 32)) (sig.getD 64 0) = sig ↔
      leftAligned (sig.take 32) = sig.take 32 ∧
      leftAligned ((sig.drop 32).take 32) = (sig.drop 32).take 32) ∧
    (sig.head? = some 0 → (∃ b ∈ (sig.take 32).tail, b ≠ 0) →
      ECDSAService.RSVToSignature (ECDSAService.SetBytes (sig.take 32))
        (ECDSAService.SetBytes ((sig.drop 32).take 32)) (sig.getD 64 0) ≠ sig) := by
  have hR : ∀ b ∈ sig.take 32, b < 256 := fun b hb => hbytes b (List.mem_of_mem_take hb)
  have hS : ∀ b ∈ (sig.drop 32).take 32, b < 256 :=
    fun b hb => hbytes b (List.mem_of_mem_drop (List.mem_of_mem_take hb))
  have hRlen : (sig.take 32).length = 32 := by simp [hlen]
  have hSlen : ((sig.drop 32).take 32).length = 32 := by simp [hlen]
  have hsplit : sig = sig.take 32 ++ (sig.drop 32).take 32 ++ [sig.getD 64 0] := by
    have h1 : sig = sig.take 32 ++ sig.drop 32 := (List.take_append_drop 32 sig).symm
    have h2 : sig.drop 32 = (sig.drop 32).take 32 ++ (sig.drop 32).drop 32 :=
      (List.take_append_drop 32 _).symm
    have h3 : (sig.drop 32).drop 32 = [sig.getD 64 0] := by
      rw [List.drop_drop]
      have hl : (sig.drop (32 + 32)).length = 1 := by simp [hlen]
      match hd : sig.drop (32 + 32), hl with
      | [x], _ =>
        have : sig.getD 64 0 = x := by
          have hd' : sig.drop 64 = [x] := hd
          have h4 : (sig.drop 64)[0]? = sig[64]? := by
            rw [List.getElem?_drop]
          rw [List.getD_eq_getElem?_getD, ← h4, hd']
          rfl
        rw [this]
    rw [List.append_assoc, ← h3, ← h2]
    exact h1
  have hround : ECDSAService.RSVToSignature (ECDSAService.SetBytes (sig.take 32))
        (ECDSAService.SetBytes ((sig.drop 32).take 32)) (sig.getD 64 0)
      = leftAligned (sig.take 32) ++ leftAligned ((sig.drop 32).take 32)
        ++ [sig.getD 64 0] := by
    rw [RSVToSignature_eq, BigBytes_SetBytes _ hR, BigBytes_SetBytes _ hS]
    have hr := copyInto_leftAligned (sig.take 32)
    have hs := copyInto_leftAligned ((sig.drop 32).take 32)
    rw [hRlen] at hr
    rw [hSlen] at hs
    rw [hr, hs]
  have hLR : (leftAligned (sig.take 32)).length = 32 := by
    rw [← copyInto_leftAligned, copyInto_length, List.length_replicate, hRlen]
  have hiff : ECDSAService.RSVToSignature (ECDSAService.SetBytes (sig.take 32))
        (ECDSAService.SetBytes ((sig.drop 32).take 32)) (sig.getD 64 0) = sig ↔
      leftAligned (sig.take 32) = sig.take 32 ∧
      leftAligned ((sig.drop 32).take 32) = (sig.drop 32).take 32 := by
    rw [hround]
    constructor
    · intro heq
      have heq1 := heq.trans hsplit
      rw [List.append_assoc, List.append_assoc] at heq1
      have h1 := List.append_inj heq1 (by rw [hLR, hRlen])
      have h2 := List.append_cancel_right h1.2
      exact ⟨h1.1, h2⟩
    · intro heq
      rw [heq.1, heq.2]
      exact hsplit.symm
  refine ⟨?_, hround, hiff, ?_⟩
  · simp [ECDSAService.SignatureToRSV, hlen]
  · intro hhead hnz heq
    have hfield := (hiff.mp heq).1
    cases hT : sig.take 32 with
    | nil => rw [hT] at hRlen; cases hRlen
    | cons x rest =>
      have hx : x = 0 := by
        have h1 : (sig.take 32).head? = sig.head? := by
          cases sig with
          | nil => cases hlen
          | cons y ys => rfl
        rw [hT, hhead] at h1
        exact Option.some.inj h1
      subst hx
      rw [hT] at hfield hnz
      exact leftAligned_ne rest hnz hfield

/-- C30 on the 65-byte signature with r = 1, s = 2, v = 27: splitting succeeds, and putting
the parts together again gives another signature. -/
theorem RSVToSignature_left_aligns_witness :
    ECDSAService.SignatureToRSV demoRSV = .ok (1, 2, 27) ∧
    ECDSAService.RSVToSignature 1 2 27
      = [1] ++ List.replicate 31 0 ++ [2] ++ List.replicate 31 0 ++ [27] ∧
    ECDSAService.RSVToSignature 1 2 27 ≠ demoRSV :=
  have h := RSVToSignature_left_aligns demoRSV (by decide) (by decide)
  ⟨h.1.trans (by rfl), by decide, h.2.2.2 (by decide) (by decide)⟩

/-! ## Signing and verifying (C29) -/

/-- C29: for every key that `GenerateKeyPair` returns and every byte string m,
`Sign(priv, m)` returns a signature of 65 bytes and `Verify(pub, m, Sign(priv, m))` is true,
given a library that keeps its promise: a SHA-256 digest has 32 bytes, and `crypto.Sign`
on a generated key and a 32-byte digest returns 65 bytes whose first 64
`crypto.VerifySignature` accepts for the public key of that key. -/
theorem Verify_accepts_Sign (lib : EthCrypto) (hlib : lib.Sound) (entropy : Nat → Nat)
    (priv : PrivateKey) (m : Bytes)
    (hkey : ECDSAService.GenerateKeyPair lib entropy = .ok priv) :
    ∃ sig, ECDSAService.Sign lib priv m = .ok sig ∧ sig.length = 65 ∧
      ECDSAService.Verify lib priv.PublicKey m sig = some true := by
  have hgen : lib.GenerateKey entropy = .ok priv := by
    unfold ECDSAService.GenerateKeyPair at hkey
    cases hg : lib.GenerateKey entropy with
    | error err => rw [hg] at hkey; cases hkey
    | ok k =>
      rw [hg] at hkey
      injection hkey with hk
      rw [hk]
  obtain ⟨sig, hsign, hlen, hver⟩ := hlib.2 entropy priv (lib.Sum256 m) hgen (hlib.1 m)
  refine ⟨sig, ?_, hlen, ?_⟩
  · simp [ECDSAService.Sign, hsign]
  · simp [ECDSAService.Verify, hlen, hver]

theorem demoLib_Sound : demoLib.Sound := by
  refine ⟨fun _ => by simp [demoLib], ?_⟩
  intro entropy priv digest _ hlen
  refine ⟨digest ++ digest ++ [0], rfl, by simp [hlen], ?_⟩
  have : (digest ++ digest ++ [0]).take 64 = digest ++ digest := by
    rw [List.take_left']
    simp [hlen]
  show decide (List.take 64 (digest ++ digest ++ [0]) = digest ++ digest) = true
  rw [this]
  exact decide_eq_true rfl

/-- C29 on the stand-in library, a key drawn from the constant reader and the three-byte
message 1, 2, 3. -/
theorem Verify_accepts_Sign_witness :
    ∃ sig, ECDSAService.Sign demoLib ⟨⟨7, 7⟩, 7⟩ [1, 2, 3] = .ok sig ∧ sig.length = 65 ∧
      ECDSAService.Verify demoLib (⟨⟨7, 7⟩, 7⟩ : PrivateKey).PublicKey [1, 2, 3] sig
        = some true :=
  Verify_accepts_Sign demoLib demoLib_Sound (fun _ => 7) ⟨⟨7, 7⟩, 7⟩ [1, 2, 3] rfl

/-! ## Signatures of the wrong length (C31) -/

theorem demoExact_ChecksLength : demoExact.ChecksLength := by
  intro pubkey digest sig hlen
  simp [demoExact, hlen]

/-- C31: `SignatureToRSV` returns an error for every signature whose length is not 65, and
`Verify` returns false for every such signature that is not empty (the library rejects the
bytes it is handed, which are not 64); on the empty signature `Verify` does not return:
`signature[:len(signature)-1]` panics. -/
theorem Verify_panics_on_empty_signature (lib : EthCrypto) (hlib : lib.ChecksLength)
    (publicKey : PublicKey) (data signature : Bytes) (hlen : signature.length ≠ 65) :
    ECDSAService.Verify lib publicKey data [] = none ∧
    (signature ≠ [] → ECDSAService.Verify lib publicKey data signature = some false) ∧
    ECDSAService.SignatureToRSV signature
      = .error ("invalid signature length: expected 65, got " ++ toString signature.length) := by
  refine ⟨by simp [ECDSAService.Verify], ?_, by simp [ECDSAService.SignatureToRSV, hlen]⟩
  intro hne
  have hpos : signature.length ≠ 0 := fun h => hne (List.length_eq_zero.mp h)
  have h64 : (signature.take (signature.length - 1)).length ≠ 64 := by
    rw [List.length_take]
    omega
  simp [ECDSAService.Verify, hpos, hlib _ _ _ h64]

/-- C31 on the stand-in library: the empty signature makes `Verify` panic, a signature of
64 bytes is refused. -/
theorem Verify_panics_on_empty_signature_witness :
    ECDSAService.Verify demoExact ⟨1, 2⟩ [1, 2, 3] [] = none ∧
    ECDSAService.Verify demoExact ⟨1, 2⟩ [1, 2, 3] (List.replicate 64 0) = some false :=
  have h := Verify_panics_on_empty_signature demoExact demoExact_ChecksLength ⟨1, 2⟩ [1, 2, 3]
    (List.replicate 64 0) (by decide)
  ⟨h.1, h.2.1 (by decide)⟩

/-! ## HMAC-SHA256 (C32) -/

theorem map_range_getD (l : Bytes) (n : Nat) (hn : l.length = n) (f : Nat → Nat) :
    (List.range n).map (fun i => f (l.getD i 0)) = l.map f := by
  subst hn
  apply List.ext_getElem
  · simp
  · intro i h1 h2
    simp only [List.length_map, List.length_range] at h1
    simp [List.getD_eq_getElem?_getD, List.getElem?_eq_getElem h1]

/-- C32: `HMACSHA256(key, data)` is the HMAC construction of the specification over SHA-256
(whose digests have 32 bytes), for every key and data. -/
theorem HMACSHA256_eq_specHMAC (lib : EthCrypto) (hlen : ∀ d, (lib.Sum256 d).length = 32)
    (key data : Bytes) :
    HashService.HMACSHA256 lib key data = specHMAC lib.Sum256 key data := by
  have hpad : ∀ k : Bytes, k.length ≤ 64 →
      (if k.length < 64 then ECDSAService.copyInto (List.replicate 64 0) k else k)
        = k ++ List.replicate (64 - k.length) 0 := by
    intro k hk
    by_cases h : k.length < 64
    · rw [if_pos h]
      simp only [ECDSAService.copyInto, List.length_replicate, List.drop_replicate]
      rw [List.take_of_length_le (by omega)]
    · rw [if_neg h]
      have : 64 - k.length = 0 := by omega
      simp [this]
  have hk : (if key.length > 64 then lib.Sum256 key else key).length ≤ 64 := by
    split_ifs with h
    · rw [hlen]; omega
    · omega
  simp only [HashService.HMACSHA256, HashService.SHA256, HashService.MultiSHA256, specHMAC,
    List.foldl_cons, List.foldl_nil, List.nil_append]
  rw [hpad _ hk]
  have h64 : ((if key.length > 64 then lib.Sum256 key else key)
      ++ List.replicate (64 - (if key.length > 64 then lib.Sum256 key else key).length) 0).length
      = 64 := by
    rw [List.length_append, List.length_replicate]
    omega
  rw [map_range_getD _ 64 h64 (fun b => b ^^^ 0x36), map_range_getD _ 64 h64 (fun b => b ^^^ 0x5c)]

/-- C32 on the stand-in digest, the two-byte key 1, 2 and the one-byte data 3. -/
theorem HMACSHA256_eq_specHMAC_witness :
    HashService.HMACSHA256 demoExact [1, 2] [3] = specHMAC demoExact.Sum256 [1, 2] [3] :=
  HMACSHA256_eq_specHMAC demoExact (fun d => by simp [demoExact]) [1, 2] [3]

/-! ## The proposer threshold (C36) -/

/-- C36, counterexample: for stake 1, total stake 3 and one target proposer the code returns
`floor(2^256 * 333333 / 10^6)`, which is not `floor(2^256 / 3)`. -/
theorem CalculateProposerThreshold_differs_from_exact :
    ConsensusVRF.CalculateProposerThreshold 1 (some 3) 1
      ≠ some (specProposerThreshold 1 3 1) := by
  simp only [ConsensusVRF.CalculateProposerThreshold, specProposerThreshold]
  norm_num

/-- C36, amended: for every stake ≥ 0, total stake > 0 and target count > 0 the code returns
`floor(floor(2^256 / target) * floor(stake * 10^6 / total) / 10^6)`, the threshold in
fixed-point arithmetic with six decimals, which is never negative and never more than
`floor(2^256 * stake / (total * target))`. -/
theorem CalculateProposerThreshold_fixed_point (stake total target : Int)
    (hstake : 0 ≤ stake) (htotal : 0 < total) (htarget : 0 < target) :
    ConsensusVRF.CalculateProposerThreshold stake (some total) target
      = some (2 ^ 256 / target * (stake * 1000000 / total) / 1000000) ∧
    0 ≤ 2 ^ 256 / target * (stake * 1000000 / total) / 1000000 ∧
    2 ^ 256 / target * (stake * 1000000 / total) / 1000000
      ≤ specProposerThreshold stake total target := by
  have hB : 0 ≤ (2 : Int) ^ 256 / target := Int.ediv_nonneg (by positivity) htarget.le
  have hR : 0 ≤ stake * 1000000 / total :=
    Int.ediv_nonneg (Int.mul_nonneg hstake (by norm_num)) htotal.le
  refine ⟨?_, ?_, ?_⟩
  · simp [ConsensusVRF.CalculateProposerThreshold, not_le.mpr htotal, ne_of_gt htarget]
  · exact Int.ediv_nonneg (Int.mul_nonneg hB hR) (by norm_num)
  · unfold specProposerThreshold
    have hBt : (2 : Int) ^ 256 / target * target ≤ 2 ^ 256 :=
      Int.ediv_mul_le _ (ne_of_gt htarget)
    have hRT : stake * 1000000 / total * total ≤ stake * 1000000 :=
      Int.ediv_mul_le _ (ne_of_gt htotal)
    have hC : 2 ^ 256 / target * (stake * 1000000 / total) / 1000000 * 1000000
        ≤ 2 ^ 256 / target * (stake * 1000000 / total) :=
      Int.ediv_mul_le _ (by norm_num)
    have hpos : 0 < total * target := Int.mul_pos htotal htarget
    apply Int.le_ediv_of_mul_le hpos
    have h1 : 2 ^ 256 / target * (stake * 1000000 / total) * (total * target)
        ≤ 2 ^ 256 * (stake * 1000000) := by
      calc 2 ^ 256 / target * (stake * 1000000 / total) * (total * target)
          = (2 ^ 256 / target * target) * (stake * 1000000 / total * total) := by ring
        _ ≤ 2 ^ 256 * (stake * 1000000) :=
          Int.mul_le_mul hBt hRT (Int.mul_nonneg hR htotal.le) (by positivity)
    have h2 : 2 ^ 256 / target * (stake * 1000000 / total) / 1000000 * 1000000
        * (total * target) ≤ 2 ^ 256 * stake * 1000000 := by
      calc 2 ^ 256 / target * (stake * 1000000 / total) / 1000000 * 1000000 * (total * target)
          ≤ 2 ^ 256 / target * (stake * 1000000 / total) * (total * target) :=
            Int.mul_le_mul_of_nonneg_right hC hpos.le
        _ ≤ 2 ^ 256 * (stake * 1000000) := h1
        _ = 2 ^ 256 * stake * 1000000 := by ring
    have h3 : 2 ^ 256 / target * (stake * 1000000 / total) / 1000000 * (total * target)
        * 1000000 ≤ 2 ^ 256 * stake * 1000000 := by
      calc 2 ^ 256 / target * (stake * 1000000 / total) / 1000000 * (total * target) * 1000000
          = 2 ^ 256 / target * (stake * 1000000 / total) / 1000000 * 1000000
            * (total * target) := by ring
        _ ≤ 2 ^ 256 * stake * 1000000 := h2
    exact Int.le_of_mul_le_mul_right h3 (by norm_num)

/-- C36, amended, on stake 1, total stake 2 and 4 target proposers: the code returns
`2^253`, which here is the exact threshold. -/
theorem CalculateProposerThreshold_fixed_point_witness :
    ConsensusVRF.CalculateProposerThreshold 1 (some 2) 4
      = some (2 ^ 256 / 4 * (1 * 1000000 / 2) / 1000000) :=
  (CalculateProposerThreshold_fixed_point 1 2 4 (by decide) (by decide) (by decide)).1

/-! ## Choosing the proposer (C35) -/

theorem selectLoop_spec (rest pre mid : List validatorScore) (x : validatorScore)
    (hpre : ∀ w ∈ pre, w.score < x.score) (hmid : ∀ w ∈ mid, w.score ≤ x.score) :
    ∃ pre1 x1 post1, pre ++ x :: (mid ++ rest) = pre1 ++ x1 :: post1 ∧
      ConsensusVRF.selectLoop rest (x.score, x.nodeID) = (x1.score, x1.nodeID) ∧
      (∀ w ∈ pre1, w.score < x1.score) ∧ (∀ w ∈ post1, w.score ≤ x1.score) := by
  induction rest generalizing pre mid x with
  | nil =>
    exact ⟨pre, x, mid, by simp, rfl, hpre, hmid⟩
  | cons s rest ih =>
    by_cases hs : s.score > x.score
    · obtain ⟨pre1, x1, post1, h1, h2, h3, h4⟩ := ih (pre ++ x :: mid) [] s
        (by
          intro w hw
          rcases List.mem_append.mp hw with h | h
          · exact lt_trans (hpre w h) hs
          · rcases List.mem_cons.mp h with h | h
            · rw [h]; exact hs
            · exact lt_of_le_of_lt (hmid w h) hs)
        (by intro w hw; cases hw)
      refine ⟨pre1, x1, post1, ?_, ?_, h3, h4⟩
      · rw [← h1]
        simp
      · rw [← h2]
        simp [ConsensusVRF.selectLoop, hs]
    · obtain ⟨pre1, x1, post1, h1, h2, h3, h4⟩ := ih pre (mid ++ [s]) x hpre
        (by
          intro w hw
          rcases List.mem_append.mp hw with h | h
          · exact hmid w h
          · rw [List.mem_singleton.mp h]
            exact not_lt.mp hs)
      refine ⟨pre1, x1, post1, ?_, ?_, h3, h4⟩
      · rw [← h1]
        simp
      · rw [← h2]
        simp [ConsensusVRF.selectLoop, hs]

/-- C35, counterexample: of two active validators with the same stake and the same VRF
key, hence the same score, `SelectProposer` returns the one that stands first in the list:
`b` for the list b, a and `a` for the list a, b. -/
theorem SelectProposer_tie_goes_to_first :
    ConsensusVRF.SelectProposer demoSum256 [demoValidator "b", demoValidator "a"] [7] (some 20)
      = .ok "b" ∧
    ConsensusVRF.SelectProposer demoSum256 [demoValidator "a", demoValidator "b"] [7] (some 20)
      = .ok "a" := by
  constructor <;> rfl

/-- C35, amended: with a positive total stake and at least one active validator,
`SelectProposer` returns the id of an active validator whose score
(sha256(vrf_key || seed) as an integer times floor(stake * 10^6 / total_stake)) is maximal
among the active validators, and among several of maximal score the one that stands first
in the validator list: every active validator before it has a smaller score. -/
theorem SelectProposer_first_maximal (sum256 : Bytes → Bytes) (validators : List Node)
    (seed : Bytes) (total : Int) (htotal : 0 < total)
    (hactive : ∃ v ∈ validators, v.Status = NodeStatusActive) :
    ∃ pre x post,
      ConsensusVRF.validatorScores sum256 validators seed total = pre ++ x :: post ∧
      ConsensusVRF.SelectProposer sum256 validators seed (some total) = .ok x.nodeID ∧
      (∃ v ∈ validators, v.Status = NodeStatusActive ∧ v.ID = x.nodeID ∧
        x.score = ConsensusVRF.computeNodeVRFHash sum256 v.VRFKey seed
          * (v.Stake * 1000000 / total)) ∧
      (∀ w ∈ pre, w.score < x.score) ∧ (∀ w ∈ post, w.score ≤ x.score) := by
  obtain ⟨v0, hv0, hv0a⟩ := hactive
  have hne : validators.length ≠ 0 := by
    intro h
    rw [List.length_eq_zero.mp h] at hv0
    cases hv0
  cases hscores : ConsensusVRF.validatorScores sum256 validators seed total with
  | nil =>
    have hmem : (⟨v0.ID, ConsensusVRF.computeNodeVRFHash sum256 v0.VRFKey seed
        * (v0.Stake * 1000000 / total), v0.Stake⟩ : validatorScore)
        ∈ ConsensusVRF.validatorScores sum256 validators seed total := by
      unfold ConsensusVRF.validatorScores
      exact List.mem_map.mpr ⟨v0, List.mem_filter.mpr ⟨hv0, by simpa using hv0a⟩, rfl⟩
    rw [hscores] at hmem
    cases hmem
  | cons first rest =>
    obtain ⟨pre, x, post, h1, h2, h3, h4⟩ := selectLoop_spec rest [] [] first
      (by intro w hw; cases hw) (by intro w hw; cases hw)
    simp only [List.nil_append] at h1
    refine ⟨pre, x, post, h1, ?_, ?_, h3, h4⟩
    · simp [ConsensusVRF.SelectProposer, hne, not_le.mpr htotal, hscores, h2]
    · have hx : x ∈ ConsensusVRF.validatorScores sum256 validators seed total := by
        rw [hscores, h1]
        exact List.mem_append_right _ (List.mem_cons_self _ _)
      unfold ConsensusVRF.validatorScores at hx
      obtain ⟨v, hv, hvx⟩ := List.mem_map.mp hx
      obtain ⟨hv1, hv2⟩ := List.mem_filter.mp hv
      refine ⟨v, hv1, by simpa using hv2, ?_, ?_⟩
      · rw [← hvx]
      · rw [← hvx]

/-- C35, amended, on the validators b, a of equal score. -/
theorem SelectProposer_first_maximal_witness :
    ∃ pre x post,
      ConsensusVRF.validatorScores demoSum256 [demoValidator "b", demoValidator "a"] [7] 20
        = pre ++ x :: post ∧
      ConsensusVRF.SelectProposer demoSum256 [demoValidator "b", demoValidator "a"] [7]
        (some 20) = .ok x.nodeID ∧
      (∃ v ∈ [demoValidator "b", demoValidator "a"], v.Status = NodeStatusActive ∧
        v.ID = x.nodeID ∧
        x.score = ConsensusVRF.computeNodeVRFHash demoSum256 v.VRFKey [7]
          * (v.Stake * 1000000 / 20)) ∧
      (∀ w ∈ pre, w.score < x.score) ∧ (∀ w ∈ post, w.score ≤ x.score) :=
  SelectProposer_first_maximal demoSum256 [demoValidator "b", demoValidator "a"] [7] 20
    (by decide) ⟨demoValidator "b", by decide, rfl⟩

/-! ## Statistics (C37) -/

theorem counter_bump (k k' : String) (m : List (String × Int)) :
    counter (bump k m) k' = counter m k' + if k' = k then 1 else 0 := by
  unfold counter bump
  by_cases h : k' = k
  · subst h
    simp [mapGet_mapSet_self]
  · simp [mapGet_mapSet_ne k k' _ m h, h]

theorem counter_foldl_bump (ks : List String) (m : List (String × Int)) (k : String) :
    counter (ks.foldl (fun m k => bump k m) m) k = counter m k + ks.count k := by
  induction ks generalizing m with
  | nil => simp
  | cons k0 ks ih =>
    rw [List.foldl_cons, ih, counter_bump, List.count_cons]
    by_cases h : k = k0
    · subst h
      simp
      ring
    · have h' : ¬ (k0 == k) = true := by simpa using fun e : k0 = k => h e.symm
      simp [h, h']

theorem sum_mapSet (k : String) (w : Int) (m : List (String × Int)) :
    ((mapSet k w m).map Prod.snd).sum = (m.map Prod.snd).sum - counter m k + w := by
  unfold counter
  induction m with
  | nil => simp [mapSet, mapGet]
  | cons hd tl ih =>
    obtain ⟨k', v'⟩ := hd
    by_cases h : k' = k
    · subst h
      simp [mapSet, mapGet]
      ring
    · simp only [mapSet, h, if_false, mapGet, List.map_cons, List.sum_cons, ih]
      ring

theorem sum_foldl_bump (ks : List String) (m : List (String × Int)) :
    ((ks.foldl (fun m k => bump k m) m).map Prod.snd).sum
      = (m.map Prod.snd).sum + ks.length := by
  induction ks generalizing m with
  | nil => simp
  | cons k0 ks ih =>
    rw [List.foldl_cons, ih]
    unfold bump
    rw [sum_mapSet]
    unfold counter
    simp only [List.length_cons, Nat.cast_add, Nat.cast_one]
    ring

theorem nodup_foldl_bump (ks : List String) (m : List (String × Int))
    (hnd : (mapKeys m).Nodup) : (mapKeys (ks.foldl (fun m k => bump k m) m)).Nodup := by
  induction ks generalizing m with
  | nil => exact hnd
  | cons k0 ks ih => exact ih _ (nodup_mapKeys_mapSet _ _ _ hnd)

theorem statsChannel_fields (st : ChannelStatistics) (channel : Channel) :
    (statsChannel st channel).TotalChannels = st.TotalChannels ∧
    (statsChannel st channel).ChannelsByState = bump channel.State st.ChannelsByState ∧
    (statsChannel st channel).ActiveChannels
      = st.ActiveChannels + (if channel.State = StateOpen then 1 else 0) ∧
    (statsChannel st channel).ClosedChannels
      = st.ClosedChannels + (if channel.State = StateClosed then 1 else 0) ∧
    (statsChannel st channel).ParticipantStats
      = (channel.Participants.map fun p => p.Role).foldl (fun m k => bump k m)
          st.ParticipantStats := by
  have hpart : ∀ (ps : List Participant) (m : List (String × Int)),
      ps.foldl (fun ps participant => bump participant.Role ps) m
        = (ps.map fun p => p.Role).foldl (fun m k => bump k m) m := by
    intro ps
    induction ps with
    | nil => intro m; rfl
    | cons p ps ihp => intro m; simp only [List.foldl_cons, List.map_cons, ihp]
  have hne : StateOpen ≠ StateClosed := by decide
  unfold statsChannel
  by_cases hopen : channel.State = StateOpen
  · have hnc : ¬ channel.State = StateClosed := fun h => hne (hopen.symm.trans h)
    simp only [if_pos hopen, if_neg hnc, hpart]
    simp
  · by_cases hclosed : channel.State = StateClosed
    · simp only [if_neg hopen, if_pos hclosed, hpart]
      simp
    · simp only [if_neg hopen, if_neg hclosed, hpart]
      simp

theorem statsChannel_foldl (l : List (String × Channel)) (st : ChannelStatistics) :
    (l.foldl (fun st kv => statsChannel st kv.2) st).TotalChannels = st.TotalChannels ∧
    (l.foldl (fun st kv => statsChannel st kv.2) st).ChannelsByState
      = (l.map fun kv => kv.2.State).foldl (fun m k => bump k m) st.ChannelsByState ∧
    (l.foldl (fun st kv => statsChannel st kv.2) st).ActiveChannels
      = st.ActiveChannels + stateCount l StateOpen ∧
    (l.foldl (fun st kv => statsChannel st kv.2) st).ClosedChannels
      = st.ClosedChannels + stateCount l StateClosed ∧
    (l.foldl (fun st kv => statsChannel st kv.2) st).ParticipantStats
      = (l.flatMap fun kv => kv.2.Participants.map fun p => p.Role).foldl
          (fun m k => bump k m) st.ParticipantStats := by
  induction l generalizing st with
  | nil => simp [stateCount]
  | cons kv l ih =>
    obtain ⟨i1, i2, i3, i4, i5⟩ := ih (statsChannel st kv.2)
    obtain ⟨s1, s2, s3, s4, s5⟩ := statsChannel_fields st kv.2
    simp only [List.foldl_cons]
    rw [i1, i2, i3, i4, i5, s1, s2, s3, s4, s5]
    refine ⟨rfl, by simp, ?_, ?_, by simp [List.foldl_append]⟩
    · simp only [stateCount, List.countP_cons]
      by_cases h : kv.2.State = StateOpen
      · simp [h]; ring
      · simp [h]
    · simp only [stateCount, List.countP_cons]
      by_cases h : kv.2.State = StateClosed
      · simp [h]; ring
      · simp [h]

theorem count_states (l : List (String × Channel)) (state : String) :
    (l.map fun kv => kv.2.State).count state = stateCount l state := by
  unfold stateCount
  induction l with
  | nil => rfl
  | cons kv l ih =>
    simp only [List.map_cons, List.count_cons, List.countP_cons, ih]
    by_cases h : kv.2.State = state
    · simp [h]
    · simp [h]

theorem count_roles_one (ps : List Participant) (role : String) :
    (ps.map fun p => p.Role).count role = ps.countP fun p => decide (p.Role = role) := by
  induction ps with
  | nil => rfl
  | cons p ps ih =>
    simp only [List.map_cons, List.count_cons, List.countP_cons, ih]
    by_cases h : p.Role = role
    · simp [h]
    · simp [h]

theorem count_roles (l : List (String × Channel)) (role : String) :
    (l.flatMap fun kv => kv.2.Participants.map fun p => p.Role).count role
      = roleCount l role := by
  unfold roleCount
  induction l with
  | nil => rfl
  | cons kv l ih =>
    simp only [List.flatMap_cons, List.count_append, List.map_cons, List.sum_cons, ih,
      count_roles_one]

theorem statisticsOf_consistent (channels visited : List (String × Channel))
    (visitedMessages : List (String × List Message)) (hperm : visited.Perm channels) :
    StatsConsistent (statisticsOf channels visited visitedMessages) channels := by
  obtain ⟨f1, f2, f3, f4, f5⟩ := statsChannel_foldl visited
    { TotalChannels := channels.length, ActiveChannels := 0, ClosedChannels := 0
      ChannelsByState := [], MessagesByType := [], ParticipantStats := [] }
  simp only [] at f1 f2 f3 f4 f5
  have hstate : ∀ state, stateCount visited state = stateCount channels state :=
    fun state => hperm.countP_eq _
  have hrole : ∀ role, roleCount visited role = roleCount channels role :=
    fun role => (hperm.map _).sum_eq
  have hzero : ∀ k, counter [] k = 0 := fun k => rfl
  unfold StatsConsistent
  simp only [statisticsOf]
  refine ⟨f1, ?_, ?_, ?_, ?_, ?_, ?_⟩
  · rw [f2, f1, sum_foldl_bump]
    simp [hperm.length_eq]
  · rw [f2]
    exact nodup_foldl_bump _ _ (by simp [mapKeys])
  · intro state
    rw [f2, counter_foldl_bump, count_states, hstate, hzero]
    simp
  · rw [f3, f2, counter_foldl_bump, count_states, hzero]
  · rw [f4, f2, counter_foldl_bump, count_states, hzero]
  · intro role
    rw [f5, counter_foldl_bump, count_roles, hrole, hzero]
    simp

theorem mem_mapSet {α : Type} (k : String) (v : α) (l : List (String × α)) (x : String × α)
    (hx : x ∈ mapSet k v l) : x = (k, v) ∨ x ∈ l := by
  induction l with
  | nil => simp [mapSet] at hx; exact Or.inl hx
  | cons hd tl ih =>
    obtain ⟨k', v'⟩ := hd
    by_cases h : k' = k
    · simp only [mapSet, h, if_true, List.mem_cons] at hx
      rcases hx with hx | hx
      · exact Or.inl hx
      · exact Or.inr (List.mem_cons_of_mem _ hx)
    · simp only [mapSet, h, if_false, List.mem_cons] at hx
      rcases hx with hx | hx
      · exact Or.inr (hx ▸ List.mem_cons_self _ _)
      · rcases ih hx with h1 | h1
        · exact Or.inl h1
        · exact Or.inr (List.mem_cons_of_mem _ h1)

theorem ValidateChannelCreation_roles (c : Crypto) (req : ChannelOpenRequest)
    (hval : ValidateChannelCreation c req = none) :
    (req.ParticipantA.Role = RoleStudent ∧ req.ParticipantB.Role = RoleEmployer) ∨
    (req.ParticipantA.Role = RoleEmployer ∧ req.ParticipantB.Role = RoleStudent) := by
  have hrole : ∀ p, validateParticipant c p = none →
      p.Role = RoleStudent ∨ p.Role = RoleEmployer := by
    intro p hp
    unfold validateParticipant at hp
    by_cases h1 : p.Address = ""
    · simp [h1] at hp
    · cases hpk : p.PublicKey with
      | none => simp [h1, hpk] at hp
      | some pk =>
        by_cases h2 : p.Role = ""
        · simp [h1, hpk, h2] at hp
        · by_cases h3 : p.Role ≠ RoleStudent ∧ p.Role ≠ RoleEmployer
          · simp [h1, hpk, h2, h3] at hp
          · by_cases h4 : p.Role = RoleStudent
            · exact Or.inl h4
            · exact Or.inr (by_contra fun h5 => h3 ⟨h4, h5⟩)
  unfold ValidateChannelCreation at hval
  cases hA : validateParticipant c req.ParticipantA with
  | some e => simp [hA] at hval
  | none =>
    cases hB : validateParticipant c req.ParticipantB with
    | some e => simp [hA, hB] at hval
    | none =>
      by_cases h1 : req.ParticipantA.Address = req.ParticipantB.Address
      · simp [hA, hB, h1] at hval
      · by_cases h2 : req.ParticipantA.Role = req.ParticipantB.Role
        · simp [hA, hB, h1, h2] at hval
        · rcases hrole _ hA with ha | ha <;> rcases hrole _ hB with hb | hb
          · exact absurd (ha.trans hb.symm) h2
          · exact Or.inl ⟨ha, hb⟩
          · exact Or.inr ⟨ha, hb⟩
          · exact absurd (ha.trans hb.symm) h2

theorem creates_keep_fresh (ops : List Op) (m : Manager)
    (hall : ops.all isCreate = true)
    (hm : ∀ kv ∈ m.channels, kv.2.State = StateOpening ∧
      kv.2.Participants.countP (fun p => decide (p.Role = RoleStudent)) = 1 ∧
      kv.2.Participants.countP (fun p => decide (p.Role = RoleEmployer)) = 1) :
    ∀ kv ∈ (run m ops).channels, kv.2.State = StateOpening ∧
      kv.2.Participants.countP (fun p => decide (p.Role = RoleStudent)) = 1 ∧
      kv.2.Participants.countP (fun p => decide (p.Role = RoleEmployer)) = 1 := by
  induction ops generalizing m with
  | nil => exact hm
  | cons op rest ih =>
    simp only [List.all_cons, Bool.and_eq_true] at hall
    have hrun : run m (op :: rest) = run (applyOp m op) rest := rfl
    rw [hrun]
    apply ih _ hall.2
    cases op with
    | create c env req =>
      rcases CreateChannel_cases c env m req with ⟨e, heq⟩ | ⟨channelID, _, hval, _, heq⟩
      · simp only [applyOp]; rw [heq]; exact hm
      · simp only [applyOp]; rw [heq]
        intro kv hkv
        have hkv1 : kv ∈ mapSet (newChannel env m req channelID).ID
            (newChannel env m req channelID) m.channels := hkv
        rcases mem_mapSet _ _ _ _ hkv1 with h | h
        · have hne : RoleStudent ≠ RoleEmployer := by decide
          rw [h]
          refine ⟨rfl, ?_, ?_⟩
          · rcases ValidateChannelCreation_roles c req hval with ⟨ha, hb⟩ | ⟨ha, hb⟩
            · simp [newChannel, List.countP_cons, ha, hb, hne.symm]
            · simp [newChannel, List.countP_cons, ha, hb, hne.symm]
          · rcases ValidateChannelCreation_roles c req hval with ⟨ha, hb⟩ | ⟨ha, hb⟩
            · simp [newChannel, List.countP_cons, ha, hb, hne]
            · simp [newChannel, List.countP_cons, ha, hb, hne]
        · exact hm kv h
    | accept env channelID signature => simp [isCreate] at hall
    | update env channelID data signature => simp [isCreate] at hall
    | close env channelID signature force => simp [isCreate] at hall
    | addMessage env message => simp [isCreate] at hall
    | cleanup env => simp [isCreate] at hall

/-- C37: `GetStatistics`, of the manager and of the store, is consistent with the stored
channels, in whatever order the map is visited: TotalChannels is the number of channels and
the sum of ChannelsByState over its states, ChannelsByState[state] is the number of channels
in the state, ActiveChannels = ChannelsByState[open], ClosedChannels =
ChannelsByState[closed], and ParticipantStats[role] is the number of (channel, participant)
pairs of the role. After any sequence of `CreateChannel` calls on a new manager that leaves
n channels stored, TotalChannels = n, ChannelsByState[opening] = n and the two roles have n
participants each. -/
theorem GetStatistics_consistent (order : List (String × Channel) → List (String × Channel))
    (orderMessages : List (String × List Message) → List (String × List Message))
    (m : Manager) (s : MemoryStore) (config : ChannelConfig) (ops : List Op)
    (horder : ∀ l, (order l).Perm l) (hall : ops.all isCreate = true) :
    StatsConsistent (GetStatistics order orderMessages m) m.channels ∧
    StatsConsistent (MemoryStore.GetStatistics order orderMessages s) s.channels ∧
    (GetStatistics order orderMessages (run (NewManager config) ops)).TotalChannels
      = (run (NewManager config) ops).channels.length ∧
    counter (GetStatistics order orderMessages (run (NewManager config) ops)).ChannelsByState
      StateOpening = (run (NewManager config) ops).channels.length ∧
    counter (GetStatistics order orderMessages (run (NewManager config) ops)).ParticipantStats
      RoleStudent = (run (NewManager config) ops).channels.length ∧
    counter (GetStatistics order orderMessages (run (NewManager config) ops)).ParticipantStats
      RoleEmployer = (run (NewManager config) ops).channels.length := by
  have hfresh := creates_keep_fresh ops (NewManager config) hall
    (by intro kv hkv; cases hkv)
  obtain ⟨t1, _, _, t4, _, _, t7⟩ := statisticsOf_consistent
    (run (NewManager config) ops).channels (order (run (NewManager config) ops).channels)
    (orderMessages (run (NewManager config) ops).messages) (horder _)
  have hsum : ∀ (l : List (String × Channel)) (role : String),
      (∀ kv ∈ l, kv.2.Participants.countP (fun p => decide (p.Role = role)) = 1) →
      roleCount l role = l.length := by
    intro l role
    unfold roleCount
    induction l with
    | nil => intro _; rfl
    | cons kv l ih =>
      intro h
      simp only [List.map_cons, List.sum_cons, List.length_cons]
      rw [h kv (List.mem_cons_self _ _), ih fun kv hkv => h kv (List.mem_cons_of_mem _ hkv)]
      omega
  have hstates : stateCount (run (NewManager config) ops).channels StateOpening
      = (run (NewManager config) ops).channels.length := by
    unfold stateCount
    rw [List.countP_eq_length]
    intro kv hkv
    simpa using (hfresh kv hkv).1
  refine ⟨statisticsOf_consistent _ _ _ (horder _), statisticsOf_consistent _ _ _ (horder _),
    t1, ?_, ?_, ?_⟩
  · have := t4 StateOpening
    simp only [GetStatistics]
    rw [this, hstates]
  · have := t7 RoleStudent
    simp only [GetStatistics]
    rw [this, hsum _ _ fun kv hkv => (hfresh kv hkv).2.1]
  · have := t7 RoleEmployer
    simp only [GetStatistics]
    rw [this, hsum _ _ fun kv hkv => (hfresh kv hkv).2.2]

/-- C37 on two `CreateChannel` calls on a new manager: two channels, both Opening, two
students and two employers. -/
theorem GetStatistics_consistent_witness :
    (run (NewManager demoConfig) demoCreates).channels.length = 2 ∧
    (GetStatistics List.reverse List.reverse (run (NewManager demoConfig) demoCreates)).TotalChannels
      = 2 ∧
    counter (GetStatistics List.reverse List.reverse
      (run (NewManager demoConfig) demoCreates)).ChannelsByState StateOpening = 2 ∧
    counter (GetStatistics List.reverse List.reverse
      (run (NewManager demoConfig) demoCreates)).ParticipantStats RoleStudent = 2 :=
  have hlen : (run (NewManager demoConfig) demoCreates).channels.length = 2 := by decide
  have h := GetStatistics_consistent List.reverse List.reverse demoOpen demoStore demoConfig
    demoCreates (fun l => List.reverse_perm l) (by rfl)
  ⟨hlen, by rw [h.2.2.1, hlen]; rfl, by rw [h.2.2.2.1, hlen]; rfl,
    by rw [h.2.2.2.2.1, hlen]; rfl⟩

/-! ## Votes and the voting threshold (C40) -/

theorem natBits_le (fuel n k : Nat) (h : n < 2 ^ k) : natBits fuel n ≤ k := by
  induction fuel generalizing n k with
  | zero => simp [natBits]
  | succ fuel ih =>
    by_cases hn : n = 0
    · simp [natBits, hn]
    · cases k with
      | zero =>
        simp only [pow_zero, Nat.lt_one_iff] at h
        exact absurd h hn
      | succ k =>
        simp only [natBits, hn, if_false]
        have : n / 2 < 2 ^ k := by
          rw [Nat.div_lt_iff_lt_mul (by norm_num)]
          rw [pow_succ] at h
          exact h
        have := ih (n / 2) k this
        omega

theorem votingThreshold_one_node (e : Engine) (hone : e.ActiveNodes = 1)
    (hpos : 0 < e.VotingThreshold.mantissa) (h53 : e.VotingThreshold.mantissa < 2 ^ 53)
    (hexp : e.VotingThreshold.exponent < 0)
    (hlt : e.VotingThreshold.mantissa < 2 ^ (-e.VotingThreshold.exponent).toNat) :
    Engine.votingThreshold e = 0 := by
  have h1 : floatOfInt 1 = { mantissa := 1, exponent := 0 } := by decide
  have hnat : e.VotingThreshold.mantissa.natAbs < 2 ^ 53 := by
    have : (e.VotingThreshold.mantissa.natAbs : Int) < 2 ^ 53 := by
      rw [Int.natAbs_of_nonneg hpos.le]
      exact h53
    exact_mod_cast this
  have hbits := natBits_le e.VotingThreshold.mantissa.natAbs _ 53 hnat
  have hmul : floatMul { mantissa := 1, exponent := 0 } e.VotingThreshold
      = e.VotingThreshold := by
    simp only [floatMul, roundFloat64, Int.one_mul, Int.zero_add, hbits, if_true]
  unfold Engine.votingThreshold
  rw [hone, h1, hmul]
  unfold floatToInt
  rw [if_neg (not_le.mpr hexp)]
  exact Int.tdiv_eq_zero_of_lt hpos.le hlt

/-- C40: with one active node and a voting threshold strictly between 0 and 1 the threshold
`int(float64(ActiveNodes) * VotingThreshold)` is 0, and then every vote of the current node
on a pending proposal it has not voted on, whatever its type, makes the proposal Accepted
and finalizes its block: the vote is recorded, the status becomes `accepted`, the block is
appended to the chain and the height and hash of the state become the block's. -/
theorem Vote_accepts_below_one_node_threshold (sign : Vote → Except String Bytes) (now : Time)
    (e : Engine) (proposalID voteType reason : String) (proposal : Proposal)
    (signature : Bytes)
    (hone : e.ActiveNodes = 1)
    (hpos : 0 < e.VotingThreshold.mantissa) (h53 : e.VotingThreshold.mantissa < 2 ^ 53)
    (hexp : e.VotingThreshold.exponent < 0)
    (hlt : e.VotingThreshold.mantissa < 2 ^ (-e.VotingThreshold.exponent).toNat)
    (hget : mapGet proposalID e.proposals = some proposal)
    (hpending : proposal.Status = ProposalStatusPending)
    (hnew : ∀ v ∈ proposal.Votes, v.NodeID ≠ e.currentNodeID)
    (hsign : sign { NodeID := e.currentNodeID, ProposalID := proposalID
                    VoteType := voteType, Signature := [], Timestamp := now
                    Reason := reason } = .ok signature) :
    Engine.votingThreshold e = 0 ∧
    (Engine.Vote sign now e proposalID voteType reason).1 = none ∧
    mapGet proposalID (Engine.Vote sign now e proposalID voteType reason).2.proposals
      = some { proposal with
               Votes := proposal.Votes ++
                 [{ NodeID := e.currentNodeID, ProposalID := proposalID
                    VoteType := voteType, Signature := signature, Timestamp := now
                    Reason := reason }]
               Status := ProposalStatusAccepted } ∧
    (Engine.Vote sign now e proposalID voteType reason).2.blocks
      = e.blocks ++ [proposal.Block] ∧
    (Engine.Vote sign now e proposalID voteType reason).2.CurrentHeight
      = proposal.Block.Height ∧
    (Engine.Vote sign now e proposalID voteType reason).2.CurrentHash
      = proposal.Block.Hash := by
  have hthr := votingThreshold_one_node e hone hpos h53 hexp hlt
  have hany : (proposal.Votes.any fun vote => decide (vote.NodeID = e.currentNodeID))
      = false := by
    rw [List.any_eq_false]
    intro v hv
    simpa using hnew v hv
  have hvote : Engine.Vote sign now e proposalID voteType reason
      = (none, Engine.checkVotingThreshold e proposalID
          { proposal with
            Votes := proposal.Votes ++
              [{ NodeID := e.currentNodeID, ProposalID := proposalID
                 VoteType := voteType, Signature := signature, Timestamp := now
                 Reason := reason }] }) := by
    simp [Engine.Vote, hget, hpending, hany, hsign]
  have hcheck : ∀ p : Proposal, Engine.checkVotingThreshold e proposalID p
      = Engine.finalizeBlock
          { e with proposals :=
              mapSet proposalID { p with Status := ProposalStatusAccepted } e.proposals }
          p.Block := by
    intro p
    unfold Engine.checkVotingThreshold
    simp only [hthr]
    rw [if_pos (Int.ofNat_nonneg _)]
  rw [hvote, hcheck]
  exact ⟨hthr, rfl, mapGet_mapSet_self _ _ _, rfl, rfl, rfl⟩

/-- C40 on an engine with one active node and the voting threshold 0.67: a reject vote on
the pending proposal makes it Accepted and puts its block on the chain. -/
theorem Vote_accepts_below_one_node_threshold_witness :
    (mapGet "proposal_1_0xabcdef"
      (Engine.Vote (fun _ => .ok [1]) 60 demoEngine "proposal_1_0xabcdef" VoteTypeReject
        "no").2.proposals).map (fun p => (p.Status, p.Votes.map fun v => v.VoteType))
      = some (ProposalStatusAccepted, [VoteTypeReject]) ∧
    (Engine.Vote (fun _ => .ok [1]) 60 demoEngine "proposal_1_0xabcdef" VoteTypeReject
      "no").2.blocks = [demoProposal.Block] :=
  have h := Vote_accepts_below_one_node_threshold (fun _ => .ok [1]) 60 demoEngine
    "proposal_1_0xabcdef" VoteTypeReject "no" demoProposal [1] rfl (by decide) (by decide)
    (by decide) (by decide) (by decide) rfl (by intro v hv; cases hv) rfl
  ⟨by rw [h.2.2.1]; rfl, h.2.2.2.1⟩

/-! ## The VRF of services/crypto (C33, C34) -/

theorem SetBytes_zeros_append (k : Nat) (l : Bytes) :
    ECDSAService.SetBytes (List.replicate k 0 ++ l) = ECDSAService.SetBytes l := by
  unfold ECDSAService.SetBytes
  congr 1
  induction k with
  | zero => rfl
  | succ k ih => simpa [List.replicate_succ] using ih

theorem takeWhile_zero_eq (l : Bytes) :
    l.takeWhile (fun b => decide (b = 0))
      = List.replicate (l.takeWhile fun b => decide (b = 0)).length 0 := by
  induction l with
  | nil => rfl
  | cons b l ih =>
    by_cases h : b = 0
    · subst h
      simp only [List.takeWhile_cons, decide_True, if_true, List.length_cons,
        List.replicate_succ]
      rw [← ih]
    · simp [List.takeWhile_cons, h]

theorem zeros_append_dropWhile (l : Bytes) :
    List.replicate (l.takeWhile fun b => decide (b = 0)).length 0
      ++ l.dropWhile (fun b => decide (b = 0)) = l := by
  rw [← takeWhile_zero_eq, List.takeWhile_append_dropWhile]

theorem SetBytes_dropWhile (l : Bytes) :
    ECDSAService.SetBytes (l.dropWhile fun b => decide (b = 0)) = ECDSAService.SetBytes l := by
  conv_rhs => rw [← zeros_append_dropWhile l]
  rw [SetBytes_zeros_append]

theorem copyAt_mid (A B C src : Bytes) (h : src.length = B.length) :
    copyAt (A ++ B ++ C) A.length (A.length + B.length) src = A ++ src ++ C := by
  unfold copyAt ECDSAService.copyInto
  have h1 : (A ++ B ++ C).take A.length = A := by
    rw [List.append_assoc, List.take_left']
    rfl
  have h2 : (A ++ B ++ C).drop A.length = B ++ C := by
    rw [List.append_assoc, List.drop_left']
    rfl
  have h3 : (A ++ B ++ C).drop (A.length + B.length) = C := by
    rw [List.drop_left']
    simp
  rw [h1, h2, h3, Nat.add_sub_cancel_left, List.take_left' rfl, ← h, List.take_length]
  rw [h, List.drop_length]
  simp

theorem length_dropWhile_zero (l : Bytes) :
    (l.takeWhile fun b => decide (b = 0)).length
      + (l.dropWhile fun b => decide (b = 0)).length = l.length := by
  rw [← List.length_append, List.takeWhile_append_dropWhile]

theorem constructProof_fields (R S H : Bytes) (v : Nat) (hR : R.length = 32)
    (hS : S.length = 32) (hH : H.length = 32) (hRb : ∀ b ∈ R, b < 256)
    (hSb : ∀ b ∈ S, b < 256) :
    VRFService.constructProof (ECDSAService.SetBytes R) (ECDSAService.SetBytes S) v H
      = some (R ++ S ++ [v] ++ H) := by
  have hr := length_dropWhile_zero R
  have hs := length_dropWhile_zero S
  unfold VRFService.constructProof
  rw [BigBytes_SetBytes R hRb, BigBytes_SetBytes S hSb]
  generalize hkr : (R.takeWhile fun b => decide (b = 0)).length = kr at hr
  generalize hks : (S.takeWhile fun b => decide (b = 0)).length = ks at hs
  generalize hrB : R.dropWhile (fun b => decide (b = 0)) = rB at hr
  generalize hsB : S.dropWhile (fun b => decide (b = 0)) = sB at hs
  have hRe : List.replicate kr 0 ++ rB = R := by
    rw [← hkr, ← hrB]; exact zeros_append_dropWhile R
  have hSe : List.replicate ks 0 ++ sB = S := by
    rw [← hks, ← hsB]; exact zeros_append_dropWhile S
  rw [hR] at hr
  rw [hS] at hs
  have hr32 : ¬ rB.length > 32 := by omega
  have hs64 : ¬ sB.length > 64 := by omega
  simp only [hr32, hs64, if_false]
  -- the first write
  have e1 : (List.replicate 97 0 : Bytes)
      = List.replicate kr 0 ++ List.replicate rB.length 0 ++ List.replicate 65 0 := by
    rw [← List.replicate_add, ← List.replicate_add]
    congr 1
    omega
  have w1 : copyAt (List.replicate 97 0) (32 - rB.length) 32 rB
      = R ++ List.replicate 65 0 := by
    have := copyAt_mid (List.replicate kr 0) (List.replicate rB.length 0)
      (List.replicate 65 0) rB (by simp)
    simp only [List.length_replicate] at this
    rw [e1]
    have hlo : 32 - rB.length = kr := by omega
    have hhi : 32 = kr + rB.length := by omega
    rw [hlo]
    conv_lhs => rw [hhi]
    rw [this, hRe]
  rw [w1]
  -- the second write
  have e2 : R ++ List.replicate 65 0
      = (R ++ List.replicate ks 0) ++ List.replicate sB.length 0 ++ List.replicate 33 0 := by
    rw [List.append_assoc, List.append_assoc, ← List.replicate_add, ← List.replicate_add]
    congr 2
    omega
  have w2 : copyAt (R ++ List.replicate 65 0) (64 - sB.length) 64 sB
      = R ++ S ++ List.replicate 33 0 := by
    have := copyAt_mid (R ++ List.replicate ks 0) (List.replicate sB.length 0)
      (List.replicate 33 0) sB (by simp)
    simp only [List.length_append, List.length_replicate, hR] at this
    rw [e2]
    have hlo : 64 - sB.length = 32 + ks := by omega
    have hhi : 64 = 32 + ks + sB.length := by omega
    rw [hlo]
    conv_lhs => rw [hhi]
    rw [this, List.append_assoc R, hSe]
  rw [w2]
  -- the recovery byte and the third write
  have w3 : (R ++ S ++ List.replicate 33 0).set 64 v
      = (R ++ S ++ [v]) ++ List.replicate 32 0 ++ [] := by
    rw [List.set_append_right _ _ (by simp [hR, hS])]
    simp [hR, hS, List.replicate_succ]
  rw [w3]
  have := copyAt_mid (R ++ S ++ [v]) (List.replicate 32 0) [] H (by simp [hH])
  simp only [List.length_append, List.length_replicate, hR, hS, List.length_singleton] at this
  rw [this]
  simp

theorem copyInto_full (H : Bytes) (n : Nat) (hH : H.length = n) :
    ECDSAService.copyInto (List.replicate n 0) H = H := by
  unfold ECDSAService.copyInto
  rw [List.length_replicate, ← hH, List.take_length, List.drop_replicate, Nat.sub_self]
  simp

theorem RSVToSignature_take64 (R S : Bytes) (v : Nat) (hR : R.length = 32)
    (hS : S.length = 32) (hRb : ∀ b ∈ R, b < 256) (hSb : ∀ b ∈ S, b < 256) :
    ECDSAService.RSVToSignature (ECDSAService.SetBytes R) (ECDSAService.SetBytes S) v
      = leftAligned R ++ leftAligned S ++ [v] ∧
    (leftAligned R ++ leftAligned S).length = 64 := by
  have hr := copyInto_leftAligned R
  have hs := copyInto_leftAligned S
  rw [hR] at hr
  rw [hS] at hs
  have hlR : (leftAligned R).length = 32 := by
    rw [← hr, copyInto_length, List.length_replicate]
  have hlS : (leftAligned S).length = 32 := by
    rw [← hs, copyInto_length, List.length_replicate]
  refine ⟨?_, by rw [List.length_append, hlR, hlS]⟩
  rw [RSVToSignature_eq, BigBytes_SetBytes _ hRb, BigBytes_SetBytes _ hSb, hr, hs]

/-- What `VRFService.Verify` computes on a proof of 97 bytes, in terms of its four
fields. -/
theorem VRF_Verify_eq (lib : EthCrypto) (curve : S256) (publicKey : PublicKey)
    (seed value proof : Bytes)
    (hpub : ECDSAService.ValidatePublicKey curve publicKey = none)
    (hlen : proof.length = 97) (hbytes : ∀ b ∈ proof, b < 256) :
    VRFService.Verify lib curve publicKey seed value proof =
      if hexEncodeToString (proof.drop 65) ≠ hexEncodeToString (lib.Sum256 seed) then
        some (false, some "seed hash mismatch")
      else if lib.VerifySignature (lib.FromECDSAPub publicKey) (lib.Sum256 (proof.drop 65))
          (leftAligned (proof.take 32) ++ leftAligned ((proof.drop 32).take 32)) = false then
        some (false, some "signature verification failed")
      else if hexEncodeToString value ≠ hexEncodeToString
          (lib.Sum256 ((proof.take 32).dropWhile (fun b => decide (b = 0)) ++ seed)) then
        some (false, some "VRF value mismatch")
      else some (true, none) := by
  have hR : (proof.take 32).length = 32 := by simp [hlen]
  have hS : ((proof.drop 32).take 32).length = 32 := by simp [hlen]
  have hRb : ∀ b ∈ proof.take 32, b < 256 := fun b hb => hbytes b (List.mem_of_mem_take hb)
  have hSb : ∀ b ∈ (proof.drop 32).take 32, b < 256 :=
    fun b hb => hbytes b (List.mem_of_mem_drop (List.mem_of_mem_take hb))
  have hH : ECDSAService.copyInto (List.replicate 32 0) ((proof.drop 65).take 32)
      = proof.drop 65 := by
    have h1 : (proof.drop 65).take 32 = proof.drop 65 :=
      List.take_of_length_le (by simp [hlen])
    rw [h1]
    exact copyInto_full _ 32 (by simp [hlen])
  obtain ⟨hsig, hsig64⟩ := RSVToSignature_take64 (proof.take 32) ((proof.drop 32).take 32)
    (proof.getD 64 0) hR hS hRb hSb
  have hparse : VRFService.parseProof proof
      = .ok (ECDSAService.SetBytes (proof.take 32),
          ECDSAService.SetBytes ((proof.drop 32).take 32), proof.getD 64 0,
          proof.drop 65) := by
    simp only [VRFService.parseProof, hlen, hH]
    simp
  have hver : ECDSAService.Verify lib publicKey (proof.drop 65)
      (leftAligned (proof.take 32) ++ leftAligned ((proof.drop 32).take 32)
        ++ [proof.getD 64 0])
      = some (lib.VerifySignature (lib.FromECDSAPub publicKey) (lib.Sum256 (proof.drop 65))
          (leftAligned (proof.take 32) ++ leftAligned ((proof.drop 32).take 32))) := by
    unfold ECDSAService.Verify
    have hl : (leftAligned (proof.take 32) ++ leftAligned ((proof.drop 32).take 32)
        ++ [proof.getD 64 0]).length = 65 := by
      rw [List.length_append, hsig64]
      rfl
    rw [hl]
    simp only [Nat.reduceEqDiff, if_false, Nat.add_one_sub_one]
    rw [List.take_left' hsig64]
  unfold VRFService.Verify
  rw [hpub, hparse]
  simp only [HashService.SHA256, HashService.CompareHash, HashService.MultiSHA256, hsig, hver,
    BigBytes_SetBytes _ hRb, List.foldl_cons, List.foldl_nil, List.nil_append]
  by_cases h1 : hexEncodeToString (proof.drop 65) = hexEncodeToString (lib.Sum256 seed)
  · cases h2 : lib.VerifySignature (lib.FromECDSAPub publicKey) (lib.Sum256 (proof.drop 65))
        (leftAligned (proof.take 32) ++ leftAligned ((proof.drop 32).take 32))
    · simp [h1]
    · by_cases h3 : hexEncodeToString value = hexEncodeToString
          (lib.Sum256 ((proof.take 32).dropWhile (fun b => decide (b = 0)) ++ seed))
      · simp [h1, h3]
      · simp [h1, h3]
  · simp [h1]

theorem hexDigit_inj : ∀ a < 16, ∀ b < 16, hexDigit a = hexDigit b → a = b := by decide

theorem hexEncodeToString_inj (a b : Bytes) (ha : ∀ x ∈ a, x < 256) (hb : ∀ x ∈ b, x < 256)
    (h : hexEncodeToString a = hexEncodeToString b) : a = b := by
  unfold hexEncodeToString at h
  have h1 := congrArg String.data h
  simp only [] at h1
  clear h
  induction a generalizing b with
  | nil =>
    cases b with
    | nil => rfl
    | cons y b => simp at h1
  | cons x a ih =>
    cases b with
    | nil => simp at h1
    | cons y b =>
      simp only [List.flatMap_cons, List.cons_append, List.nil_append, List.cons.injEq] at h1
      obtain ⟨e1, e2, e3⟩ := h1
      have hx := ha x (List.mem_cons_self _ _)
      have hy := hb y (List.mem_cons_self _ _)
      have d1 := hexDigit_inj _ (Nat.mod_lt _ (by norm_num)) _ (Nat.mod_lt _ (by norm_num)) e1
      have d2 := hexDigit_inj _ (Nat.mod_lt _ (by norm_num)) _ (Nat.mod_lt _ (by norm_num)) e2
      have hxy : x = y := by omega
      rw [hxy, ih b (fun z hz => ha z (List.mem_cons_of_mem _ hz))
        (fun z hz => hb z (List.mem_cons_of_mem _ hz)) e3]

theorem split65 (sig : Bytes) (hlen : sig.length = 65) :
    sig = sig.take 32 ++ (sig.drop 32).take 32 ++ [sig.getD 64 0] := by
  have h1 : sig = sig.take 32 ++ sig.drop 32 := (List.take_append_drop 32 sig).symm
  have h2 : sig.drop 32 = (sig.drop 32).take 32 ++ (sig.drop 32).drop 32 :=
    (List.take_append_drop 32 _).symm
  have h3 : (sig.drop 32).drop 32 = [sig.getD 64 0] := by
    rw [List.drop_drop]
    have hl : (sig.drop (32 + 32)).length = 1 := by simp [hlen]
    match hd : sig.drop (32 + 32), hl with
    | [x], _ =>
      have hd1 : sig.drop 64 = [x] := hd
      have h4 : (sig.drop 64)[0]? = sig[64]? := by
        rw [List.getElem?_drop]
      have : sig.getD 64 0 = x := by
        rw [List.getD_eq_getElem?_getD, ← h4, hd1]
        rfl
      rw [this]
  rw [List.append_assoc, ← h3, ← h2]
  exact h1

/-- C33: for a valid private key whose `Sign` on the seed hash returns the 65 bytes sig,
`Generate` returns a value of 32 bytes and the 97-byte proof sig || sha256(seed), and
`Verify` on them hands the library not the first 64 bytes of sig but the signature that
`RSVToSignature` rebuilds, in which r and s are moved to the front of their 32 bytes: it
returns true if the library accepts that signature and fails with
`signature verification failed` otherwise. -/
theorem VRF_Verify_checks_left_aligned (lib : EthCrypto) (curve : S256) (priv : PrivateKey)
    (seed sig : Bytes)
    (hsum : ∀ d, (lib.Sum256 d).length = 32) (hsumb : ∀ d, ∀ b ∈ lib.Sum256 d, b < 256)
    (hpriv : ECDSAService.ValidatePrivateKey curve priv = none)
    (hpub : ECDSAService.ValidatePublicKey curve priv.PublicKey = none)
    (hsign : lib.Sign (lib.Sum256 (lib.Sum256 seed)) priv = .ok sig)
    (hlen : sig.length = 65) (hsigb : ∀ b ∈ sig, b < 256) :
    VRFService.Generate lib curve priv seed
      = some (.ok { Value := lib.Sum256 ((sig.take 32).dropWhile (fun b => decide (b = 0))
                      ++ seed)
                    Proof := sig ++ lib.Sum256 seed }) ∧
    (lib.Sum256 ((sig.take 32).dropWhile (fun b => decide (b = 0)) ++ seed)).length = 32 ∧
    (sig ++ lib.Sum256 seed).length = 97 ∧
    VRFService.Verify lib curve priv.PublicKey seed
        (lib.Sum256 ((sig.take 32).dropWhile (fun b => decide (b = 0)) ++ seed))
        (sig ++ lib.Sum256 seed)
      = (if lib.VerifySignature (lib.FromECDSAPub priv.PublicKey)
            (lib.Sum256 (lib.Sum256 seed))
            (leftAligned (sig.take 32) ++ leftAligned ((sig.drop 32).take 32)) = true
          then some (true, none)
          else some (false, some "signature verification failed")) := by
  have hR : (sig.take 32).length = 32 := by simp [hlen]
  have hS : ((sig.drop 32).take 32).length = 32 := by simp [hlen]
  have hRb : ∀ b ∈ sig.take 32, b < 256 := fun b hb => hsigb b (List.mem_of_mem_take hb)
  have hSb : ∀ b ∈ (sig.drop 32).take 32, b < 256 :=
    fun b hb => hsigb b (List.mem_of_mem_drop (List.mem_of_mem_take hb))
  have hsplit := split65 sig hlen
  have hproof : sig.take 32 ++ (sig.drop 32).take 32 ++ [sig.getD 64 0] ++ lib.Sum256 seed
      = sig ++ lib.Sum256 seed := by rw [← hsplit]
  have hplen : (sig ++ lib.Sum256 seed).length = 97 := by
    rw [List.length_append, hlen, hsum]
  refine ⟨?_, hsum _, hplen, ?_⟩
  · simp only [VRFService.Generate, hpriv, HashService.SHA256, ECDSAService.Sign, hsign,
      ECDSAService.SignatureToRSV, hlen, ne_eq, not_true_eq_false, if_false,
      constructProof_fields _ _ _ _ hR hS (hsum seed) hRb hSb, BigBytes_SetBytes _ hRb,
      HashService.MultiSHA256, List.foldl_cons, List.foldl_nil, List.nil_append, hproof]
  · have hbytes : ∀ b ∈ sig ++ lib.Sum256 seed, b < 256 := by
      intro b hb
      rcases List.mem_append.mp hb with h | h
      · exact hsigb b h
      · exact hsumb _ b h
    have hdrop : (sig ++ lib.Sum256 seed).drop 65 = lib.Sum256 seed := by
      rw [← hlen, List.drop_left]
    have htake : (sig ++ lib.Sum256 seed).take 32 = sig.take 32 := by
      rw [List.take_append_of_le_length (by omega)]
    have hmid : ((sig ++ lib.Sum256 seed).drop 32).take 32 = (sig.drop 32).take 32 := by
      rw [List.drop_append_of_le_length (by omega),
        List.take_append_of_le_length (by simp [hlen])]
    rw [VRF_Verify_eq lib curve priv.PublicKey seed _ _ hpub hplen hbytes, hdrop, htake, hmid]
    cases hv : lib.VerifySignature (lib.FromECDSAPub priv.PublicKey)
        (lib.Sum256 (lib.Sum256 seed))
        (leftAligned (sig.take 32) ++ leftAligned ((sig.drop 32).take 32))
    · simp
    · simp

/-- C33 on the stand-in library, which accepts exactly the bytes it signed: the r field of
the signature starts with zero bytes, so `Verify` refuses what `Generate` returned. -/
theorem VRF_Verify_checks_left_aligned_witness :
    VRFService.Verify demoExact demoCurve demoKey.PublicKey [1]
        (demoExact.Sum256 ([1] ++ [1]))
        (List.replicate 31 0 ++ [1] ++ (List.replicate 31 0 ++ [1]) ++ [0]
          ++ demoExact.Sum256 [1])
      = some (false, some "signature verification failed") := by
  have h := (VRF_Verify_checks_left_aligned demoExact demoCurve demoKey [1]
    (List.replicate 31 0 ++ [1] ++ (List.replicate 31 0 ++ [1]) ++ [0])
    (fun d => by simp [demoExact])
    (fun d b hb => by
      simp only [demoExact, List.mem_append, List.mem_replicate, List.mem_singleton] at hb
      rcases hb with ⟨_, h⟩ | h
      · omega
      · rw [h]; exact Nat.mod_lt _ (by norm_num))
    (by decide) (by decide) (by rfl) (by decide) (by decide)).2.2.2
  exact h.trans (by decide)


/-- C34, counterexample: on the stand-in library `Verify` accepts the proof of 97 zero bytes
for the empty seed, and accepts it again after the recovery byte at offset 64 has been
changed to 27. -/
theorem VRF_Verify_ignores_recovery_byte :
    VRFService.Verify demoExact demoCurve demoKey.PublicKey [] (List.replicate 32 0)
      (List.replicate 97 0) = some (true, none) ∧
    VRFService.Verify demoExact demoCurve demoKey.PublicKey [] (List.replicate 32 0)
      ((List.replicate 97 0).set 64 27) = some (true, none) ∧
    (List.replicate 97 0).set 64 27 ≠ List.replicate 97 0 := by
  decide

/-- C34, amended: for a public key on the curve and a proof of bytes, `Verify` rejects every
proof whose length is not 97; it returns the same result when the recovery byte at offset 64
is replaced by any other byte; and when it accepts (value, proof) for a seed, it fails with
`seed hash mismatch` on the proof with any single byte at an offset from 65 to 96 altered
and on every seed with another SHA-256 digest. -/
theorem VRF_Verify_tamper (lib : EthCrypto) (curve : S256) (publicKey : PublicKey)
    (seed value proof : Bytes)
    (hsumb : ∀ d, ∀ b ∈ lib.Sum256 d, b < 256)
    (hpub : ECDSAService.ValidatePublicKey curve publicKey = none)
    (hbytes : ∀ b ∈ proof, b < 256) :
    (proof.length ≠ 97 →
      VRFService.Verify lib curve publicKey seed value proof
        = some (false, some ("failed to parse proof: " ++
            ("invalid proof length: expected 97, got " ++ toString proof.length)))) ∧
    (∀ v, v < 256 →
      VRFService.Verify lib curve publicKey seed value (proof.set 64 v)
        = VRFService.Verify lib curve publicKey seed value proof) ∧
    (VRFService.Verify lib curve publicKey seed value proof = some (true, none) →
      (∀ i b, 65 ≤ i → i < 97 → b < 256 → b ≠ proof.getD i 0 →
        VRFService.Verify lib curve publicKey seed value (proof.set i b)
          = some (false, some "seed hash mismatch")) ∧
      (∀ seed1, lib.Sum256 seed1 ≠ lib.Sum256 seed →
        VRFService.Verify lib curve publicKey seed1 value proof
          = some (false, some "seed hash mismatch"))) := by
  have hsetb : ∀ i b, b < 256 → ∀ x ∈ proof.set i b, x < 256 := by
    intro i b hb x hx
    rcases List.mem_or_eq_of_mem_set hx with h | h
    · exact hbytes x h
    · rw [h]; exact hb
  refine ⟨?_, ?_, ?_⟩
  · intro hlen
    simp [VRFService.Verify, hpub, VRFService.parseProof, hlen]
  · intro v hv
    by_cases hlen : proof.length = 97
    · have hlen1 : (proof.set 64 v).length = 97 := by rw [List.length_set]; exact hlen
      have h1 : (proof.set 64 v).drop 65 = proof.drop 65 := by
        rw [List.drop_set_of_lt _ _ (by omega)]
      have h2 : (proof.set 64 v).take 32 = proof.take 32 :=
        List.take_set_of_lt v proof (by omega)
      have h3 : ((proof.set 64 v).drop 32).take 32 = (proof.drop 32).take 32 := by
        rw [List.drop_set]
        simp only [show ¬ 64 < 32 by omega, if_false]
        refine List.ext_getElem? fun i => ?_
        rw [List.getElem?_take, List.getElem?_take]
        split
        · rw [List.getElem?_set_ne (by omega)]
        · rfl
      rw [VRF_Verify_eq lib curve publicKey seed value _ hpub hlen1 (hsetb 64 v hv),
        VRF_Verify_eq lib curve publicKey seed value _ hpub hlen hbytes, h1, h2, h3]
    · have hlen1 : (proof.set 64 v).length ≠ 97 := by rw [List.length_set]; exact hlen
      simp [VRFService.Verify, hpub, VRFService.parseProof, hlen, hlen1]
  · intro hacc
    have hlen : proof.length = 97 := by
      by_contra hlen
      simp [VRFService.Verify, hpub, VRFService.parseProof, hlen] at hacc
    have heq := VRF_Verify_eq lib curve publicKey seed value proof hpub hlen hbytes
    rw [hacc] at heq
    have hseed : hexEncodeToString (proof.drop 65) = hexEncodeToString (lib.Sum256 seed) := by
      by_contra hne
      rw [if_pos hne] at heq
      cases heq
    have hdrop : proof.drop 65 = lib.Sum256 seed :=
      hexEncodeToString_inj _ _ (fun x hx => hbytes x (List.mem_of_mem_drop hx)) (hsumb seed)
        hseed
    constructor
    · intro i b hi1 hi2 hb hne
      have hlen1 : (proof.set i b).length = 97 := by rw [List.length_set]; exact hlen
      rw [VRF_Verify_eq lib curve publicKey seed value _ hpub hlen1 (hsetb i b hb)]
      have hdiff : hexEncodeToString ((proof.set i b).drop 65)
          ≠ hexEncodeToString (lib.Sum256 seed) := by
        intro h
        have h1 := hexEncodeToString_inj _ _
          (fun x hx => hsetb i b hb x (List.mem_of_mem_drop hx)) (hsumb seed) h
        rw [← hdrop] at h1
        have h2 : ((proof.set i b).drop 65).getD (i - 65) 0 = (proof.drop 65).getD (i - 65) 0 := by
          rw [h1]
        rw [List.getD_eq_getElem?_getD, List.getD_eq_getElem?_getD, List.getElem?_drop,
          List.getElem?_drop] at h2
        have hidx : 65 + (i - 65) = i := by omega
        rw [hidx, List.getElem?_set_self (by omega)] at h2
        apply hne
        rw [List.getD_eq_getElem?_getD]
        exact h2
      rw [if_pos hdiff]
    · intro seed1 hne
      rw [VRF_Verify_eq lib curve publicKey seed1 value proof hpub hlen hbytes]
      have hdiff : hexEncodeToString (proof.drop 65) ≠ hexEncodeToString (lib.Sum256 seed1) := by
        intro h
        have h1 := hexEncodeToString_inj _ _
          (fun x hx => hbytes x (List.mem_of_mem_drop hx)) (hsumb seed1) h
        exact hne (h1.symm.trans hdrop)
      rw [if_pos hdiff]

/-- C34, amended, on the stand-in library and the proof of 97 zero bytes for the empty seed:
with the last byte of the seed hash altered, and for the seed 1, the proof is refused. -/
theorem VRF_Verify_tamper_witness :
    VRFService.Verify demoExact demoCurve demoKey.PublicKey [] (List.replicate 32 0)
      ((List.replicate 97 0).set 96 1) = some (false, some "seed hash mismatch") ∧
    VRFService.Verify demoExact demoCurve demoKey.PublicKey [1] (List.replicate 32 0)
      (List.replicate 97 0) = some (false, some "seed hash mismatch") := by
  have h := (VRF_Verify_tamper demoExact demoCurve demoKey.PublicKey [] (List.replicate 32 0)
    (List.replicate 97 0)
    (fun d b hb => by
      simp only [demoExact, List.mem_append, List.mem_replicate, List.mem_singleton] at hb
      rcases hb with ⟨_, h⟩ | h
      · omega
      · rw [h]; exact Nat.mod_lt _ (by norm_num))
    (by decide) (by decide)).2.2 (by decide)
  exact ⟨h.1 96 1 (by decide) (by decide) (by decide) (by decide), h.2 [1] (by decide)⟩


/-! ## C39: the signing serialization -/

theorem digitChar_isDigit (k : Nat) (h : k < 10) :
    (Nat.digitChar k).isDigit = true ∧ (Nat.digitChar k).toNat - 48 = k := by
  interval_cases k <;> decide

theorem toDigitsCore_mem (fuel : Nat) : ∀ (n : Nat) (ds : List Char) (c : Char),
    c ∈ Nat.toDigitsCore 10 fuel n ds → c.isDigit = true ∨ c ∈ ds := by
  induction fuel with
  | zero => intro n ds c h; exact Or.inr h
  | succ f ih =>
    intro n ds c h
    simp only [Nat.toDigitsCore] at h
    split at h
    · rcases List.mem_cons.1 h with h | h
      · left; rw [h]; exact (digitChar_isDigit _ (Nat.mod_lt _ (by norm_num))).1
      · exact Or.inr h
    · rcases ih _ _ _ h with h | h
      · exact Or.inl h
      · rcases List.mem_cons.1 h with h | h
        · left; rw [h]; exact (digitChar_isDigit _ (Nat.mod_lt _ (by norm_num))).1
        · exact Or.inr h

theorem toDigitsCore_read (fuel : Nat) : ∀ (n : Nat) (ds : List Char), n < fuel →
    List.foldl readStep 0 (Nat.toDigitsCore 10 fuel n ds) = List.foldl readStep n ds := by
  induction fuel with
  | zero => intro n ds h; omega
  | succ f ih =>
    intro n ds h
    simp only [Nat.toDigitsCore]
    have hd := (digitChar_isDigit (n % 10) (Nat.mod_lt _ (by norm_num))).2
    split
    · next h0 =>
      simp only [List.foldl_cons, readStep, hd]
      have : 10 * 0 + n % 10 = n := by omega
      rw [this]
    · next h0 =>
      rw [ih (n / 10) _ (by omega)]
      simp only [List.foldl_cons, readStep, hd]
      have : 10 * (n / 10) + n % 10 = n := by omega
      rw [this]

theorem toDigits_inj (a b : Nat) (h : Nat.toDigits 10 a = Nat.toDigits 10 b) : a = b := by
  have ha := toDigitsCore_read (a + 1) a [] (by omega)
  have hb := toDigitsCore_read (b + 1) b [] (by omega)
  simp only [List.foldl_nil] at ha hb
  unfold Nat.toDigits at h
  rw [← ha, ← hb, h]

theorem toDigits_isDigit (n : Nat) (c : Char) (h : c ∈ Nat.toDigits 10 n) :
    c.isDigit = true := by
  rcases toDigitsCore_mem _ _ _ _ h with h | h
  · exact h
  · cases h

theorem toString_nat_data (n : Nat) : (toString n).data = Nat.toDigits 10 n := rfl

theorem toString_int_data (i : Int) : (toString i).data =
    match i with
    | Int.ofNat m => Nat.toDigits 10 m
    | Int.negSucc m => '-' :: Nat.toDigits 10 (m + 1) := by
  cases i <;> rfl

theorem toString_int_inj (a b : Int) (h : toString a = toString b) : a = b := by
  have h1 := congrArg String.data h
  rw [toString_int_data, toString_int_data] at h1
  cases a with
  | ofNat x =>
    cases b with
    | ofNat y => simp only [] at h1; rw [toDigits_inj x y h1]
    | negSucc y =>
      simp only [] at h1
      have := toDigits_isDigit x '-' (by rw [h1]; exact List.mem_cons_self _ _)
      exact absurd this (by decide)
  | negSucc x =>
    cases b with
    | ofNat y =>
      simp only [] at h1
      have := toDigits_isDigit y '-' (by rw [← h1]; exact List.mem_cons_self _ _)
      exact absurd this (by decide)
    | negSucc y =>
      simp only [List.cons.injEq, true_and] at h1
      have := toDigits_inj _ _ h1
      have : x = y := by omega
      rw [this]

theorem toString_int_no_underscore (i : Int) : '_' ∉ (toString i).data := by
  intro h
  rw [toString_int_data] at h
  cases i with
  | ofNat x => exact absurd (toDigits_isDigit x _ h) (by decide)
  | negSucc x =>
    simp only [] at h
    rcases List.mem_cons.1 h with h | h
    · exact absurd h (by decide)
    · exact absurd (toDigits_isDigit _ _ h) (by decide)

theorem toString_nat_no_underscore (n : Nat) : '_' ∉ (toString n).data := by
  intro h
  rw [toString_nat_data] at h
  exact absurd (toDigits_isDigit n _ h) (by decide)

theorem toString_nat_inj (a b : Nat) (h : toString a = toString b) : a = b :=
  toDigits_inj a b (by rw [← toString_nat_data, ← toString_nat_data, h])

theorem append_sep_inj {α : Type} (c : α) : ∀ (a b x y : List α), c ∉ a → c ∉ b →
    a ++ c :: x = b ++ c :: y → a = b ∧ x = y := by
  intro a
  induction a with
  | nil =>
    intro b x y _ hb h
    cases b with
    | nil => simp only [List.nil_append, List.cons.injEq, true_and] at h; exact ⟨rfl, h⟩
    | cons b0 bs =>
      simp only [List.nil_append, List.cons_append, List.cons.injEq] at h
      exact absurd (by rw [h.1]; exact List.mem_cons_self _ _) hb
  | cons a0 as ih =>
    intro b x y ha hb h
    cases b with
    | nil =>
      simp only [List.nil_append, List.cons_append, List.cons.injEq] at h
      exact absurd (by rw [← h.1]; exact List.mem_cons_self _ _) ha
    | cons b0 bs =>
      simp only [List.cons_append, List.cons.injEq] at h
      have := ih bs x y (fun hm => ha (List.mem_cons_of_mem _ hm))
        (fun hm => hb (List.mem_cons_of_mem _ hm)) h.2
      exact ⟨by rw [h.1, this.1], this.2⟩

theorem serializeMessageForSigning_data (m : Message) :
    (serializeMessageForSigning m).data = m.ID.data ++ '_' :: (m.ChannelID.data ++ '_' ::
      (m.From.data ++ '_' :: (m.To.data ++ '_' :: ((toString m.Nonce).data ++ '_' ::
        m.Typ.data)))) := by
  simp only [serializeMessageForSigning, String.data_append, List.append_assoc]
  rfl

theorem serializeStateUpdateForSigning_data (u : StateUpdate) :
    (serializeStateUpdateForSigning u).data.reverse =
      (toString (u.Timestamp / 1000000000)).data.reverse ++ '_' ::
        ((toString u.Nonce).data.reverse ++ '_' :: u.ChannelID.data.reverse) := by
  simp only [serializeStateUpdateForSigning, String.data_append, List.reverse_append,
    List.append_assoc]
  rfl

/-- C39, counterexample: two messages that differ in id and channel id, and two state
updates that differ in their timestamp, serialize to the same string. -/
theorem serialize_collisions :
    demoMessageA.ID ≠ demoMessageB.ID ∧ demoMessageA.ChannelID ≠ demoMessageB.ChannelID ∧
    serializeMessageForSigning demoMessageA = serializeMessageForSigning demoMessageB ∧
    serializeMessageForSigning demoMessageA = "a_b_c_0x01_0x02_7_dispute" ∧
    demoUpdateA.Timestamp ≠ demoUpdateB.Timestamp ∧
    serializeStateUpdateForSigning demoUpdateA = serializeStateUpdateForSigning demoUpdateB ∧
    serializeStateUpdateForSigning demoUpdateA = "c_1_5" := by
  decide

/-- C39, amended: two messages whose id, channel id, sender and recipient contain no `_`
serialize to the same string exactly when they agree in id, channel id, sender, recipient,
nonce and type; two state updates serialize to the same string exactly when they agree in
channel id, nonce and the whole second of their timestamp. -/
theorem serialize_injective (m1 m2 : Message) (u1 u2 : StateUpdate)
    (h1 : '_' ∉ m1.ID.data ∧ '_' ∉ m1.ChannelID.data ∧ '_' ∉ m1.From.data ∧ '_' ∉ m1.To.data)
    (h2 : '_' ∉ m2.ID.data ∧ '_' ∉ m2.ChannelID.data ∧ '_' ∉ m2.From.data ∧ '_' ∉ m2.To.data) :
    (serializeMessageForSigning m1 = serializeMessageForSigning m2 ↔
      m1.ID = m2.ID ∧ m1.ChannelID = m2.ChannelID ∧ m1.From = m2.From ∧ m1.To = m2.To ∧
        m1.Nonce = m2.Nonce ∧ m1.Typ = m2.Typ) ∧
    (serializeStateUpdateForSigning u1 = serializeStateUpdateForSigning u2 ↔
      u1.ChannelID = u2.ChannelID ∧ u1.Nonce = u2.Nonce ∧
        u1.Timestamp / 1000000000 = u2.Timestamp / 1000000000) := by
  constructor
  · constructor
    · intro h
      have hd := congrArg String.data h
      rw [serializeMessageForSigning_data, serializeMessageForSigning_data] at hd
      obtain ⟨e1, hd⟩ := append_sep_inj _ _ _ _ _ h1.1 h2.1 hd
      obtain ⟨e2, hd⟩ := append_sep_inj _ _ _ _ _ h1.2.1 h2.2.1 hd
      obtain ⟨e3, hd⟩ := append_sep_inj _ _ _ _ _ h1.2.2.1 h2.2.2.1 hd
      obtain ⟨e4, hd⟩ := append_sep_inj _ _ _ _ _ h1.2.2.2 h2.2.2.2 hd
      obtain ⟨e5, e6⟩ := append_sep_inj _ _ _ _ _ (toString_nat_no_underscore _)
        (toString_nat_no_underscore _) hd
      exact ⟨String.ext e1, String.ext e2, String.ext e3, String.ext e4,
        toString_nat_inj _ _ (String.ext e5), String.ext e6⟩
    · rintro ⟨e1, e2, e3, e4, e5, e6⟩
      simp only [serializeMessageForSigning, e1, e2, e3, e4, e5, e6]
  · constructor
    · intro h
      have hd := congrArg (fun s => s.data.reverse) h
      simp only [] at hd
      rw [serializeStateUpdateForSigning_data, serializeStateUpdateForSigning_data] at hd
      obtain ⟨e1, hd⟩ := append_sep_inj _ _ _ _ _
        (fun hm => toString_int_no_underscore _ (List.mem_reverse.1 hm))
        (fun hm => toString_int_no_underscore _ (List.mem_reverse.1 hm)) hd
      obtain ⟨e2, e3⟩ := append_sep_inj _ _ _ _ _
        (fun hm => toString_nat_no_underscore _ (List.mem_reverse.1 hm))
        (fun hm => toString_nat_no_underscore _ (List.mem_reverse.1 hm)) hd
      exact ⟨String.ext (List.reverse_injective e3),
        toString_nat_inj _ _ (String.ext (List.reverse_injective e2)),
        toString_int_inj _ _ (String.ext (List.reverse_injective e1))⟩
    · rintro ⟨e1, e2, e3⟩
      simp only [serializeStateUpdateForSigning, e1, e2, e3]

/-- C39, amended, on two messages without `_` in the four fields that differ in their
nonce and on two state updates in different seconds: the serializations differ. -/
theorem serialize_injective_witness :
    serializeMessageForSigning { demoMessageB with ChannelID := "c", Nonce := 8 }
      ≠ serializeMessageForSigning { demoMessageB with ChannelID := "c", Nonce := 7 } ∧
    serializeStateUpdateForSigning demoUpdateA
      ≠ serializeStateUpdateForSigning { demoUpdateB with Timestamp := 6000000000 } := by
  have h := serialize_injective { demoMessageB with ChannelID := "c", Nonce := 8 }
    { demoMessageB with ChannelID := "c", Nonce := 7 } demoUpdateA
    { demoUpdateB with Timestamp := 6000000000 } (by decide) (by decide)
  exact ⟨fun e => absurd (h.1.1 e).2.2.2.2.1 (by decide),
    fun e => absurd (h.2.1 e).2.2 (by decide)⟩


/-! ## C38: Merkle proofs -/

theorem collectLeaves_append : ∀ (n : MerkleNode) (acc : List MerkleNode),
    MerkleService.collectLeaves n acc = acc ++ MerkleService.collectLeaves n [] := by
  intro n
  induction n with
  | nil => intro acc; simp [MerkleService.collectLeaves]
  | node h l r leaf d ihl ihr =>
    intro acc
    simp only [MerkleService.collectLeaves]
    split
    · simp
    · rw [ihr (MerkleService.collectLeaves l acc), ihl acc,
        ihr (MerkleService.collectLeaves l []), List.append_assoc]

theorem collectLeaves_inner (h : String) (l r : MerkleNode) (d : String) :
    MerkleService.collectLeaves (MerkleNode.node h l r false d) []
      = MerkleService.collectLeaves l [] ++ MerkleService.collectLeaves r [] := by
  simp only [MerkleService.collectLeaves, Bool.false_eq_true, if_false]
  rw [collectLeaves_append]

theorem Hash_eq_nodeHash (x : MerkleNode) (h : x ≠ .nil) : x.Hash = some (nodeHash x) := by
  cases x with
  | nil => exact absurd rfl h
  | node _ _ _ _ _ => rfl

theorem levelUp_length (hash : String → String) : ∀ hs : List String,
    (levelUp hash hs).length = (hs.length + 1) / 2
  | [] => rfl
  | [_] => by simp [levelUp]
  | _ :: _ :: rest => by
    simp only [levelUp, List.length_cons, levelUp_length hash rest]
    omega

theorem levelUp_padOdd (hash : String → String) : ∀ hs : List String,
    levelUp hash (padOdd hs) = levelUp hash hs
  | [] => rfl
  | [_] => rfl
  | a :: b :: rest => by
    simp only [padOdd, levelUp, levelUp_padOdd hash rest]

theorem padOdd_length {α : Type} : ∀ l : List α,
    l.length ≤ (padOdd l).length ∧ (padOdd l).length ≤ l.length + 1
  | [] => by simp [padOdd]
  | [_] => by simp [padOdd]
  | _ :: _ :: rest => by
    have := padOdd_length rest
    simp only [padOdd, List.length_cons]
    omega

theorem padOdd_map {α β : Type} (f : α → β) : ∀ l : List α,
    (padOdd l).map f = padOdd (l.map f)
  | [] => rfl
  | [_] => rfl
  | a :: b :: rest => by
    simp only [padOdd, List.map_cons, padOdd_map f rest]

theorem padOdd_getD {α : Type} (d : α) : ∀ (l : List α) (i : Nat), i < l.length →
    (padOdd l).getD i d = l.getD i d
  | [], i, h => by simp at h
  | [_], i, h => by
    have : i = 0 := by simpa using h
    subst this
    rfl
  | a :: b :: rest, 0, _ => rfl
  | a :: b :: rest, 1, _ => rfl
  | a :: b :: rest, i + 2, h => by
    simp only [padOdd, List.getD_cons_succ]
    exact padOdd_getD d rest i (by simpa using h)

theorem levelUp_getD (hash : String → String) : ∀ (hs : List String) (i : Nat),
    i < hs.length →
    (levelUp hash hs).getD (i / 2) "" =
      if i % 2 = 0 then
        if i + 1 < hs.length then hash (hs.getD i "" ++ hs.getD (i + 1) "")
        else hash (hs.getD i "" ++ hs.getD i "")
      else hash (hs.getD (i - 1) "" ++ hs.getD i "")
  | [], i, h => by simp at h
  | [_], i, h => by
    have : i = 0 := by simpa using h
    subst this
    rfl
  | a :: b :: rest, 0, _ => by simp [levelUp]
  | a :: b :: rest, 1, _ => by simp [levelUp]
  | a :: b :: rest, i + 2, h => by
    have hi : i < rest.length := by simpa using h
    have ih := levelUp_getD hash rest i hi
    have h2 : (i + 2) / 2 = i / 2 + 1 := by omega
    have h3 : (i + 2) % 2 = i % 2 := by omega
    rw [h2, h3]
    simp only [levelUp, List.getD_cons_succ, List.length_cons]
    rw [ih]
    by_cases hpar : i % 2 = 0
    · simp only [hpar, if_true]
      by_cases hlt : i + 1 < rest.length
      · have hlt2 : i + 2 + 1 < rest.length + 1 + 1 := by omega
        simp only [hlt, hlt2, if_true]
      · have hlt2 : ¬ i + 2 + 1 < rest.length + 1 + 1 := by omega
        simp only [hlt, hlt2, if_false]
    · simp only [hpar, if_false]
      have h4 : i + 2 - 1 = (i - 1) + 2 := by omega
      rw [h4]
      rfl

theorem buildLevel_spec (hash : String → String) : ∀ nodes : List MerkleNode,
    (∀ x ∈ nodes, x ≠ MerkleNode.nil) →
    ∃ next, MerkleService.buildLevel hash nodes = some next ∧
      next.map nodeHash = levelUp hash (nodes.map nodeHash) ∧
      (∀ x ∈ next, ∃ h l r d, x = MerkleNode.node h l r false d)
  | [], _ => ⟨[], rfl, rfl, by simp⟩
  | [a], hn => by
    cases a with
    | nil => exact absurd rfl (hn _ (List.mem_cons_self _ _))
    | node h l r leaf d =>
      refine ⟨_, rfl, rfl, ?_⟩
      intro x hx
      rw [List.mem_singleton] at hx
      exact ⟨_, _, _, _, hx⟩
  | a :: b :: rest, hn => by
    obtain ⟨next, h1, h2, h3⟩ := buildLevel_spec hash rest
      (fun x hx => hn x (List.mem_cons_of_mem _ (List.mem_cons_of_mem _ hx)))
    have ha := Hash_eq_nodeHash a (hn a (List.mem_cons_self _ _))
    have hb := Hash_eq_nodeHash b (hn b (List.mem_cons_of_mem _ (List.mem_cons_self _ _)))
    refine ⟨MerkleNode.node (hash (nodeHash a ++ nodeHash b)) a b false "" :: next, ?_, ?_, ?_⟩
    · simp only [MerkleService.buildLevel, ha, hb, h1]
    · simp only [List.map_cons, levelUp, h2]
      rfl
    · intro x hx
      rcases List.mem_cons.1 hx with hx | hx
      · exact ⟨_, _, _, _, hx⟩
      · exact h3 x hx

theorem buildLevel_inner_leaves (hash : String → String) : ∀ nodes next : List MerkleNode,
    (∀ x ∈ nodes, ∃ h l r d, x = MerkleNode.node h l r false d) →
    MerkleService.buildLevel hash nodes = some next →
    leavesOfLevel next = leavesOfLevel nodes
  | [], next, _, h => by
    simp only [MerkleService.buildLevel, Option.some.injEq] at h
    rw [← h]
  | [a], next, hn, h => by
    obtain ⟨h0, l, r, d, ha⟩ := hn a (List.mem_cons_self _ _)
    subst ha
    simp only [MerkleService.buildLevel, Option.some.injEq] at h
    rw [← h]
    simp [leavesOfLevel, MerkleService.collectLeaves]
  | a :: b :: rest, next, hn, h => by
    obtain ⟨h0, l, r, d, ha⟩ := hn a (List.mem_cons_self _ _)
    obtain ⟨h1, l1, r1, d1, hb⟩ := hn b (List.mem_cons_of_mem _ (List.mem_cons_self _ _))
    subst ha
    subst hb
    simp only [MerkleService.buildLevel, MerkleNode.Hash] at h
    cases hr : MerkleService.buildLevel hash rest with
    | none => rw [hr] at h; cases h
    | some tail =>
      rw [hr] at h
      simp only [Option.some.injEq] at h
      have ih := buildLevel_inner_leaves hash rest tail
        (fun x hx => hn x (List.mem_cons_of_mem _ (List.mem_cons_of_mem _ hx))) hr
      rw [← h]
      simp only [leavesOfLevel, ih, collectLeaves_inner, List.append_assoc]

theorem buildLevel_leaf_leaves (hash : String → String) : ∀ nodes next : List MerkleNode,
    (∀ x ∈ nodes, ∃ h d, x = MerkleNode.node h .nil .nil true d) →
    MerkleService.buildLevel hash nodes = some next →
    leavesOfLevel next = padOdd nodes
  | [], next, _, h => by
    simp only [MerkleService.buildLevel, Option.some.injEq] at h
    rw [← h]
    rfl
  | [a], next, hn, h => by
    obtain ⟨h0, d, ha⟩ := hn a (List.mem_cons_self _ _)
    subst ha
    simp only [MerkleService.buildLevel, Option.some.injEq] at h
    rw [← h]
    simp [leavesOfLevel, MerkleService.collectLeaves, padOdd]
  | a :: b :: rest, next, hn, h => by
    obtain ⟨h0, d, ha⟩ := hn a (List.mem_cons_self _ _)
    obtain ⟨h1, d1, hb⟩ := hn b (List.mem_cons_of_mem _ (List.mem_cons_self _ _))
    subst ha
    subst hb
    simp only [MerkleService.buildLevel, MerkleNode.Hash] at h
    cases hr : MerkleService.buildLevel hash rest with
    | none => rw [hr] at h; cases h
    | some tail =>
      rw [hr] at h
      simp only [Option.some.injEq] at h
      have ih := buildLevel_leaf_leaves hash rest tail
        (fun x hx => hn x (List.mem_cons_of_mem _ (List.mem_cons_of_mem _ hx))) hr
      rw [← h]
      simp [leavesOfLevel, ih, MerkleService.collectLeaves, padOdd]

theorem IsTop_of_length_gt (hash : String → String) (hs : List String) (t : String)
    (h : IsTop hash hs t) (hlen : hs.length ≠ 1) : IsTop hash (levelUp hash hs) t := by
  cases h with
  | single _ => exact absurd rfl hlen
  | step _ _ _ h2 => exact h2

theorem IsTop_single (hash : String → String) (a t : String) (h : IsTop hash [a] t) :
    t = a := by
  cases h with
  | single _ => rfl
  | step _ _ h1 _ => exact absurd rfl h1

theorem buildTreeRecursive_spec (hash : String → String) : ∀ (fuel : Nat)
    (nodes : List MerkleNode),
    (∀ x ∈ nodes, ∃ h l r d, x = MerkleNode.node h l r false d) →
    1 ≤ nodes.length → nodes.length ≤ fuel →
    ∃ root, MerkleService.buildTreeRecursive hash fuel nodes = some root ∧
      root ≠ MerkleNode.nil ∧ IsTop hash (nodes.map nodeHash) (nodeHash root) ∧
      MerkleService.collectLeaves root [] = leavesOfLevel nodes := by
  intro fuel
  induction fuel with
  | zero => intro nodes _ h1 h2; omega
  | succ f ih =>
    intro nodes hn h1 h2
    by_cases hlen : nodes.length = 1
    · obtain ⟨a, ha⟩ := List.length_eq_one.1 hlen
      subst ha
      obtain ⟨h0, l, r, d, ha⟩ := hn a (List.mem_cons_self _ _)
      subst ha
      refine ⟨MerkleNode.node h0 l r false d, by simp [MerkleService.buildTreeRecursive],
        by simp, ?_, ?_⟩
      · exact IsTop.single _
      · simp [leavesOfLevel]
    · have hnn : ∀ x ∈ nodes, x ≠ MerkleNode.nil := by
        intro x hx
        obtain ⟨h0, l, r, d, hx⟩ := hn x hx
        rw [hx]
        simp
      obtain ⟨next, hb1, hb2, hb3⟩ := buildLevel_spec hash nodes hnn
      have hnl : next.length = (nodes.length + 1) / 2 := by
        have := congrArg List.length hb2
        rw [List.length_map, levelUp_length, List.length_map] at this
        exact this
      obtain ⟨root, hr1, hr2, hr3, hr4⟩ := ih next hb3 (by omega) (by omega)
      refine ⟨root, ?_, hr2, ?_, ?_⟩
      · simp only [MerkleService.buildTreeRecursive, hlen, if_false, hb1, Option.bind]
        exact hr1
      · refine IsTop.step _ _ (by rw [List.length_map]; exact hlen) ?_
        rw [← hb2]
        exact hr3
      · rw [hr4]
        exact buildLevel_inner_leaves hash nodes next hn hb1

theorem parentLoop_spec (hash : String → String) : ∀ level : List MerkleNode,
    (∀ x ∈ level, x ≠ MerkleNode.nil) →
    ∃ parent, MerkleService.parentLoop hash level = some parent ∧
      parent.map nodeHash = levelUp hash (level.map nodeHash) ∧
      (∀ x ∈ parent, x ≠ MerkleNode.nil)
  | [], _ => ⟨[], rfl, rfl, by simp⟩
  | [a], hn => by
    have ha := Hash_eq_nodeHash a (hn a (List.mem_cons_self _ _))
    refine ⟨[MerkleNode.node (hash (nodeHash a ++ nodeHash a)) a a false ""], ?_, rfl, ?_⟩
    · simp only [MerkleService.parentLoop, ha]
    · simp
  | a :: b :: rest, hn => by
    obtain ⟨parent, h1, h2, h3⟩ := parentLoop_spec hash rest
      (fun x hx => hn x (List.mem_cons_of_mem _ (List.mem_cons_of_mem _ hx)))
    have ha := Hash_eq_nodeHash a (hn a (List.mem_cons_self _ _))
    have hb := Hash_eq_nodeHash b (hn b (List.mem_cons_of_mem _ (List.mem_cons_self _ _)))
    refine ⟨MerkleNode.node (hash (nodeHash a ++ nodeHash b)) a b false "" :: parent, ?_, ?_, ?_⟩
    · simp only [MerkleService.parentLoop, ha, hb, h1]
    · simp only [List.map_cons, levelUp, h2]
      rfl
    · intro x hx
      rcases List.mem_cons.1 hx with hx | hx
      · rw [hx]; simp
      · exact h3 x hx

theorem get_Hash (level : List MerkleNode) (hn : ∀ x ∈ level, x ≠ MerkleNode.nil) (j : Nat)
    (hj : j < level.length) :
    (level.get? j).bind MerkleNode.Hash = some ((level.map nodeHash).getD j "") := by
  rw [List.get?_eq_get hj]
  simp only [Option.bind]
  rw [Hash_eq_nodeHash _ (hn _ (List.get_mem _ _ _))]
  rw [List.getD_eq_getElem?_getD, List.getElem?_map, List.getElem?_eq_getElem hj]
  rfl

theorem sibling_spec (hash : String → String) (level : List MerkleNode)
    (hn : ∀ x ∈ level, x ≠ MerkleNode.nil) (i : Nat) (hi : i < level.length) (cur : String)
    (hcur : cur = (level.map nodeHash).getD i "") :
    ∃ s b, MerkleService.sibling i level = some (s, b) ∧
      (if b then hash (cur ++ s) else hash (s ++ cur))
        = (levelUp hash (level.map nodeHash)).getD (i / 2) "" := by
  have hup := levelUp_getD hash (level.map nodeHash) i (by rw [List.length_map]; exact hi)
  rw [List.length_map] at hup
  by_cases hpar : i % 2 = 0
  · by_cases hlt : i + 1 < level.length
    · refine ⟨(level.map nodeHash).getD (i + 1) "", true, ?_, ?_⟩
      · simp only [MerkleService.sibling, hpar, if_true, hlt, get_Hash level hn (i + 1) hlt]
        rfl
      · rw [hup]
        simp only [hpar, hlt, if_true, hcur]
    · refine ⟨(level.map nodeHash).getD i "", true, ?_, ?_⟩
      · simp only [MerkleService.sibling, hpar, if_true, hlt, if_false, get_Hash level hn i hi]
        rfl
      · rw [hup]
        simp only [hpar, hlt, if_true, if_false, hcur]
  · refine ⟨(level.map nodeHash).getD (i - 1) "", false, ?_, ?_⟩
    · simp only [MerkleService.sibling, hpar, if_false,
        get_Hash level hn (i - 1) (by omega)]
      rfl
    · rw [hup]
      simp only [hpar, if_false, hcur, Bool.false_eq_true]

theorem proofLoop_spec (hash : String → String) : ∀ (fuel : Nat) (level : List MerkleNode)
    (i : Nat) (accP : List String) (accD : List Bool),
    (∀ x ∈ level, x ≠ MerkleNode.nil) → i < level.length → level.length ≤ fuel →
    ∃ p d, MerkleService.proofLoop hash fuel i level accP accD = some (accP ++ p, accD ++ d) ∧
      p.length = d.length ∧
      ∀ t, IsTop hash (level.map nodeHash) t →
        MerkleService.verifyLoop hash ((level.map nodeHash).getD i "") p d = t := by
  intro fuel
  induction fuel with
  | zero => intro level i _ _ _ h1 h2; omega
  | succ f ih =>
    intro level i accP accD hn hi hfuel
    by_cases hlen : level.length > 1
    · obtain ⟨s, b, hs1, hs2⟩ := sibling_spec hash level hn i hi _ rfl
      obtain ⟨parent, hp1, hp2, hp3⟩ := parentLoop_spec hash level hn
      have hpl : parent.length = (level.length + 1) / 2 := by
        have := congrArg List.length hp2
        rw [List.length_map, levelUp_length, List.length_map] at this
        exact this
      obtain ⟨p, d, h1, h2, h3⟩ := ih parent (i / 2) (accP ++ [s]) (accD ++ [b]) hp3
        (by omega) (by omega)
      refine ⟨s :: p, b :: d, ?_, by simp [h2], ?_⟩
      · have hg : MerkleService.getParentLevel hash level = some parent := by
          simp only [MerkleService.getParentLevel, show ¬ level.length ≤ 1 by omega, if_false]
          exact hp1
        simp only [MerkleService.proofLoop, hlen, if_true, hs1, hg]
        rw [h1]
        simp
      · intro t ht
        have ht2 := IsTop_of_length_gt hash _ t ht (by rw [List.length_map]; omega)
        rw [← hp2] at ht2
        simp only [MerkleService.verifyLoop]
        rw [hs2, ← hp2]
        exact h3 t ht2
    · obtain ⟨a, ha⟩ := List.length_eq_one.1 (show level.length = 1 by omega)
      subst ha
      refine ⟨[], [], ?_, rfl, ?_⟩
      · simp [MerkleService.proofLoop]
      · intro t ht
        have hi0 : i = 0 := by simpa using hi
        subst hi0
        have := IsTop_single hash _ t ht
        simp [MerkleService.verifyLoop, this]

theorem mem_padOdd {α : Type} : ∀ (l : List α) (x : α), x ∈ padOdd l → x ∈ l
  | [], x, h => by simp [padOdd] at h
  | [a], x, h => by
    simp only [padOdd, List.mem_cons, List.mem_singleton, List.not_mem_nil, or_false,
      or_self] at h
    rw [h]
    exact List.mem_cons_self _ _
  | a :: b :: rest, x, h => by
    simp only [padOdd, List.mem_cons] at h
    rcases h with h | h | h
    · rw [h]; exact List.mem_cons_self _ _
    · rw [h]; exact List.mem_cons_of_mem _ (List.mem_cons_self _ _)
    · exact List.mem_cons_of_mem _ (List.mem_cons_of_mem _ (mem_padOdd rest x h))

theorem buildTree_level (hash : String → String) (fuel : Nat) (data : List String) (i : Nat)
    (hi : i < data.length) (hfuel : data.length < fuel) :
    ∃ root, MerkleService.buildTreeRecursive hash fuel
        (data.map fun item => MerkleNode.node (hash item) .nil .nil true item) = some root ∧
      root ≠ MerkleNode.nil ∧
      (∀ x ∈ MerkleService.collectLeaves root [], x ≠ MerkleNode.nil) ∧
      i < (MerkleService.collectLeaves root []).length ∧
      (MerkleService.collectLeaves root []).length ≤ fuel ∧
      ((MerkleService.collectLeaves root []).map nodeHash).getD i "" = hash (data.getD i "") ∧
      IsTop hash ((MerkleService.collectLeaves root []).map nodeHash) (nodeHash root) := by
  obtain ⟨f, hf⟩ : ∃ f, fuel = f + 1 := ⟨fuel - 1, by omega⟩
  subst hf
  have hleaf : ∀ x ∈ data.map (fun item => MerkleNode.node (hash item) .nil .nil true item),
      ∃ h d, x = MerkleNode.node h .nil .nil true d := by
    intro x hx
    obtain ⟨item, _, hx⟩ := List.mem_map.1 hx
    exact ⟨_, _, hx.symm⟩
  have hnn : ∀ x ∈ data.map (fun item => MerkleNode.node (hash item) .nil .nil true item),
      x ≠ MerkleNode.nil := by
    intro x hx
    obtain ⟨h, d, hx⟩ := hleaf x hx
    rw [hx]
    simp
  have hmap : (data.map fun item => MerkleNode.node (hash item) .nil .nil true item).map nodeHash
      = data.map hash := by
    rw [List.map_map]
    rfl
  have hget : (data.map hash).getD i "" = hash (data.getD i "") := by
    rw [List.getD_eq_getElem?_getD, List.getD_eq_getElem?_getD, List.getElem?_map,
      List.getElem?_eq_getElem hi]
    rfl
  by_cases hlen : data.length = 1
  · obtain ⟨a, ha⟩ := List.length_eq_one.1 hlen
    subst ha
    have hi0 : i = 0 := by simpa using hi
    subst hi0
    refine ⟨MerkleNode.node (hash a) .nil .nil true a, ?_, by simp, ?_, ?_, ?_, ?_, ?_⟩
    · simp [MerkleService.buildTreeRecursive]
    · simp [MerkleService.collectLeaves]
    · simp [MerkleService.collectLeaves]
    · simp [MerkleService.collectLeaves]
    · simp [MerkleService.collectLeaves, nodeHash]
    · simp only [MerkleService.collectLeaves, if_true, List.nil_append, List.map_cons,
        List.map_nil, nodeHash]
      exact IsTop.single _
  · obtain ⟨next, hb1, hb2, hb3⟩ := buildLevel_spec hash _ hnn
    have hnl : next.length = (data.length + 1) / 2 := by
      have := congrArg List.length hb2
      rw [List.length_map, levelUp_length, List.length_map, List.length_map] at this
      exact this
    obtain ⟨root, hr1, hr2, hr3, hr4⟩ := buildTreeRecursive_spec hash f next hb3 (by omega)
      (by omega)
    have hlv := buildLevel_leaf_leaves hash _ next hleaf hb1
    rw [hlv] at hr4
    have hpl := padOdd_length
      (data.map fun item => MerkleNode.node (hash item) .nil .nil true item)
    rw [List.length_map] at hpl
    refine ⟨root, ?_, hr2, ?_, ?_, ?_, ?_, ?_⟩
    · simp only [MerkleService.buildTreeRecursive, List.length_map, hlen, if_false, hb1,
        Option.bind]
      exact hr1
    · rw [hr4]
      intro x hx
      exact hnn x (mem_padOdd _ x hx)
    · rw [hr4]; omega
    · rw [hr4]; omega
    · rw [hr4, padOdd_map, hmap, padOdd_getD _ _ _ (by rw [List.length_map]; exact hi), hget]
    · rw [hr4, padOdd_map, hmap]
      refine IsTop.step _ _ ?_ ?_
      · have := padOdd_length (data.map hash)
        rw [List.length_map] at this
        omega
      · rw [levelUp_padOdd, ← hmap, ← hb2]
        exact hr3

/-- C38: for every list of strings `data`, every index `i < len(data)` and every fuel above
`len(data)`, `BuildTree` returns a tree, `GenerateProofByIndex` on it and `i` returns a
proof whose `Root` is the hash of the root of the tree and whose `LeafHash` is the hash of
`data[i]`, and `VerifyProof` accepts that proof. -/
theorem merkle_proofs_complete (hash : String → String) (fuel : Nat) (data : List String)
    (i : Nat) (hi : i < data.length) (hfuel : data.length < fuel) :
    ∃ tree proof, MerkleService.BuildTree hash fuel data = some (.ok tree) ∧
      MerkleService.GenerateProofByIndex hash fuel tree i = some (.ok proof) ∧
      tree.Root.Hash = some proof.Root ∧
      proof.LeafHash = hash (data.getD i "") ∧
      MerkleService.VerifyProof hash proof = true := by
  obtain ⟨root, h1, h2, h3, h4, h5, h6, h7⟩ := buildTree_level hash fuel data i hi hfuel
  obtain ⟨p, d, hp1, hp2, hp3⟩ := proofLoop_spec hash fuel
    (MerkleService.collectLeaves root []) i [] [] h3 h4 h5
  have hv := hp3 _ h7
  rw [h6] at hv
  have hleafget : data.get? i = some (data.getD i "") := by
    rw [List.get?_eq_getElem?, List.getD_eq_getElem?_getD, List.getElem?_eq_getElem hi]
    rfl
  refine ⟨{ Root := root, Leaves := data, Height := MerkleService.calculateHeight root },
    { LeafHash := hash (data.getD i ""), LeafIndex := i, Proof := p, Directions := d,
      Root := nodeHash root }, ?_, ?_, ?_, rfl, ?_⟩
  · have hne : ¬ data.length = 0 := by omega
    simp only [MerkleService.BuildTree, hne, if_false, h1]
  · have hcond : ¬ ((i : Int) < 0 ∨ (i : Int) ≥ (data.length : Int)) := by omega
    simp only [MerkleService.GenerateProofByIndex, hcond, if_false, Int.toNat_ofNat,
      MerkleService.getLeafNodes, hleafget, hp1, Hash_eq_nodeHash root h2, List.nil_append]
  · exact Hash_eq_nodeHash root h2
  · simp only [MerkleService.VerifyProof, hp2, ne_eq, not_true_eq_false, if_false, hv,
      beq_self_eq_true]

/-- C38 on the three strings a, b, c, index 2 and the stand-in hash: the tree is built,
the proof for the last leaf is generated and verifies. The level of an odd length is the
case in which the last leaf is paired with its own copy. -/
theorem merkle_proofs_complete_witness :
    ∃ tree proof, MerkleService.BuildTree demoHash 4 ["a", "b", "c"] = some (.ok tree) ∧
      MerkleService.GenerateProofByIndex demoHash 4 tree 2 = some (.ok proof) ∧
      tree.Root.Hash = some proof.Root ∧
      proof.LeafHash = demoHash "c" ∧
      MerkleService.VerifyProof demoHash proof = true :=
  merkle_proofs_complete demoHash 4 ["a", "b", "c"] 2 (by decide) (by decide)

end StateChannels
